import Mathlib

/-!
The convex-volume grid traversal of illEngine.

A shallow embedding of the two grid-traversal iterators of illEngine,
`FrustumIterator` (src/Util/Geometry/FrustumIterator.h) and
`ConvexMeshIteratorDebug` (src/Util/Geometry/Iterators/ConvexMeshIteratorDebug.h),
together with the helpers of src/Util/Geometry/geomUtil.h they call, and of
`getCharLocation` and `getColorCode` of `BitmapFont`
(src/Graphics/serial/BitmapFont.cpp).

Conventions of the embedding:

* World precision `W` (a float type in the source) is the field of rationals,
  so arithmetic is exact; grid precision `P` (`int`) is `Int`.
* A member function that mutates the iterator is a function from the state to
  `Except Failure` of the new state (and the returned value, when it has one).
  A thrown `std::runtime_error`, a failed `assert`, an index outside a
  container and a division by zero are the `Failure` cases.
* `glm` vectors indexed by a dimension are indexed by `Fin 3`.
* Two-element arrays indexed by a `bool` (`m_pointList[2]`,
  `m_sliceRasterizeEdges[2]`, ...) are `Arr2`.
* The `Debugger` members only record what happened for a visualiser; they are
  never read by the traversal and are left out.
-/

set_option synthInstance.maxSize 4096

namespace Ill

/-! ## Vectors, boxes, small containers -/

structure Vec2 (α : Type) where
  x : α
  y : α
deriving DecidableEq, Repr

structure Vec3 (α : Type) where
  x : α
  y : α
  z : α
deriving DecidableEq, Repr

/-- Component access `v[d]` of a glm 3-vector. -/
def Vec3.get {α : Type} (v : Vec3 α) (d : Fin 3) : α :=
  match d with
  | 0 => v.x
  | 1 => v.y
  | 2 => v.z

/-- Component assignment `v[d] = a` of a glm 3-vector. -/
def Vec3.set {α : Type} (v : Vec3 α) (d : Fin 3) (a : α) : Vec3 α :=
  match d with
  | 0 => { v with x := a }
  | 1 => { v with y := a }
  | 2 => { v with z := a }

/-- Component access `v[d]` of a glm 2-vector (`d` is 0 or 1). -/
def Vec2.get {α : Type} (v : Vec2 α) (d : Fin 2) : α :=
  match d with
  | 0 => v.x
  | 1 => v.y

def Vec2.sub (a b : Vec2 ℚ) : Vec2 ℚ := ⟨a.x - b.x, a.y - b.y⟩

/-- The axis-aligned box of `Box.h` (its two corners). -/
structure Box (α : Type) where
  m_min : Vec3 α
  m_max : Vec3 α
deriving DecidableEq, Repr

/-- A C array of two elements indexed by a `bool`: `false` is index 0. -/
structure Arr2 (α : Type) where
  elem0 : α
  elem1 : α
deriving DecidableEq, Repr

def Arr2.get {α : Type} (p : Arr2 α) (i : Bool) : α :=
  if i then p.elem1 else p.elem0

def Arr2.set {α : Type} (p : Arr2 α) (i : Bool) (a : α) : Arr2 α :=
  if i then { p with elem1 := a } else { p with elem0 := a }

/-- `const bool LEFT_SIDE = true;` -/
def LEFT_SIDE : Bool := true

/-- `const bool RIGHT_SIDE = false;` -/
def RIGHT_SIDE : Bool := false

/-- The ways a call can fail to return normally. -/
inductive Failure where
  /-- `throw std::runtime_error(...)` in `forward` or `getCurrentPosition`. -/
  | runtimeError
  /-- `assert(m_pointList[0].size() + m_pointList[1].size() >= 3)` and
  `assert(sortedPoints.size() >= 3)`. -/
  | assertSlicePoints
  /-- An `assert` that a hull chain has at least two points. -/
  | assertChainSize
  /-- An `assert` that a row or column index lies inside the bounds. -/
  | assertCellInBounds
  /-- An `assert` that the end points of an active edge differ on the slice axis,
  or that the slice plane cuts the edge. -/
  | assertEdgeCrossesSlice
  /-- An `assert(index + 1 < size)` on an active segment index. -/
  | assertSegmentIndex
  /-- An `assert` on the point regions inside `clipHull`. -/
  | assertClipRegion
  /-- An index outside a container (`operator[]` past the end, `at` on a missing key). -/
  | outOfRange
  /-- A floating-point division by zero (the quotient is not a number of the model). -/
  | divisionByZero
  /-- The loop bound of the embedding was exhausted. -/
  | outOfFuel
deriving DecidableEq, Repr

deriving instance DecidableEq for Except

/-- Indexing `v[i]` of a `std::vector` or `StaticList`. -/
def index {α : Type} (l : List α) (i : Nat) : Except Failure α :=
  match l.get? i with
  | some a => .ok a
  | none => .error .outOfRange

/-! ## util.h

`Util/util.h` is not among the source files; its helpers are used by name in
`geomUtil.h` and in both iterators. -/

/-- Modelled from the spec: `eq` of util.h, which is missing. The call sites pass two values and
an optional `delta` that defaults to `0.001` (`eqVec` in geomUtil.h forwards the same default):
the two values are equal within the tolerance. -/
def eq (a b : ℚ) (delta : ℚ := 1 / 1000) : Bool :=
  decide (|a - b| ≤ delta)

/-- Modelled from the spec: `fixPrecision` of util.h, which is missing: the
precision-snapping pass of §4.3, "clamp coordinates within an epsilon of exact
grid/world boundaries". A value within `delta` of `other` becomes `other`. -/
def fixPrecision (value other : ℚ) (delta : ℚ := 1 / 1000) : ℚ :=
  if eq value other delta then other else value

/-- Modelled from the spec: `grid` of util.h, which is missing: the cell index of a
coordinate, cell `i` being the box `[i*dim, (i+1)*dim)` (§3); the same
`floor(worldLocation / cellDimension)` that `FrustumIterator::gridLocation` spells out. -/
def grid (value dimensions : ℚ) : Int :=
  Int.floor (value / dimensions)

/-- Modelled from the spec: `leq` of util.h, which is missing: the sign-aware comparison of
§4.1, `a <= b` for an ascending sweep and `a >= b` for a descending one. -/
def leq {α : Type} [LinearOrder α] (a b : α) (sign : Int) : Bool :=
  if 0 < sign then decide (a ≤ b) else decide (b ≤ a)

/-- Modelled from the spec: `geq` of util.h, which is missing (see `leq`). -/
def geq {α : Type} [LinearOrder α] (a b : α) (sign : Int) : Bool :=
  if 0 < sign then decide (b ≤ a) else decide (a ≤ b)

/-- Modelled from the spec: `lt` of util.h, which is missing (see `leq`). -/
def lt {α : Type} [LinearOrder α] (a b : α) (sign : Int) : Bool :=
  if 0 < sign then decide (a < b) else decide (b < a)

/-- Modelled from the spec: `gt` of util.h, which is missing (see `leq`). -/
def gt {α : Type} [LinearOrder α] (a b : α) (sign : Int) : Bool :=
  if 0 < sign then decide (b < a) else decide (a < b)

/-! ## geomUtil.h -/

/-- `cross` of geomUtil.h: the z component of the cross product of two 2D vectors. -/
def cross (v1 v2 : Vec2 ℚ) : ℚ :=
  v1.x * v2.y - v1.y * v2.x

/-- `lineIntersection` of geomUtil.h: the returned `bool` and `destination` after the
call. The quotient is taken only when its divisor is not zero. -/
def lineIntersection (pt1 pt2 pt3 pt4 destination : Vec2 ℚ) : Bool × Vec2 ℚ :=
  let multiplier := ((pt4.y - pt3.y) * (pt2.x - pt1.x)) - ((pt4.x - pt3.x) * (pt2.y - pt1.y))
  if multiplier = 0 then
    (false, destination)
  else
    let multiplier :=
      (((pt4.x - pt3.x) * (pt1.y - pt3.y)) - ((pt4.y - pt3.y) * (pt1.x - pt3.x))) / multiplier
    (true, ⟨pt1.x + multiplier * (pt2.x - pt1.x), pt1.y + multiplier * (pt2.y - pt1.y)⟩)

/-- `lineInterceptY` of geomUtil.h. -/
def lineInterceptY (pt1 pt2 : Vec2 ℚ) (x : ℚ) : ℚ :=
  pt2.y + ((pt2.y - pt1.y) / (pt2.x - pt1.x)) * (x - pt2.x)

/-- `lineInterceptX` of geomUtil.h. -/
def lineInterceptX (pt1 pt2 : Vec2 ℚ) (y : ℚ) : ℚ :=
  pt2.x + ((pt2.x - pt1.x) / (pt2.y - pt1.y)) * (y - pt2.y)

/-- `lineInterceptXY` of geomUtil.h. -/
def lineInterceptXY (pt1 pt2 : Vec3 ℚ) (z : ℚ) : Vec3 ℚ :=
  let dir : Vec3 ℚ := ⟨pt2.x - pt1.x, pt2.y - pt1.y, pt2.z - pt1.z⟩
  let t := (z - pt1.z) / dir.z
  ⟨pt1.x + dir.x * t, pt1.y + dir.y * t, z⟩

/-- `lineInterceptX` as the iterators call it: the quotient by `pt2.y - pt1.y` is a
floating-point division, which has no value in the model when the divisor is zero. -/
def lineInterceptXChecked (pt1 pt2 : Vec2 ℚ) (y : ℚ) : Except Failure ℚ :=
  if pt2.y - pt1.y = 0 then .error .divisionByZero else .ok (lineInterceptX pt1 pt2 y)

/-- `lineInterceptY` as the iterators call it (see `lineInterceptXChecked`). -/
def lineInterceptYChecked (pt1 pt2 : Vec2 ℚ) (x : ℚ) : Except Failure ℚ :=
  if pt2.x - pt1.x = 0 then .error .divisionByZero else .ok (lineInterceptY pt1 pt2 x)

/-- `sortDimensions` of geomUtil.h. The first `if` of the source sets `res[1]`, `res[2]`,
`maxMagnitude` and `secMagnitude` together. -/
def sortDimensions (vec : Vec3 ℚ) : Vec3 (Fin 3) :=
  let vec : Vec3 ℚ := ⟨|vec.x|, |vec.y|, |vec.z|⟩
  let res0 : Fin 3 := 0
  let res1 : Fin 3 := if vec.z > vec.y then 1 else 2
  let res2 : Fin 3 := if vec.z > vec.y then 2 else 1
  let maxMagnitude := if vec.z > vec.y then vec.z else vec.y
  let secMagnitude := if vec.z > vec.y then vec.y else vec.z
  if vec.x > maxMagnitude then
    ⟨res1, res2, 0⟩
  else if vec.x > secMagnitude then
    ⟨res1, 0, res2⟩
  else
    ⟨res0, res1, res2⟩

/-- `glm::sign` of one component. -/
def sign (a : ℚ) : Int :=
  if 0 < a then 1 else if a < 0 then -1 else 0

/-! ## MeshEdgeList and its unordered maps -/

/-- Modelled from the spec: `MeshEdgeList` of Util/geometry/MeshEdgeList.h, which is missing:
"a fixed small set of points ... and an edge list connecting them (each edge: two point
indices)" (§3). `m_edges` holds `Edge::m_point[0]` and `Edge::m_point[1]`. -/
structure MeshEdgeList where
  m_points : List (Vec3 ℚ)
  m_edges : List (Nat × Nat)
deriving DecidableEq, Repr

/-- Modelled from the spec: `m_pointEdgeMap.equal_range(point)` of the missing `MeshEdgeList`: the
indices of the edges that touch `point`, here in the order of the edge list. -/
def MeshEdgeList.pointEdges (mesh : MeshEdgeList) (point : Nat) : List Nat :=
  (List.range mesh.m_edges.length).filter fun e =>
    match mesh.m_edges.get? e with
    | some edge => edge.1 == point || edge.2 == point
    | none => false

/-- A `std::unordered_map<size_t, V>` as the list of its entries; the order in which
the source enumerates it is whatever the hash table gives, here the order of insertion. -/
abbrev EdgeMap (β : Type) := List (Nat × β)

/-- `map[key] = value`. -/
def EdgeMap.assign {β : Type} (m : EdgeMap β) (key : Nat) (value : β) : EdgeMap β :=
  if m.any (fun p => p.1 == key) then
    m.map (fun p => if p.1 == key then (key, value) else p)
  else
    m ++ [(key, value)]

/-- `map.at(key)`. -/
def EdgeMap.at {β : Type} (m : EdgeMap β) (key : Nat) : Except Failure β :=
  match m.find? (fun p => p.1 == key) with
  | some p => .ok p.2
  | none => .error .outOfRange

/-! ## ConvexMeshIteratorDebug -/

/-- The data members of `ConvexMeshIteratorDebug<W, P>`. In algorithm space the column
axis is `x`, the row axis is `y` and the slice axis is `z`. -/
structure ConvexMeshIteratorDebug where
  m_bounds : Box Int
  m_algorithmBounds : Vec3 Int
  m_currentPosition : Vec3 Int
  m_worldBounds : Box ℚ
  m_algorithmWorldBounds : Vec3 ℚ
  m_cellDimensions : Vec3 ℚ
  m_dimensionOrder : Vec3 (Fin 3)
  m_dimensionOrderInverse : Vec3 (Fin 3)
  m_directionSign : Vec3 Int
  m_isEdgeChecked : List Bool
  m_activeEdges : EdgeMap Int
  m_activeEdgeDestPoint : EdgeMap Nat
  m_meshEdgeList : MeshEdgeList
  m_pointList : Arr2 (List (Vec2 ℚ))
  m_currentPointList : Bool
  m_sliceStart : ℚ
  m_sliceEnd : ℚ
  m_lineBottom : ℚ
  m_lineTop : ℚ
  m_sliceMax : Vec2 Int
  m_sliceRasterizeEdges : Arr2 (List (Vec2 ℚ))
  m_activeSliceEdgeIndex : Arr2 Nat
  m_activeSliceEdges : Arr2 Int
  m_activeSliceEdgeOutward : Arr2 Bool
  m_atEnd : Bool
deriving DecidableEq, Repr

namespace ConvexMeshIteratorDebug

/-- `worldToAlgorithmPoint`. -/
def worldToAlgorithmPoint (s : ConvexMeshIteratorDebug) (worldPoint : Vec3 ℚ) : Vec3 ℚ :=
  let comp (dim : Fin 3) : ℚ :=
    let mappedDimension := s.m_dimensionOrder.get dim
    if s.m_directionSign.get mappedDimension > 0 then
      worldPoint.get mappedDimension - s.m_worldBounds.m_min.get mappedDimension
    else
      s.m_worldBounds.m_max.get mappedDimension - worldPoint.get mappedDimension
  ⟨comp 0, comp 1, comp 2⟩

/-- `algorithmToWorldPoint`. -/
def algorithmToWorldPoint (s : ConvexMeshIteratorDebug) (algorithmPoint : Vec3 ℚ) : Vec3 ℚ :=
  let comp (dim : Fin 3) : ℚ :=
    let mappedDimension := s.m_dimensionOrderInverse.get dim
    if s.m_directionSign.get dim > 0 then
      s.m_worldBounds.m_min.get dim + algorithmPoint.get mappedDimension
    else
      s.m_worldBounds.m_max.get dim - algorithmPoint.get mappedDimension
  ⟨comp 0, comp 1, comp 2⟩

/-- `worldToAlgorithmCell`. -/
def worldToAlgorithmCell (s : ConvexMeshIteratorDebug) (worldCell : Vec3 Int) : Vec3 Int :=
  let comp (dim : Fin 3) : Int :=
    let mappedDimension := s.m_dimensionOrder.get dim
    if s.m_directionSign.get mappedDimension > 0 then
      worldCell.get mappedDimension - s.m_bounds.m_min.get mappedDimension
    else
      s.m_bounds.m_max.get mappedDimension - worldCell.get mappedDimension
  ⟨comp 0, comp 1, comp 2⟩

/-- `algorithmToWorldCell`. -/
def algorithmToWorldCell (s : ConvexMeshIteratorDebug) (algorithmCell : Vec3 Int) : Vec3 Int :=
  let comp (dim : Fin 3) : Int :=
    let mappedDimension := s.m_dimensionOrderInverse.get dim
    if s.m_directionSign.get dim > 0 then
      s.m_bounds.m_min.get dim + algorithmCell.get mappedDimension
    else
      s.m_bounds.m_max.get dim - algorithmCell.get mappedDimension
  ⟨comp 0, comp 1, comp 2⟩

/-- `atEnd`. -/
def atEnd (s : ConvexMeshIteratorDebug) : Bool :=
  s.m_atEnd

/-- `fixRasterPointPrecision`. -/
def fixRasterPointPrecision (s : ConvexMeshIteratorDebug) (point : Vec2 ℚ) : Vec2 ℚ :=
  let x := fixPrecision point.x 0
  let x := fixPrecision x s.m_algorithmWorldBounds.x
  let y := fixPrecision point.y 0
  let y := fixPrecision y s.m_algorithmWorldBounds.y
  ⟨x, y⟩

/-- `addPointRecursive`, on the iterator and the map `activeEdgesDestination` it is
handed by reference. Every recursive call follows the marking of a so far unchecked
edge, so the depth never exceeds the number of edges plus one, which is the `fuel`
`addPoint` passes. -/
def addPointRecursive (fuel : Nat) (point : Nat)
    (acc : ConvexMeshIteratorDebug × EdgeMap Int) :
    Except Failure (ConvexMeshIteratorDebug × EdgeMap Int) :=
  match fuel with
  | 0 => .error .outOfFuel
  | fuel + 1 =>
    (acc.1.m_meshEdgeList.pointEdges point).foldlM (fun acc edgeIndex => do
      let s := acc.1
      let checked ← index s.m_isEdgeChecked edgeIndex
      if checked then
        pure acc
      else do
        let s := { s with m_isEdgeChecked := s.m_isEdgeChecked.set edgeIndex true }
        let edge ← index s.m_meshEdgeList.m_edges edgeIndex
        let otherPoint := if point = edge.1 then edge.2 else edge.1
        let other ← index s.m_meshEdgeList.m_points otherPoint
        let sliceNum := grid other.z s.m_cellDimensions.z
          - grid s.m_sliceStart s.m_cellDimensions.z
        if sliceNum ≤ 0 then
          addPointRecursive fuel otherPoint (s, acc.2)
        else
          pure ({ s with m_activeEdgeDestPoint :=
                    s.m_activeEdgeDestPoint.assign edgeIndex otherPoint },
                acc.2.assign edgeIndex sliceNum)) acc

/-- `addPoint`. -/
def addPoint (point : Nat) (acc : ConvexMeshIteratorDebug × EdgeMap Int) :
    Except Failure (ConvexMeshIteratorDebug × EdgeMap Int) := do
  let s := acc.1
  let p ← index s.m_meshEdgeList.m_points point
  let cur := s.m_pointList.get s.m_currentPointList
  let s := { s with m_pointList :=
    s.m_pointList.set s.m_currentPointList (cur ++ [s.fixRasterPointPrecision ⟨p.x, p.y⟩]) }
  addPointRecursive (s.m_meshEdgeList.m_edges.length + 1) point (s, acc.2)

/-- The inner `while` loop of `convexHull<isLeftSide>`: pop the last chain point while the
turn it makes with `point` is not on the side `sign`. The chain is kept with its last
point first. -/
def convexHullPop (sign : Int) (point : Vec2 ℚ) : List (Vec2 ℚ) → List (Vec2 ℚ)
  | b :: a :: rest =>
    if leq (cross (a.sub point) (b.sub point)) 0 sign then
      convexHullPop sign point (a :: rest)
    else
      b :: a :: rest
  | d => d

/-- One pass of the `for` loop of `convexHull<isLeftSide>` (chain with its last point first). -/
def convexHullPush (isLeftSide : Bool) (point : Vec2 ℚ) (dest : List (Vec2 ℚ)) :
    List (Vec2 ℚ) :=
  match dest with
  | [] => [point]
  | prevPoint :: _ =>
    if eq point.x prevPoint.x && eq point.y prevPoint.y then
      dest
    else
      point :: convexHullPop (if isLeftSide then -1 else 1) point dest

/-- The first trimming loop at the end of `convexHull`, "omit first redundant edge":
erase the first point while the first two have equal `y`. -/
def eraseRedundantFirst : List (Vec2 ℚ) → List (Vec2 ℚ)
  | a :: b :: rest => if eq a.y b.y then eraseRedundantFirst (b :: rest) else a :: b :: rest
  | d => d

/-- The second trimming loop at the end of `convexHull`, "omit last redundant edge", on the
chain with its last point first: pop the last point while the last two have equal `y`. -/
def popRedundantLast : List (Vec2 ℚ) → List (Vec2 ℚ)
  | b :: a :: rest => if eq a.y b.y then popRedundantLast (a :: rest) else b :: a :: rest
  | d => d

/-- `convexHull<isLeftSide>`: the chain it leaves in `m_sliceRasterizeEdges[isLeftSide]`
(which `setupSlice` has cleared before the call). -/
def convexHull (isLeftSide : Bool) (sortedPoints : List (Vec2 ℚ)) : List (Vec2 ℚ) :=
  let reversed := sortedPoints.foldl (fun dest point => convexHullPush isLeftSide point dest) []
  (popRedundantLast (eraseRedundantFirst reversed.reverse).reverse).reverse

/-- `setSliceRowPoint<isLeftSide>`. -/
def setSliceRowPoint (isLeftSide : Bool) (worldX : ℚ) (s : ConvexMeshIteratorDebug) :
    ConvexMeshIteratorDebug :=
  let column := grid worldX s.m_cellDimensions.x
  if isLeftSide then
    { s with m_currentPosition := { s.m_currentPosition with x := column } }
  else
    { s with m_sliceMax := { s.m_sliceMax with x := column } }

/-- The chain `m_sliceRasterizeEdges[isLeftSide]`. -/
def chain (isLeftSide : Bool) (s : ConvexMeshIteratorDebug) : List (Vec2 ℚ) :=
  s.m_sliceRasterizeEdges.get isLeftSide

/-- The row distance `grid(chain[i + 1].y) - grid(chain[i].y)` of the segment that starts
at chain index `i`. -/
def rowNum (isLeftSide : Bool) (i : Nat) (s : ConvexMeshIteratorDebug) : Except Failure Int := do
  let b ← index (s.chain isLeftSide) (i + 1)
  let a ← index (s.chain isLeftSide) i
  pure (grid b.y s.m_cellDimensions.y - grid a.y s.m_cellDimensions.y)

/-- `advanceInwardLine<isLeftSide, false>`. -/
def advanceInwardLineLater (isLeftSide : Bool) (s : ConvexMeshIteratorDebug) :
    Except Failure (Bool × ConvexMeshIteratorDebug) := do
  if s.m_activeSliceEdgeIndex.get isLeftSide + 2 = (s.chain isLeftSide).length then
    pure (false, s)
  else
    let i := s.m_activeSliceEdgeIndex.get isLeftSide + 1
    let s := { s with m_activeSliceEdgeIndex := s.m_activeSliceEdgeIndex.set isLeftSide i }
    let rowNum ← s.rowNum isLeftSide i
    if rowNum > 0 then
      pure (false, { s with m_activeSliceEdges := s.m_activeSliceEdges.set isLeftSide rowNum })
    else
      pure (true, s)

/-- The loop `while(advanceInwardLine<isLeftSide, false>()) {}`. Every pass that asks for
another one has moved the segment index up the chain, so the chain length bounds the
number of passes. -/
def whileAdvanceInwardLine (fuel : Nat) (isLeftSide : Bool) (s : ConvexMeshIteratorDebug) :
    Except Failure ConvexMeshIteratorDebug :=
  match fuel with
  | 0 => .error .outOfFuel
  | fuel + 1 => do
    let (again, s) ← advanceInwardLineLater isLeftSide s
    if again then whileAdvanceInwardLine fuel isLeftSide s else pure s

/-- `advanceInwardLine<isLeftSide, true>`. -/
def advanceInwardLineFirst (isLeftSide : Bool) (s : ConvexMeshIteratorDebug) :
    Except Failure (Bool × ConvexMeshIteratorDebug) := do
  if s.m_activeSliceEdgeIndex.get isLeftSide + 2 = (s.chain isLeftSide).length then
    pure (false, s)
  else
    let rowNum ← s.rowNum isLeftSide (s.m_activeSliceEdgeIndex.get isLeftSide)
    if rowNum > 0 then
      pure (false, { s with m_activeSliceEdges := s.m_activeSliceEdges.set isLeftSide rowNum })
    else
      let s ← whileAdvanceInwardLine ((s.chain isLeftSide).length + 1) isLeftSide s
      pure (false, s)

/-- The loop `while(advanceInwardLine<isLeftSide, true>()) {}` of `setupSliceHelper`; the
call never asks for another pass. -/
def whileAdvanceInwardLineFirst (fuel : Nat) (isLeftSide : Bool) (s : ConvexMeshIteratorDebug) :
    Except Failure ConvexMeshIteratorDebug :=
  match fuel with
  | 0 => .error .outOfFuel
  | fuel + 1 => do
    let (again, s) ← advanceInwardLineFirst isLeftSide s
    if again then whileAdvanceInwardLineFirst fuel isLeftSide s else pure s

/-- `advanceOutwardLine<isLeftSide>`. -/
def advanceOutwardLine (isLeftSide : Bool) (s : ConvexMeshIteratorDebug) :
    Except Failure (Bool × ConvexMeshIteratorDebug) := do
  if s.m_activeSliceEdgeIndex.get isLeftSide + 2 = (s.chain isLeftSide).length then
    let b ← index (s.chain isLeftSide) (s.m_activeSliceEdgeIndex.get isLeftSide + 1)
    pure (false, s.setSliceRowPoint isLeftSide b.x)
  else
    let i := s.m_activeSliceEdgeIndex.get isLeftSide + 1
    let s := { s with m_activeSliceEdgeIndex := s.m_activeSliceEdgeIndex.set isLeftSide i }
    let b ← index (s.chain isLeftSide) (i + 1)
    let a ← index (s.chain isLeftSide) i
    let outward := geq b.x a.x (if isLeftSide then -1 else 1)
    let s := { s with m_activeSliceEdgeOutward := s.m_activeSliceEdgeOutward.set isLeftSide outward }
    let rowNum ← s.rowNum isLeftSide i
    let s := if !outward then s.setSliceRowPoint isLeftSide a.x else s
    if rowNum > 0 then
      let s := { s with m_activeSliceEdges := s.m_activeSliceEdges.set isLeftSide rowNum }
      if outward then
        let xIntercept ← lineInterceptXChecked a b s.m_lineTop
        pure (false, s.setSliceRowPoint isLeftSide xIntercept)
      else
        pure (false, s)
    else
      if !outward then
        let s ← whileAdvanceInwardLine ((s.chain isLeftSide).length + 1) isLeftSide s
        pure (false, s)
      else
        pure (true, s)

/-- The loop `while(advanceOutwardLine<isLeftSide>()) {}`. -/
def whileAdvanceOutwardLine (fuel : Nat) (isLeftSide : Bool) (s : ConvexMeshIteratorDebug) :
    Except Failure ConvexMeshIteratorDebug :=
  match fuel with
  | 0 => .error .outOfFuel
  | fuel + 1 => do
    let (again, s) ← advanceOutwardLine isLeftSide s
    if again then whileAdvanceOutwardLine fuel isLeftSide s else pure s

/-- `preAdvanceOutwardLine<isLeftSide>`. -/
def preAdvanceOutwardLine (isLeftSide : Bool) (s : ConvexMeshIteratorDebug) :
    Except Failure (Bool × ConvexMeshIteratorDebug) := do
  let i := s.m_activeSliceEdgeIndex.get isLeftSide
  let rowNum ← s.rowNum isLeftSide i
  if rowNum > 0 then
    let s := { s with m_activeSliceEdges := s.m_activeSliceEdges.set isLeftSide rowNum }
    let a ← index (s.chain isLeftSide) i
    let b ← index (s.chain isLeftSide) (i + 1)
    let xIntercept ← lineInterceptXChecked a b s.m_lineTop
    pure (false, s.setSliceRowPoint isLeftSide xIntercept)
  else
    pure (true, s)

/-- `setupSliceHelper<isLeftSide>`. -/
def setupSliceHelper (isLeftSide : Bool) (s : ConvexMeshIteratorDebug) :
    Except Failure ConvexMeshIteratorDebug := do
  if !(s.m_activeSliceEdgeIndex.get isLeftSide + 1 < (s.chain isLeftSide).length) then
    .error .assertSegmentIndex
  else
    let p1 ← index (s.chain isLeftSide) 1
    let p0 ← index (s.chain isLeftSide) 0
    let outward := geq p1.x p0.x (if isLeftSide then -1 else 1)
    let s := { s with m_activeSliceEdgeOutward := s.m_activeSliceEdgeOutward.set isLeftSide outward }
    if outward then
      let (again, s) ← preAdvanceOutwardLine isLeftSide s
      if again then
        whileAdvanceOutwardLine ((s.chain isLeftSide).length + 1) isLeftSide s
      else
        pure s
    else
      let s := s.setSliceRowPoint isLeftSide p0.x
      whileAdvanceInwardLineFirst ((s.chain isLeftSide).length + 1) isLeftSide s

/-- The strict order of `PointComparator` in `setupSlice`: by `y`, then by `x`
(its loop runs `dimension = 1`, then `0`, and leaves when the `uint8_t` wraps). -/
def PointComparator (ptA ptB : Vec2 ℚ) : Prop :=
  ptA.y < ptB.y ∨ (¬ ptA.y > ptB.y ∧ ptA.x < ptB.x)

instance : DecidableRel PointComparator := fun a b => by
  unfold PointComparator; infer_instance

/-- First part of `setupSlice`: clear the other point buffer and fill it with the
intersections of the active edges with the far side of the slice. -/
def collectSlicePoints (s : ConvexMeshIteratorDebug) : Except Failure ConvexMeshIteratorDebug :=
  let other := !s.m_currentPointList
  let s : ConvexMeshIteratorDebug := { s with m_pointList := s.m_pointList.set other [] }
  s.m_activeEdges.foldlM (fun (s : ConvexMeshIteratorDebug) activeEdge => do
    let edge ← index s.m_meshEdgeList.m_edges activeEdge.1
    let p0 ← index s.m_meshEdgeList.m_points edge.1
    let p1 ← index s.m_meshEdgeList.m_points edge.2
    if p0.z = p1.z then
      .error .assertEdgeCrossesSlice
    else
      let intersection := lineInterceptXY p0 p1 s.m_sliceEnd
      let point := s.fixRasterPointPrecision ⟨intersection.x, intersection.y⟩
      pure { s with m_pointList := s.m_pointList.set other (s.m_pointList.get other ++ [point]) }) s

/-- Second part of `setupSlice`: sort the slice points and build the two hull chains.
Points that compare equivalent under `PointComparator` are equal, so the `std::sort`
result is the one sorted list. The `uint8_t` counters of the loops that collect the points
are taken not to wrap (fewer than 256 points per list). -/
def buildSliceHull (s : ConvexMeshIteratorDebug) : Except Failure ConvexMeshIteratorDebug :=
  if s.m_pointList.elem0.length + s.m_pointList.elem1.length < 3 then
    .error .assertSlicePoints
  else
    let sortedPoints := (s.m_pointList.elem0 ++ s.m_pointList.elem1).insertionSort PointComparator
    let s : ConvexMeshIteratorDebug := { s with m_sliceRasterizeEdges :=
      ⟨convexHull RIGHT_SIDE sortedPoints, convexHull LEFT_SIDE sortedPoints⟩ }
    if (s.chain LEFT_SIDE).length < 2 then .error .assertChainSize
    else if (s.chain RIGHT_SIDE).length < 2 then .error .assertChainSize
    else .ok s

/-- Third part of `setupSlice`: "setup the initial row", the first and last row of the
slice and the row band. -/
def setupSliceRows (s : ConvexMeshIteratorDebug) : Except Failure ConvexMeshIteratorDebug := do
  let s : ConvexMeshIteratorDebug := { s with m_activeSliceEdgeIndex := ⟨0, 0⟩ }
  let first ← index (s.chain RIGHT_SIDE) 0
  let rowNum := grid first.y s.m_cellDimensions.y
  let lineBottom : ℚ := rowNum * s.m_cellDimensions.y
  let last ← index (s.chain RIGHT_SIDE) ((s.chain RIGHT_SIDE).length - 1)
  let s : ConvexMeshIteratorDebug := { s with
    m_currentPosition := { s.m_currentPosition with y := rowNum }
    m_lineBottom := lineBottom
    m_lineTop := lineBottom + s.m_cellDimensions.y
    m_sliceMax := { s.m_sliceMax with y := grid last.y s.m_cellDimensions.y } }
  if s.m_currentPosition.y < 0 then .error .assertCellInBounds
  else if s.m_algorithmBounds.y < s.m_sliceMax.y then .error .assertCellInBounds
  else .ok s

/-- `setupSlice`. -/
def setupSlice (s : ConvexMeshIteratorDebug) : Except Failure ConvexMeshIteratorDebug := do
  let s ← collectSlicePoints s
  let s ← buildSliceHull s
  let s ← setupSliceRows s
  let s ← setupSliceHelper LEFT_SIDE s
  if s.m_currentPosition.x < 0 then
    .error .assertCellInBounds
  else
    let s ← setupSliceHelper RIGHT_SIDE s
    if s.m_algorithmBounds.x < s.m_sliceMax.x then .error .assertCellInBounds else .ok s

/-- `advanceRowHelper<isLeftSide>`. -/
def advanceRowHelper (isLeftSide : Bool) (s : ConvexMeshIteratorDebug) :
    Except Failure ConvexMeshIteratorDebug := do
  let countdown := s.m_activeSliceEdges.get isLeftSide - 1
  let s : ConvexMeshIteratorDebug :=
    { s with m_activeSliceEdges := s.m_activeSliceEdges.set isLeftSide countdown }
  let i := s.m_activeSliceEdgeIndex.get isLeftSide
  let size := (s.chain isLeftSide).length
  if s.m_activeSliceEdges.get isLeftSide = 0 then
    if s.m_activeSliceEdgeOutward.get isLeftSide then
      if i + 2 = size then
        let s : ConvexMeshIteratorDebug :=
          { s with m_activeSliceEdges := s.m_activeSliceEdges.set isLeftSide 1 }
        let b ← index (s.chain isLeftSide) (i + 1)
        pure (s.setSliceRowPoint isLeftSide b.x)
      else
        whileAdvanceOutwardLine (size + 1) isLeftSide s
    else
      if !(i + 1 < size) then
        .error .assertSegmentIndex
      else
        let a ← index (s.chain isLeftSide) i
        let b ← index (s.chain isLeftSide) (i + 1)
        let xIntercept ← lineInterceptXChecked a b s.m_lineBottom
        let s := s.setSliceRowPoint isLeftSide xIntercept
        if i + 2 = size then
          pure { s with m_activeSliceEdges := s.m_activeSliceEdges.set isLeftSide 1 }
        else
          whileAdvanceInwardLine (size + 1) isLeftSide s
  else
    if !(i + 1 < size) then
      .error .assertSegmentIndex
    else
      let a ← index (s.chain isLeftSide) i
      let b ← index (s.chain isLeftSide) (i + 1)
      let xIntercept ← lineInterceptXChecked a b
        (if s.m_activeSliceEdgeOutward.get isLeftSide then s.m_lineTop else s.m_lineBottom)
      pure (s.setSliceRowPoint isLeftSide xIntercept)

/-- `advanceRow`. -/
def advanceRow (s : ConvexMeshIteratorDebug) : Except Failure ConvexMeshIteratorDebug := do
  let s : ConvexMeshIteratorDebug := { s with
    m_lineBottom := s.m_lineTop
    m_lineTop := s.m_lineTop + s.m_cellDimensions.y
    m_currentPosition := { s.m_currentPosition with y := s.m_currentPosition.y + 1 } }
  let s ← advanceRowHelper RIGHT_SIDE s
  advanceRowHelper LEFT_SIDE s

/-- The countdown loop of `advanceSlice` over `m_activeEdges`, filling `activeEdgesCopy`. -/
def countDownActiveEdges (s : ConvexMeshIteratorDebug) :
    Except Failure (ConvexMeshIteratorDebug × EdgeMap Int) :=
  s.m_activeEdges.foldlM (fun (acc : ConvexMeshIteratorDebug × EdgeMap Int) activeEdge => do
    let edgeIndex := activeEdge.1
    let activeEdgeCountdown := activeEdge.2 - 1
    if activeEdgeCountdown = 0 then
      let destPoint ← acc.1.m_activeEdgeDestPoint.at edgeIndex
      addPoint destPoint acc
    else
      pure (acc.1, acc.2.assign edgeIndex activeEdgeCountdown)) (s, [])

/-- `advanceSlice`. -/
def advanceSlice (s : ConvexMeshIteratorDebug) : Except Failure ConvexMeshIteratorDebug := do
  let s : ConvexMeshIteratorDebug := { s with
    m_currentPosition := { s.m_currentPosition with z := s.m_currentPosition.z + 1 }
    m_sliceStart := s.m_sliceEnd
    m_sliceEnd := s.m_sliceEnd + s.m_cellDimensions.z
    m_currentPointList := !s.m_currentPointList }
  let (s, activeEdgesCopy) ← countDownActiveEdges s
  setupSlice { s with m_activeEdges := activeEdgesCopy }

/-- `forward`: the returned `bool` and the iterator after the call. -/
def forward (s : ConvexMeshIteratorDebug) : Except Failure (Bool × ConvexMeshIteratorDebug) :=
  if s.atEnd then
    .error .runtimeError
  else if s.m_currentPosition.x = s.m_sliceMax.x then
    if s.m_currentPosition.y = s.m_sliceMax.y then
      if s.m_currentPosition.z = s.m_algorithmBounds.z then
        .ok (false, { s with m_atEnd := true })
      else
        (advanceSlice s).map fun s => (true, s)
    else
      (advanceRow s).map fun s => (true, s)
  else
    .ok (true, { s with m_currentPosition :=
      { s.m_currentPosition with x := s.m_currentPosition.x + 1 } })

/-- `getCurrentPosition`: the returned cell and the iterator after the call (the member
function is `const`). -/
def getCurrentPosition (s : ConvexMeshIteratorDebug) :
    Except Failure (Vec3 Int × ConvexMeshIteratorDebug) :=
  if s.atEnd then
    .error .runtimeError
  else
    .ok (s.algorithmToWorldCell s.m_currentPosition, s)

/-- The loop "initialize the inverse dimension mapping" of the constructor for one
`inverseDim`: the last `dim` whose `m_dimensionOrder[dim]` is `inverseDim`, and the value
the member had before when there is none. -/
def inverseDimension (dimensionOrder : Vec3 (Fin 3)) (inverseDim previous : Fin 3) : Fin 3 :=
  let r := if dimensionOrder.get 0 = inverseDim then 0 else previous
  let r := if dimensionOrder.get 1 = inverseDim then 1 else r
  if dimensionOrder.get 2 = inverseDim then 2 else r

/-- The members of the iterator once the constructor has remapped everything into
algorithm space, before it looks for the points of the first slice. `computeBounds` of
the missing `MeshEdgeList` is called "only for debug" and is taken to leave points and
edges as they are. Members the constructor does not initialise are zero. -/
def initial (meshEdgeList : MeshEdgeList) (dimensionOrder : Vec3 (Fin 3))
    (directionSign : Vec3 Int) (bounds : Box Int) (cellDimensions : Vec3 ℚ) :
    ConvexMeshIteratorDebug :=
  let worldMin : Vec3 ℚ := ⟨bounds.m_min.x * cellDimensions.x, bounds.m_min.y * cellDimensions.y,
    bounds.m_min.z * cellDimensions.z⟩
  let worldMax : Vec3 ℚ := ⟨((bounds.m_max.x + 1 : Int) : ℚ) * cellDimensions.x - 1 / 1000,
    ((bounds.m_max.y + 1 : Int) : ℚ) * cellDimensions.y - 1 / 1000,
    ((bounds.m_max.z + 1 : Int) : ℚ) * cellDimensions.z - 1 / 1000⟩
  let algorithmBounds (dim : Fin 3) : Int :=
    bounds.m_max.get (dimensionOrder.get dim) - bounds.m_min.get (dimensionOrder.get dim)
  let algorithmWorldBounds (dim : Fin 3) : ℚ :=
    worldMax.get (dimensionOrder.get dim) - worldMin.get (dimensionOrder.get dim)
  let cell (dim : Fin 3) : ℚ := cellDimensions.get (dimensionOrder.get dim)
  let s : ConvexMeshIteratorDebug := {
    m_bounds := bounds
    m_algorithmBounds := ⟨algorithmBounds 0, algorithmBounds 1, algorithmBounds 2⟩
    m_currentPosition := ⟨0, 0, 0⟩
    m_worldBounds := ⟨worldMin, worldMax⟩
    m_algorithmWorldBounds := ⟨algorithmWorldBounds 0, algorithmWorldBounds 1, algorithmWorldBounds 2⟩
    m_cellDimensions := ⟨cell 0, cell 1, cell 2⟩
    m_dimensionOrder := dimensionOrder
    m_dimensionOrderInverse := ⟨inverseDimension dimensionOrder 0 0,
      inverseDimension dimensionOrder 1 0, inverseDimension dimensionOrder 2 0⟩
    m_directionSign := directionSign
    m_isEdgeChecked := List.replicate meshEdgeList.m_edges.length false
    m_activeEdges := []
    m_activeEdgeDestPoint := []
    m_meshEdgeList := meshEdgeList
    m_pointList := ⟨[], []⟩
    m_currentPointList := false
    m_sliceStart := 0
    m_sliceEnd := cell 2
    m_lineBottom := 0
    m_lineTop := 0
    m_sliceMax := ⟨0, 0⟩
    m_sliceRasterizeEdges := ⟨[], []⟩
    m_activeSliceEdgeIndex := ⟨0, 0⟩
    m_activeSliceEdges := ⟨0, 0⟩
    m_activeSliceEdgeOutward := ⟨false, false⟩
    m_atEnd := false }
  { s with m_meshEdgeList :=
      { meshEdgeList with m_points := meshEdgeList.m_points.map s.worldToAlgorithmPoint } }

/-- One pass of the loop "remap meshEdgeList into algorithm space" of the constructor:
`m_points[point] = worldToAlgorithmPoint(m_points[point])`. -/
def remapPoint (s : ConvexMeshIteratorDebug) (points : List (Vec3 ℚ)) (point : Nat) :
    List (Vec3 ℚ) :=
  match points.get? point with
  | some p => points.set point (s.worldToAlgorithmPoint p)
  | none => points

/-- The loop "remap meshEdgeList into algorithm space" of the constructor, which runs
while `m_meshEdgeList` still points to the list of the caller: it overwrites the points of
that list one by one. -/
def remapPointsInPlace (s : ConvexMeshIteratorDebug) (points : List (Vec3 ℚ)) : List (Vec3 ℚ) :=
  (List.range points.length).foldl (remapPoint s) points

/-- The mesh edge list of the caller, `*meshEdgeList`, as the constructor leaves it. The
constructor writes to it in the remapping loop only; afterwards `m_meshEdgeList` points to
the copy held by the debugger. -/
def callerMeshEdgeList (meshEdgeList : MeshEdgeList) (dimensionOrder : Vec3 (Fin 3))
    (directionSign : Vec3 Int) (bounds : Box Int) (cellDimensions : Vec3 ℚ) : MeshEdgeList :=
  let s := initial meshEdgeList dimensionOrder directionSign bounds cellDimensions
  { meshEdgeList with m_points := remapPointsInPlace s meshEdgeList.m_points }

/-- The loop "find points within first slice" of the constructor. -/
def addFirstSlicePoints (s : ConvexMeshIteratorDebug) :
    Except Failure ConvexMeshIteratorDebug := do
  let (s, activeEdges) ←
    (List.range s.m_meshEdgeList.m_points.length).foldlM
      (fun (acc : ConvexMeshIteratorDebug × EdgeMap Int) point => do
        let p ← index acc.1.m_meshEdgeList.m_points point
        if p.z < acc.1.m_sliceEnd then addPoint point acc else pure acc)
      (s, s.m_activeEdges)
  pure { s with m_activeEdges := activeEdges }

/-- The constructor `ConvexMeshIteratorDebug(meshEdgeList, dimensionOrder, directionSign,
bounds, cellDimensions)`. -/
def construct (meshEdgeList : MeshEdgeList) (dimensionOrder : Vec3 (Fin 3))
    (directionSign : Vec3 Int) (bounds : Box Int) (cellDimensions : Vec3 ℚ) :
    Except Failure ConvexMeshIteratorDebug := do
  let s ← addFirstSlicePoints (initial meshEdgeList dimensionOrder directionSign bounds cellDimensions)
  setupSlice s

/-- The default constructor `ConvexMeshIteratorDebug()`: `m_isEdgeChecked(NULL)`,
`m_atEnd(true)`; the members it leaves uninitialised are zero. -/
def constructDefault : ConvexMeshIteratorDebug :=
  { initial ⟨[], []⟩ ⟨0, 0, 0⟩ ⟨0, 0, 0⟩ ⟨⟨0, 0, 0⟩, ⟨0, 0, 0⟩⟩ ⟨0, 0, 0⟩ with m_atEnd := true }

/-- What the caller's loop over an iterator has produced: the cells reported, in order,
and how the loop ended (`none`: `atEnd()` became true). -/
structure Traversal where
  cells : List (Vec3 Int)
  ending : Option Failure
deriving DecidableEq, Repr

/-- The caller's loop `while(!atEnd()) { cell = getCurrentPosition(); forward(); }`, at
most `fuel` rounds of it. -/
def traverse (fuel : Nat) (s : ConvexMeshIteratorDebug) : Traversal :=
  match fuel with
  | 0 => ⟨[], some .outOfFuel⟩
  | fuel + 1 =>
    if s.atEnd then
      ⟨[], none⟩
    else
      match getCurrentPosition s with
      | .error e => ⟨[], some e⟩
      | .ok (cell, s) =>
        match forward s with
        | .error e => ⟨[cell], some e⟩
        | .ok (_, s) => ⟨cell :: (traverse fuel s).cells, (traverse fuel s).ending⟩

/-! ### The traversal with the enumeration order of the active-edge table made explicit

`m_activeEdges` is a `std::unordered_map`, and the order in which `setupSlice` enumerates
it is not fixed by its contents. Below, `enumerate` gives that order: it maps the table to
the list of its entries as the loop visits them. With `enumerate` the identity these are
the definitions above. -/

/-- One pass of the loop of `setupSlice` that collects the slice points: the intersection
of the active edge with the far side of the slice is appended to the buffer `other`. -/
def collectSlicePoint (other : Bool) (s : ConvexMeshIteratorDebug) (activeEdge : Nat × Int) :
    Except Failure ConvexMeshIteratorDebug := do
  let edge ← index s.m_meshEdgeList.m_edges activeEdge.1
  let p0 ← index s.m_meshEdgeList.m_points edge.1
  let p1 ← index s.m_meshEdgeList.m_points edge.2
  if p0.z = p1.z then
    .error .assertEdgeCrossesSlice
  else
    let intersection := lineInterceptXY p0 p1 s.m_sliceEnd
    let point := s.fixRasterPointPrecision ⟨intersection.x, intersection.y⟩
    pure { s with m_pointList := s.m_pointList.set other (s.m_pointList.get other ++ [point]) }

/-- First part of `setupSlice`, the table enumerated in the order `enumerate` gives. -/
def collectSlicePointsIn (enumerate : EdgeMap Int → EdgeMap Int) (s : ConvexMeshIteratorDebug) :
    Except Failure ConvexMeshIteratorDebug :=
  let other := !s.m_currentPointList
  let s : ConvexMeshIteratorDebug := { s with m_pointList := s.m_pointList.set other [] }
  (enumerate s.m_activeEdges).foldlM (collectSlicePoint other) s

/-- `setupSlice`, the table enumerated in the order `enumerate` gives. -/
def setupSliceIn (enumerate : EdgeMap Int → EdgeMap Int) (s : ConvexMeshIteratorDebug) :
    Except Failure ConvexMeshIteratorDebug := do
  let s ← collectSlicePointsIn enumerate s
  let s ← buildSliceHull s
  let s ← setupSliceRows s
  let s ← setupSliceHelper LEFT_SIDE s
  if s.m_currentPosition.x < 0 then
    .error .assertCellInBounds
  else
    let s ← setupSliceHelper RIGHT_SIDE s
    if s.m_algorithmBounds.x < s.m_sliceMax.x then .error .assertCellInBounds else .ok s

/-- `advanceSlice`, with `setupSliceIn`. -/
def advanceSliceIn (enumerate : EdgeMap Int → EdgeMap Int) (s : ConvexMeshIteratorDebug) :
    Except Failure ConvexMeshIteratorDebug := do
  let s : ConvexMeshIteratorDebug := { s with
    m_currentPosition := { s.m_currentPosition with z := s.m_currentPosition.z + 1 }
    m_sliceStart := s.m_sliceEnd
    m_sliceEnd := s.m_sliceEnd + s.m_cellDimensions.z
    m_currentPointList := !s.m_currentPointList }
  let (s, activeEdgesCopy) ← countDownActiveEdges s
  setupSliceIn enumerate { s with m_activeEdges := activeEdgesCopy }

/-- `forward`, with `advanceSliceIn`. -/
def forwardIn (enumerate : EdgeMap Int → EdgeMap Int) (s : ConvexMeshIteratorDebug) :
    Except Failure (Bool × ConvexMeshIteratorDebug) :=
  if s.atEnd then
    .error .runtimeError
  else if s.m_currentPosition.x = s.m_sliceMax.x then
    if s.m_currentPosition.y = s.m_sliceMax.y then
      if s.m_currentPosition.z = s.m_algorithmBounds.z then
        .ok (false, { s with m_atEnd := true })
      else
        (advanceSliceIn enumerate s).map fun s => (true, s)
    else
      (advanceRow s).map fun s => (true, s)
  else
    .ok (true, { s with m_currentPosition :=
      { s.m_currentPosition with x := s.m_currentPosition.x + 1 } })

/-- The constructor, with `setupSliceIn`. -/
def constructIn (enumerate : EdgeMap Int → EdgeMap Int) (meshEdgeList : MeshEdgeList)
    (dimensionOrder : Vec3 (Fin 3)) (directionSign : Vec3 Int) (bounds : Box Int)
    (cellDimensions : Vec3 ℚ) : Except Failure ConvexMeshIteratorDebug := do
  let s ← addFirstSlicePoints (initial meshEdgeList dimensionOrder directionSign bounds cellDimensions)
  setupSliceIn enumerate s

/-- The caller's loop, with `forwardIn`. -/
def traverseIn (enumerate : EdgeMap Int → EdgeMap Int) (fuel : Nat) (s : ConvexMeshIteratorDebug) :
    Traversal :=
  match fuel with
  | 0 => ⟨[], some .outOfFuel⟩
  | fuel + 1 =>
    if s.atEnd then
      ⟨[], none⟩
    else
      match getCurrentPosition s with
      | .error e => ⟨[], some e⟩
      | .ok (cell, s) =>
        match forwardIn enumerate s with
        | .error e => ⟨[cell], some e⟩
        | .ok (_, s) =>
          ⟨cell :: (traverseIn enumerate fuel s).cells, (traverseIn enumerate fuel s).ending⟩

/-! ### `addPoint` with a count of the recursive calls -/

/-- `addPointRecursive` with a counter of the recursive calls: every call that
`addPointRecursive` makes to itself adds one to the second component. Apart from the
counter it is `addPointRecursive`. -/
def addPointRecursiveCounted (fuel : Nat) (point : Nat)
    (acc : (ConvexMeshIteratorDebug × EdgeMap Int) × Nat) :
    Except Failure ((ConvexMeshIteratorDebug × EdgeMap Int) × Nat) :=
  match fuel with
  | 0 => .error .outOfFuel
  | fuel + 1 =>
    (acc.1.1.m_meshEdgeList.pointEdges point).foldlM (fun acc edgeIndex => do
      let s := acc.1.1
      let checked ← index s.m_isEdgeChecked edgeIndex
      if checked then
        pure acc
      else do
        let s := { s with m_isEdgeChecked := s.m_isEdgeChecked.set edgeIndex true }
        let edge ← index s.m_meshEdgeList.m_edges edgeIndex
        let otherPoint := if point = edge.1 then edge.2 else edge.1
        let other ← index s.m_meshEdgeList.m_points otherPoint
        let sliceNum := grid other.z s.m_cellDimensions.z
          - grid s.m_sliceStart s.m_cellDimensions.z
        if sliceNum ≤ 0 then
          addPointRecursiveCounted fuel otherPoint ((s, acc.1.2), acc.2 + 1)
        else
          pure (({ s with m_activeEdgeDestPoint :=
                    s.m_activeEdgeDestPoint.assign edgeIndex otherPoint },
                acc.1.2.assign edgeIndex sliceNum), acc.2)) acc

/-- `addPoint` with the count of the recursive calls of `addPointRecursive`. -/
def addPointCounted (point : Nat) (acc : ConvexMeshIteratorDebug × EdgeMap Int) :
    Except Failure ((ConvexMeshIteratorDebug × EdgeMap Int) × Nat) := do
  let s := acc.1
  let p ← index s.m_meshEdgeList.m_points point
  let cur := s.m_pointList.get s.m_currentPointList
  let s := { s with m_pointList :=
    s.m_pointList.set s.m_currentPointList (cur ++ [s.fixRasterPointPrecision ⟨p.x, p.y⟩]) }
  addPointRecursiveCounted (s.m_meshEdgeList.m_edges.length + 1) point ((s, acc.2), 0)

/-- The number of edges of the mesh that are not marked in `m_isEdgeChecked`. -/
def uncheckedEdges (s : ConvexMeshIteratorDebug) : Nat :=
  (s.m_isEdgeChecked.take s.m_meshEdgeList.m_edges.length).count false

end ConvexMeshIteratorDebug

/-! ## Frustum, Plane -/

/-- Modelled from the spec: `Frustum` of Geometry/Frustum.h, which is missing: "a fixed small set of
points (≤8 for a frustum) ... and an edge list connecting them (each edge: two point
indices)" with the direction the frustum faces (§3, §6). The global table
`FRUSTUM_EDGE_LIST` of that header is carried along as `edgeList`; `FRUSTUM_NUM_EDGES` is
its length and `FRUSTUM_NUM_POINTS` the number of points. -/
structure Frustum where
  m_points : List (Vec3 ℚ)
  m_direction : Vec3 ℚ
  edgeList : List (Nat × Nat)
deriving DecidableEq, Repr

/-- `FRUSTUM_NUM_EDGES`. -/
def Frustum.numEdges (f : Frustum) : Nat := f.edgeList.length

/-- `FRUSTUM_EDGE_LIST[edge][which]`: the first point of the edge for `false`, the
second for `true`. -/
def Frustum.edgePoint (f : Frustum) (edge : Nat) (which : Bool) : Except Failure Nat := do
  let e ← index f.edgeList edge
  pure (if which then e.2 else e.1)

/-- Modelled from the spec: `Plane` of the missing Geometry/Plane.h: the points `p` with
`m_normal · p + m_distance = 0`, as the constructor of `FrustumIterator` sets it up for the
far side of the slice. -/
structure Plane where
  m_normal : Vec3 ℚ
  m_distance : ℚ
deriving DecidableEq, Repr

def dot (a b : Vec3 ℚ) : ℚ := a.x * b.x + a.y * b.y + a.z * b.z

/-- Modelled from the spec: `Plane::lineIntersection` of the missing Geometry/Plane.h: the point
where the line through `ptA` and `ptB` meets the plane ("intersecting the volume with the
current slice's front/back planes", §3), none when the line is parallel to the plane. -/
def Plane.lineIntersection (plane : Plane) (ptA ptB : Vec3 ℚ) : Option (Vec3 ℚ) :=
  let dir : Vec3 ℚ := ⟨ptB.x - ptA.x, ptB.y - ptA.y, ptB.z - ptA.z⟩
  let denominator := dot plane.m_normal dir
  if denominator = 0 then
    none
  else
    let t := -(dot plane.m_normal ptA + plane.m_distance) / denominator
    some ⟨ptA.x + t * dir.x, ptA.y + t * dir.y, ptA.z + t * dir.z⟩

/-! ## FrustumIterator -/

/-- `const uint8_t SLICE_DIM = 0;` -/
def SLICE_DIM : Fin 3 := 0

/-- `const uint8_t X_DIM = 2;` -/
def X_DIM : Fin 3 := 2

/-- `const uint8_t Y_DIM = 1;` -/
def Y_DIM : Fin 3 := 1

/-- The data members of `FrustumIterator<W, P>`. The fixed-size arrays over the edges are
lists of length `FRUSTUM_NUM_EDGES`; a `StaticList` is the list of its elements. -/
structure FrustumIterator where
  m_range : Box Int
  m_currentPosition : Vec3 Int
  m_spaceRange : Box ℚ
  m_cellDimensions : Vec3 ℚ
  m_dimensionOrder : Vec3 (Fin 3)
  m_directionSign : Vec3 Int
  m_inactiveEdges : List Bool
  m_activeEdges : List Int
  m_activeEdgeDestPoint : List Bool
  m_frustum : Frustum
  m_pointList : Arr2 (List (Vec2 ℚ))
  m_currentPointList : Bool
  m_sliceStart : ℚ
  m_slicePlane : Plane
  m_lineBottom : ℚ
  m_lineTop : ℚ
  m_sliceMax : Vec2 Int
  m_sliceRasterizeEdges : Arr2 (List (Vec2 ℚ))
  m_activeSliceEdgeIndex : Arr2 Nat
  m_activeSliceEdges : Arr2 Int
  m_activeSliceEdgeOutward : Arr2 Bool
deriving DecidableEq, Repr

namespace FrustumIterator

/-- `atEnd`. -/
def atEnd (s : FrustumIterator) : Bool :=
  s.m_currentPosition.get (s.m_dimensionOrder.get X_DIM) == s.m_sliceMax.x
    && s.m_currentPosition.get (s.m_dimensionOrder.get Y_DIM) == s.m_sliceMax.y
    && geq (s.m_currentPosition.get (s.m_dimensionOrder.get SLICE_DIM))
        (s.m_range.m_max.get (s.m_dimensionOrder.get SLICE_DIM)) (s.m_directionSign.get SLICE_DIM)

/-- `getCurrentPosition`: the returned cell and the iterator after the call (the member
function is `const`). -/
def getCurrentPosition (s : FrustumIterator) : Except Failure (Vec3 Int × FrustumIterator) :=
  if s.atEnd then .error .runtimeError else .ok (s.m_currentPosition, s)

/-- `findInactiveEdge`: the edge index found (or `FRUSTUM_NUM_EDGES`), what it wrote to
`otherPointDestination` (kept as it was when nothing is found), and the updated table of
inactive edges. `remaining` counts the edge indices from `startEdgeIndex` on. -/
def findInactiveEdge (frustum : Frustum) (pointIndex : Nat) (remaining startEdgeIndex : Nat)
    (otherPoint : Bool) (inactiveEdges : List Bool) : Nat × Bool × List Bool :=
  match remaining with
  | 0 => (frustum.numEdges, otherPoint, inactiveEdges)
  | remaining + 1 =>
    match inactiveEdges.get? startEdgeIndex, frustum.edgeList.get? startEdgeIndex with
    | some true, some edge =>
      if edge.1 = pointIndex then
        (startEdgeIndex, true, inactiveEdges.set startEdgeIndex false)
      else if edge.2 = pointIndex then
        (startEdgeIndex, false, inactiveEdges.set startEdgeIndex false)
      else
        findInactiveEdge frustum pointIndex remaining (startEdgeIndex + 1) otherPoint inactiveEdges
    | _, _ =>
      findInactiveEdge frustum pointIndex remaining (startEdgeIndex + 1) otherPoint inactiveEdges

/-- `distance<X>`. -/
def distance (s : FrustumIterator) (distance : Int) (dimension : Fin 3) : Int :=
  distance * s.m_directionSign.get dimension

/-- `gridLocation`. -/
def gridLocation (s : FrustumIterator) (worldLocation : ℚ) (dimension : Fin 3) : Int :=
  let res := Int.floor (worldLocation / s.m_cellDimensions.get dimension)
  if s.m_directionSign.get dimension > 0 then
    if worldLocation = s.m_spaceRange.m_max.get dimension then res - 1 else res
  else
    if worldLocation = s.m_spaceRange.m_min.get dimension then res - 1 else res

/-- `gridDistance`. -/
def gridDistance (s : FrustumIterator) (worldLocationA worldLocationB : ℚ) (dimension : Fin 3) :
    Int :=
  s.distance (s.gridLocation worldLocationB dimension - s.gridLocation worldLocationA dimension)
    dimension

/-- The `while` loop of `addPoint`, on the iterator and the array `activeEdgesDestination`
it is handed. Every pass starts the search one edge further on, so `fuel` - the number of
edges plus one - is never used up. -/
def addPointLoop (fuel : Nat) (point inactiveEdgeIndex : Nat) (otherPoint : Bool)
    (acc : FrustumIterator × List Int) : Except Failure (FrustumIterator × List Int) :=
  match fuel with
  | 0 => .error .outOfFuel
  | fuel + 1 =>
    let s := acc.1
    let found := findInactiveEdge s.m_frustum point (s.m_frustum.numEdges - inactiveEdgeIndex)
      inactiveEdgeIndex otherPoint s.m_inactiveEdges
    let inactiveEdgeIndex := found.1
    let otherPoint := found.2.1
    let s : FrustumIterator := { s with m_inactiveEdges := found.2.2 }
    if inactiveEdgeIndex = s.m_frustum.numEdges then
      .ok (s, acc.2)
    else do
      let otherIndex ← s.m_frustum.edgePoint inactiveEdgeIndex otherPoint
      let other ← index s.m_frustum.m_points otherIndex
      let sliceNum := s.gridDistance s.m_sliceStart
        (other.get (s.m_dimensionOrder.get SLICE_DIM)) (s.m_dimensionOrder.get SLICE_DIM)
      if sliceNum ≤ 0 then
        addPointLoop fuel point (inactiveEdgeIndex + 1) otherPoint (s, acc.2)
      else
        let s : FrustumIterator := { s with
          m_activeEdgeDestPoint := s.m_activeEdgeDestPoint.set inactiveEdgeIndex otherPoint }
        addPointLoop fuel point (inactiveEdgeIndex + 1) otherPoint
          (s, acc.2.set inactiveEdgeIndex sliceNum)

/-- `addPoint`. The local `otherPoint` starts uninitialised; it is written before it is
read. -/
def addPoint (point : Nat) (acc : FrustumIterator × List Int) :
    Except Failure (FrustumIterator × List Int) := do
  let s := acc.1
  let p ← index s.m_frustum.m_points point
  let p2 : Vec2 ℚ := ⟨p.get (s.m_dimensionOrder.get X_DIM), p.get (s.m_dimensionOrder.get Y_DIM)⟩
  let cur := s.m_pointList.get s.m_currentPointList
  let s : FrustumIterator :=
    { s with m_pointList := s.m_pointList.set s.m_currentPointList (cur ++ [p2]) }
  addPointLoop (s.m_frustum.numEdges + 1) point 0 false (s, acc.2)

/-- The strict order of `FrustumIterator::PointComparator`: its loop body runs for
`dimension = 1` only. -/
def PointComparator (s : FrustumIterator) (ptA ptB : Vec2 ℚ) : Prop :=
  if s.m_directionSign.get (s.m_dimensionOrder.get 1) > 0 then ptA.y < ptB.y else ptA.y > ptB.y

instance (s : FrustumIterator) : DecidableRel (PointComparator s) := fun a b => by
  unfold PointComparator; infer_instance

/-- The inner `while` loop of `convexHull` (chain with its last point first). -/
def convexHullPop (sign : Int) (point : Vec2 ℚ) : List (Vec2 ℚ) → List (Vec2 ℚ)
  | b :: a :: rest =>
    if leq (cross (a.sub point) (b.sub point)) 0 sign then
      convexHullPop sign point (a :: rest)
    else
      b :: a :: rest
  | d => d

/-- `convexHull`: the chain it leaves in `hullEdges` (empty before the call) for the
points from `iter` to `end`. -/
def convexHull (points : List (Vec2 ℚ)) (sign : Int) : List (Vec2 ℚ) :=
  match points with
  | [] => []
  | [p] => [p]
  | p :: q :: rest =>
    (rest.foldl (fun hullEdges point => point :: convexHullPop sign point hullEdges) [q, p]).reverse

/-- The local `enum PointRegion` of `clipHull`. -/
inductive PointRegion where
  | PR_OUTSIDE_MIN
  | PR_INSIDE
  | PR_OUTSIDE_MAX
  | PR_UNINITIALIZED
deriving DecidableEq, Repr

/-- The nested `if`s of `clipHull` that "find the point's side region". -/
def pointRegion (x : ℚ) (min max : Vec2 ℚ) (xSign : Int) : PointRegion :=
  if geq x min.x xSign then
    if leq x max.x xSign then .PR_INSIDE else .PR_OUTSIDE_MAX
  else
    .PR_OUTSIDE_MIN

/-- The locals of `clipHull` between its two loops: the clipped chain so far, the
previous point and its region, the points from `currentPointIndex` on (in the order the
loops visit them), and whether the function has already returned. -/
structure ClipState where
  chain : List (Vec2 ℚ)
  prevPoint : Vec2 ℚ
  prevPointRegion : PointRegion
  remaining : List (Vec2 ℚ)
  returned : Bool
deriving DecidableEq, Repr

/-- The first loop of `clipHull`, "find the first line segment inside the vertical
region", over the points still to visit. `ySign` is
`m_directionSign[m_dimensionOrder[Y_DIM]]`. The clipped chain is empty when the loop
starts (`setupSlice` clears it), so its `assert(m_size == 0)` before the early returns
holds. -/
def clipHullFirst (ySign xSign : Int) (min max : Vec2 ℚ) (clipped : Bool) (prevPoint : Vec2 ℚ) :
    List (Vec2 ℚ) → Except Failure ClipState
  | [] => .ok ⟨[], prevPoint, .PR_UNINITIALIZED, [], false⟩
  | currentPoint :: rest =>
    if geq currentPoint.y min.y ySign then
      let currentPointRegion := pointRegion currentPoint.x min max xSign
      if clipped then do
        let x ← lineInterceptXChecked prevPoint currentPoint min.y
        let prevPoint : Vec2 ℚ := ⟨x, min.y⟩
        let prevPointRegion := pointRegion prevPoint.x min max xSign
        match prevPointRegion with
        | .PR_OUTSIDE_MAX =>
          pure ⟨[⟨max.x, min.y⟩], prevPoint, prevPointRegion, currentPoint :: rest, false⟩
        | .PR_OUTSIDE_MIN =>
          if currentPointRegion = .PR_OUTSIDE_MIN ∧ rest = [] then
            pure ⟨[], prevPoint, prevPointRegion, currentPoint :: rest, true⟩
          else
            pure ⟨[], prevPoint, prevPointRegion, currentPoint :: rest, false⟩
        | .PR_INSIDE =>
          pure ⟨[prevPoint], prevPoint, prevPointRegion, currentPoint :: rest, false⟩
        | .PR_UNINITIALIZED => .error .assertClipRegion
      else
        if gt currentPoint.y max.y ySign then
          .ok ⟨[], prevPoint, .PR_UNINITIALIZED, currentPoint :: rest, true⟩
        else
          let chain : List (Vec2 ℚ) :=
            if currentPointRegion = .PR_OUTSIDE_MAX then [⟨max.x, currentPoint.y⟩]
            else if currentPointRegion = .PR_INSIDE then [currentPoint]
            else []
          .ok ⟨chain, currentPoint, currentPointRegion, rest, false⟩
    else
      clipHullFirst ySign xSign min max true currentPoint rest

/-- The second loop of `clipHull`, "now do the clipping", over the points still to
visit; the result is the clipped chain. -/
def clipHullSecond (ySign xSign : Int) (min max : Vec2 ℚ) (chain : List (Vec2 ℚ))
    (prevPoint : Vec2 ℚ) (prevPointRegion : PointRegion) :
    List (Vec2 ℚ) → Except Failure (List (Vec2 ℚ))
  | [] => .ok chain
  | point :: rest => do
    let clipped := gt point.y max.y ySign
    let currentPoint : Vec2 ℚ ←
      if clipped then do
        let x ← lineInterceptXChecked prevPoint point max.y
        pure ⟨x, max.y⟩
      else
        pure point
    let currentPointRegion := pointRegion currentPoint.x min max xSign
    match currentPointRegion with
    | .PR_OUTSIDE_MIN =>
      let chain ← match prevPointRegion with
        | .PR_OUTSIDE_MAX => do
          let yMax ← lineInterceptYChecked prevPoint currentPoint max.x
          let yMin ← lineInterceptYChecked prevPoint currentPoint min.x
          pure (chain ++ [⟨max.x, yMax⟩, ⟨min.x, yMin⟩])
        | .PR_INSIDE => do
          let yMin ← lineInterceptYChecked prevPoint currentPoint min.x
          pure (chain ++ [⟨min.x, yMin⟩])
        | .PR_OUTSIDE_MIN => pure chain
        | .PR_UNINITIALIZED => .error .assertClipRegion
      if clipped then pure chain
      else clipHullSecond ySign xSign min max chain currentPoint currentPointRegion rest
    | .PR_OUTSIDE_MAX =>
      let chain ← match prevPointRegion with
        | .PR_OUTSIDE_MIN => do
          let yMin ← lineInterceptYChecked prevPoint currentPoint min.x
          let yMax ← lineInterceptYChecked prevPoint currentPoint max.x
          pure (chain ++ [⟨min.x, yMin⟩, ⟨max.x, yMax⟩])
        | .PR_INSIDE => do
          let yMax ← lineInterceptYChecked prevPoint currentPoint max.x
          pure (chain ++ [⟨max.x, yMax⟩])
        | .PR_OUTSIDE_MAX => pure chain
        | .PR_UNINITIALIZED => .error .assertClipRegion
      if clipped then pure (chain ++ [max])
      else if rest = [] then pure (chain ++ [⟨max.x, currentPoint.y⟩])
      else clipHullSecond ySign xSign min max chain currentPoint currentPointRegion rest
    | _ =>
      -- `assert(currentPointRegion == PR_INSIDE)`; in the last branch the source has
      -- `assert(prevPointRegion = PR_INSIDE)`, an assignment that never fails
      let chain ← match prevPointRegion with
        | .PR_OUTSIDE_MIN => do
          let yMin ← lineInterceptYChecked prevPoint currentPoint min.x
          pure (chain ++ [⟨min.x, yMin⟩])
        | .PR_OUTSIDE_MAX => do
          let yMax ← lineInterceptYChecked prevPoint currentPoint max.x
          pure (chain ++ [⟨max.x, yMax⟩])
        | _ => pure chain
      let chain := chain ++ [currentPoint]
      if clipped then pure chain
      else clipHullSecond ySign xSign min max chain currentPoint currentPointRegion rest

/-- `clipHull<isLeftSide>`: the chain it leaves in `m_sliceRasterizeEdges[isLeftSide]`
(empty before the call). The left side walks the unclipped chain from its last point
down to its first, the right side from the first up. The uninitialised `prevPoint` is
the origin. -/
def clipHull (s : FrustumIterator) (isLeftSide : Bool) (unclippedRasterizeEdges : List (Vec2 ℚ))
    (min max : Vec2 ℚ) (xSign : Int) : Except Failure (List (Vec2 ℚ)) := do
  let ySign := s.m_directionSign.get (s.m_dimensionOrder.get Y_DIM)
  let points := if isLeftSide then unclippedRasterizeEdges.reverse else unclippedRasterizeEdges
  let st ← clipHullFirst ySign xSign min max false ⟨0, 0⟩ points
  if st.returned then
    pure st.chain
  else
    clipHullSecond ySign xSign min max st.chain st.prevPoint st.prevPointRegion st.remaining

/-- The chain `m_sliceRasterizeEdges[isLeftSide]`. -/
def chain (isLeftSide : Bool) (s : FrustumIterator) : List (Vec2 ℚ) :=
  s.m_sliceRasterizeEdges.get isLeftSide

/-- `setSliceRowPoint<isLeftSide>`. -/
def setSliceRowPoint (isLeftSide : Bool) (worldX : ℚ) (s : FrustumIterator) : FrustumIterator :=
  let xDim := s.m_dimensionOrder.get X_DIM
  let column := s.m_range.m_min.get xDim
    + s.gridDistance (s.m_spaceRange.m_min.get xDim) worldX xDim * s.m_directionSign.get xDim
  if isLeftSide then
    { s with m_currentPosition := s.m_currentPosition.set xDim column }
  else
    { s with m_sliceMax := { s.m_sliceMax with x := column } }

/-- The row distance `gridDistance(chain[i].y, chain[i + 1].y, m_dimensionOrder[Y_DIM])` of
the segment that starts at chain index `i`. -/
def rowNum (isLeftSide : Bool) (i : Nat) (s : FrustumIterator) : Except Failure Int := do
  let a ← index (s.chain isLeftSide) i
  let b ← index (s.chain isLeftSide) (i + 1)
  pure (s.gridDistance a.y b.y (s.m_dimensionOrder.get Y_DIM))

/-- `advanceInwardLine<isLeftSide>`. -/
def advanceInwardLine (isLeftSide : Bool) (s : FrustumIterator) :
    Except Failure (Bool × FrustumIterator) := do
  if s.m_activeSliceEdgeIndex.get isLeftSide + 2 = (s.chain isLeftSide).length then
    pure (false, s)
  else
    let i := s.m_activeSliceEdgeIndex.get isLeftSide + 1
    let s : FrustumIterator :=
      { s with m_activeSliceEdgeIndex := s.m_activeSliceEdgeIndex.set isLeftSide i }
    let rowNum ← s.rowNum isLeftSide i
    if rowNum > 0 then
      pure (false, { s with m_activeSliceEdges := s.m_activeSliceEdges.set isLeftSide rowNum })
    else
      pure (true, s)

/-- The loop `while(advanceInwardLine<isLeftSide>()) {}`. Every pass that asks for another
one has moved the segment index up the chain, so the chain length bounds the number of
passes. -/
def whileAdvanceInwardLine (fuel : Nat) (isLeftSide : Bool) (s : FrustumIterator) :
    Except Failure FrustumIterator :=
  match fuel with
  | 0 => .error .outOfFuel
  | fuel + 1 => do
    let (again, s) ← advanceInwardLine isLeftSide s
    if again then whileAdvanceInwardLine fuel isLeftSide s else pure s

/-- `advanceOutwardLine<isLeftSide>`. -/
def advanceOutwardLine (isLeftSide : Bool) (s : FrustumIterator) :
    Except Failure (Bool × FrustumIterator) := do
  if s.m_activeSliceEdgeIndex.get isLeftSide + 2 = (s.chain isLeftSide).length then
    let b ← index (s.chain isLeftSide) (s.m_activeSliceEdgeIndex.get isLeftSide + 1)
    pure (false, s.setSliceRowPoint isLeftSide b.x)
  else
    let i := s.m_activeSliceEdgeIndex.get isLeftSide + 1
    let s : FrustumIterator :=
      { s with m_activeSliceEdgeIndex := s.m_activeSliceEdgeIndex.set isLeftSide i }
    let b ← index (s.chain isLeftSide) (i + 1)
    let a ← index (s.chain isLeftSide) i
    let xSign := s.m_directionSign.get (s.m_dimensionOrder.get X_DIM)
    let outward := geq b.x a.x (if isLeftSide then -xSign else xSign)
    let s : FrustumIterator :=
      { s with m_activeSliceEdgeOutward := s.m_activeSliceEdgeOutward.set isLeftSide outward }
    let rowNum ← s.rowNum isLeftSide i
    let s := if !outward then s.setSliceRowPoint isLeftSide a.x else s
    if rowNum > 0 then
      let s : FrustumIterator :=
        { s with m_activeSliceEdges := s.m_activeSliceEdges.set isLeftSide rowNum }
      if outward then
        let xIntercept ← lineInterceptXChecked a b s.m_lineTop
        pure (false, s.setSliceRowPoint isLeftSide xIntercept)
      else
        pure (false, s)
    else
      if !outward then
        let s ← whileAdvanceInwardLine ((s.chain isLeftSide).length + 1) isLeftSide s
        pure (false, s)
      else
        pure (true, s)

/-- The loop `while(advanceOutwardLine<isLeftSide>()) {}`. -/
def whileAdvanceOutwardLine (fuel : Nat) (isLeftSide : Bool) (s : FrustumIterator) :
    Except Failure FrustumIterator :=
  match fuel with
  | 0 => .error .outOfFuel
  | fuel + 1 => do
    let (again, s) ← advanceOutwardLine isLeftSide s
    if again then whileAdvanceOutwardLine fuel isLeftSide s else pure s

/-- `preAdvanceOutwardLine<isLeftSide>`. -/
def preAdvanceOutwardLine (isLeftSide : Bool) (s : FrustumIterator) :
    Except Failure (Bool × FrustumIterator) := do
  let i := s.m_activeSliceEdgeIndex.get isLeftSide
  let rowNum ← s.rowNum isLeftSide i
  if rowNum > 0 then
    let s : FrustumIterator :=
      { s with m_activeSliceEdges := s.m_activeSliceEdges.set isLeftSide rowNum }
    let a ← index (s.chain isLeftSide) i
    let b ← index (s.chain isLeftSide) (i + 1)
    let xIntercept ← lineInterceptXChecked a b s.m_lineTop
    pure (false, s.setSliceRowPoint isLeftSide xIntercept)
  else
    pure (true, s)

/-- `setupSliceHelper<isLeftSide>`. -/
def setupSliceHelper (isLeftSide : Bool) (s : FrustumIterator) :
    Except Failure FrustumIterator := do
  if !(s.m_activeSliceEdgeIndex.get isLeftSide + 1 < (s.chain isLeftSide).length) then
    .error .assertSegmentIndex
  else
    let p1 ← index (s.chain isLeftSide) 1
    let p0 ← index (s.chain isLeftSide) 0
    let outward := geq p1.x p0.x (-s.m_directionSign.get (s.m_dimensionOrder.get X_DIM))
    let s : FrustumIterator :=
      { s with m_activeSliceEdgeOutward := s.m_activeSliceEdgeOutward.set isLeftSide outward }
    if outward then
      let (again, s) ← preAdvanceOutwardLine isLeftSide s
      if again then
        whileAdvanceOutwardLine ((s.chain isLeftSide).length + 1) isLeftSide s
      else
        pure s
    else
      let s := s.setSliceRowPoint isLeftSide p0.x
      whileAdvanceInwardLine ((s.chain isLeftSide).length + 1) isLeftSide s

/-- `advanceRowHelper<isLeftSide>`. -/
def advanceRowHelper (isLeftSide : Bool) (s : FrustumIterator) :
    Except Failure FrustumIterator := do
  let countdown := s.m_activeSliceEdges.get isLeftSide - 1
  let s : FrustumIterator :=
    { s with m_activeSliceEdges := s.m_activeSliceEdges.set isLeftSide countdown }
  let i := s.m_activeSliceEdgeIndex.get isLeftSide
  let size := (s.chain isLeftSide).length
  if s.m_activeSliceEdges.get isLeftSide = 0 then
    if s.m_activeSliceEdgeOutward.get isLeftSide then
      if i + 2 = size then
        let s : FrustumIterator :=
          { s with m_activeSliceEdges := s.m_activeSliceEdges.set isLeftSide 1 }
        let b ← index (s.chain isLeftSide) (i + 1)
        pure (s.setSliceRowPoint isLeftSide b.x)
      else
        whileAdvanceOutwardLine (size + 1) isLeftSide s
    else
      if !(i + 1 < size) then
        .error .assertSegmentIndex
      else
        let a ← index (s.chain isLeftSide) i
        let b ← index (s.chain isLeftSide) (i + 1)
        let xIntercept ← lineInterceptXChecked a b s.m_lineBottom
        let s := s.setSliceRowPoint isLeftSide xIntercept
        if i + 2 = size then
          pure { s with m_activeSliceEdges := s.m_activeSliceEdges.set isLeftSide 1 }
        else
          whileAdvanceInwardLine (size + 1) isLeftSide s
  else
    if !(i + 1 < size) then
      .error .assertSegmentIndex
    else
      let a ← index (s.chain isLeftSide) i
      let b ← index (s.chain isLeftSide) (i + 1)
      let xIntercept ← lineInterceptXChecked a b
        (if s.m_activeSliceEdgeOutward.get isLeftSide then s.m_lineTop else s.m_lineBottom)
      pure (s.setSliceRowPoint isLeftSide xIntercept)

/-- `advanceRow`. -/
def advanceRow (s : FrustumIterator) : Except Failure FrustumIterator := do
  let yDim := s.m_dimensionOrder.get Y_DIM
  let s : FrustumIterator := { s with
    m_lineBottom := s.m_lineTop
    m_lineTop := s.m_lineTop + s.m_directionSign.get yDim * s.m_cellDimensions.get yDim
    m_currentPosition :=
      s.m_currentPosition.set yDim (s.m_currentPosition.get yDim + s.m_directionSign.get yDim) }
  let s ← advanceRowHelper RIGHT_SIDE s
  advanceRowHelper LEFT_SIDE s

/-- First part of `setupSlice`: clear the other point buffer and fill it with the
intersections of the active edges with the slice plane. -/
def collectSlicePoints (s : FrustumIterator) : Except Failure FrustumIterator :=
  let other := !s.m_currentPointList
  let s : FrustumIterator := { s with m_pointList := s.m_pointList.set other [] }
  (List.range s.m_frustum.numEdges).foldlM (fun (s : FrustumIterator) activeEdge => do
    let countdown ← index s.m_activeEdges activeEdge
    if countdown > 0 then
      let i0 ← s.m_frustum.edgePoint activeEdge false
      let i1 ← s.m_frustum.edgePoint activeEdge true
      let p0 ← index s.m_frustum.m_points i0
      let p1 ← index s.m_frustum.m_points i1
      match s.m_slicePlane.lineIntersection p0 p1 with
      | none => .error .assertEdgeCrossesSlice
      | some dest =>
        let point : Vec2 ℚ :=
          ⟨dest.get (s.m_dimensionOrder.get X_DIM), dest.get (s.m_dimensionOrder.get Y_DIM)⟩
        pure { s with m_pointList := s.m_pointList.set other (s.m_pointList.get other ++ [point]) }
    else
      pure s) s

/-- Second part of `setupSlice`: sort the slice points (`std::list::sort` is stable),
build the two unclipped hull chains and clip them. The result is `false` with the chains
as they are at the early `return false`, or `true` with both clipped chains. -/
def buildSliceHull (s : FrustumIterator) : Except Failure (Bool × FrustumIterator) := do
  let sortedPoints := (s.m_pointList.elem0 ++ s.m_pointList.elem1).insertionSort
    (fun a b => ¬ PointComparator s b a)
  let secondaryDimension := s.m_dimensionOrder.get Y_DIM
  let tertiaryDimension := s.m_dimensionOrder.get X_DIM
  let convexSign := s.m_directionSign.get secondaryDimension * s.m_directionSign.get tertiaryDimension
  let unclippedRight := convexHull sortedPoints convexSign
  let unclippedLeft := convexHull sortedPoints.reverse convexSign
  let minX := s.m_spaceRange.m_min.get tertiaryDimension
  let minY := s.m_spaceRange.m_min.get secondaryDimension
  let maxX := s.m_spaceRange.m_max.get tertiaryDimension
  let maxY := s.m_spaceRange.m_max.get secondaryDimension
  let right ← clipHull s RIGHT_SIDE unclippedRight ⟨minX, minY⟩ ⟨maxX, maxY⟩
    (s.m_directionSign.get tertiaryDimension)
  if right.length = 0 then
    pure (false, { s with m_sliceRasterizeEdges := ⟨[], []⟩ })
  else if right.length < 2 then
    .error .assertChainSize
  else
    let left ← clipHull s LEFT_SIDE unclippedLeft ⟨maxX, minY⟩ ⟨minX, maxY⟩
      (-s.m_directionSign.get tertiaryDimension)
    if left.length = 0 then
      pure (false, { s with m_sliceRasterizeEdges := ⟨right, []⟩ })
    else if left.length < 2 then
      .error .assertChainSize
    else
      pure (true, { s with m_sliceRasterizeEdges := ⟨right, left⟩ })

/-- `chain[i].y = y`. -/
def setY (chain : List (Vec2 ℚ)) (i : Nat) (y : ℚ) : List (Vec2 ℚ) :=
  chain.modify (fun p => { p with y := y }) i

/-- Third part of `setupSlice`: "clip the minimum vertical side" and "clip the maximum
vertical side", which make the two clipped chains start and end on the same row
coordinate. -/
def reconcileChains (s : FrustumIterator) : Except Failure FrustumIterator := do
  let ySign := s.m_directionSign.get (s.m_dimensionOrder.get Y_DIM)
  let right := s.chain RIGHT_SIDE
  let left := s.chain LEFT_SIDE
  let r0 ← index right 0
  let l0 ← index left 0
  let (right, left) :=
    if lt r0.y l0.y ySign then (setY right 0 l0.y, left)
    else if lt l0.y r0.y ySign then (right, setY left 0 r0.y)
    else (right, left)
  let rLast ← index right (right.length - 1)
  let lLast ← index left (left.length - 1)
  let (right, left) :=
    if gt rLast.y lLast.y ySign then (setY right (right.length - 1) lLast.y, left)
    else if gt lLast.y rLast.y ySign then (right, setY left (left.length - 1) rLast.y)
    else (right, left)
  pure { s with m_sliceRasterizeEdges := ⟨right, left⟩ }

/-- Fourth part of `setupSlice`: "setup the initial row", the first and last row of the
slice and the row band. -/
def setupSliceRows (s : FrustumIterator) : Except Failure FrustumIterator := do
  let secondaryDimension := s.m_dimensionOrder.get Y_DIM
  let ySign := s.m_directionSign.get secondaryDimension
  let first ← index (s.chain RIGHT_SIDE) 0
  let last ← index (s.chain RIGHT_SIDE) ((s.chain RIGHT_SIDE).length - 1)
  let spaceMin := s.m_spaceRange.m_min.get secondaryDimension
  let rowNum := s.gridDistance spaceMin first.y secondaryDimension
  let lineBottom : ℚ := spaceMin + rowNum * ySign * s.m_cellDimensions.get secondaryDimension
  let rowNumMax := s.gridDistance spaceMin last.y secondaryDimension
  pure { s with
    m_activeSliceEdgeIndex := ⟨0, 0⟩
    m_currentPosition := s.m_currentPosition.set secondaryDimension
      (s.m_range.m_min.get secondaryDimension + rowNum * ySign)
    m_lineBottom := lineBottom
    m_lineTop := lineBottom + ySign * s.m_cellDimensions.get secondaryDimension
    m_sliceMax := { s.m_sliceMax with y := s.m_range.m_min.get secondaryDimension + rowNumMax * ySign } }

/-- `setupSlice`: the returned `bool` and the iterator after the call. -/
def setupSlice (s : FrustumIterator) : Except Failure (Bool × FrustumIterator) := do
  let s ← collectSlicePoints s
  let (nonEmpty, s) ← buildSliceHull s
  if !nonEmpty then
    pure (false, s)
  else
    let s ← reconcileChains s
    let s ← setupSliceRows s
    let s ← setupSliceHelper LEFT_SIDE s
    let s ← setupSliceHelper RIGHT_SIDE s
    pure (true, s)

/-- The countdown loop of `advanceSlice` over the active edges, which decrements
`m_activeEdges` in place and collects newly activated edges in `activeEdgesCopy`. -/
def countDownActiveEdges (s : FrustumIterator) : Except Failure (FrustumIterator × List Int) :=
  (List.range s.m_frustum.numEdges).foldlM
    (fun (acc : FrustumIterator × List Int) activeEdge => do
      let countdown ← index acc.1.m_activeEdges activeEdge
      if countdown > 0 then
        let s : FrustumIterator :=
          { acc.1 with m_activeEdges := acc.1.m_activeEdges.set activeEdge (countdown - 1) }
        if countdown - 1 = 0 then
          let which ← index s.m_activeEdgeDestPoint activeEdge
          let point ← s.m_frustum.edgePoint activeEdge which
          addPoint point (s, acc.2)
        else
          pure (s, acc.2)
      else
        pure acc)
    (s, List.replicate s.m_frustum.numEdges 0)

/-- The loop of `advanceSlice` that copies the positive entries of `activeEdgesCopy` into
`m_activeEdges`. -/
def mergeActiveEdges (activeEdges activeEdgesCopy : List Int) : List Int :=
  List.zipWith (fun old new => if new > 0 then new else old) activeEdges activeEdgesCopy

/-- `advanceSlice`: the returned `bool` and the iterator after the call. -/
def advanceSlice (s : FrustumIterator) : Except Failure (Bool × FrustumIterator) :=
  if s.atEnd then
    .ok (true, s)
  else do
    let sliceDim := s.m_dimensionOrder.get SLICE_DIM
    let s : FrustumIterator := { s with
      m_currentPosition := s.m_currentPosition.set sliceDim
        (s.m_currentPosition.get sliceDim + s.m_directionSign.get SLICE_DIM)
      m_slicePlane := { s.m_slicePlane with
        m_distance := s.m_slicePlane.m_distance - s.m_cellDimensions.get sliceDim }
      m_sliceStart := s.m_sliceStart + s.m_directionSign.get sliceDim * s.m_cellDimensions.get sliceDim
      m_currentPointList := !s.m_currentPointList }
    let (s, activeEdgesCopy) ← countDownActiveEdges s
    setupSlice { s with m_activeEdges := mergeActiveEdges s.m_activeEdges activeEdgesCopy }

/-- `forward`: the returned `bool` and the iterator after the call. The body of
`while(!advanceSlice()) { return atEnd(); }` returns in its first pass. -/
def forward (s : FrustumIterator) : Except Failure (Bool × FrustumIterator) :=
  if s.m_currentPosition.get (s.m_dimensionOrder.get X_DIM) = s.m_sliceMax.x then
    if s.m_currentPosition.get (s.m_dimensionOrder.get Y_DIM) = s.m_sliceMax.y then do
      let (advanced, s) ← advanceSlice s
      if !advanced then pure (s.atEnd, s) else pure (true, s)
    else
      (advanceRow s).map fun s => (true, s)
  else
    let xDim := s.m_dimensionOrder.get X_DIM
    .ok (true, { s with m_currentPosition :=
      s.m_currentPosition.set xDim (s.m_currentPosition.get xDim + s.m_directionSign.get xDim) })

/-- The members of the iterator when the constructor has set up range, slice plane and
point buffers, before it looks for the points of the first slice. Members the constructor
does not initialise are zero. -/
def initial (frustum : Frustum) (range : Box Int) (cellDimensions : Vec3 ℚ) : FrustumIterator :=
  let dimensionOrder := sortDimensions frustum.m_direction
  let directionSign : Vec3 Int :=
    ⟨sign frustum.m_direction.x, sign frustum.m_direction.y, sign frustum.m_direction.z⟩
  let lo (d : Fin 3) : Int :=
    if directionSign.get d < 0 then range.m_max.get d else range.m_min.get d
  let hi (d : Fin 3) : Int :=
    if directionSign.get d < 0 then range.m_min.get d else range.m_max.get d
  let range : Box Int := ⟨⟨lo 0, lo 1, lo 2⟩, ⟨hi 0, hi 1, hi 2⟩⟩
  let spaceRange : Box ℚ :=
    ⟨⟨cellDimensions.x * range.m_min.x, cellDimensions.y * range.m_min.y,
      cellDimensions.z * range.m_min.z⟩,
     ⟨cellDimensions.x * range.m_max.x, cellDimensions.y * range.m_max.y,
      cellDimensions.z * range.m_max.z⟩⟩
  let sliceDimension := dimensionOrder.get SLICE_DIM
  let sliceStart := spaceRange.m_min.get sliceDimension
  let sliceEnd := sliceStart + directionSign.get sliceDimension * cellDimensions.get sliceDimension
  { m_range := range
    m_currentPosition := range.m_min
    m_spaceRange := spaceRange
    m_cellDimensions := cellDimensions
    m_dimensionOrder := dimensionOrder
    m_directionSign := directionSign
    m_inactiveEdges := List.replicate frustum.numEdges true
    m_activeEdges := List.replicate frustum.numEdges 0
    m_activeEdgeDestPoint := List.replicate frustum.numEdges false
    m_frustum := frustum
    m_pointList := ⟨[], []⟩
    m_currentPointList := false
    m_sliceStart := sliceStart
    m_slicePlane :=
      ⟨(⟨0, 0, 0⟩ : Vec3 ℚ).set sliceDimension (directionSign.get sliceDimension),
       -(directionSign.get sliceDimension) * sliceEnd⟩
    m_lineBottom := 0
    m_lineTop := 0
    m_sliceMax := ⟨0, 0⟩
    m_sliceRasterizeEdges := ⟨[], []⟩
    m_activeSliceEdgeIndex := ⟨0, 0⟩
    m_activeSliceEdges := ⟨0, 0⟩
    m_activeSliceEdgeOutward := ⟨false, false⟩ }

/-- The loop "find points within first slice" of the constructor: whether a point was
found (`debugFoundPoints`) and the iterator. -/
def addFirstSlicePoints (s : FrustumIterator) : Except Failure (Bool × FrustumIterator) := do
  let sliceDimension := s.m_dimensionOrder.get SLICE_DIM
  let sliceSign := s.m_directionSign.get sliceDimension
  let sliceEnd := s.m_sliceStart + sliceSign * s.m_cellDimensions.get sliceDimension
  let (found, s, activeEdges) ←
    (List.range s.m_frustum.m_points.length).foldlM
      (fun (acc : Bool × FrustumIterator × List Int) point => do
        let p ← index acc.2.1.m_frustum.m_points point
        if (sliceSign > 0 ∧ p.get sliceDimension < sliceEnd)
            ∨ (sliceSign < 0 ∧ p.get sliceDimension ≥ sliceEnd) then
          let r ← addPoint point acc.2
          pure (true, r)
        else
          pure acc)
      (false, s, s.m_activeEdges)
  pure (found, { s with m_activeEdges := activeEdges })

/-- The loop `while(!advanceSlice()) {}` of the constructor, at most `fuel` passes. -/
def whileNotAdvanceSlice (fuel : Nat) (s : FrustumIterator) : Except Failure FrustumIterator :=
  match fuel with
  | 0 => .error .outOfFuel
  | fuel + 1 => do
    let (advanced, s) ← advanceSlice s
    if advanced then pure s else whileNotAdvanceSlice fuel s

/-- The constructor `FrustumIterator(frustum, range, cellDimensions)`; `fuel` bounds the
passes of its loop `while(!advanceSlice()) {}`. -/
def construct (fuel : Nat) (frustum : Frustum) (range : Box Int) (cellDimensions : Vec3 ℚ) :
    Except Failure FrustumIterator := do
  let (debugFoundPoints, s) ← addFirstSlicePoints (initial frustum range cellDimensions)
  if !debugFoundPoints then
    pure s
  else
    let (nonEmpty, s) ← setupSlice s
    if !nonEmpty then whileNotAdvanceSlice fuel s else pure s

end FrustumIterator

/-! ## Projections of the mesh iterator used to state what a step leaves unchanged -/

/-- The members of the mesh iterator that only the constructor and `forward` itself
write: the grid bounds, the direction signs, the inverse dimension order, the extent of
the grid in algorithm space, and the at-end flag. -/
def ConvexMeshIteratorDebug.fixedOf (s : ConvexMeshIteratorDebug) :
    Box Int × Vec3 Int × Vec3 (Fin 3) × Vec3 Int × Bool :=
  (s.m_bounds, s.m_directionSign, s.m_dimensionOrderInverse, s.m_algorithmBounds, s.m_atEnd)

/-- The members `fixedOf` and the slice coordinate of the cursor. -/
def ConvexMeshIteratorDebug.sliceOf (s : ConvexMeshIteratorDebug) :
    (Box Int × Vec3 Int × Vec3 (Fin 3) × Vec3 Int × Bool) × Int :=
  (s.fixedOf, s.m_currentPosition.z)

/-- The members `sliceOf` and the row coordinate of the cursor. -/
def ConvexMeshIteratorDebug.rowOf (s : ConvexMeshIteratorDebug) :
    ((Box Int × Vec3 Int × Vec3 (Fin 3) × Vec3 Int × Bool) × Int) × Int :=
  (s.sliceOf, s.m_currentPosition.y)

/-- `Keeps π proj s x`: when the computation `x` returns, the projection `π` of the state
inside its result is the one of `s`. -/
def Keeps {σ τ α : Type} (π : σ → τ) (proj : α → σ) (s : σ) (x : Except Failure α) : Prop :=
  ∀ a, x = .ok a → π (proj a) = π s

/-- A dimension order that names every axis once. -/
def Vec3.IsPermutation (v : Vec3 (Fin 3)) : Prop :=
  v.x ≠ v.y ∧ v.x ≠ v.z ∧ v.y ≠ v.z

instance (v : Vec3 (Fin 3)) : Decidable v.IsPermutation := by
  unfold Vec3.IsPermutation; infer_instance

/-- The order in which the cursor moves in algorithm space: slice first, then row, then
column. -/
def cursorLt (a b : Vec3 Int) : Prop :=
  a.z < b.z ∨ (a.z = b.z ∧ (a.y < b.y ∨ (a.y = b.y ∧ a.x < b.x)))

/-- Two computations that fail alike or return related results. -/
def Sim {α β : Type} (R : α → β → Prop) (x : Except Failure α) (y : Except Failure β) : Prop :=
  match x, y with
  | .ok a, .ok b => R a b
  | .error e, .error e' => e = e'
  | _, _ => False

/-- The mesh iterator `s` with the grid members of `t`. -/
def ConvexMeshIteratorDebug.regrid (t s : ConvexMeshIteratorDebug) : ConvexMeshIteratorDebug :=
  { s with
    m_bounds := t.m_bounds
    m_worldBounds := t.m_worldBounds
    m_dimensionOrder := t.m_dimensionOrder
    m_dimensionOrderInverse := t.m_dimensionOrderInverse
    m_directionSign := t.m_directionSign }

/-- `Ensures Q x`: the result of the computation `x`, when it returns one, satisfies `Q`. -/
def Ensures {α : Type} (Q : α → Prop) (x : Except Failure α) : Prop :=
  ∀ a, x = .ok a → Q a


/-- `Ends Q x`: the computation `x` does not exhaust the loop bound of the embedding, and
its result, when it returns one, satisfies `Q`. -/
def Ends {α : Type} (Q : α → Prop) (x : Except Failure α) : Prop :=
  match x with
  | .ok a => Q a
  | .error e => e ≠ .outOfFuel

/-- The signs +1 and -1 that the iterator treats as it treats `directionSign`. -/
def directionPattern (directionSign : Vec3 Int) : Vec3 Int :=
  ⟨if decide (directionSign.x > 0) then 1 else -1, if decide (directionSign.y > 0) then 1 else -1,
    if decide (directionSign.z > 0) then 1 else -1⟩

/-- Two computations that both fail or return related results. -/
def Alike {α β : Type} (R : α → β → Prop) (x : Except Failure α) (y : Except Failure β) : Prop :=
  match x, y with
  | .ok a, .ok b => R a b
  | .error _, .error _ => True
  | _, _ => False

/-- The mesh iterator `s` with the two slice point buffers `pointList`. -/
def ConvexMeshIteratorDebug.repoint (pointList : Arr2 (List (Vec2 ℚ)))
    (s : ConvexMeshIteratorDebug) : ConvexMeshIteratorDebug :=
  { s with m_pointList := pointList }

/-- Two pairs of slice point buffers that hold the same points, in whatever order. -/
def SamePoints (a b : Arr2 (List (Vec2 ℚ))) : Prop :=
  a.elem0.Perm b.elem0 ∧ a.elem1.Perm b.elem1

/-- Two states of the mesh iterator that differ at most in the order of the points in
their slice point buffers. -/
def ConvexMeshIteratorDebug.SameButOrder (s s' : ConvexMeshIteratorDebug) : Prop :=
  ∃ pointList, s' = s.repoint pointList ∧ SamePoints s.m_pointList pointList

/-! ## The edge tables of the frustum iterator -/

/-- The members of the frustum iterator that hold the edge tables and the current slice
point list; `setupSlice` writes none of them. -/
def FrustumIterator.edgeTableOf (s : FrustumIterator) :
    Frustum × List Int × List Bool × List Bool × Bool × List (Vec2 ℚ) :=
  (s.m_frustum, s.m_activeEdges, s.m_activeEdgeDestPoint, s.m_inactiveEdges,
    s.m_currentPointList, s.m_pointList.get s.m_currentPointList)


/-- The members of the frustum iterator that `addPoint` reads and does not write. -/
def FrustumIterator.sliceFrameOf (s : FrustumIterator) :
    Frustum × Bool × Vec3 ℚ × Vec3 Int × Box ℚ × Vec3 (Fin 3) × ℚ :=
  (s.m_frustum, s.m_currentPointList, s.m_cellDimensions, s.m_directionSign, s.m_spaceRange,
    s.m_dimensionOrder, s.m_sliceStart)

/-- Every positive entry of the table `activeEdgesDestination` belongs to an edge that is
no longer flagged inactive, and is the slice count `addPoint` computes for the end point
recorded in `m_activeEdgeDestPoint`. -/
def FrustumIterator.Activated (acc : FrustumIterator × List Int) : Prop :=
  ∀ e k, acc.2.get? e = some k → 0 < k →
    acc.1.m_inactiveEdges.get? e = some false
      ∧ ∃ w oi other, acc.1.m_activeEdgeDestPoint.get? e = some w
        ∧ acc.1.m_frustum.edgePoint e w = .ok oi
        ∧ acc.1.m_frustum.m_points.get? oi = some other
        ∧ k = acc.1.gridDistance acc.1.m_sliceStart
            (other.get (acc.1.m_dimensionOrder.get SLICE_DIM))
            (acc.1.m_dimensionOrder.get SLICE_DIM)

/-- What `addPoint` does to the edge tables between `acc` and `r`: the members it only
reads are the same, the tables keep their sizes, an edge that was not flagged inactive
keeps its flag, its entry of `activeEdgesDestination` and its recorded end point, and the
table `activeEdgesDestination` stays `Activated`. -/
def FrustumIterator.TableStep (acc r : FrustumIterator × List Int) : Prop :=
  r.1.sliceFrameOf = acc.1.sliceFrameOf
    ∧ r.2.length = acc.2.length
    ∧ r.1.m_activeEdgeDestPoint.length = acc.1.m_activeEdgeDestPoint.length
    ∧ (∀ e, acc.1.m_inactiveEdges.get? e = some false →
        r.1.m_inactiveEdges.get? e = some false ∧ r.2.get? e = acc.2.get? e
          ∧ r.1.m_activeEdgeDestPoint.get? e = acc.1.m_activeEdgeDestPoint.get? e)
    ∧ (acc.1.m_frustum.numEdges ≤ acc.2.length →
        acc.1.m_frustum.numEdges ≤ acc.1.m_activeEdgeDestPoint.length →
        FrustumIterator.Activated acc → FrustumIterator.Activated r)

/-- The state of the countdown loop of `advanceSlice` that started in `s1`, after the
edges `done`: the tables are a `TableStep` away from those of `s1` with an all-zero table
`activeEdgesCopy`; the countdown of every edge in `done` that was positive is one less and
all other entries of `m_activeEdges` are as in `s1`; the current point list is the one of
`s1` with points appended, among them the projection of the recorded end point of every
edge in `done` whose countdown was 1. -/
def FrustumIterator.CountedDown (s1 : FrustumIterator) (done : List Nat)
    (acc : FrustumIterator × List Int) : Prop :=
  FrustumIterator.TableStep (s1, List.replicate s1.m_frustum.numEdges 0) acc
    ∧ (∀ e, acc.1.m_activeEdges.get? e
        = (s1.m_activeEdges.get? e).map (fun c => if e ∈ done ∧ 0 < c then c - 1 else c))
    ∧ ∃ added, acc.1.m_pointList.get s1.m_currentPointList
          = s1.m_pointList.get s1.m_currentPointList ++ added
        ∧ ∀ e ∈ done, s1.m_activeEdges.get? e = some 1 →
          ∃ w oi p, s1.m_activeEdgeDestPoint.get? e = some w
            ∧ s1.m_frustum.edgePoint e w = .ok oi ∧ s1.m_frustum.m_points.get? oi = some p
            ∧ (⟨p.get (s1.m_dimensionOrder.get X_DIM), p.get (s1.m_dimensionOrder.get Y_DIM)⟩ :
              Vec2 ℚ) ∈ added

/-- The edge tables of the frustum iterator fit together: no edge with a positive
countdown is flagged inactive, and `m_activeEdgeDestPoint` has an entry for every edge. -/
def FrustumIterator.TablesConsistent (s : FrustumIterator) : Prop :=
  (∀ e c, s.m_activeEdges.get? e = some c → 0 < c → s.m_inactiveEdges.get? e = some false)
    ∧ s.m_frustum.numEdges ≤ s.m_activeEdgeDestPoint.length

/-! ## Mirror images -/

/-- The mirror image of a point: its coordinate `a` on `axis` becomes `c - a`. -/
def reflectPoint (axis : Fin 3) (c : ℚ) (p : Vec3 ℚ) : Vec3 ℚ :=
  p.set axis (c - p.get axis)

/-- The mirror image of a cell: its index `i` on `axis` becomes `c - i`. -/
def reflectCell (axis : Fin 3) (c : Int) (cell : Vec3 Int) : Vec3 Int :=
  cell.set axis (c - cell.get axis)

/-- The mesh edge list with every point mirrored. -/
def reflectMesh (axis : Fin 3) (c : ℚ) (meshEdgeList : MeshEdgeList) : MeshEdgeList :=
  { meshEdgeList with m_points := meshEdgeList.m_points.map (reflectPoint axis c) }

/-- The grid bounds mirrored in the plane `p[axis] = 0`: the cell `i` becomes the cell
`-1 - i`. -/
def reflectBounds (axis : Fin 3) (bounds : Box Int) : Box Int :=
  ⟨bounds.m_min.set axis (-1 - bounds.m_max.get axis),
    bounds.m_max.set axis (-1 - bounds.m_min.get axis)⟩

/-- The direction sign with its component on `axis` negated. -/
def negateSign (axis : Fin 3) (directionSign : Vec3 Int) : Vec3 Int :=
  directionSign.set axis (-directionSign.get axis)

/-- The traversal with every reported cell mirrored. -/
def ConvexMeshIteratorDebug.Traversal.reflect (axis : Fin 3) (c : Int)
    (t : ConvexMeshIteratorDebug.Traversal) : ConvexMeshIteratorDebug.Traversal :=
  ⟨t.cells.map (reflectCell axis c), t.ending⟩

/-! ## Concrete volumes used below -/

/-- The twelve edges of a box whose corners are numbered by the bits `x`, `y`, `z`. -/
def boxEdges : List (Nat × Nat) :=
  [(0, 1), (0, 2), (1, 3), (2, 3), (4, 5), (4, 6), (5, 7), (6, 7), (0, 4), (1, 5), (2, 6), (3, 7)]

/-- The eight corners of the axis-aligned box from `lo` to `hi`. -/
def boxPoints (lo hi : Vec3 ℚ) : List (Vec3 ℚ) :=
  [⟨lo.x, lo.y, lo.z⟩, ⟨hi.x, lo.y, lo.z⟩, ⟨lo.x, hi.y, lo.z⟩, ⟨hi.x, hi.y, lo.z⟩,
   ⟨lo.x, lo.y, hi.z⟩, ⟨hi.x, lo.y, hi.z⟩, ⟨lo.x, hi.y, hi.z⟩, ⟨hi.x, hi.y, hi.z⟩]

/-- A frustum in the shape of the axis-aligned box from `lo` to `hi`. -/
def boxFrustum (lo hi direction : Vec3 ℚ) : Frustum :=
  { m_points := boxPoints lo hi, m_direction := direction, edgeList := boxEdges }

/-- The axis-aligned box from `lo` to `hi` as a mesh edge list. -/
def boxMesh (lo hi : Vec3 ℚ) : MeshEdgeList :=
  { m_points := boxPoints lo hi, m_edges := boxEdges }

/-- A frustum that lies inside the grid cell (0, 0, 0) of a unit grid; with the direction
(1, 2, 3) the slice axis is x and all direction signs are +1. -/
def smallFrustum : Frustum :=
  boxFrustum ⟨1 / 4, 1 / 4, 1 / 4⟩ ⟨3 / 4, 3 / 4, 3 / 4⟩ ⟨1, 2, 3⟩

/-- A frustum that spans three cells along z and faces (3, 2, -1): the slice axis is z,
swept downwards, while the direction sign of the x axis is +1. -/
def downwardFrustum : Frustum :=
  boxFrustum ⟨1 / 4, 1 / 4, 1 / 4⟩ ⟨3 / 4, 3 / 4, 11 / 4⟩ ⟨3, 2, -1⟩

/-- A frustum two cells long on its column axis z (direction (1, 2, 3): slice axis x). -/
def wideFrustum : Frustum :=
  boxFrustum ⟨1 / 4, 1 / 4, 1 / 2⟩ ⟨3 / 4, 3 / 4, 5 / 2⟩ ⟨1, 2, 3⟩

/-- A frustum that spans three cells on every axis and faces (1, 2, -3): the slice axis is
x and the column axis z is swept downwards. -/
def bigFrustum : Frustum :=
  boxFrustum ⟨1 / 4, 1 / 4, 1 / 4⟩ ⟨5 / 2, 5 / 2, 5 / 2⟩ ⟨1, 2, -3⟩

/-- A frustum that spans three cells along z and faces (-3, 2, -1): the slice axis is z,
swept downwards, and the column axis x is swept downwards as well, so that the direction
sign of the x axis, which `atEnd()` and `advanceSlice()` read for the slice axis, agrees
with the one of z. -/
def reverseFrustum : Frustum :=
  boxFrustum ⟨1 / 4, 1 / 4, 1 / 4⟩ ⟨3 / 4, 3 / 4, 11 / 4⟩ ⟨-3, 2, -1⟩

/-- A frustum whose far face is tilted: the corners 4 and 5 of the far face lie one cell
along z from the near face, the corners 6 and 7 two cells (direction (3, 2, 1): slice axis
z, all direction signs +1). -/
def shearedFrustum : Frustum :=
  { m_points := [⟨1 / 4, 1 / 4, 1 / 4⟩, ⟨3 / 4, 1 / 4, 1 / 4⟩, ⟨1 / 4, 3 / 4, 1 / 4⟩,
                 ⟨3 / 4, 3 / 4, 1 / 4⟩, ⟨1 / 4, 1 / 4, 5 / 4⟩, ⟨3 / 4, 1 / 4, 5 / 4⟩,
                 ⟨1 / 4, 3 / 4, 9 / 4⟩, ⟨3 / 4, 3 / 4, 9 / 4⟩]
    m_direction := ⟨3, 2, 1⟩
    edgeList := boxEdges }

/-- A prism over the convex quadrilateral with the corners (1/2, 1/2), (5/2, 6/5),
(7/2, 8/5), (1/2, 9/5) in the x-z plane, extruded from y = 1/4 to y = 3/4. With unit cells,
identity dimension order and slice axis z its lowest edge lies in slice 0 and all its other
corners in slice 1. Points 2 and 6, the corners at x = 7/2, have no neighbour in slice 0. -/
def prism : MeshEdgeList :=
  { m_points := [⟨1 / 2, 1 / 4, 1 / 2⟩, ⟨5 / 2, 1 / 4, 6 / 5⟩, ⟨7 / 2, 1 / 4, 8 / 5⟩,
                 ⟨1 / 2, 1 / 4, 9 / 5⟩, ⟨1 / 2, 3 / 4, 1 / 2⟩, ⟨5 / 2, 3 / 4, 6 / 5⟩,
                 ⟨7 / 2, 3 / 4, 8 / 5⟩, ⟨1 / 2, 3 / 4, 9 / 5⟩]
    m_edges := [(0, 1), (1, 2), (2, 3), (3, 0), (4, 5), (5, 6), (6, 7), (7, 4),
                (0, 4), (1, 5), (2, 6), (3, 7)] }

/-- The corners of a prism over the parallelogram (1/4, 1/4), (9/4, 5/4), (9/4, 11/4),
(1/4, 7/4) in the x-y plane, extruded from z = 1/4 to z = 3/4 and numbered like the
corners of a box. No side of the parallelogram is parallel to the x axis. -/
def slantedPoints : List (Vec3 ℚ) :=
  [⟨1 / 4, 1 / 4, 1 / 4⟩, ⟨9 / 4, 5 / 4, 1 / 4⟩, ⟨1 / 4, 7 / 4, 1 / 4⟩, ⟨9 / 4, 11 / 4, 1 / 4⟩,
   ⟨1 / 4, 1 / 4, 3 / 4⟩, ⟨9 / 4, 5 / 4, 3 / 4⟩, ⟨1 / 4, 7 / 4, 3 / 4⟩, ⟨9 / 4, 11 / 4, 3 / 4⟩]

/-- The prism `slantedPoints` as a frustum that faces (3, 2, 1): the slice axis is z, the
row axis y, the column axis x, and all direction signs are +1. -/
def slantedFrustum : Frustum :=
  { m_points := slantedPoints, m_direction := ⟨3, 2, 1⟩, edgeList := boxEdges }

/-- The prism `slantedPoints` as a mesh edge list. -/
def slantedMesh : MeshEdgeList :=
  { m_points := slantedPoints, m_edges := boxEdges }

/-- The world-space box `[i*dim, (i+1)*dim)` per axis of a grid cell (§3) contains the
point `p`. -/
def inCellBox (cellDimensions : Vec3 ℚ) (cell : Vec3 Int) (p : Vec3 ℚ) : Prop :=
  cell.x * cellDimensions.x ≤ p.x ∧ p.x < (cell.x + 1) * cellDimensions.x
    ∧ cell.y * cellDimensions.y ≤ p.y ∧ p.y < (cell.y + 1) * cellDimensions.y
    ∧ cell.z * cellDimensions.z ≤ p.z ∧ p.z < (cell.z + 1) * cellDimensions.z

instance (cellDimensions : Vec3 ℚ) (cell : Vec3 Int) (p : Vec3 ℚ) :
    Decidable (inCellBox cellDimensions cell p) := by
  unfold inCellBox; infer_instance

/-- The volume that is exactly the grid cell `cell` of a grid of unit cells. -/
def unitCellMesh (cell : Vec3 Int) : MeshEdgeList :=
  boxMesh ⟨cell.x, cell.y, cell.z⟩ ⟨cell.x + 1, cell.y + 1, cell.z + 1⟩

/-- The iterator a constructor call yields, for constructor calls that return. -/
def ConvexMeshIteratorDebug.built (meshEdgeList : MeshEdgeList) (dimensionOrder : Vec3 (Fin 3))
    (directionSign : Vec3 Int) (bounds : Box Int) (cellDimensions : Vec3 ℚ) :
    ConvexMeshIteratorDebug :=
  match ConvexMeshIteratorDebug.construct meshEdgeList dimensionOrder directionSign bounds
      cellDimensions with
  | .ok s => s
  | .error _ =>
    ConvexMeshIteratorDebug.initial meshEdgeList dimensionOrder directionSign bounds cellDimensions

/-- The iterator a constructor call yields, for constructor calls that return. -/
def FrustumIterator.built (frustum : Frustum) (range : Box Int) (cellDimensions : Vec3 ℚ) :
    FrustumIterator :=
  match FrustumIterator.construct 1 frustum range cellDimensions with
  | .ok s => s
  | .error _ => FrustumIterator.initial frustum range cellDimensions

/-- The mesh iterator built for `slantedMesh` in the range (0,0,0)-(3,3,3) of unit cells:
the cursor is on the cell (0,0,0), the first of the columns 0 to 1 of the row 0. -/
def slantedStart : ConvexMeshIteratorDebug :=
  ConvexMeshIteratorDebug.built slantedMesh ⟨0, 1, 2⟩ ⟨1, 1, 1⟩ ⟨⟨0, 0, 0⟩, ⟨3, 3, 3⟩⟩ ⟨1, 1, 1⟩

/-! ## Predicates used to state the properties of the rasterizers and of the edge tables -/

/-- `Avoids bad Q x`: the computation `x` does not end in a failure of the kind `bad`, and
its result, when it returns one, satisfies `Q`. -/
def Avoids {α : Type} (bad : Failure → Prop) (Q : α → Prop) (x : Except Failure α) : Prop :=
  match x with
  | .ok a => Q a
  | .error e => ¬ bad e

/-- The failures of an access to a hull chain: the assertion `index + 1 < size` on the
active segment, an index outside the chain, and a loop over the chain that does not end
within the bound of the embedding. -/
def SegmentFailure (e : Failure) : Prop :=
  e = .assertSegmentIndex ∨ e = .outOfRange ∨ e = .outOfFuel

/-- The active segment of the side `isLeftSide` has both end points in the chain:
`m_activeSliceEdgeIndex[isLeftSide] <= m_sliceRasterizeEdges[isLeftSide].size() - 2`. -/
def ConvexMeshIteratorDebug.SegmentInRange (isLeftSide : Bool) (s : ConvexMeshIteratorDebug) :
    Prop :=
  s.m_activeSliceEdgeIndex.get isLeftSide + 2 ≤ (s.chain isLeftSide).length

/-- What a step of the row rasterizer on the side `isLeftSide` does to chains and segment
indices between `s` and `r`: the chains are the same, the segment index of the other side
is the same, the one of this side has not moved down and its segment is in range. -/
def ConvexMeshIteratorDebug.SegmentStep (isLeftSide : Bool) (s r : ConvexMeshIteratorDebug) :
    Prop :=
  r.m_sliceRasterizeEdges = s.m_sliceRasterizeEdges
    ∧ r.m_activeSliceEdgeIndex.get (!isLeftSide) = s.m_activeSliceEdgeIndex.get (!isLeftSide)
    ∧ s.m_activeSliceEdgeIndex.get isLeftSide ≤ r.m_activeSliceEdgeIndex.get isLeftSide
    ∧ r.SegmentInRange isLeftSide

/-- The hull chains and the segment indices of the mesh iterator. -/
def ConvexMeshIteratorDebug.segmentsOf (s : ConvexMeshIteratorDebug) :
    Arr2 (List (Vec2 ℚ)) × Arr2 Nat :=
  (s.m_sliceRasterizeEdges, s.m_activeSliceEdgeIndex)

/-- The members of the mesh iterator that hold the mesh and the edge tables; `setupSlice`
writes none of them. -/
def ConvexMeshIteratorDebug.edgesOf (s : ConvexMeshIteratorDebug) :
    MeshEdgeList × List Bool × EdgeMap Int × EdgeMap Nat :=
  (s.m_meshEdgeList, s.m_isEdgeChecked, s.m_activeEdges, s.m_activeEdgeDestPoint)

/-- The entry `(e, c)` of an active-edge table fits the state `s`: its countdown is at
least 1, the edge `e` is marked checked, and the destination point recorded for `e` is one
of the two end points of the edge. -/
def ConvexMeshIteratorDebug.EntrySound (s : ConvexMeshIteratorDebug) (e : Nat) (c : Int) :
    Prop :=
  1 ≤ c ∧ s.m_isEdgeChecked.get? e = some true
    ∧ ∃ d edge, s.m_activeEdgeDestPoint.at e = .ok d
      ∧ s.m_meshEdgeList.m_edges.get? e = some edge ∧ (d = edge.1 ∨ d = edge.2)

/-- Every entry of the table fits the state `s`. -/
def ConvexMeshIteratorDebug.TableSound (s : ConvexMeshIteratorDebug) (table : EdgeMap Int) :
    Prop :=
  ∀ e c, (e, c) ∈ table → s.EntrySound e c

/-- Every entry of `m_activeEdges` fits the state. -/
def ConvexMeshIteratorDebug.ActiveEdgesSound (s : ConvexMeshIteratorDebug) : Prop :=
  s.TableSound s.m_activeEdges

/-- Between `s` and `r` the mesh is the same, and every edge that is marked checked in `s`
is marked checked in `r` with the same recorded destination point. -/
def ConvexMeshIteratorDebug.Grows (s r : ConvexMeshIteratorDebug) : Prop :=
  r.m_meshEdgeList = s.m_meshEdgeList
    ∧ ∀ e, s.m_isEdgeChecked.get? e = some true →
      r.m_isEdgeChecked.get? e = some true
        ∧ r.m_activeEdgeDestPoint.at e = s.m_activeEdgeDestPoint.at e

/-- The two clipped hull chains of the frustum iterator. -/
def FrustumIterator.hullOf (s : FrustumIterator) : Arr2 (List (Vec2 ℚ)) :=
  s.m_sliceRasterizeEdges

/-- The two chains start on one row coordinate and end on one row coordinate. -/
def FrustumIterator.SameRowRange (chains : Arr2 (List (Vec2 ℚ))) : Prop :=
  ∃ r0 l0 rLast lLast, (chains.get RIGHT_SIDE).head? = some r0
    ∧ (chains.get LEFT_SIDE).head? = some l0 ∧ r0.y = l0.y
    ∧ (chains.get RIGHT_SIDE).getLast? = some rLast
    ∧ (chains.get LEFT_SIDE).getLast? = some lLast ∧ rLast.y = lLast.y

/-- `a` comes no later than `b` in the sweep direction `sign`: what `leq a b sign`
decides. -/
def Before (sign : Int) (a b : ℚ) : Prop :=
  if 0 < sign then a ≤ b else b ≤ a

instance (sign : Int) (a b : ℚ) : Decidable (Before sign a b) := by
  unfold Before; infer_instance

/-- The point lies in the closed clip rectangle between `min` and `max`, each axis compared
in its sweep direction. -/
def InClipRectangle (ySign xSign : Int) (min max p : Vec2 ℚ) : Prop :=
  Before xSign min.x p.x ∧ Before xSign p.x max.x ∧ Before ySign min.y p.y ∧ Before ySign p.y max.y

/-- The chain is monotone in the row coordinate, in the sweep direction `ySign`. -/
def RowMonotone (ySign : Int) (chain : List (Vec2 ℚ)) : Prop :=
  chain.Chain' (fun a b => Before ySign a.y b.y)

/-- What the second loop of `clipHull` relies on when it starts a pass: the clipped chain
so far lies in the clip rectangle, is monotone in the row coordinate and ends no later
than the row of `prevPoint`; `prevPoint` lies between the rows of the rectangle and
`prevPointRegion` is its side region; the points still to visit follow `prevPoint`
monotonically. -/
def FrustumIterator.ClipInv (ySign xSign : Int) (min max : Vec2 ℚ) (chain : List (Vec2 ℚ))
    (prevPoint : Vec2 ℚ) (prevPointRegion : FrustumIterator.PointRegion)
    (remaining : List (Vec2 ℚ)) : Prop :=
  (∀ p ∈ chain, InClipRectangle ySign xSign min max p) ∧ RowMonotone ySign chain
    ∧ (∀ p ∈ chain, Before ySign p.y prevPoint.y)
    ∧ Before ySign min.y prevPoint.y ∧ Before ySign prevPoint.y max.y
    ∧ prevPointRegion = FrustumIterator.pointRegion prevPoint.x min max xSign
    ∧ RowMonotone ySign (prevPoint :: remaining)

/-- The points `extra` may follow a clipped chain that ends no later than the row of
`prev`: they lie in the clip rectangle, they are monotone in the row coordinate, and their
rows lie between the rows of `prev` and `cur`. -/
def FrustumIterator.Crossing (ySign xSign : Int) (min max prev cur : Vec2 ℚ)
    (extra : List (Vec2 ℚ)) : Prop :=
  (∀ p ∈ extra, InClipRectangle ySign xSign min max p) ∧ RowMonotone ySign extra
    ∧ ∀ p ∈ extra, Before ySign prev.y p.y ∧ Before ySign p.y cur.y

/-! ### The row rasterizer of the mesh iterator on a convex polygon -/

/-- The sign of the outward column direction of a side, as the row rasterizer passes it to
`geq`: -1 on the left side, +1 on the right side. -/
def outwardSign (isLeftSide : Bool) : Int :=
  if isLeftSide then -1 else 1

/-- The segments of a chain: the pairs of consecutive points. -/
def segments (chain : List (Vec2 ℚ)) : List (Vec2 ℚ × Vec2 ℚ) :=
  chain.zip chain.tail

/-- The point `q` lies on the line through the segment from `a` to `p` of the chain of the
side, or on the inner side of it: to the left of a segment of the right chain, to the
right of a segment of the left chain. -/
def InnerSide (isLeftSide : Bool) (a p q : Vec2 ℚ) : Prop :=
  Before (outwardSign isLeftSide) 0 (cross (p.sub a) (q.sub a))

instance (isLeftSide : Bool) (a p q : Vec2 ℚ) : Decidable (InnerSide isLeftSide a p q) := by
  unfold InnerSide; infer_instance

/-- The two chains bound a convex polygon: each chain has at least two points and rises
along each of its segments, both chains start on one row coordinate and end on one row
coordinate, and every point of either chain lies on the inner side of, or on, the line
through every segment of either chain. -/
def BoundConvexPolygon (chains : Arr2 (List (Vec2 ℚ))) : Prop :=
  (∀ side : Bool, 2 ≤ (chains.get side).length)
    ∧ (∀ side : Bool, ∀ seg ∈ segments (chains.get side), seg.1.y < seg.2.y)
    ∧ (∀ l ∈ (chains.get LEFT_SIDE).head?, ∀ r ∈ (chains.get RIGHT_SIDE).head?, l.y = r.y)
    ∧ (∀ l ∈ (chains.get LEFT_SIDE).getLast?, ∀ r ∈ (chains.get RIGHT_SIDE).getLast?,
        l.y = r.y)
    ∧ (∀ side : Bool, ∀ seg ∈ segments (chains.get side), ∀ other : Bool,
        ∀ q ∈ chains.get other, InnerSide side seg.1 seg.2 q)

instance (chains : Arr2 (List (Vec2 ℚ))) : Decidable (BoundConvexPolygon chains) := by
  unfold BoundConvexPolygon; infer_instance

/-- The chain of one side as the row rasterizer needs it: at least two points, rising
along each segment, and each of its points on the inner side of, or on, the line through
each of its segments. -/
def ChainOk (isLeftSide : Bool) (chain : List (Vec2 ℚ)) : Prop :=
  2 ≤ chain.length ∧ (∀ seg ∈ segments chain, seg.1.y < seg.2.y)
    ∧ ∀ seg ∈ segments chain, ∀ q ∈ chain, InnerSide isLeftSide seg.1 seg.2 q

/-- The column coordinate `v` is at least as far outward, on the side `isLeftSide`, as
every point of the row band from `bottom` to `top` that lies on the inner side of every
segment of the chain and between the rows of the first and the last point of the chain. -/
def Covers (isLeftSide : Bool) (chain : List (Vec2 ℚ)) (bottom top v : ℚ) : Prop :=
  ∀ q : Vec2 ℚ, (∀ seg ∈ segments chain, InnerSide isLeftSide seg.1 seg.2 q) →
    bottom ≤ q.y → q.y ≤ top → (∀ p ∈ chain.head?, p.y ≤ q.y) →
    (∀ p ∈ chain.getLast?, q.y ≤ p.y) → Before (outwardSign isLeftSide) q.x v

/-- `Returns Q x`: the computation `x` returns, and its result satisfies `Q`. -/
def Returns {α : Type} (Q : α → Prop) (x : Except Failure α) : Prop :=
  ∃ a, x = .ok a ∧ Q a

/-- What the row rasterizer of the mesh iterator reads and writes when it works on one
side: the members it only reads, the segment index, the direction flag and the column of
the other side, and the segment index, the direction flag and the column of the side. -/
structure RowView where
  chains : Arr2 (List (Vec2 ℚ))
  cellDimensions : Vec3 ℚ
  lineBottom : ℚ
  lineTop : ℚ
  row : ((Box Int × Vec3 Int × Vec3 (Fin 3) × Vec3 Int × Bool) × Int) × Int
  maxRow : Int
  otherIndex : Nat
  otherOutward : Bool
  otherColumn : Int
  index : Nat
  outward : Bool
  column : Int

/-- The column that `setSliceRowPoint<isLeftSide>` writes: the start column of the row on
the left side, the max column of the row on the right side. -/
def ConvexMeshIteratorDebug.column (isLeftSide : Bool) (s : ConvexMeshIteratorDebug) : Int :=
  if isLeftSide then s.m_currentPosition.x else s.m_sliceMax.x

/-- The view of the state from the side `isLeftSide`. -/
def ConvexMeshIteratorDebug.rowView (isLeftSide : Bool) (s : ConvexMeshIteratorDebug) :
    RowView :=
  { chains := s.m_sliceRasterizeEdges
    cellDimensions := s.m_cellDimensions
    lineBottom := s.m_lineBottom
    lineTop := s.m_lineTop
    row := s.rowOf
    maxRow := s.m_sliceMax.y
    otherIndex := s.m_activeSliceEdgeIndex.get (!isLeftSide)
    otherOutward := s.m_activeSliceEdgeOutward.get (!isLeftSide)
    otherColumn := s.column (!isLeftSide)
    index := s.m_activeSliceEdgeIndex.get isLeftSide
    outward := s.m_activeSliceEdgeOutward.get isLeftSide
    column := s.column isLeftSide }

/-- The part of the view that the row rasterizer does not write when it works on the
side. -/
def RowView.frame (v : RowView) : RowView :=
  { v with index := 0, outward := false, column := 0 }

/-- The active segment of the side lies in the chain, and the direction flag fits it: a
segment flagged outward does not lead inward, one flagged inward does not lead outward. -/
def RowView.Sound (isLeftSide : Bool) (v : RowView) : Prop :=
  v.index + 2 ≤ (v.chains.get isLeftSide).length
    ∧ ∀ a p, (v.chains.get isLeftSide).get? v.index = some a →
      (v.chains.get isLeftSide).get? (v.index + 1) = some p →
      if v.outward then Before (outwardSign isLeftSide) a.x p.x
      else Before (outwardSign isLeftSide) p.x a.x

/-- The column of the side is the cell of a column coordinate that covers the row band. -/
def RowView.Placed (isLeftSide : Bool) (v : RowView) : Prop :=
  ∃ x, v.column = grid x v.cellDimensions.x
    ∧ Covers isLeftSide (v.chains.get isLeftSide) v.lineBottom v.lineTop x

/-- What an inward run of the row rasterizer does between `s` and `r`: it moves the
segment index of the side along the chain and writes nothing else of the view. -/
def ConvexMeshIteratorDebug.InwardStep (b : Bool) (s r : ConvexMeshIteratorDebug) : Prop :=
  (r.rowView b).frame = (s.rowView b).frame ∧ (r.rowView b).Sound b
    ∧ (r.rowView b).outward = false ∧ (r.rowView b).column = (s.rowView b).column

/-- What `advanceOutwardLine` and `preAdvanceOutwardLine` do between `s` and their result:
the frame is kept and the segment stays sound; a call that asks for no further pass has
placed the column, one that asks for another pass has left the side on an outward segment
further up the chain or where it was. -/
def ConvexMeshIteratorDebug.OutwardStep (b : Bool) (s : ConvexMeshIteratorDebug)
    (r : Bool × ConvexMeshIteratorDebug) : Prop :=
  (r.2.rowView b).frame = (s.rowView b).frame ∧ (r.2.rowView b).Sound b
    ∧ (r.1 = false → (r.2.rowView b).Placed b)
    ∧ (r.1 = true → (r.2.rowView b).outward = true)

/-- What the row rasterizer has done on the side when it is through with a row: the frame
is kept, the segment is sound, and the column is placed. -/
def ConvexMeshIteratorDebug.RowStep (b : Bool) (s r : ConvexMeshIteratorDebug) : Prop :=
  (r.rowView b).frame = (s.rowView b).frame ∧ (r.rowView b).Sound b ∧ (r.rowView b).Placed b

/-- The row band of the state: the chains bound a convex polygon, the cells have a
positive size along the row and the column axis, the band is the one of the cursor's row,
and the cursor's row lies between the row of the first and the row of the last point of
the right chain, the latter being `m_sliceMax.y`. -/
def ConvexMeshIteratorDebug.RowBand (s : ConvexMeshIteratorDebug) : Prop :=
  BoundConvexPolygon s.m_sliceRasterizeEdges
    ∧ 0 < s.m_cellDimensions.x ∧ 0 < s.m_cellDimensions.y
    ∧ s.m_lineBottom = s.m_currentPosition.y * s.m_cellDimensions.y
    ∧ s.m_lineTop = s.m_lineBottom + s.m_cellDimensions.y
    ∧ (∀ p ∈ (s.chain RIGHT_SIDE).head?, grid p.y s.m_cellDimensions.y ≤ s.m_currentPosition.y)
    ∧ (∀ p ∈ (s.chain RIGHT_SIDE).getLast?, s.m_sliceMax.y = grid p.y s.m_cellDimensions.y)
    ∧ s.m_currentPosition.y ≤ s.m_sliceMax.y

/-- The state of the row rasterizer on a row of a slice: the row band, sound segments on
both sides, and a start column that does not exceed the max column. -/
def ConvexMeshIteratorDebug.InRow (s : ConvexMeshIteratorDebug) : Prop :=
  s.RowBand ∧ (∀ b : Bool, (s.rowView b).Sound b) ∧ s.m_currentPosition.x ≤ s.m_sliceMax.x

/-- `forward()` called `count` times in a row. -/
def ConvexMeshIteratorDebug.forwardTimes :
    Nat → ConvexMeshIteratorDebug → Except Failure ConvexMeshIteratorDebug
  | 0, s => .ok s
  | count + 1, s => do
    let r ← s.forward
    forwardTimes count r.2

/-- The states of a slice: the state `start` that `setupSlice` has left, and every state
that calls of `forward()` reach from it before a call is made on the max column of the
max row, which is the call that leaves the slice. -/
inductive ConvexMeshIteratorDebug.WithinSlice (start : ConvexMeshIteratorDebug) :
    ConvexMeshIteratorDebug → Prop
  | first : WithinSlice start start
  | next (s r : ConvexMeshIteratorDebug) (again : Bool) : WithinSlice start s →
      ¬ (s.m_currentPosition.x = s.m_sliceMax.x ∧ s.m_currentPosition.y = s.m_sliceMax.y) →
      s.forward = .ok (again, r) → WithinSlice start r

/-! ## BitmapFont

`Graphics/serial/BitmapFont.h` and `Logging/logging.h` are not among the source files; the
members and helpers that `BitmapFont.cpp` uses are modelled from their uses there. -/

/-- A `glm::vec4`. -/
structure Vec4 (α : Type) where
  x : α
  y : α
  z : α
  w : α
deriving DecidableEq, Repr

/-- Reading `text[i]` of a `const char *` that points to a character array ending in a
NUL: `text` holds the characters of the array before that final NUL (as character codes).
The read gives the character, the final NUL at `i = text.length`, and no value outside the
array. -/
def charAt (text : List Nat) (i : Nat) : Except Failure Nat :=
  match text.get? i with
  | some c => .ok c
  | none => if i = text.length then .ok 0 else .error .outOfRange

/-- `isdigit` of the C library for a character code. -/
def isdigit (c : Nat) : Bool :=
  decide (48 ≤ c ∧ c ≤ 57)

/-- The local `enum class ParseState` of `getColorCode`. -/
inductive ParseState where
  | BEGIN
  | CARAT
deriving DecidableEq, Repr

/-- The inner `switch(*currText)` of `getColorCode`: the colour written to `destination`
for the digits '0' to '9'. -/
def colorOfDigit (c : Nat) (destination : Vec4 ℚ) : Vec4 ℚ :=
  if c = 48 then ⟨0, 0, 0, 1⟩
  else if c = 49 then ⟨1, 0, 0, 1⟩
  else if c = 50 then ⟨0, 1, 0, 1⟩
  else if c = 51 then ⟨1, 1, 0, 1⟩
  else if c = 52 then ⟨0, 0, 1, 1⟩
  else if c = 53 then ⟨0, 1, 1, 1⟩
  else if c = 54 then ⟨1, 0, 1, 1⟩
  else if c = 55 then ⟨1, 1, 1, 1⟩
  else if c = 56 then ⟨1 / 2, 0, 1 / 2, 1⟩
  else if c = 57 then ⟨1 / 2, 1 / 2, 1 / 2, 1⟩
  else destination

/-- The `while(*currText)` loop of `BitmapFont::getColorCode`. Pointers into the text are
offsets from its start: `start` is the argument `text`, `currText` the running pointer;
the result is the returned pointer and `destination` after the call. -/
def getColorCodeLoop (fuel : Nat) (text : List Nat) (start : Nat) (parseState : ParseState)
    (currText : Nat) (destination : Vec4 ℚ) : Except Failure (Nat × Vec4 ℚ) :=
  match fuel with
  | 0 => .error .outOfFuel
  | fuel + 1 => do
    let c ← charAt text currText
    if c = 0 then
      pure (start, destination)
    else
      match parseState with
      | .BEGIN =>
        if c = 94 then
          getColorCodeLoop fuel text start .CARAT (currText + 1) destination
        else
          pure (start, destination)
      | .CARAT =>
        if c = 94 then
          pure (currText, destination)
        else if !isdigit c then
          pure (start, destination)
        else
          pure (currText + 1, colorOfDigit c destination)

/-- `BitmapFont::getColorCode(text + start, destination)`. The loop leaves the state
`BEGIN` in its first pass and returns from the state `CARAT`, so three passes bound it. -/
def getColorCode (text : List Nat) (start : Nat) (destination : Vec4 ℚ) :
    Except Failure (Nat × Vec4 ℚ) :=
  getColorCodeLoop 3 text start .BEGIN start destination

/-- Modelled from the spec: `BitmapFont` of Graphics/serial/BitmapFont.h, which is missing
and which the spec leaves out of scope; the members are the ones `getCharLocation` reads:
whether `m_state` is `RES_LOADED`, `getLineHeight()`, `getSpacingHorz()` and
`getCharData(c).m_advance` for each character. -/
structure BitmapFont where
  loaded : Bool
  m_lineHeight : ℚ
  m_spacingHorz : ℚ
  advance : Nat → ℚ

/-- The `while` loop of `BitmapFont::getCharLocation`: the location and `currPos` when it
ends. Every pass moves `currPos` up by at least one while `currPos < charPos`. -/
def getCharLocationLoop (fuel : Nat) (font : BitmapFont) (text : List Nat) (charPos : Nat)
    (currPos : Nat) (startLocation : Vec2 ℚ) : Except Failure (Vec2 ℚ × Nat) :=
  match fuel with
  | 0 => .error .outOfFuel
  | fuel + 1 => do
    let c ← charAt text currPos
    if c ≠ 0 ∧ currPos < charPos then
      let newPos ← getColorCode text currPos ⟨0, 0, 0, 0⟩
      let currPos := newPos.1
      let c ← charAt text currPos
      let startLocation : Vec2 ℚ :=
        if c = 10 then ⟨0, startLocation.y - font.m_lineHeight⟩
        else if c = 32 then ⟨startLocation.x + 5, startLocation.y⟩
        else if c = 9 then ⟨startLocation.x + font.m_spacingHorz * 4, startLocation.y⟩
        else ⟨startLocation.x + font.advance c, startLocation.y⟩
      getCharLocationLoop fuel font text charPos (currPos + 1) startLocation
    else
      pure (startLocation, currPos)

/-- `BitmapFont::getCharLocation`: the returned location and `currPos` after the call.
`LOG_FATAL_ERROR` of the missing logging.h is taken not to return. -/
def getCharLocation (font : BitmapFont) (text : List Nat) (charPos : Nat) (currPos : Nat)
    (startLocation : Vec2 ℚ) : Except Failure (Vec2 ℚ × Nat) :=
  if !font.loaded then
    .error .runtimeError
  else
    getCharLocationLoop (charPos + 1) font text charPos currPos startLocation

/-- `strlen` of a character array: the number of characters before the first NUL. -/
def strlen (text : List Nat) : Nat :=
  (text.takeWhile (fun c => decide (c ≠ 0))).length

/-- A loaded font whose characters all advance by 7. -/
def plainFont : BitmapFont := ⟨true, 10, 2, fun _ => 7⟩

/-! ## Properties of `getCurrentPosition`, `atEnd` and `forward` of FrustumIterator -/

theorem sortDimensions_distinct (v : Vec3 ℚ) :
    (sortDimensions v).x ≠ (sortDimensions v).y ∧ (sortDimensions v).x ≠ (sortDimensions v).z
      ∧ (sortDimensions v).y ≠ (sortDimensions v).z := by
  unfold sortDimensions
  simp only
  split_ifs <;> decide

/-- C5, the code at the failing input: the frustum `smallFrustum` lies in the first of the
two slices of the range. After construction the cursor is on the max column of the max row
and `atEnd()` is false; `forward()` then returns `true` although `atEnd()` is true after the
call (the claim has it return the negation, `false`). -/
theorem frustum_forward_true_when_exhausted :
    (FrustumIterator.construct 1 smallFrustum ⟨⟨0, 0, 0⟩, ⟨1, 3, 3⟩⟩ ⟨1, 1, 1⟩).map
      (fun s => (s.m_currentPosition.get (s.m_dimensionOrder.get X_DIM) == s.m_sliceMax.x,
        s.m_currentPosition.get (s.m_dimensionOrder.get Y_DIM) == s.m_sliceMax.y,
        s.atEnd, s.forward.map (fun r => (r.1, r.2.atEnd))))
      = .ok (true, true, false, .ok (true, true)) := by
  decide!

/-- C6, the code at the failing input: the frustum `smallFrustum` lies in the first of the
three slices of the range. `forward()`, called on the last cell of that slice, advances one
slice only: when it returns, both clipped chains are empty and `atEnd()` is false. -/
theorem frustum_forward_stops_on_empty_slice :
    (FrustumIterator.construct 1 smallFrustum ⟨⟨0, 0, 0⟩, ⟨2, 3, 3⟩⟩ ⟨1, 1, 1⟩).map
      (fun s => (s.m_currentPosition.get (s.m_dimensionOrder.get X_DIM) == s.m_sliceMax.x,
        s.m_currentPosition.get (s.m_dimensionOrder.get Y_DIM) == s.m_sliceMax.y,
        s.forward.map (fun r => (r.1, r.2.m_sliceRasterizeEdges, r.2.atEnd))))
      = .ok (true, true, .ok (false, ⟨[], []⟩, false)) := by
  decide!

/-- C7: when the cursor's column differs from the row's max column, `forward()` returns
`true`, adds the direction sign of the column axis to the cursor's column coordinate and
leaves the cursor's row and slice coordinates and every other member (slice maxima, row
band, active-edge tables, ...) as they were. The dimension order is the one the
constructor computes, `sortDimensions` of the frustum's direction. -/
theorem frustum_forward_column_step (s : FrustumIterator)
    (hOrder : s.m_dimensionOrder = sortDimensions s.m_frustum.m_direction)
    (hColumn : s.m_currentPosition.get (s.m_dimensionOrder.get X_DIM) ≠ s.m_sliceMax.x) :
    ∃ s', s.forward = .ok (true, s') ∧
      s'.m_currentPosition.get (s.m_dimensionOrder.get X_DIM)
        = s.m_currentPosition.get (s.m_dimensionOrder.get X_DIM)
          + s.m_directionSign.get (s.m_dimensionOrder.get X_DIM) ∧
      s'.m_currentPosition.get (s.m_dimensionOrder.get Y_DIM)
        = s.m_currentPosition.get (s.m_dimensionOrder.get Y_DIM) ∧
      s'.m_currentPosition.get (s.m_dimensionOrder.get SLICE_DIM)
        = s.m_currentPosition.get (s.m_dimensionOrder.get SLICE_DIM) ∧
      s' = { s with m_currentPosition := s'.m_currentPosition } := by
  have hd := sortDimensions_distinct s.m_frustum.m_direction
  rw [← hOrder] at hd
  obtain ⟨hxy, hxz, hyz⟩ := hd
  let c := Vec3.set s.m_currentPosition (s.m_dimensionOrder.get X_DIM)
    (s.m_currentPosition.get (s.m_dimensionOrder.get X_DIM)
      + s.m_directionSign.get (s.m_dimensionOrder.get X_DIM))
  refine ⟨{ s with m_currentPosition := c },
    by simp only [FrustumIterator.forward, if_neg hColumn, c], ?_, ?_, ?_, rfl⟩
  all_goals
    simp only [c]
    generalize s.m_currentPosition = c at *
    generalize s.m_directionSign = g at *
    generalize s.m_dimensionOrder = o at *
    rcases o with ⟨ox, oy, oz⟩
    simp only [X_DIM, Y_DIM, SLICE_DIM, Vec3.get] at *
    fin_cases ox <;> fin_cases oy <;> fin_cases oz <;> simp_all [Vec3.get, Vec3.set]

/-- C7 at the iterator built for `bigFrustum`: its cursor column is 3 and the row's max
column is 1; the column axis is z, swept downwards, and `forward()` moves the cursor to
column 2. -/
theorem frustum_forward_column_step_witness :
    ∃ s', (FrustumIterator.built bigFrustum ⟨⟨0, 0, 0⟩, ⟨3, 3, 3⟩⟩ ⟨1, 1, 1⟩).forward
        = .ok (true, s') ∧ s'.m_currentPosition = ⟨0, 0, 2⟩ :=
  let ⟨s', hForward, _⟩ := frustum_forward_column_step
    (FrustumIterator.built bigFrustum ⟨⟨0, 0, 0⟩, ⟨3, 3, 3⟩⟩ ⟨1, 1, 1⟩) (by decide!) (by decide!)
  have h : (FrustumIterator.built bigFrustum ⟨⟨0, 0, 0⟩, ⟨3, 3, 3⟩⟩ ⟨1, 1, 1⟩).forward.map
      (fun r => r.2.m_currentPosition) = .ok ⟨0, 0, 2⟩ := by decide!
  ⟨s', hForward, by rw [hForward] at h; exact Except.ok.inj h⟩

/-- C8, the code at the failing input: `downwardFrustum` spans three slices of the range
along the slice axis z, which is swept downwards from cell 3 to cell 0. Right after
construction the cursor is on the max column of the max row of the first slice, slice
coordinate 3, and `atEnd()` is already true, because 3 is compared with the range end 0 in
the direction `m_directionSign[SLICE_DIM]` of the x axis (+1); compared in the slice axis's
own direction (-1) the slice coordinate has not reached the range end. -/
theorem frustum_atEnd_uses_sign_of_x_axis :
    (FrustumIterator.construct 1 downwardFrustum ⟨⟨0, 0, 0⟩, ⟨3, 3, 3⟩⟩ ⟨1, 1, 1⟩).map
      (fun s => (s.m_dimensionOrder.get SLICE_DIM,
        s.m_directionSign.get (s.m_dimensionOrder.get SLICE_DIM), s.m_directionSign.get SLICE_DIM,
        s.m_currentPosition.get (s.m_dimensionOrder.get SLICE_DIM),
        s.m_range.m_max.get (s.m_dimensionOrder.get SLICE_DIM),
        s.atEnd,
        s.m_currentPosition.get (s.m_dimensionOrder.get X_DIM) == s.m_sliceMax.x
          && s.m_currentPosition.get (s.m_dimensionOrder.get Y_DIM) == s.m_sliceMax.y
          && geq (s.m_currentPosition.get (s.m_dimensionOrder.get SLICE_DIM))
              (s.m_range.m_max.get (s.m_dimensionOrder.get SLICE_DIM))
              (s.m_directionSign.get (s.m_dimensionOrder.get SLICE_DIM))))
      = .ok (2, -1, 1, 3, 0, true, false) := by
  decide!

/-! ## What the steps of the mesh iterator leave unchanged -/

section KeepsLemmas
variable {σ τ α β : Type} {π : σ → τ} {proj : α → σ} {s : σ}

theorem keeps_ok {a : α} (h : π (proj a) = π s) : Keeps π proj s (.ok a) := by
  intro b hb; cases hb; exact h

theorem keeps_pure {a : α} (h : π (proj a) = π s) : Keeps π proj s (Pure.pure a) := keeps_ok h

theorem keeps_error {e : Failure} : Keeps π proj s (.error e : Except Failure α) := by
  intro b hb; cases hb

theorem keeps_ite {c : Prop} [Decidable c] {t e : Except Failure α}
    (ht : Keeps π proj s t) (he : Keeps π proj s e) : Keeps π proj s (if c then t else e) := by
  split <;> assumption

theorem keeps_bindVal {x : Except Failure β} {g : β → Except Failure α}
    (h : ∀ b, Keeps π proj s (g b)) : Keeps π proj s (x >>= g) := by
  intro a ha
  cases x with
  | error e => cases ha
  | ok b => exact h b a ha

theorem keeps_bindState {projβ : β → σ} {x : Except Failure β} {g : β → Except Failure α}
    (hx : Keeps π projβ s x) (h : ∀ b, π (projβ b) = π s → Keeps π proj s (g b)) :
    Keeps π proj s (x >>= g) := by
  intro a ha
  cases x with
  | error e => cases ha
  | ok b => exact h b (hx b rfl) a ha

theorem keeps_rebase {s1 : σ} {x : Except Failure α} (h1 : π s1 = π s) (h : Keeps π proj s1 x) :
    Keeps π proj s x := by
  intro a ha; rw [h a ha, h1]

theorem keeps_via {s1 : σ} {x : Except Failure α} (h : Keeps π proj s1 x) (h1 : π s1 = π s) :
    Keeps π proj s x := keeps_rebase h1 h

theorem keeps_foldlM {γ : Type} {f : α → γ → Except Failure α} {a0 : α}
    (step : ∀ a c, Keeps π proj (proj a) (f a c)) (l : List γ) (h0 : π (proj a0) = π s) :
    Keeps π proj s (l.foldlM f a0) := by
  induction l generalizing a0 with
  | nil => intro a ha; cases ha; exact h0
  | cons c l ih =>
    rw [List.foldlM_cons]
    exact keeps_bindState (keeps_rebase h0 (step a0 c)) (fun b hb => ih hb)

end KeepsLemmas

/-! ## Two runs that differ only in the grid members -/

section SimLemmas
variable {α β α' β' γ : Type} {R : α → β → Prop}

theorem sim_ok {a : α} {b : β} (h : R a b) : Sim R (.ok a) (.ok b) := h

theorem sim_pure {a : α} {b : β} (h : R a b) : Sim R (Pure.pure a) (Pure.pure b) := h

theorem sim_error {e : Failure} : Sim R (.error e) (.error e) := rfl

theorem sim_ite {c : Prop} [Decidable c] {x1 x2 : Except Failure α} {y1 y2 : Except Failure β}
    (h1 : Sim R x1 y1) (h2 : Sim R x2 y2) :
    Sim R (if c then x1 else x2) (if c then y1 else y2) := by
  split <;> assumption

theorem sim_bindVal {x : Except Failure γ} {f : γ → Except Failure α} {g : γ → Except Failure β}
    (h : ∀ c, Sim R (f c) (g c)) : Sim R (x >>= f) (x >>= g) := by
  cases x with
  | error e => rfl
  | ok c => exact h c

theorem sim_bind {R' : α' → β' → Prop} {x : Except Failure α'} {y : Except Failure β'}
    {f : α' → Except Failure α} {g : β' → Except Failure β}
    (hxy : Sim R' x y) (h : ∀ a b, R' a b → Sim R (f a) (g b)) : Sim R (x >>= f) (y >>= g) := by
  cases x with
  | error e =>
    cases y with
    | error e' => exact hxy
    | ok b => exact hxy.elim
  | ok a =>
    cases y with
    | error e' => exact hxy.elim
    | ok b => exact h a b hxy

theorem sim_foldlM {f : α → γ → Except Failure α} {g : β → γ → Except Failure β}
    (step : ∀ a b c, R a b → Sim R (f a c) (g b c)) (l : List γ) :
    ∀ a b, R a b → Sim R (l.foldlM f a) (l.foldlM g b) := by
  induction l with
  | nil => intro a b h; exact h
  | cons c l ih =>
    intro a b h
    rw [List.foldlM_cons, List.foldlM_cons]
    exact sim_bind (step a b c h) ih

theorem sim_eq_ok {x : Except Failure α} {y : Except Failure β} {a : α} (h : Sim R x y)
    (hx : x = .ok a) : ∃ b, y = .ok b ∧ R a b := by
  subst hx
  cases y with
  | error e => exact h.elim
  | ok b => exact ⟨b, rfl, h⟩

theorem sim_map {α β α' β' : Type} {R : α → β → Prop} {R' : α' → β' → Prop}
    {x : Except Failure α'} {y : Except Failure β'} {f : α' → α} {g : β' → β}
    (hxy : Sim R' x y) (h : ∀ a b, R' a b → R (f a) (g b)) : Sim R (x.map f) (y.map g) := by
  cases x with
  | error e =>
    cases y with
    | error e' => exact hxy
    | ok b => exact hxy.elim
  | ok a =>
    cases y with
    | error e' => exact hxy.elim
    | ok b => exact h a b hxy

end SimLemmas

/-! ## Two runs that differ only in the order of the slice points -/

section AlikeLemmas
variable {α β α' β' γ : Type} {R : α → β → Prop}

theorem alike_ok {a : α} {b : β} (h : R a b) : Alike R (.ok a) (.ok b) := h

theorem alike_pure {a : α} {b : β} (h : R a b) : Alike R (Pure.pure a) (Pure.pure b) := h

theorem alike_error {e e' : Failure} : Alike R (.error e) (.error e') := trivial

theorem alike_of_sim {x : Except Failure α} {y : Except Failure β} (h : Sim R x y) :
    Alike R x y := by
  cases x with
  | error e =>
    cases y with
    | error e' => trivial
    | ok b => exact h.elim
  | ok a =>
    cases y with
    | error e' => exact h.elim
    | ok b => exact h

theorem alike_ite_iff {c c' : Prop} [Decidable c] [Decidable c'] {x1 x2 : Except Failure α}
    {y1 y2 : Except Failure β} (hc : c ↔ c') (h1 : Alike R x1 y1) (h2 : Alike R x2 y2) :
    Alike R (if c then x1 else x2) (if c' then y1 else y2) := by
  by_cases h : c
  · rw [if_pos h, if_pos (hc.mp h)]; exact h1
  · rw [if_neg h, if_neg (fun h' => h (hc.mpr h'))]; exact h2

theorem alike_ite {c : Prop} [Decidable c] {x1 x2 : Except Failure α} {y1 y2 : Except Failure β}
    (h1 : Alike R x1 y1) (h2 : Alike R x2 y2) :
    Alike R (if c then x1 else x2) (if c then y1 else y2) := by
  split <;> assumption

theorem alike_bindVal {x : Except Failure γ} {f : γ → Except Failure α} {g : γ → Except Failure β}
    (h : ∀ c, Alike R (f c) (g c)) : Alike R (x >>= f) (x >>= g) := by
  cases x with
  | error e => trivial
  | ok c => exact h c

theorem alike_bind {R' : α' → β' → Prop} {x : Except Failure α'} {y : Except Failure β'}
    {f : α' → Except Failure α} {g : β' → Except Failure β}
    (hxy : Alike R' x y) (h : ∀ a b, R' a b → Alike R (f a) (g b)) :
    Alike R (x >>= f) (y >>= g) := by
  cases x with
  | error e =>
    cases y with
    | error e' => trivial
    | ok b => exact hxy.elim
  | ok a =>
    cases y with
    | error e' => exact hxy.elim
    | ok b => exact h a b hxy

theorem alike_map {R' : α' → β' → Prop} {x : Except Failure α'} {y : Except Failure β'}
    {f : α' → α} {g : β' → β}
    (hxy : Alike R' x y) (h : ∀ a b, R' a b → R (f a) (g b)) : Alike R (x.map f) (y.map g) := by
  cases x with
  | error e =>
    cases y with
    | error e' => trivial
    | ok b => exact hxy.elim
  | ok a =>
    cases y with
    | error e' => exact hxy.elim
    | ok b => exact h a b hxy

theorem alike_foldlM {f : α → γ → Except Failure α} {g : β → γ → Except Failure β}
    (step : ∀ a b c, R a b → Alike R (f a c) (g b c)) (l : List γ) :
    ∀ a b, R a b → Alike R (l.foldlM f a) (l.foldlM g b) := by
  induction l with
  | nil => intro a b h; exact h
  | cons c l ih =>
    intro a b h
    rw [List.foldlM_cons, List.foldlM_cons]
    exact alike_bind (step a b c h) ih

theorem alike_trans {R1 : α → α → Prop} (hR : ∀ a b c, R1 a b → R1 b c → R1 a c)
    {x y z : Except Failure α} (hxy : Alike R1 x y) (hyz : Alike R1 y z) : Alike R1 x z := by
  cases x with
  | error e =>
    cases y with
    | error e' =>
      cases z with
      | error e'' => trivial
      | ok c => exact hyz.elim
    | ok b => exact hxy.elim
  | ok a =>
    cases y with
    | error e' => exact hxy.elim
    | ok b =>
      cases z with
      | error e'' => exact hyz.elim
      | ok c => exact hR a b c hxy hyz

end AlikeLemmas

theorem samePoints_refl (a : Arr2 (List (Vec2 ℚ))) : SamePoints a a :=
  ⟨List.Perm.refl _, List.Perm.refl _⟩

theorem samePoints_trans {a b c : Arr2 (List (Vec2 ℚ))} (h1 : SamePoints a b)
    (h2 : SamePoints b c) : SamePoints a c :=
  ⟨h1.1.trans h2.1, h1.2.trans h2.2⟩

theorem samePoints_push {a b : Arr2 (List (Vec2 ℚ))} (h : SamePoints a b) (i : Bool)
    (p : Vec2 ℚ) : SamePoints (a.set i (a.get i ++ [p])) (b.set i (b.get i ++ [p])) := by
  cases i
  · exact ⟨h.1.append_right _, h.2⟩
  · exact ⟨h.1, h.2.append_right _⟩

theorem samePoints_clear {a b : Arr2 (List (Vec2 ℚ))} (h : SamePoints a b) (i : Bool) :
    SamePoints (a.set i []) (b.set i []) := by
  cases i
  · exact ⟨List.Perm.refl _, h.2⟩
  · exact ⟨h.1, List.Perm.refl _⟩


namespace ConvexMeshIteratorDebug

theorem setSliceRowPoint_row (b : Bool) (x : ℚ) (s : ConvexMeshIteratorDebug) :
    (s.setSliceRowPoint b x).rowOf = s.rowOf := by
  unfold setSliceRowPoint; cases b <;> rfl

theorem advanceInwardLineLater_row (b : Bool) (s : ConvexMeshIteratorDebug) :
    Keeps rowOf Prod.snd s (advanceInwardLineLater b s) := by
  unfold advanceInwardLineLater
  apply keeps_ite
  · exact keeps_pure rfl
  · apply keeps_bindVal; intro n
    apply keeps_ite <;> exact keeps_pure rfl

theorem whileAdvanceInwardLine_row (b : Bool) (fuel : Nat) : ∀ (s : ConvexMeshIteratorDebug),
    Keeps rowOf id s (whileAdvanceInwardLine fuel b s) := by
  induction fuel with
  | zero => intro s; exact keeps_error
  | succ n ih =>
    intro s
    unfold whileAdvanceInwardLine
    apply keeps_bindState (advanceInwardLineLater_row b s)
    rintro ⟨again, s1⟩ h1
    apply keeps_ite
    · exact keeps_rebase h1 (ih s1)
    · exact keeps_pure h1

theorem advanceInwardLineFirst_row (b : Bool) (s : ConvexMeshIteratorDebug) :
    Keeps rowOf Prod.snd s (advanceInwardLineFirst b s) := by
  unfold advanceInwardLineFirst
  apply keeps_ite
  · exact keeps_pure rfl
  · apply keeps_bindVal; intro n
    apply keeps_ite
    · exact keeps_pure rfl
    · apply keeps_bindState (whileAdvanceInwardLine_row b _ _)
      intro s1 h1
      exact keeps_pure h1

theorem whileAdvanceInwardLineFirst_row (b : Bool) (fuel : Nat) :
    ∀ (s : ConvexMeshIteratorDebug), Keeps rowOf id s (whileAdvanceInwardLineFirst fuel b s) := by
  induction fuel with
  | zero => intro s; exact keeps_error
  | succ n ih =>
    intro s
    unfold whileAdvanceInwardLineFirst
    apply keeps_bindState (advanceInwardLineFirst_row b s)
    rintro ⟨again, s1⟩ h1
    apply keeps_ite
    · exact keeps_rebase h1 (ih s1)
    · exact keeps_pure h1

theorem ite_setSliceRowPoint_row (c : Prop) [Decidable c] (b : Bool) (x : ℚ)
    (s : ConvexMeshIteratorDebug) :
    (if c then s.setSliceRowPoint b x else s).rowOf = s.rowOf := by
  split
  · exact setSliceRowPoint_row _ _ _
  · rfl

theorem advanceOutwardLine_row (b : Bool) (s : ConvexMeshIteratorDebug) :
    Keeps rowOf Prod.snd s (advanceOutwardLine b s) := by
  unfold advanceOutwardLine
  apply keeps_ite
  · apply keeps_bindVal; intro p
    exact keeps_pure (setSliceRowPoint_row _ _ _)
  · apply keeps_bindVal; intro pb
    apply keeps_bindVal; intro pa
    apply keeps_bindVal; intro n
    have hs := ite_setSliceRowPoint_row ((!geq pb.x pa.x (if b then -1 else 1)) = true) b pa.x
      { s with
        m_activeSliceEdgeIndex := s.m_activeSliceEdgeIndex.set b (s.m_activeSliceEdgeIndex.get b + 1)
        m_activeSliceEdgeOutward :=
          s.m_activeSliceEdgeOutward.set b (geq pb.x pa.x (if b then -1 else 1)) }
    apply keeps_ite
    · apply keeps_ite
      · apply keeps_bindVal; intro x
        exact keeps_pure ((setSliceRowPoint_row _ _ _).trans hs)
      · exact keeps_pure hs
    · apply keeps_ite
      · apply keeps_bindState (keeps_rebase hs (whileAdvanceInwardLine_row b _ _))
        intro s1 h1
        exact keeps_pure h1
      · exact keeps_pure hs

theorem whileAdvanceOutwardLine_row (b : Bool) (fuel : Nat) :
    ∀ (s : ConvexMeshIteratorDebug), Keeps rowOf id s (whileAdvanceOutwardLine fuel b s) := by
  induction fuel with
  | zero => intro s; exact keeps_error
  | succ n ih =>
    intro s
    unfold whileAdvanceOutwardLine
    apply keeps_bindState (advanceOutwardLine_row b s)
    rintro ⟨again, s1⟩ h1
    apply keeps_ite
    · exact keeps_rebase h1 (ih s1)
    · exact keeps_pure h1

theorem preAdvanceOutwardLine_row (b : Bool) (s : ConvexMeshIteratorDebug) :
    Keeps rowOf Prod.snd s (preAdvanceOutwardLine b s) := by
  unfold preAdvanceOutwardLine
  apply keeps_bindVal; intro n
  apply keeps_ite
  · apply keeps_bindVal; intro pa
    apply keeps_bindVal; intro pb
    apply keeps_bindVal; intro x
    exact keeps_pure (setSliceRowPoint_row _ _ _)
  · exact keeps_pure rfl

theorem setupSliceHelper_row (b : Bool) (s : ConvexMeshIteratorDebug) :
    Keeps rowOf id s (setupSliceHelper b s) := by
  unfold setupSliceHelper
  apply keeps_ite
  · exact keeps_error
  apply keeps_bindVal; intro p1
  apply keeps_bindVal; intro p0
  apply keeps_ite
  · apply keeps_bindState (keeps_via (preAdvanceOutwardLine_row b _) rfl)
    rintro ⟨again, s1⟩ h1
    apply keeps_ite
    · exact keeps_rebase h1 (whileAdvanceOutwardLine_row b _ s1)
    · exact keeps_pure h1
  · exact keeps_via (whileAdvanceInwardLineFirst_row b _ _) (setSliceRowPoint_row _ _ _)

theorem advanceRowHelper_row (b : Bool) (s : ConvexMeshIteratorDebug) :
    Keeps rowOf id s (advanceRowHelper b s) := by
  unfold advanceRowHelper
  apply keeps_ite
  · apply keeps_ite
    · apply keeps_ite
      · apply keeps_bindVal; intro p
        exact keeps_pure (setSliceRowPoint_row _ _ _)
      · exact keeps_via (whileAdvanceOutwardLine_row b _ _) rfl
    · apply keeps_ite
      · exact keeps_error
      · apply keeps_bindVal; intro pa
        apply keeps_bindVal; intro pb
        apply keeps_bindVal; intro x
        apply keeps_ite
        · exact keeps_pure (setSliceRowPoint_row _ _ _)
        · exact keeps_via (whileAdvanceInwardLine_row b _ _) (setSliceRowPoint_row _ _ _)
  · apply keeps_ite
    · exact keeps_error
    · apply keeps_bindVal; intro pa
      apply keeps_bindVal; intro pb
      apply keeps_bindVal; intro x
      exact keeps_pure (setSliceRowPoint_row _ _ _)

/-- `advanceRow` moves the cursor one row up and keeps slice and fixed members. -/
theorem advanceRow_row (s : ConvexMeshIteratorDebug) :
    Keeps rowOf id
      { s with m_currentPosition := { s.m_currentPosition with y := s.m_currentPosition.y + 1 } }
      (advanceRow s) := by
  unfold advanceRow
  apply keeps_bindState (keeps_via (advanceRowHelper_row RIGHT_SIDE _) rfl)
  intro s1 h1
  exact keeps_rebase h1 (advanceRowHelper_row LEFT_SIDE s1)

theorem addPointRecursive_row (fuel : Nat) : ∀ (point : Nat)
    (acc : ConvexMeshIteratorDebug × EdgeMap Int),
    Keeps rowOf Prod.fst acc.1 (addPointRecursive fuel point acc) := by
  induction fuel with
  | zero => intro point acc; exact keeps_error
  | succ n ih =>
    intro point acc
    unfold addPointRecursive
    refine keeps_foldlM ?_ _ rfl
    intro a edgeIndex
    apply keeps_bindVal; intro checked
    apply keeps_ite
    · exact keeps_pure rfl
    · apply keeps_bindVal; intro edge
      apply keeps_bindVal; intro other
      apply keeps_ite
      · exact keeps_via (ih _ (_, a.2)) rfl
      · exact keeps_pure rfl

theorem addPoint_row (point : Nat) (acc : ConvexMeshIteratorDebug × EdgeMap Int) :
    Keeps rowOf Prod.fst acc.1 (addPoint point acc) := by
  unfold addPoint
  apply keeps_bindVal; intro p
  exact keeps_via (addPointRecursive_row _ point (_, acc.2)) rfl

theorem countDownActiveEdges_row (s : ConvexMeshIteratorDebug) :
    Keeps rowOf Prod.fst s (countDownActiveEdges s) := by
  unfold countDownActiveEdges
  refine keeps_foldlM ?_ _ rfl
  intro a activeEdge
  apply keeps_ite
  · apply keeps_bindVal; intro destPoint
    exact addPoint_row destPoint a
  · exact keeps_pure rfl

theorem collectSlicePoints_row (s : ConvexMeshIteratorDebug) :
    Keeps rowOf id s (collectSlicePoints s) := by
  unfold collectSlicePoints
  refine keeps_foldlM ?_ _ rfl
  intro a activeEdge
  apply keeps_bindVal; intro edge
  apply keeps_bindVal; intro p0
  apply keeps_bindVal; intro p1
  apply keeps_ite
  · exact keeps_error
  · exact keeps_pure rfl

theorem buildSliceHull_row (s : ConvexMeshIteratorDebug) :
    Keeps rowOf id s (buildSliceHull s) := by
  unfold buildSliceHull
  apply keeps_ite
  · exact keeps_error
  · apply keeps_ite
    · exact keeps_error
    · apply keeps_ite
      · exact keeps_error
      · exact keeps_ok rfl

theorem setupSliceRows_slice (s : ConvexMeshIteratorDebug) :
    Keeps sliceOf id s (setupSliceRows s) := by
  unfold setupSliceRows
  apply keeps_bindVal; intro first
  apply keeps_bindVal; intro last
  apply keeps_ite
  · exact keeps_error
  · apply keeps_ite
    · exact keeps_error
    · exact keeps_ok rfl

theorem row_slice {α : Type} {proj : α → ConvexMeshIteratorDebug} {s : ConvexMeshIteratorDebug}
    {x : Except Failure α} (h : Keeps rowOf proj s x) : Keeps sliceOf proj s x := by
  intro a ha
  exact congrArg Prod.fst (h a ha)

theorem slice_fixed {α : Type} {proj : α → ConvexMeshIteratorDebug}
    {s : ConvexMeshIteratorDebug}
    {x : Except Failure α} (h : Keeps sliceOf proj s x) : Keeps fixedOf proj s x := by
  intro a ha
  exact congrArg Prod.fst (h a ha)

theorem setupSlice_slice (s : ConvexMeshIteratorDebug) :
    Keeps sliceOf id s (setupSlice s) := by
  unfold setupSlice
  apply keeps_bindState (row_slice (collectSlicePoints_row s))
  intro s1 h1
  apply keeps_bindState (keeps_rebase h1 (row_slice (buildSliceHull_row s1)))
  intro s2 h2
  apply keeps_bindState (keeps_rebase h2 (setupSliceRows_slice s2))
  intro s3 h3
  apply keeps_bindState (keeps_rebase h3 (row_slice (setupSliceHelper_row LEFT_SIDE s3)))
  intro s4 h4
  apply keeps_ite
  · exact keeps_error
  · apply keeps_bindState (keeps_rebase h4 (row_slice (setupSliceHelper_row RIGHT_SIDE s4)))
    intro s5 h5
    apply keeps_ite
    · exact keeps_error
    · exact keeps_ok h5

/-- `advanceSlice` moves the cursor one slice on and keeps the fixed members. -/
theorem advanceSlice_slice (s : ConvexMeshIteratorDebug) :
    Keeps sliceOf id
      { s with m_currentPosition := { s.m_currentPosition with z := s.m_currentPosition.z + 1 } }
      (advanceSlice s) := by
  unfold advanceSlice
  apply keeps_bindState (keeps_via (row_slice (countDownActiveEdges_row _)) rfl)
  rintro ⟨s1, activeEdgesCopy⟩ h1
  exact keeps_via (setupSlice_slice _) h1

theorem addFirstSlicePoints_row (s : ConvexMeshIteratorDebug) :
    Keeps rowOf id s (addFirstSlicePoints s) := by
  unfold addFirstSlicePoints
  have h : Keeps rowOf Prod.fst s ((List.range s.m_meshEdgeList.m_points.length).foldlM
      (fun (acc : ConvexMeshIteratorDebug × EdgeMap Int) point => do
        let p ← index acc.1.m_meshEdgeList.m_points point
        if p.z < acc.1.m_sliceEnd then addPoint point acc else pure acc)
      (s, s.m_activeEdges)) := by
    refine keeps_foldlM ?_ _ rfl
    intro a point
    apply keeps_bindVal; intro p
    apply keeps_ite
    · exact addPoint_row point a
    · exact keeps_pure rfl
  apply keeps_bindState h
  rintro ⟨s1, activeEdges⟩ h1
  exact keeps_pure h1

theorem construct_fixed (meshEdgeList : MeshEdgeList) (dimensionOrder : Vec3 (Fin 3))
    (directionSign : Vec3 Int) (bounds : Box Int) (cellDimensions : Vec3 ℚ) :
    Keeps fixedOf id (initial meshEdgeList dimensionOrder directionSign bounds cellDimensions)
      (construct meshEdgeList dimensionOrder directionSign bounds cellDimensions) := by
  unfold construct
  apply keeps_bindState (slice_fixed (row_slice (addFirstSlicePoints_row _)))
  intro s1 h1
  exact keeps_rebase h1 (slice_fixed (setupSlice_slice s1))

theorem forward_ok {s s' : ConvexMeshIteratorDebug} {r : Bool} (h : s.forward = .ok (r, s')) :
    (r = true ∧ cursorLt s.m_currentPosition s'.m_currentPosition ∧ s'.fixedOf = s.fixedOf)
      ∨ (r = false ∧ s'.m_atEnd = true) := by
  unfold forward at h
  split at h
  · cases h
  · split at h
    · split at h
      · split at h
        · cases h
          exact Or.inr ⟨rfl, rfl⟩
        · rename_i hz
          cases hs : advanceSlice s with
          | error e => rw [hs] at h; cases h
          | ok s1 =>
            rw [hs] at h
            cases h
            have hk := advanceSlice_slice s s' hs
            have hz' : s'.m_currentPosition.z = s.m_currentPosition.z + 1 := congrArg Prod.snd hk
            exact Or.inl ⟨rfl, Or.inl (by rw [hz']; omega), congrArg Prod.fst hk⟩
      · cases hs : advanceRow s with
        | error e => rw [hs] at h; cases h
        | ok s1 =>
          rw [hs] at h
          cases h
          have hk := advanceRow_row s s' hs
          have hy : s'.m_currentPosition.y = s.m_currentPosition.y + 1 := congrArg Prod.snd hk
          have hz : s'.m_currentPosition.z = s.m_currentPosition.z :=
            congrArg (fun p => p.1.2) hk
          exact Or.inl ⟨rfl, Or.inr ⟨hz.symm, Or.inl (by rw [hy]; omega)⟩,
            congrArg (fun p => p.1.1) hk⟩
    · cases h
      exact Or.inl ⟨rfl, Or.inr ⟨rfl, Or.inr ⟨rfl, by simp⟩⟩, rfl⟩

theorem cursorLt_trans {a b c : Vec3 Int} (hab : cursorLt a b) (hbc : cursorLt b c) :
    cursorLt a c := by
  unfold cursorLt at *
  omega

theorem cursorLt_irrefl (a : Vec3 Int) : ¬ cursorLt a a := by
  unfold cursorLt
  omega

theorem algorithmToWorldCell_congr {s t : ConvexMeshIteratorDebug} (h : t.fixedOf = s.fixedOf) :
    t.algorithmToWorldCell = s.algorithmToWorldCell := by
  have h1 : t.m_bounds = s.m_bounds := congrArg (fun p => p.1) h
  have h2 : t.m_directionSign = s.m_directionSign := congrArg (fun p => p.2.1) h
  have h3 : t.m_dimensionOrderInverse = s.m_dimensionOrderInverse := congrArg (fun p => p.2.2.1) h
  funext c
  unfold algorithmToWorldCell
  rw [h1, h2, h3]

theorem algorithmToWorldCell_injective (s : ConvexMeshIteratorDebug)
    (h : s.m_dimensionOrderInverse.IsPermutation) : Function.Injective s.algorithmToWorldCell := by
  intro c1 c2 hc
  unfold algorithmToWorldCell at hc
  obtain ⟨hxy, hxz, hyz⟩ := h
  generalize s.m_dimensionOrderInverse = inv at *
  rcases inv with ⟨i0, i1, i2⟩
  rcases c1 with ⟨a0, a1, a2⟩
  rcases c2 with ⟨b0, b1, b2⟩
  simp only [Vec3.mk.injEq] at hc
  obtain ⟨h0, h1, h2⟩ := hc
  simp only at hxy hxz hyz
  fin_cases i0 <;> fin_cases i1 <;> fin_cases i2 <;> simp_all [Vec3.get] <;>
    (refine ⟨?_, ?_, ?_⟩ <;> split_ifs at h0 h1 h2 <;> omega)

theorem traverse_cells_of_atEnd (fuel : Nat) (s : ConvexMeshIteratorDebug)
    (h : s.m_atEnd = true) : (traverse fuel s).cells = [] := by
  cases fuel <;> simp [traverse, atEnd, h]

theorem traverse_succ (fuel : Nat) (t : ConvexMeshIteratorDebug) (h : t.m_atEnd = false) :
    traverse (fuel + 1) t =
      match forward t with
      | .error e => ⟨[t.algorithmToWorldCell t.m_currentPosition], some e⟩
      | .ok (_, t') =>
        ⟨t.algorithmToWorldCell t.m_currentPosition :: (traverse fuel t').cells,
          (traverse fuel t').ending⟩ := by
  rw [traverse]
  simp only [atEnd, h, getCurrentPosition, Bool.false_eq_true, if_false]

theorem traverse_cells_increasing (s : ConvexMeshIteratorDebug)
    (hinj : Function.Injective s.algorithmToWorldCell) (fuel : Nat) :
    ∀ t : ConvexMeshIteratorDebug, t.algorithmToWorldCell = s.algorithmToWorldCell →
      (∀ c ∈ (traverse fuel t).cells, ∃ p, c = s.algorithmToWorldCell p
          ∧ (p = t.m_currentPosition ∨ cursorLt t.m_currentPosition p))
        ∧ (traverse fuel t).cells.Nodup := by
  induction fuel with
  | zero => intro t _; simp [traverse]
  | succ n ih =>
    intro t ht
    cases hEnd : t.m_atEnd with
    | true => rw [traverse_cells_of_atEnd _ _ hEnd]; simp
    | false =>
      rw [traverse_succ n t hEnd, ht]
      cases hf : forward t with
      | error e =>
        simp only [List.mem_singleton, List.nodup_cons, List.not_mem_nil, not_false_eq_true,
          List.nodup_nil, and_self, and_true]
        intro c hc
        exact ⟨_, hc, Or.inl rfl⟩
      | ok res =>
        obtain ⟨r, t'⟩ := res
        simp only
        rcases forward_ok hf with ⟨_, hlt, hfix⟩ | ⟨_, hend⟩
        · obtain ⟨hmem, hnodup⟩ := ih t' ((algorithmToWorldCell_congr hfix).trans ht)
          have hgt : ∀ c ∈ (traverse n t').cells, ∃ p, c = s.algorithmToWorldCell p
              ∧ cursorLt t.m_currentPosition p := by
            intro c hc
            obtain ⟨p, hp, hp'⟩ := hmem c hc
            refine ⟨p, hp, ?_⟩
            rcases hp' with rfl | hp'
            · exact hlt
            · exact cursorLt_trans hlt hp'
          refine ⟨?_, ?_⟩
          · intro c hc
            rcases List.mem_cons.mp hc with rfl | hc
            · exact ⟨_, rfl, Or.inl rfl⟩
            · obtain ⟨p, hp, hp'⟩ := hgt c hc
              exact ⟨p, hp, Or.inr hp'⟩
          · refine List.nodup_cons.mpr ⟨?_, hnodup⟩
            intro hc
            obtain ⟨p, hp, hp'⟩ := hgt _ hc
            rw [← hinj hp] at hp'
            exact cursorLt_irrefl _ hp'
        · rw [traverse_cells_of_atEnd _ _ hend]
          simp only [List.mem_singleton, List.nodup_cons, List.not_mem_nil, not_false_eq_true,
            List.nodup_nil, and_self, and_true]
          intro c hc
          exact ⟨_, hc, Or.inl rfl⟩

theorem inverseDimension_isPermutation (dimensionOrder : Vec3 (Fin 3))
    (h : dimensionOrder.IsPermutation) :
    (⟨inverseDimension dimensionOrder 0 0, inverseDimension dimensionOrder 1 0,
      inverseDimension dimensionOrder 2 0⟩ : Vec3 (Fin 3)).IsPermutation := by
  rcases dimensionOrder with ⟨a, b, c⟩
  revert h
  fin_cases a <;> fin_cases b <;> fin_cases c <;> decide

/-! ### The constructor reads the grid members only in `initial` -/

theorem setSliceRowPoint_regrid (t : ConvexMeshIteratorDebug) (b : Bool) (x : ℚ)
    (s : ConvexMeshIteratorDebug) :
    (regrid t s).setSliceRowPoint b x = regrid t (s.setSliceRowPoint b x) := by
  unfold setSliceRowPoint; cases b <;> rfl

theorem advanceInwardLineLater_regrid (t : ConvexMeshIteratorDebug) (b : Bool)
    (s : ConvexMeshIteratorDebug) :
    Sim (fun r r' => r' = (r.1, regrid t r.2))
      (advanceInwardLineLater b s) (advanceInwardLineLater b (regrid t s)) := by
  unfold advanceInwardLineLater
  apply sim_ite
  · exact sim_pure rfl
  · apply sim_bindVal; intro n
    apply sim_ite <;> exact sim_pure rfl

theorem whileAdvanceInwardLine_regrid (t : ConvexMeshIteratorDebug) (b : Bool) (fuel : Nat) :
    ∀ s, Sim (fun r r' => r' = regrid t r)
      (whileAdvanceInwardLine fuel b s) (whileAdvanceInwardLine fuel b (regrid t s)) := by
  induction fuel with
  | zero => intro s; exact sim_error
  | succ n ih =>
    intro s
    unfold whileAdvanceInwardLine
    apply sim_bind (advanceInwardLineLater_regrid t b s)
    rintro ⟨again, s1⟩ _ rfl
    apply sim_ite
    · exact ih s1
    · exact sim_pure rfl

theorem advanceInwardLineFirst_regrid (t : ConvexMeshIteratorDebug) (b : Bool)
    (s : ConvexMeshIteratorDebug) :
    Sim (fun r r' => r' = (r.1, regrid t r.2))
      (advanceInwardLineFirst b s) (advanceInwardLineFirst b (regrid t s)) := by
  unfold advanceInwardLineFirst
  apply sim_ite
  · exact sim_pure rfl
  · apply sim_bindVal; intro n
    apply sim_ite
    · exact sim_pure rfl
    · apply sim_bind (whileAdvanceInwardLine_regrid t b _ _)
      rintro s1 _ rfl
      exact sim_pure rfl

theorem whileAdvanceInwardLineFirst_regrid (t : ConvexMeshIteratorDebug) (b : Bool)
    (fuel : Nat) :
    ∀ s, Sim (fun r r' => r' = regrid t r)
      (whileAdvanceInwardLineFirst fuel b s) (whileAdvanceInwardLineFirst fuel b (regrid t s)) := by
  induction fuel with
  | zero => intro s; exact sim_error
  | succ n ih =>
    intro s
    unfold whileAdvanceInwardLineFirst
    apply sim_bind (advanceInwardLineFirst_regrid t b s)
    rintro ⟨again, s1⟩ _ rfl
    apply sim_ite
    · exact ih s1
    · exact sim_pure rfl

theorem advanceOutwardLine_regrid (t : ConvexMeshIteratorDebug) (b : Bool)
    (s : ConvexMeshIteratorDebug) :
    Sim (fun r r' => r' = (r.1, regrid t r.2))
      (advanceOutwardLine b s) (advanceOutwardLine b (regrid t s)) := by
  cases b
  all_goals
    unfold advanceOutwardLine
    apply sim_ite
    · apply sim_bindVal; intro p
      exact sim_pure rfl
    · apply sim_bindVal; intro pb
      apply sim_bindVal; intro pa
      apply sim_bindVal; intro n
      generalize geq pb.x pa.x _ = outward
      cases outward
      · apply sim_ite
        · apply sim_ite
          · apply sim_bindVal; intro x
            exact sim_pure rfl
          · exact sim_pure rfl
        · apply sim_ite
          · apply sim_bind (whileAdvanceInwardLine_regrid t _ _ _)
            rintro s1 _ rfl
            exact sim_pure rfl
          · exact sim_pure rfl
      · apply sim_ite
        · apply sim_ite
          · apply sim_bindVal; intro x
            exact sim_pure rfl
          · exact sim_pure rfl
        · apply sim_ite
          · apply sim_bind (whileAdvanceInwardLine_regrid t _ _ _)
            rintro s1 _ rfl
            exact sim_pure rfl
          · exact sim_pure rfl

theorem whileAdvanceOutwardLine_regrid (t : ConvexMeshIteratorDebug) (b : Bool) (fuel : Nat) :
    ∀ s, Sim (fun r r' => r' = regrid t r)
      (whileAdvanceOutwardLine fuel b s) (whileAdvanceOutwardLine fuel b (regrid t s)) := by
  induction fuel with
  | zero => intro s; exact sim_error
  | succ n ih =>
    intro s
    unfold whileAdvanceOutwardLine
    apply sim_bind (advanceOutwardLine_regrid t b s)
    rintro ⟨again, s1⟩ _ rfl
    apply sim_ite
    · exact ih s1
    · exact sim_pure rfl

theorem preAdvanceOutwardLine_regrid (t : ConvexMeshIteratorDebug) (b : Bool)
    (s : ConvexMeshIteratorDebug) :
    Sim (fun r r' => r' = (r.1, regrid t r.2))
      (preAdvanceOutwardLine b s) (preAdvanceOutwardLine b (regrid t s)) := by
  cases b
  all_goals
    unfold preAdvanceOutwardLine
    apply sim_bindVal; intro n
    apply sim_ite
    · apply sim_bindVal; intro pa
      apply sim_bindVal; intro pb
      apply sim_bindVal; intro x
      exact sim_pure rfl
    · exact sim_pure rfl

theorem setupSliceHelper_regrid (t : ConvexMeshIteratorDebug) (b : Bool)
    (s : ConvexMeshIteratorDebug) :
    Sim (fun r r' => r' = regrid t r)
      (setupSliceHelper b s) (setupSliceHelper b (regrid t s)) := by
  cases b
  all_goals
    unfold setupSliceHelper
    apply sim_ite
    · exact sim_error
    apply sim_bindVal; intro p1
    apply sim_bindVal; intro p0
    apply sim_ite
    · apply sim_bind (preAdvanceOutwardLine_regrid t _ _)
      rintro ⟨again, s1⟩ _ rfl
      apply sim_ite
      · exact whileAdvanceOutwardLine_regrid t _ _ s1
      · exact sim_pure rfl
    · exact whileAdvanceInwardLineFirst_regrid t _ _ _

theorem addPointRecursive_regrid (t : ConvexMeshIteratorDebug) (fuel : Nat) :
    ∀ (point : Nat) (acc : ConvexMeshIteratorDebug × EdgeMap Int),
      Sim (fun r r' => r' = (regrid t r.1, r.2))
        (addPointRecursive fuel point acc) (addPointRecursive fuel point (regrid t acc.1, acc.2)) := by
  induction fuel with
  | zero => intro point acc; exact sim_error
  | succ n ih =>
    intro point acc
    unfold addPointRecursive
    refine sim_foldlM ?_ _ _ _ rfl
    rintro a _ edgeIndex rfl
    apply sim_bindVal; intro checked
    apply sim_ite
    · exact sim_pure rfl
    · apply sim_bindVal; intro edge
      apply sim_bindVal; intro other
      apply sim_ite
      · exact ih _ (_, a.2)
      · exact sim_pure rfl

theorem addPoint_regrid (t : ConvexMeshIteratorDebug) (point : Nat)
    (acc : ConvexMeshIteratorDebug × EdgeMap Int) :
    Sim (fun r r' => r' = (regrid t r.1, r.2))
      (addPoint point acc) (addPoint point (regrid t acc.1, acc.2)) := by
  unfold addPoint
  apply sim_bindVal; intro p
  exact addPointRecursive_regrid t _ point (_, acc.2)

theorem addFirstSlicePoints_regrid (t s : ConvexMeshIteratorDebug) :
    Sim (fun r r' => r' = regrid t r) (addFirstSlicePoints s) (addFirstSlicePoints (regrid t s)) := by
  unfold addFirstSlicePoints
  have h : Sim (fun r r' => r' = (regrid t r.1, r.2))
      ((List.range s.m_meshEdgeList.m_points.length).foldlM
        (fun (acc : ConvexMeshIteratorDebug × EdgeMap Int) point => do
          let p ← index acc.1.m_meshEdgeList.m_points point
          if p.z < acc.1.m_sliceEnd then addPoint point acc else pure acc)
        (s, s.m_activeEdges))
      ((List.range s.m_meshEdgeList.m_points.length).foldlM
        (fun (acc : ConvexMeshIteratorDebug × EdgeMap Int) point => do
          let p ← index acc.1.m_meshEdgeList.m_points point
          if p.z < acc.1.m_sliceEnd then addPoint point acc else pure acc)
        (regrid t s, s.m_activeEdges)) := by
    refine sim_foldlM ?_ _ _ _ rfl
    rintro a _ point rfl
    apply sim_bindVal; intro p
    apply sim_ite
    · exact addPoint_regrid t point a
    · exact sim_pure rfl
  apply sim_bind h
  rintro ⟨s1, activeEdges⟩ _ rfl
  exact sim_pure rfl

theorem collectSlicePoints_regrid (t s : ConvexMeshIteratorDebug) :
    Sim (fun r r' => r' = regrid t r) (collectSlicePoints s) (collectSlicePoints (regrid t s)) := by
  unfold collectSlicePoints
  refine sim_foldlM ?_ _ _ _ rfl
  rintro a _ activeEdge rfl
  apply sim_bindVal; intro edge
  apply sim_bindVal; intro p0
  apply sim_bindVal; intro p1
  apply sim_ite
  · exact sim_error
  · exact sim_pure rfl

theorem buildSliceHull_regrid (t s : ConvexMeshIteratorDebug) :
    Sim (fun r r' => r' = regrid t r) (buildSliceHull s) (buildSliceHull (regrid t s)) := by
  unfold buildSliceHull
  apply sim_ite
  · exact sim_error
  · apply sim_ite
    · exact sim_error
    · apply sim_ite
      · exact sim_error
      · exact sim_ok rfl

theorem setupSliceRows_regrid (t s : ConvexMeshIteratorDebug) :
    Sim (fun r r' => r' = regrid t r) (setupSliceRows s) (setupSliceRows (regrid t s)) := by
  unfold setupSliceRows
  apply sim_bindVal; intro first
  apply sim_bindVal; intro last
  apply sim_ite
  · exact sim_error
  · apply sim_ite
    · exact sim_error
    · exact sim_ok rfl

theorem setupSlice_regrid (t s : ConvexMeshIteratorDebug) :
    Sim (fun r r' => r' = regrid t r) (setupSlice s) (setupSlice (regrid t s)) := by
  unfold setupSlice
  apply sim_bind (collectSlicePoints_regrid t s)
  rintro s1 _ rfl
  apply sim_bind (buildSliceHull_regrid t s1)
  rintro s2 _ rfl
  apply sim_bind (setupSliceRows_regrid t s2)
  rintro s3 _ rfl
  apply sim_bind (setupSliceHelper_regrid t LEFT_SIDE s3)
  rintro s4 _ rfl
  apply sim_ite
  · exact sim_error
  · apply sim_bind (setupSliceHelper_regrid t RIGHT_SIDE s4)
    rintro s5 _ rfl
    apply sim_ite
    · exact sim_error
    · exact sim_ok rfl


theorem construct_regrid (t : ConvexMeshIteratorDebug) (meshEdgeList meshEdgeList' : MeshEdgeList)
    (dimensionOrder dimensionOrder' : Vec3 (Fin 3)) (directionSign directionSign' : Vec3 Int)
    (bounds bounds' : Box Int) (cellDimensions cellDimensions' : Vec3 ℚ)
    (h : initial meshEdgeList' dimensionOrder' directionSign' bounds' cellDimensions'
      = regrid t (initial meshEdgeList dimensionOrder directionSign bounds cellDimensions)) :
    Sim (fun r r' => r' = regrid t r)
      (construct meshEdgeList dimensionOrder directionSign bounds cellDimensions)
      (construct meshEdgeList' dimensionOrder' directionSign' bounds' cellDimensions') := by
  unfold construct
  rw [h]
  apply sim_bind (addFirstSlicePoints_regrid t _)
  rintro s1 _ rfl
  exact setupSlice_regrid t s1

theorem eq_regrid_of_fields (s s' : ConvexMeshIteratorDebug)
    (h1 : s.m_algorithmBounds = s'.m_algorithmBounds)
    (h2 : s.m_currentPosition = s'.m_currentPosition)
    (h3 : s.m_algorithmWorldBounds = s'.m_algorithmWorldBounds)
    (h4 : s.m_cellDimensions = s'.m_cellDimensions)
    (h5 : s.m_isEdgeChecked = s'.m_isEdgeChecked)
    (h6 : s.m_activeEdges = s'.m_activeEdges)
    (h7 : s.m_activeEdgeDestPoint = s'.m_activeEdgeDestPoint)
    (h8 : s.m_meshEdgeList = s'.m_meshEdgeList)
    (h9 : s.m_pointList = s'.m_pointList)
    (h10 : s.m_currentPointList = s'.m_currentPointList)
    (h11 : s.m_sliceStart = s'.m_sliceStart)
    (h12 : s.m_sliceEnd = s'.m_sliceEnd)
    (h13 : s.m_lineBottom = s'.m_lineBottom)
    (h14 : s.m_lineTop = s'.m_lineTop)
    (h15 : s.m_sliceMax = s'.m_sliceMax)
    (h16 : s.m_sliceRasterizeEdges = s'.m_sliceRasterizeEdges)
    (h17 : s.m_activeSliceEdgeIndex = s'.m_activeSliceEdgeIndex)
    (h18 : s.m_activeSliceEdges = s'.m_activeSliceEdges)
    (h19 : s.m_activeSliceEdgeOutward = s'.m_activeSliceEdgeOutward)
    (h20 : s.m_atEnd = s'.m_atEnd) : s = regrid s s' := by
  cases s
  cases s'
  simp only at h1 h2 h3 h4 h5 h6 h7 h8 h9 h10 h11 h12 h13 h14 h15 h16 h17 h18 h19 h20
  subst h1 h2 h3 h4 h5 h6 h7 h8 h9 h10 h11 h12 h13 h14 h15 h16 h17 h18 h19 h20
  rfl

theorem worldToAlgorithmPoint_unitCell (cell : Vec3 Int) (directionSign : Vec3 Int)
    (p : Vec3 ℚ) (md : Fin 3) :
    (if directionSign.get md > 0 then
        (⟨cell.x + p.x, cell.y + p.y, cell.z + p.z⟩ : Vec3 ℚ).get md
          - (⟨cell.x * (1 : ℚ), cell.y * (1 : ℚ), cell.z * (1 : ℚ)⟩ : Vec3 ℚ).get md
      else
        (⟨((cell.x + 1 : Int) : ℚ) * 1 - 1 / 1000, ((cell.y + 1 : Int) : ℚ) * 1 - 1 / 1000,
            ((cell.z + 1 : Int) : ℚ) * 1 - 1 / 1000⟩ : Vec3 ℚ).get md
          - (⟨cell.x + p.x, cell.y + p.y, cell.z + p.z⟩ : Vec3 ℚ).get md)
      = (if (directionPattern directionSign).get md > 0 then
          p.get md - (⟨((0 : Int) : ℚ) * 1, ((0 : Int) : ℚ) * 1, ((0 : Int) : ℚ) * 1⟩ : Vec3 ℚ).get md
        else
          (⟨((0 + 1 : Int) : ℚ) * 1 - 1 / 1000, ((0 + 1 : Int) : ℚ) * 1 - 1 / 1000,
              ((0 + 1 : Int) : ℚ) * 1 - 1 / 1000⟩ : Vec3 ℚ).get md - p.get md) := by
  obtain ⟨sx, sy, sz⟩ := directionSign
  fin_cases md
  · by_cases h : 0 < sx
    · simp [directionPattern, Vec3.get, h]
    · simp [directionPattern, Vec3.get, h]
      ring
  · by_cases h : 0 < sy
    · simp [directionPattern, Vec3.get, h]
    · simp [directionPattern, Vec3.get, h]
      ring
  · by_cases h : 0 < sz
    · simp [directionPattern, Vec3.get, h]
    · simp [directionPattern, Vec3.get, h]
      ring

theorem unitCellMesh_points (cell : Vec3 Int) :
    (unitCellMesh cell).m_points
      = (unitCellMesh ⟨0, 0, 0⟩).m_points.map
          (fun p => (⟨cell.x + p.x, cell.y + p.y, cell.z + p.z⟩ : Vec3 ℚ)) := by
  simp [unitCellMesh, boxMesh, boxPoints]

theorem worldToAlgorithmPoint_initial_unitCell (cell : Vec3 Int) (dimensionOrder : Vec3 (Fin 3))
    (directionSign : Vec3 Int) (p : Vec3 ℚ) :
    (initial (unitCellMesh cell) dimensionOrder directionSign ⟨cell, cell⟩
        ⟨1, 1, 1⟩).worldToAlgorithmPoint ⟨cell.x + p.x, cell.y + p.y, cell.z + p.z⟩
      = (initial (unitCellMesh ⟨0, 0, 0⟩) dimensionOrder (directionPattern directionSign)
          ⟨⟨0, 0, 0⟩, ⟨0, 0, 0⟩⟩ ⟨1, 1, 1⟩).worldToAlgorithmPoint p := by
  have h := worldToAlgorithmPoint_unitCell cell directionSign p
  unfold worldToAlgorithmPoint
  simp only [Vec3.mk.injEq]
  exact ⟨h (dimensionOrder.get 0), h (dimensionOrder.get 1), h (dimensionOrder.get 2)⟩

theorem initial_meshEdgeList (meshEdgeList : MeshEdgeList) (dimensionOrder : Vec3 (Fin 3))
    (directionSign : Vec3 Int) (bounds : Box Int) (cellDimensions : Vec3 ℚ) :
    (initial meshEdgeList dimensionOrder directionSign bounds cellDimensions).m_meshEdgeList
      = ⟨meshEdgeList.m_points.map
          (initial meshEdgeList dimensionOrder directionSign bounds
            cellDimensions).worldToAlgorithmPoint, meshEdgeList.m_edges⟩ :=
  rfl

theorem algorithmWorldBounds_unitCell (cell : Vec3 Int) (md : Fin 3) :
    (⟨((cell.x + 1 : Int) : ℚ) * 1 - 1 / 1000, ((cell.y + 1 : Int) : ℚ) * 1 - 1 / 1000,
        ((cell.z + 1 : Int) : ℚ) * 1 - 1 / 1000⟩ : Vec3 ℚ).get md
        - (⟨cell.x * (1 : ℚ), cell.y * (1 : ℚ), cell.z * (1 : ℚ)⟩ : Vec3 ℚ).get md
      = (⟨((0 + 1 : Int) : ℚ) * 1 - 1 / 1000, ((0 + 1 : Int) : ℚ) * 1 - 1 / 1000,
          ((0 + 1 : Int) : ℚ) * 1 - 1 / 1000⟩ : Vec3 ℚ).get md
        - (⟨((0 : Int) : ℚ) * 1, ((0 : Int) : ℚ) * 1, ((0 : Int) : ℚ) * 1⟩ : Vec3 ℚ).get md := by
  fin_cases md <;> simp [Vec3.get] <;> ring

theorem initial_unitCellMesh (cell : Vec3 Int) (dimensionOrder : Vec3 (Fin 3))
    (directionSign : Vec3 Int) :
    initial (unitCellMesh cell) dimensionOrder directionSign ⟨cell, cell⟩ ⟨1, 1, 1⟩
      = regrid (initial (unitCellMesh cell) dimensionOrder directionSign ⟨cell, cell⟩ ⟨1, 1, 1⟩)
          (initial (unitCellMesh ⟨0, 0, 0⟩) dimensionOrder (directionPattern directionSign)
            ⟨⟨0, 0, 0⟩, ⟨0, 0, 0⟩⟩ ⟨1, 1, 1⟩) := by
  apply eq_regrid_of_fields
  case h1 =>
    show (⟨_ - _, _ - _, _ - _⟩ : Vec3 Int) = ⟨_ - _, _ - _, _ - _⟩
    simp only [sub_self]
  case h3 =>
    have h := algorithmWorldBounds_unitCell cell
    show (⟨_, _, _⟩ : Vec3 ℚ) = ⟨_, _, _⟩
    simp only [Vec3.mk.injEq]
    exact ⟨h (dimensionOrder.get 0), h (dimensionOrder.get 1), h (dimensionOrder.get 2)⟩
  case h8 =>
    rw [initial_meshEdgeList, initial_meshEdgeList, unitCellMesh_points cell, List.map_map]
    refine congrArg₂ MeshEdgeList.mk (List.map_congr_left ?_) rfl
    intro p _
    exact worldToAlgorithmPoint_initial_unitCell cell dimensionOrder directionSign p
  all_goals rfl

theorem construct_unitCell_origin (dimensionOrder : Vec3 (Fin 3))
    (h : dimensionOrder.IsPermutation) (directionSign : Vec3 Int) :
    (construct (unitCellMesh ⟨0, 0, 0⟩) dimensionOrder (directionPattern directionSign)
        ⟨⟨0, 0, 0⟩, ⟨0, 0, 0⟩⟩ ⟨1, 1, 1⟩).map
        (fun s => (s.m_atEnd, s.m_currentPosition, s.m_sliceMax, s.m_algorithmBounds.z))
      = .ok (false, ⟨0, 0, 0⟩, ⟨0, 0⟩, 0) := by
  have key : ∀ bx bz bw : Bool,
      (construct (unitCellMesh ⟨0, 0, 0⟩) dimensionOrder
          ⟨if bx then 1 else -1, if bz then 1 else -1, if bw then 1 else -1⟩
          ⟨⟨0, 0, 0⟩, ⟨0, 0, 0⟩⟩ ⟨1, 1, 1⟩).map
          (fun s => (s.m_atEnd, s.m_currentPosition, s.m_sliceMax, s.m_algorithmBounds.z))
        = .ok (false, ⟨0, 0, 0⟩, ⟨0, 0⟩, 0) := by
    obtain ⟨ox, oy, oz⟩ := dimensionOrder
    fin_cases ox <;> fin_cases oy <;> fin_cases oz <;>
      first
        | exact absurd h (by decide)
        | (intro bx bz bw; cases bx <;> cases bz <;> cases bw <;> decide!)
  exact key _ _ _

theorem algorithmToWorldCell_regrid_origin (cell : Vec3 Int) (t s : ConvexMeshIteratorDebug)
    (ht : t.m_bounds = ⟨cell, cell⟩) :
    (regrid t s).algorithmToWorldCell ⟨0, 0, 0⟩ = cell := by
  obtain ⟨cx, cy, cz⟩ := cell
  unfold algorithmToWorldCell
  have hb : (regrid t s).m_bounds = ⟨⟨cx, cy, cz⟩, ⟨cx, cy, cz⟩⟩ := ht
  have hg : ∀ d : Fin 3, (⟨0, 0, 0⟩ : Vec3 Int).get d = 0 := by
    intro d; fin_cases d <;> rfl
  simp only [hb, hg, add_zero, sub_zero, ite_self]
  rfl

theorem traverse_single (cell : Vec3 Int) (s : ConvexMeshIteratorDebug)
    (hEnd : s.m_atEnd = false) (hCursor : s.m_currentPosition = ⟨0, 0, 0⟩)
    (hMax : s.m_sliceMax = ⟨0, 0⟩) (hBounds : s.m_algorithmBounds.z = 0)
    (hCell : s.algorithmToWorldCell ⟨0, 0, 0⟩ = cell) :
    traverse 2 s = ⟨[cell], none⟩ := by
  simp [traverse, getCurrentPosition, forward, atEnd, hEnd, hCursor, hMax, hBounds, hCell]

/-! ### A mirrored volume runs through the same states in algorithm space -/

theorem advanceRowHelper_regrid (t : ConvexMeshIteratorDebug) (b : Bool)
    (s : ConvexMeshIteratorDebug) :
    Sim (fun r r' => r' = regrid t r) (advanceRowHelper b s) (advanceRowHelper b (regrid t s)) := by
  cases b
  all_goals
    unfold advanceRowHelper
    apply sim_ite
    · apply sim_ite
      · apply sim_ite
        · apply sim_bindVal; intro p
          exact sim_pure rfl
        · exact whileAdvanceOutwardLine_regrid t _ _ _
      · apply sim_ite
        · exact sim_error
        · apply sim_bindVal; intro pa
          apply sim_bindVal; intro pb
          apply sim_bindVal; intro x
          apply sim_ite
          · exact sim_pure rfl
          · exact whileAdvanceInwardLine_regrid t _ _ _
    · apply sim_ite
      · exact sim_error
      · apply sim_bindVal; intro pa
        apply sim_bindVal; intro pb
        apply sim_bindVal; intro x
        exact sim_pure rfl

theorem advanceRow_regrid (t s : ConvexMeshIteratorDebug) :
    Sim (fun r r' => r' = regrid t r) (advanceRow s) (advanceRow (regrid t s)) := by
  unfold advanceRow
  apply sim_bind (advanceRowHelper_regrid t RIGHT_SIDE _)
  rintro s1 _ rfl
  exact advanceRowHelper_regrid t LEFT_SIDE s1

theorem countDownActiveEdges_regrid (t s : ConvexMeshIteratorDebug) :
    Sim (fun r r' => r' = (regrid t r.1, r.2))
      (countDownActiveEdges s) (countDownActiveEdges (regrid t s)) := by
  unfold countDownActiveEdges
  refine sim_foldlM ?_ _ _ _ rfl
  rintro a _ activeEdge rfl
  apply sim_ite
  · apply sim_bindVal; intro destPoint
    exact addPoint_regrid t destPoint a
  · exact sim_pure rfl

theorem advanceSlice_regrid (t s : ConvexMeshIteratorDebug) :
    Sim (fun r r' => r' = regrid t r) (advanceSlice s) (advanceSlice (regrid t s)) := by
  unfold advanceSlice
  apply sim_bind (countDownActiveEdges_regrid t _)
  rintro ⟨s1, activeEdgesCopy⟩ _ rfl
  exact setupSlice_regrid t _

theorem forward_regrid (t s : ConvexMeshIteratorDebug) :
    Sim (fun r r' => r' = (r.1, regrid t r.2)) (forward s) (forward (regrid t s)) := by
  unfold forward
  apply sim_ite
  · exact sim_error
  · apply sim_ite
    · apply sim_ite
      · apply sim_ite
        · exact sim_ok rfl
        · apply sim_map (advanceSlice_regrid t s)
          rintro s1 _ rfl
          rfl
      · apply sim_map (advanceRow_regrid t s)
        rintro s1 _ rfl
        rfl
    · exact sim_ok rfl


theorem regrid_self (t : ConvexMeshIteratorDebug) : regrid t t = t := rfl

theorem algorithmToWorldCell_regrid (t s : ConvexMeshIteratorDebug) (cell : Vec3 Int) :
    (regrid t s).algorithmToWorldCell cell = t.algorithmToWorldCell cell := rfl

theorem traverse_regrid_reflect (t t0 : ConvexMeshIteratorDebug) (axis : Fin 3) (c : Int)
    (hCell : ∀ cell, t.algorithmToWorldCell cell = reflectCell axis c (t0.algorithmToWorldCell cell))
    (fuel : Nat) :
    ∀ s, traverse fuel (regrid t s) = (traverse fuel (regrid t0 s)).reflect axis c := by
  induction fuel with
  | zero => intro s; rfl
  | succ n ih =>
    intro s
    have h1 := forward_regrid t s
    have h0 := forward_regrid t0 s
    have hEnd : (regrid t s).atEnd = s.atEnd := rfl
    have hEnd0 : (regrid t0 s).atEnd = s.atEnd := rfl
    simp only [traverse, getCurrentPosition, hEnd, hEnd0]
    cases hAt : s.atEnd with
    | true => rfl
    | false =>
      simp only [Bool.false_eq_true, if_false]
      cases hf : forward s with
      | error e =>
        rw [hf] at h1 h0
        cases hf1 : forward (regrid t s) with
        | ok r => rw [hf1] at h1; exact h1.elim
        | error e1 =>
          cases hf0 : forward (regrid t0 s) with
          | ok r => rw [hf0] at h0; exact h0.elim
          | error e0 =>
            rw [hf1] at h1
            rw [hf0] at h0
            have e1e : e = e1 := h1
            have e0e : e = e0 := h0
            subst e1e
            subst e0e
            simp only [Traversal.reflect, List.map_cons, List.map_nil, algorithmToWorldCell_regrid,
              hCell]
            rfl
      | ok r =>
        obtain ⟨r1, hr1, hR1⟩ := sim_eq_ok h1 hf
        obtain ⟨r0, hr0, hR0⟩ := sim_eq_ok h0 hf
        subst hR1
        subst hR0
        simp only [hr1, hr0, ih r.2, Traversal.reflect, List.map_cons,
          algorithmToWorldCell_regrid, hCell]
        rfl


theorem reflect_coordinate (sgn : Int) (lo hi a : ℚ) (h : sgn ≠ 0) :
    (if -sgn > 0 then (lo + hi - a) - lo else hi - (lo + hi - a))
      = (if sgn > 0 then a - lo else hi - a) := by
  rcases lt_trichotomy sgn 0 with h1 | h1 | h1
  · have h2 : ¬ sgn > 0 := not_lt_of_gt h1
    have h3 : -sgn > 0 := by omega
    rw [if_pos h3, if_neg h2]; ring
  · exact absurd h1 h
  · have h3 : ¬ -sgn > 0 := by omega
    rw [if_neg h3, if_pos h1]; ring

theorem worldToAlgorithmPoint_reflect (directionSign : Vec3 Int) (lo hi p : Vec3 ℚ)
    (axis md : Fin 3) (hSign : directionSign.get axis ≠ 0) :
    (if (negateSign axis directionSign).get md > 0 then
        (reflectPoint axis (lo.get axis + hi.get axis) p).get md - lo.get md
      else hi.get md - (reflectPoint axis (lo.get axis + hi.get axis) p).get md)
      = (if directionSign.get md > 0 then p.get md - lo.get md else hi.get md - p.get md) := by
  obtain ⟨sx, sy, sz⟩ := directionSign
  fin_cases axis <;> fin_cases md <;>
    simp only [negateSign, reflectPoint, Vec3.get, Vec3.set] at hSign ⊢ <;>
    first
      | rfl
      | exact reflect_coordinate _ _ _ _ hSign

theorem reflect_cell_coordinate (sgn lo hi a : Int) (h : sgn ≠ 0) :
    (if -sgn > 0 then lo + a else hi - a) = lo + hi - (if sgn > 0 then lo + a else hi - a) := by
  rcases lt_trichotomy sgn 0 with h1 | h1 | h1
  · have h2 : ¬ sgn > 0 := not_lt_of_gt h1
    have h3 : -sgn > 0 := by omega
    rw [if_pos h3, if_neg h2]; ring
  · exact absurd h1 h
  · have h3 : ¬ -sgn > 0 := by omega
    rw [if_neg h3, if_pos h1]; ring

theorem algorithmToWorldCell_initial_reflect (meshEdgeList meshEdgeList' : MeshEdgeList)
    (dimensionOrder : Vec3 (Fin 3)) (directionSign : Vec3 Int) (bounds : Box Int)
    (cellDimensions : Vec3 ℚ) (axis : Fin 3) (hSign : directionSign.get axis ≠ 0)
    (cell : Vec3 Int) :
    (initial meshEdgeList' dimensionOrder (negateSign axis directionSign) bounds
        cellDimensions).algorithmToWorldCell cell
      = reflectCell axis (bounds.m_min.get axis + bounds.m_max.get axis)
          ((initial meshEdgeList dimensionOrder directionSign bounds
            cellDimensions).algorithmToWorldCell cell) := by
  have hs : (initial meshEdgeList dimensionOrder directionSign bounds cellDimensions).m_directionSign
      = directionSign := rfl
  have hs' : (initial meshEdgeList' dimensionOrder (negateSign axis directionSign) bounds
      cellDimensions).m_directionSign = negateSign axis directionSign := rfl
  have hb : (initial meshEdgeList dimensionOrder directionSign bounds cellDimensions).m_bounds
      = bounds := rfl
  have hb' : (initial meshEdgeList' dimensionOrder (negateSign axis directionSign) bounds
      cellDimensions).m_bounds = bounds := rfl
  have hi : (initial meshEdgeList' dimensionOrder (negateSign axis directionSign) bounds
      cellDimensions).m_dimensionOrderInverse
      = (initial meshEdgeList dimensionOrder directionSign bounds
          cellDimensions).m_dimensionOrderInverse := rfl
  unfold algorithmToWorldCell
  simp only [hs, hs', hb, hb', hi]
  generalize (initial meshEdgeList dimensionOrder directionSign bounds
    cellDimensions).m_dimensionOrderInverse = inv
  obtain ⟨sx, sy, sz⟩ := directionSign
  fin_cases axis <;>
    simp only [negateSign, reflectCell, Vec3.get, Vec3.set] at hSign ⊢ <;>
    simp only [Vec3.mk.injEq, true_and, and_true] <;>
    exact reflect_cell_coordinate _ _ _ _ hSign

theorem worldToAlgorithmPoint_initial_reflect (meshEdgeList meshEdgeList' : MeshEdgeList)
    (dimensionOrder : Vec3 (Fin 3)) (directionSign : Vec3 Int) (bounds : Box Int)
    (cellDimensions : Vec3 ℚ) (axis : Fin 3) (hSign : directionSign.get axis ≠ 0) (p : Vec3 ℚ) :
    (initial meshEdgeList' dimensionOrder (negateSign axis directionSign) bounds
        cellDimensions).worldToAlgorithmPoint
        (reflectPoint axis
          ((initial meshEdgeList dimensionOrder directionSign bounds
              cellDimensions).m_worldBounds.m_min.get axis
            + (initial meshEdgeList dimensionOrder directionSign bounds
              cellDimensions).m_worldBounds.m_max.get axis) p)
      = (initial meshEdgeList dimensionOrder directionSign bounds
          cellDimensions).worldToAlgorithmPoint p := by
  have h := worldToAlgorithmPoint_reflect directionSign
    (initial meshEdgeList dimensionOrder directionSign bounds cellDimensions).m_worldBounds.m_min
    (initial meshEdgeList dimensionOrder directionSign bounds cellDimensions).m_worldBounds.m_max
    p axis
  unfold worldToAlgorithmPoint
  simp only [Vec3.mk.injEq]
  exact ⟨h (dimensionOrder.get 0) hSign, h (dimensionOrder.get 1) hSign,
    h (dimensionOrder.get 2) hSign⟩

theorem initial_reflect (meshEdgeList : MeshEdgeList) (dimensionOrder : Vec3 (Fin 3))
    (directionSign : Vec3 Int) (bounds : Box Int) (cellDimensions : Vec3 ℚ) (axis : Fin 3)
    (hSign : directionSign.get axis ≠ 0) :
    initial
        (reflectMesh axis
          ((initial meshEdgeList dimensionOrder directionSign bounds
              cellDimensions).m_worldBounds.m_min.get axis
            + (initial meshEdgeList dimensionOrder directionSign bounds
              cellDimensions).m_worldBounds.m_max.get axis) meshEdgeList)
        dimensionOrder (negateSign axis directionSign) bounds cellDimensions
      = regrid
          (initial
            (reflectMesh axis
              ((initial meshEdgeList dimensionOrder directionSign bounds
                  cellDimensions).m_worldBounds.m_min.get axis
                + (initial meshEdgeList dimensionOrder directionSign bounds
                  cellDimensions).m_worldBounds.m_max.get axis) meshEdgeList)
            dimensionOrder (negateSign axis directionSign) bounds cellDimensions)
          (initial meshEdgeList dimensionOrder directionSign bounds cellDimensions) := by
  apply eq_regrid_of_fields
  case h8 =>
    rw [initial_meshEdgeList, initial_meshEdgeList]
    refine congrArg₂ MeshEdgeList.mk ?_ rfl
    show List.map _ (List.map _ meshEdgeList.m_points) = _
    rw [List.map_map]
    refine List.map_congr_left ?_
    intro p _
    exact worldToAlgorithmPoint_initial_reflect meshEdgeList _ dimensionOrder directionSign
      bounds cellDimensions axis hSign p
  all_goals rfl

/-! ### The remapping loop of the constructor -/

theorem remapPoint_foldl (s : ConvexMeshIteratorDebug) (l : List (Vec3 ℚ)) :
    ∀ n, n ≤ l.length →
      (List.range n).foldl (remapPoint s) l
        = (l.take n).map s.worldToAlgorithmPoint ++ l.drop n := by
  intro n
  induction n with
  | zero => intro _; simp
  | succ n ih =>
    intro hn
    have hlt : n < l.length := hn
    rw [List.range_succ, List.foldl_append, ih (Nat.le_of_lt hlt)]
    have hlen : ((l.take n).map s.worldToAlgorithmPoint).length = n := by
      simp [Nat.le_of_lt hlt]
    have hget : ((l.take n).map s.worldToAlgorithmPoint ++ l.drop n).get? n = some l[n] := by
      rw [List.get?_eq_getElem?, List.getElem?_append_right (by omega), hlen]
      simp [hlt]
    simp only [List.foldl_cons, List.foldl_nil, remapPoint, hget]
    rw [List.set_append_right _ _ (by omega), hlen, Nat.sub_self, List.drop_eq_getElem_cons hlt,
      List.set_cons_zero, List.take_succ, List.map_append]
    simp [hlt]

theorem remapPointsInPlace_eq_map (s : ConvexMeshIteratorDebug) (points : List (Vec3 ℚ)) :
    remapPointsInPlace s points = points.map s.worldToAlgorithmPoint := by
  unfold remapPointsInPlace
  rw [remapPoint_foldl s points points.length le_rfl]
  simp

/-! ### The traversal does not depend on the order of the slice points -/

theorem setSliceRowPoint_repoint (pl : Arr2 (List (Vec2 ℚ))) (b : Bool) (x : ℚ)
    (s : ConvexMeshIteratorDebug) :
    (repoint pl s).setSliceRowPoint b x = repoint pl (s.setSliceRowPoint b x) := by
  unfold setSliceRowPoint; cases b <;> rfl

theorem advanceInwardLineLater_repoint (pl : Arr2 (List (Vec2 ℚ))) (b : Bool)
    (s : ConvexMeshIteratorDebug) :
    Sim (fun r r' => r' = (r.1, repoint pl r.2))
      (advanceInwardLineLater b s) (advanceInwardLineLater b (repoint pl s)) := by
  unfold advanceInwardLineLater
  apply sim_ite
  · exact sim_pure rfl
  · apply sim_bindVal; intro n
    apply sim_ite <;> exact sim_pure rfl

theorem whileAdvanceInwardLine_repoint (pl : Arr2 (List (Vec2 ℚ))) (b : Bool) (fuel : Nat) :
    ∀ s, Sim (fun r r' => r' = repoint pl r)
      (whileAdvanceInwardLine fuel b s) (whileAdvanceInwardLine fuel b (repoint pl s)) := by
  induction fuel with
  | zero => intro s; exact sim_error
  | succ n ih =>
    intro s
    unfold whileAdvanceInwardLine
    apply sim_bind (advanceInwardLineLater_repoint pl b s)
    rintro ⟨again, s1⟩ _ rfl
    apply sim_ite
    · exact ih s1
    · exact sim_pure rfl

theorem advanceInwardLineFirst_repoint (pl : Arr2 (List (Vec2 ℚ))) (b : Bool)
    (s : ConvexMeshIteratorDebug) :
    Sim (fun r r' => r' = (r.1, repoint pl r.2))
      (advanceInwardLineFirst b s) (advanceInwardLineFirst b (repoint pl s)) := by
  unfold advanceInwardLineFirst
  apply sim_ite
  · exact sim_pure rfl
  · apply sim_bindVal; intro n
    apply sim_ite
    · exact sim_pure rfl
    · apply sim_bind (whileAdvanceInwardLine_repoint pl b _ _)
      rintro s1 _ rfl
      exact sim_pure rfl

theorem whileAdvanceInwardLineFirst_repoint (pl : Arr2 (List (Vec2 ℚ))) (b : Bool)
    (fuel : Nat) :
    ∀ s, Sim (fun r r' => r' = repoint pl r)
      (whileAdvanceInwardLineFirst fuel b s) (whileAdvanceInwardLineFirst fuel b (repoint pl s)) := by
  induction fuel with
  | zero => intro s; exact sim_error
  | succ n ih =>
    intro s
    unfold whileAdvanceInwardLineFirst
    apply sim_bind (advanceInwardLineFirst_repoint pl b s)
    rintro ⟨again, s1⟩ _ rfl
    apply sim_ite
    · exact ih s1
    · exact sim_pure rfl

theorem advanceOutwardLine_repoint (pl : Arr2 (List (Vec2 ℚ))) (b : Bool)
    (s : ConvexMeshIteratorDebug) :
    Sim (fun r r' => r' = (r.1, repoint pl r.2))
      (advanceOutwardLine b s) (advanceOutwardLine b (repoint pl s)) := by
  cases b
  all_goals
    unfold advanceOutwardLine
    apply sim_ite
    · apply sim_bindVal; intro p
      exact sim_pure rfl
    · apply sim_bindVal; intro pb
      apply sim_bindVal; intro pa
      apply sim_bindVal; intro n
      generalize geq pb.x pa.x _ = outward
      cases outward
      · apply sim_ite
        · apply sim_ite
          · apply sim_bindVal; intro x
            exact sim_pure rfl
          · exact sim_pure rfl
        · apply sim_ite
          · apply sim_bind (whileAdvanceInwardLine_repoint pl _ _ _)
            rintro s1 _ rfl
            exact sim_pure rfl
          · exact sim_pure rfl
      · apply sim_ite
        · apply sim_ite
          · apply sim_bindVal; intro x
            exact sim_pure rfl
          · exact sim_pure rfl
        · apply sim_ite
          · apply sim_bind (whileAdvanceInwardLine_repoint pl _ _ _)
            rintro s1 _ rfl
            exact sim_pure rfl
          · exact sim_pure rfl

theorem whileAdvanceOutwardLine_repoint (pl : Arr2 (List (Vec2 ℚ))) (b : Bool) (fuel : Nat) :
    ∀ s, Sim (fun r r' => r' = repoint pl r)
      (whileAdvanceOutwardLine fuel b s) (whileAdvanceOutwardLine fuel b (repoint pl s)) := by
  induction fuel with
  | zero => intro s; exact sim_error
  | succ n ih =>
    intro s
    unfold whileAdvanceOutwardLine
    apply sim_bind (advanceOutwardLine_repoint pl b s)
    rintro ⟨again, s1⟩ _ rfl
    apply sim_ite
    · exact ih s1
    · exact sim_pure rfl

theorem preAdvanceOutwardLine_repoint (pl : Arr2 (List (Vec2 ℚ))) (b : Bool)
    (s : ConvexMeshIteratorDebug) :
    Sim (fun r r' => r' = (r.1, repoint pl r.2))
      (preAdvanceOutwardLine b s) (preAdvanceOutwardLine b (repoint pl s)) := by
  cases b
  all_goals
    unfold preAdvanceOutwardLine
    apply sim_bindVal; intro n
    apply sim_ite
    · apply sim_bindVal; intro pa
      apply sim_bindVal; intro pb
      apply sim_bindVal; intro x
      exact sim_pure rfl
    · exact sim_pure rfl

theorem setupSliceHelper_repoint (pl : Arr2 (List (Vec2 ℚ))) (b : Bool)
    (s : ConvexMeshIteratorDebug) :
    Sim (fun r r' => r' = repoint pl r)
      (setupSliceHelper b s) (setupSliceHelper b (repoint pl s)) := by
  cases b
  all_goals
    unfold setupSliceHelper
    apply sim_ite
    · exact sim_error
    apply sim_bindVal; intro p1
    apply sim_bindVal; intro p0
    apply sim_ite
    · apply sim_bind (preAdvanceOutwardLine_repoint pl _ _)
      rintro ⟨again, s1⟩ _ rfl
      apply sim_ite
      · exact whileAdvanceOutwardLine_repoint pl _ _ s1
      · exact sim_pure rfl
    · exact whileAdvanceInwardLineFirst_repoint pl _ _ _

theorem addPointRecursive_repoint (pl : Arr2 (List (Vec2 ℚ))) (fuel : Nat) :
    ∀ (point : Nat) (acc : ConvexMeshIteratorDebug × EdgeMap Int),
      Sim (fun r r' => r' = (repoint pl r.1, r.2))
        (addPointRecursive fuel point acc) (addPointRecursive fuel point (repoint pl acc.1, acc.2)) := by
  induction fuel with
  | zero => intro point acc; exact sim_error
  | succ n ih =>
    intro point acc
    unfold addPointRecursive
    refine sim_foldlM ?_ _ _ _ rfl
    rintro a _ edgeIndex rfl
    apply sim_bindVal; intro checked
    apply sim_ite
    · exact sim_pure rfl
    · apply sim_bindVal; intro edge
      apply sim_bindVal; intro other
      apply sim_ite
      · exact ih _ (_, a.2)
      · exact sim_pure rfl

theorem setupSliceRows_repoint (pl : Arr2 (List (Vec2 ℚ))) (s : ConvexMeshIteratorDebug) :
    Sim (fun r r' => r' = repoint pl r) (setupSliceRows s) (setupSliceRows (repoint pl s)) := by
  unfold setupSliceRows
  apply sim_bindVal; intro first
  apply sim_bindVal; intro last
  apply sim_ite
  · exact sim_error
  · apply sim_ite
    · exact sim_error
    · exact sim_ok rfl

theorem advanceRowHelper_repoint (pl : Arr2 (List (Vec2 ℚ))) (b : Bool)
    (s : ConvexMeshIteratorDebug) :
    Sim (fun r r' => r' = repoint pl r) (advanceRowHelper b s) (advanceRowHelper b (repoint pl s)) := by
  cases b
  all_goals
    unfold advanceRowHelper
    apply sim_ite
    · apply sim_ite
      · apply sim_ite
        · apply sim_bindVal; intro p
          exact sim_pure rfl
        · exact whileAdvanceOutwardLine_repoint pl _ _ _
      · apply sim_ite
        · exact sim_error
        · apply sim_bindVal; intro pa
          apply sim_bindVal; intro pb
          apply sim_bindVal; intro x
          apply sim_ite
          · exact sim_pure rfl
          · exact whileAdvanceInwardLine_repoint pl _ _ _
    · apply sim_ite
      · exact sim_error
      · apply sim_bindVal; intro pa
        apply sim_bindVal; intro pb
        apply sim_bindVal; intro x
        exact sim_pure rfl

theorem advanceRow_repoint (pl : Arr2 (List (Vec2 ℚ))) (s : ConvexMeshIteratorDebug) :
    Sim (fun r r' => r' = repoint pl r) (advanceRow s) (advanceRow (repoint pl s)) := by
  unfold advanceRow
  apply sim_bind (advanceRowHelper_repoint pl RIGHT_SIDE _)
  rintro s1 _ rfl
  exact advanceRowHelper_repoint pl LEFT_SIDE s1


theorem sameButOrder_refl (s : ConvexMeshIteratorDebug) : SameButOrder s s :=
  ⟨s.m_pointList, rfl, samePoints_refl _⟩

theorem sameButOrder_trans (a b c : ConvexMeshIteratorDebug) (h1 : SameButOrder a b)
    (h2 : SameButOrder b c) : SameButOrder a c := by
  obtain ⟨pl1, rfl, hp1⟩ := h1
  obtain ⟨pl2, rfl, hp2⟩ := h2
  exact ⟨pl2, rfl, samePoints_trans hp1 hp2⟩

theorem alike_of_repoint {f : ConvexMeshIteratorDebug → Except Failure ConvexMeshIteratorDebug}
    (h : ∀ pl s, Sim (fun r r' => r' = repoint pl r) (f s) (f (repoint pl s)))
    (s s' : ConvexMeshIteratorDebug) (hs : SameButOrder s s') :
    Alike SameButOrder (f s) (f s') := by
  obtain ⟨pl, rfl, hp⟩ := hs
  have h1 := h pl s
  have h2 := h s.m_pointList s
  cases hf : f s with
  | error e =>
    rw [hf] at h1
    cases hf1 : f (repoint pl s) with
    | error e1 => trivial
    | ok r1 => rw [hf1] at h1; exact h1.elim
  | ok r =>
    obtain ⟨r1, hr1, rfl⟩ := sim_eq_ok h1 hf
    obtain ⟨r2, hr2, hR2⟩ := sim_eq_ok h2 hf
    have hr : r2 = r := Except.ok.inj (hr2.symm.trans hf)
    rw [hr] at hR2
    have hpl : r.m_pointList = s.m_pointList := congrArg (fun x => x.m_pointList) hR2
    rw [hr1]
    exact ⟨pl, rfl, by rw [hpl]; exact hp⟩

theorem alike_of_repoint_pair {β : Type}
    {f : ConvexMeshIteratorDebug × β → Except Failure (ConvexMeshIteratorDebug × β)}
    (h : ∀ pl acc, Sim (fun r r' => r' = (repoint pl r.1, r.2)) (f acc) (f (repoint pl acc.1, acc.2)))
    (s s' : ConvexMeshIteratorDebug) (b : β) (hs : SameButOrder s s') :
    Alike (fun r r' => SameButOrder r.1 r'.1 ∧ r.2 = r'.2) (f (s, b)) (f (s', b)) := by
  obtain ⟨pl, rfl, hp⟩ := hs
  have h1 := h pl (s, b)
  have h2 := h s.m_pointList (s, b)
  cases hf : f (s, b) with
  | error e =>
    rw [hf] at h1
    cases hf1 : f (repoint pl s, b) with
    | error e1 => trivial
    | ok r1 => rw [hf1] at h1; exact h1.elim
  | ok r =>
    obtain ⟨r1, hr1, rfl⟩ := sim_eq_ok h1 hf
    obtain ⟨r2, hr2, hR2⟩ := sim_eq_ok h2 hf
    have hr : r2 = r := Except.ok.inj (hr2.symm.trans hf)
    rw [hr] at hR2
    have hpl : r.1.m_pointList = s.m_pointList := congrArg (fun x => x.1.m_pointList) hR2
    rw [hr1]
    exact ⟨⟨pl, rfl, by rw [hpl]; exact hp⟩, rfl⟩

theorem addPoint_alike (point : Nat) (s s' : ConvexMeshIteratorDebug) (e : EdgeMap Int)
    (hs : SameButOrder s s') :
    Alike (fun r r' => SameButOrder r.1 r'.1 ∧ r.2 = r'.2)
      (addPoint point (s, e)) (addPoint point (s', e)) := by
  obtain ⟨pl, rfl, hp⟩ := hs
  unfold addPoint
  apply alike_bindVal; intro p
  exact alike_of_repoint_pair (fun pl acc => addPointRecursive_repoint pl _ point acc) _ _ e
    ⟨_, rfl, samePoints_push hp s.m_currentPointList _⟩


theorem countDownActiveEdges_alike (s s' : ConvexMeshIteratorDebug) (hs : SameButOrder s s') :
    Alike (fun r r' => SameButOrder r.1 r'.1 ∧ r.2 = r'.2)
      (countDownActiveEdges s) (countDownActiveEdges s') := by
  have hEdges : s'.m_activeEdges = s.m_activeEdges := by
    obtain ⟨pl, rfl, hp⟩ := hs; rfl
  unfold countDownActiveEdges
  rw [hEdges]
  refine alike_foldlM ?_ _ _ _ ⟨hs, rfl⟩
  rintro ⟨a, e⟩ ⟨a', e'⟩ activeEdge ⟨ha, he⟩
  simp only at ha he
  subst he
  have hDest : a'.m_activeEdgeDestPoint = a.m_activeEdgeDestPoint := by
    obtain ⟨pl, rfl, hp⟩ := ha; rfl
  simp only [hDest]
  apply alike_ite
  · apply alike_bindVal; intro destPoint
    exact addPoint_alike destPoint a a' e ha
  · exact alike_pure ⟨ha, rfl⟩

theorem addFirstSlicePoints_alike (s s' : ConvexMeshIteratorDebug) (hs : SameButOrder s s') :
    Alike SameButOrder (addFirstSlicePoints s) (addFirstSlicePoints s') := by
  have hMesh : s'.m_meshEdgeList = s.m_meshEdgeList := by
    obtain ⟨pl, rfl, hp⟩ := hs; rfl
  have hEdges : s'.m_activeEdges = s.m_activeEdges := by
    obtain ⟨pl, rfl, hp⟩ := hs; rfl
  unfold addFirstSlicePoints
  rw [hMesh, hEdges]
  have h : Alike (fun r r' => SameButOrder r.1 r'.1 ∧ r.2 = r'.2)
      ((List.range s.m_meshEdgeList.m_points.length).foldlM
        (fun (acc : ConvexMeshIteratorDebug × EdgeMap Int) point => do
          let p ← index acc.1.m_meshEdgeList.m_points point
          if p.z < acc.1.m_sliceEnd then addPoint point acc else pure acc)
        (s, s.m_activeEdges))
      ((List.range s.m_meshEdgeList.m_points.length).foldlM
        (fun (acc : ConvexMeshIteratorDebug × EdgeMap Int) point => do
          let p ← index acc.1.m_meshEdgeList.m_points point
          if p.z < acc.1.m_sliceEnd then addPoint point acc else pure acc)
        (s', s.m_activeEdges)) := by
    refine alike_foldlM ?_ _ _ _ ⟨hs, rfl⟩
    rintro ⟨a, e⟩ ⟨a', e'⟩ point ⟨ha, he⟩
    simp only at ha he
    subst he
    have hM : a'.m_meshEdgeList = a.m_meshEdgeList := by
      obtain ⟨pl, rfl, hp⟩ := ha; rfl
    have hE : a'.m_sliceEnd = a.m_sliceEnd := by
      obtain ⟨pl, rfl, hp⟩ := ha; rfl
    simp only [hM, hE]
    apply alike_bindVal; intro p
    apply alike_ite
    · exact addPoint_alike point a a' e ha
    · exact alike_pure ⟨ha, rfl⟩
  apply alike_bind h
  rintro ⟨a, e⟩ ⟨a', e'⟩ ⟨ha, he⟩
  simp only at ha he
  subst he
  obtain ⟨pl, rfl, hp⟩ := ha
  exact alike_pure ⟨pl, rfl, hp⟩


theorem pointComparator_le_of_lt {a b : Vec2 ℚ} (h : PointComparator a b) :
    ¬ PointComparator b a := by
  unfold PointComparator at *
  rcases h with h | ⟨h1, h2⟩
  · rintro (h' | ⟨_, h'⟩)
    · exact absurd h (not_lt_of_gt h')
    · exact ‹¬ b.y > a.y› h
  · rintro (h' | ⟨_, h'⟩)
    · exact h1 h'
    · exact absurd h2 (not_lt_of_gt h')

theorem pointComparator_le_trans {a b c : Vec2 ℚ} (h1 : ¬ PointComparator b a)
    (h2 : ¬ PointComparator c b) : ¬ PointComparator c a := by
  unfold PointComparator at *
  push_neg at *
  obtain ⟨h1a, h1b⟩ := h1
  obtain ⟨h2a, h2b⟩ := h2
  constructor
  · linarith
  · intro h
    have hab : a.y = b.y := le_antisymm h1a (by linarith)
    have hbc : b.y = c.y := le_antisymm h2a (by linarith)
    have := h1b (by rw [hab])
    have := h2b (by rw [hbc])
    linarith

theorem pointComparator_le_antisymm {a b : Vec2 ℚ} (h1 : ¬ PointComparator b a)
    (h2 : ¬ PointComparator a b) : a = b := by
  unfold PointComparator at *
  push_neg at *
  obtain ⟨h1a, h1b⟩ := h1
  obtain ⟨h2a, h2b⟩ := h2
  have hy : a.y = b.y := le_antisymm h1a h2a
  have hx : a.x = b.x := le_antisymm (h1b (by rw [hy])) (h2b (by rw [hy]))
  cases a; cases b; simp only at hx hy; rw [hx, hy]

theorem sorted_orderedInsert_pointComparator (a : Vec2 ℚ) :
    ∀ l : List (Vec2 ℚ), l.Pairwise (fun p q => ¬ PointComparator q p) →
      (l.orderedInsert PointComparator a).Pairwise (fun p q => ¬ PointComparator q p) := by
  intro l
  induction l with
  | nil => intro _; simp
  | cons b l ih =>
    intro h
    rw [List.pairwise_cons] at h
    rw [List.orderedInsert]
    split
    · rename_i hab
      rw [List.pairwise_cons]
      refine ⟨?_, List.pairwise_cons.mpr h⟩
      intro c hc
      rcases List.mem_cons.mp hc with rfl | hc
      · exact pointComparator_le_of_lt hab
      · exact pointComparator_le_trans (pointComparator_le_of_lt hab) (h.1 c hc)
    · rename_i hab
      rw [List.pairwise_cons]
      refine ⟨?_, ih h.2⟩
      intro c hc
      have hc' : c ∈ a :: l := (List.perm_orderedInsert _ a l).subset hc
      rcases List.mem_cons.mp hc' with rfl | hc'
      · exact hab
      · exact h.1 c hc'

theorem sorted_insertionSort_pointComparator (l : List (Vec2 ℚ)) :
    (l.insertionSort PointComparator).Pairwise (fun p q => ¬ PointComparator q p) := by
  induction l with
  | nil => simp
  | cons a l ih =>
    rw [List.insertionSort]
    exact sorted_orderedInsert_pointComparator a _ ih

theorem insertionSort_pointComparator_perm {l l' : List (Vec2 ℚ)} (h : l.Perm l') :
    l.insertionSort PointComparator = l'.insertionSort PointComparator := by
  have hp : (l.insertionSort PointComparator).Perm (l'.insertionSort PointComparator) :=
    ((List.perm_insertionSort _ l).trans h).trans (List.perm_insertionSort _ l').symm
  have h1 := sorted_insertionSort_pointComparator l
  have h2 := sorted_insertionSort_pointComparator l'
  exact List.Perm.eq_of_sorted (fun a b _ _ hab hba => pointComparator_le_antisymm hab hba) h1 h2 hp

theorem buildSliceHull_alike (s s' : ConvexMeshIteratorDebug) (hs : SameButOrder s s') :
    Alike SameButOrder (buildSliceHull s) (buildSliceHull s') := by
  obtain ⟨pl, rfl, hp⟩ := hs
  have hLen : s.m_pointList.elem0.length + s.m_pointList.elem1.length
      = pl.elem0.length + pl.elem1.length := by
    rw [hp.1.length_eq, hp.2.length_eq]
  have hSort : (s.m_pointList.elem0 ++ s.m_pointList.elem1).insertionSort PointComparator
      = (pl.elem0 ++ pl.elem1).insertionSort PointComparator :=
    insertionSort_pointComparator_perm (hp.1.append hp.2)
  unfold buildSliceHull
  simp only [repoint, ← hLen, ← hSort]
  apply alike_ite
  · exact alike_error
  · apply alike_ite
    · exact alike_error
    · apply alike_ite
      · exact alike_error
      · exact alike_ok ⟨pl, rfl, hp⟩


theorem collectSlicePointsIn_id (s : ConvexMeshIteratorDebug) :
    collectSlicePointsIn (fun m => m) s = collectSlicePoints s := rfl

theorem collectSlicePoint_cases (other : Bool) (a : ConvexMeshIteratorDebug)
    (x : Nat × Int) :
    (∃ e, ∀ pl, collectSlicePoint other (repoint pl a) x = .error e)
      ∨ (∃ p, ∀ pl, collectSlicePoint other (repoint pl a) x
          = .ok (repoint (pl.set other (pl.get other ++ [p])) a)) := by
  have hm : ∀ pl, (repoint pl a).m_meshEdgeList = a.m_meshEdgeList := fun _ => rfl
  unfold collectSlicePoint
  simp only [hm, bind, Except.bind]
  cases index a.m_meshEdgeList.m_edges x.1 with
  | error e => exact Or.inl ⟨e, fun pl => rfl⟩
  | ok edge =>
    simp only
    cases index a.m_meshEdgeList.m_points edge.1 with
    | error e => exact Or.inl ⟨e, fun pl => rfl⟩
    | ok p0 =>
      simp only
      cases index a.m_meshEdgeList.m_points edge.2 with
      | error e => exact Or.inl ⟨e, fun pl => rfl⟩
      | ok p1 =>
        simp only
        by_cases hz : p0.z = p1.z
        · refine Or.inl ⟨.assertEdgeCrossesSlice, fun pl => ?_⟩
          rw [if_pos hz]
        · refine Or.inr ⟨a.fixRasterPointPrecision
            ⟨(lineInterceptXY p0 p1 a.m_sliceEnd).x, (lineInterceptXY p0 p1 a.m_sliceEnd).y⟩,
            fun pl => ?_⟩
          rw [if_neg hz]
          rfl

theorem collectSlicePoint_alike (other : Bool) (a a' : ConvexMeshIteratorDebug)
    (x : Nat × Int) (h : SameButOrder a a') :
    Alike SameButOrder (collectSlicePoint other a x) (collectSlicePoint other a' x) := by
  obtain ⟨pl, rfl, hp⟩ := h
  rcases collectSlicePoint_cases other a x with ⟨e, he⟩ | ⟨p, hp'⟩
  · have h1 := he a.m_pointList
    have h2 := he pl
    rw [show repoint a.m_pointList a = a from rfl] at h1
    rw [h1, h2]
    exact alike_error
  · have h1 := hp' a.m_pointList
    have h2 := hp' pl
    rw [show repoint a.m_pointList a = a from rfl] at h1
    rw [h1, h2]
    exact alike_ok ⟨_, rfl, samePoints_push hp other p⟩

theorem collectSlicePoint_swap (other : Bool) (a a' : ConvexMeshIteratorDebug)
    (x y : Nat × Int) (h : SameButOrder a a') :
    Alike SameButOrder
      (collectSlicePoint other a y >>= fun a1 => collectSlicePoint other a1 x)
      (collectSlicePoint other a' x >>= fun a1 => collectSlicePoint other a1 y) := by
  obtain ⟨pl, rfl, hp⟩ := h
  have hself : repoint a.m_pointList a = a := rfl
  have hre : ∀ pl1 pl2, repoint pl2 (repoint pl1 a) = repoint pl2 a := fun _ _ => rfl
  rcases collectSlicePoint_cases other a x with ⟨ex, hx⟩ | ⟨px, hx⟩ <;>
    rcases collectSlicePoint_cases other a y with ⟨ey, hy⟩ | ⟨py, hy⟩
  · have h1 := hy a.m_pointList
    rw [hself] at h1
    rw [h1, hx pl]
    exact alike_error
  · have h1 := hy a.m_pointList
    rw [hself] at h1
    rw [h1, hx pl]
    show Alike _ (collectSlicePoint other (repoint _ a) x) _
    rw [hx]
    exact alike_error
  · have h1 := hy a.m_pointList
    rw [hself] at h1
    rw [h1, hx pl]
    show Alike _ _ (collectSlicePoint other (repoint _ a) y)
    rw [hy]
    exact alike_error
  · have h1 := hy a.m_pointList
    rw [hself] at h1
    rw [h1, hx pl]
    show Alike _ (collectSlicePoint other (repoint _ a) x) (collectSlicePoint other (repoint _ a) y)
    rw [hx, hy]
    refine alike_ok ⟨_, rfl, ?_⟩
    cases other
    · exact ⟨by
        simp only [Arr2.set, Arr2.get, repoint]
        simp only [Bool.false_eq_true, if_false, List.append_assoc]
        exact List.Perm.append hp.1 (List.Perm.swap _ _ _), hp.2⟩
    · exact ⟨hp.1, by
        simp only [Arr2.set, Arr2.get, repoint]
        simp only [if_true, List.append_assoc]
        exact List.Perm.append hp.2 (List.Perm.swap _ _ _)⟩

theorem collectSlicePoint_foldlM_perm (other : Bool) {l l' : List (Nat × Int)}
    (h : l.Perm l') :
    ∀ a a', SameButOrder a a' →
      Alike SameButOrder (l.foldlM (collectSlicePoint other) a)
        (l'.foldlM (collectSlicePoint other) a') := by
  induction h with
  | nil => intro a a' ha; exact alike_pure ha
  | cons x _ ih =>
    intro a a' ha
    rw [List.foldlM_cons, List.foldlM_cons]
    exact alike_bind (collectSlicePoint_alike other a a' x ha) ih
  | swap x y l =>
    intro a a' ha
    simp only [List.foldlM_cons, ← bind_assoc]
    exact alike_bind (collectSlicePoint_swap other a a' x y ha)
      (alike_foldlM (fun b b' c hb => collectSlicePoint_alike other b b' c hb) l)
  | trans _ _ ih1 ih2 =>
    intro a a' ha
    exact alike_trans sameButOrder_trans (ih1 a a (sameButOrder_refl a)) (ih2 a a' ha)


theorem collectSlicePointsIn_alike (enumerate : EdgeMap Int → EdgeMap Int)
    (hEnumerate : ∀ m, (enumerate m).Perm m) (s s' : ConvexMeshIteratorDebug)
    (hs : SameButOrder s s') :
    Alike SameButOrder (collectSlicePoints s) (collectSlicePointsIn enumerate s') := by
  obtain ⟨pl, rfl, hp⟩ := hs
  exact collectSlicePoint_foldlM_perm (!s.m_currentPointList) (hEnumerate s.m_activeEdges).symm _ _
    ⟨pl.set (!s.m_currentPointList) [], rfl, samePoints_clear hp _⟩

theorem setupSliceIn_alike (enumerate : EdgeMap Int → EdgeMap Int)
    (hEnumerate : ∀ m, (enumerate m).Perm m) (s s' : ConvexMeshIteratorDebug)
    (hs : SameButOrder s s') :
    Alike SameButOrder (setupSlice s) (setupSliceIn enumerate s') := by
  unfold setupSlice setupSliceIn
  apply alike_bind (collectSlicePointsIn_alike enumerate hEnumerate s s' hs)
  intro a a' ha
  apply alike_bind (buildSliceHull_alike a a' ha)
  intro b b' hb
  apply alike_bind (alike_of_repoint setupSliceRows_repoint b b' hb)
  intro c c' hc
  apply alike_bind (alike_of_repoint (fun pl s => setupSliceHelper_repoint pl LEFT_SIDE s) c c' hc)
  intro d d' hd
  have hd1 : d'.m_currentPosition = d.m_currentPosition := by
    obtain ⟨pl, rfl, hp⟩ := hd; rfl
  rw [hd1]
  apply alike_ite
  · exact alike_error
  · apply alike_bind
      (alike_of_repoint (fun pl s => setupSliceHelper_repoint pl RIGHT_SIDE s) d d' hd)
    intro e e' he
    have he1 : e'.m_algorithmBounds = e.m_algorithmBounds := by
      obtain ⟨pl, rfl, hp⟩ := he; rfl
    have he2 : e'.m_sliceMax = e.m_sliceMax := by
      obtain ⟨pl, rfl, hp⟩ := he; rfl
    rw [he1, he2]
    apply alike_ite
    · exact alike_error
    · exact alike_ok he

theorem advanceSliceIn_alike (enumerate : EdgeMap Int → EdgeMap Int)
    (hEnumerate : ∀ m, (enumerate m).Perm m) (s s' : ConvexMeshIteratorDebug)
    (hs : SameButOrder s s') :
    Alike SameButOrder (advanceSlice s) (advanceSliceIn enumerate s') := by
  obtain ⟨pl, rfl, hp⟩ := hs
  unfold advanceSlice advanceSliceIn
  refine alike_bind (countDownActiveEdges_alike _ _ ?_) ?_
  · exact ⟨pl, rfl, hp⟩
  · rintro ⟨a, e⟩ ⟨a', e'⟩ ⟨ha, he⟩
    simp only at ha he
    subst he
    obtain ⟨pl1, rfl, hp1⟩ := ha
    exact setupSliceIn_alike enumerate hEnumerate _ _ ⟨pl1, rfl, hp1⟩

theorem forwardIn_alike (enumerate : EdgeMap Int → EdgeMap Int)
    (hEnumerate : ∀ m, (enumerate m).Perm m) (s s' : ConvexMeshIteratorDebug)
    (hs : SameButOrder s s') :
    Alike (fun r r' => r.1 = r'.1 ∧ SameButOrder r.2 r'.2) (forward s) (forwardIn enumerate s') := by
  have hs0 := hs
  obtain ⟨pl, rfl, hp⟩ := hs
  unfold forward forwardIn
  apply alike_ite
  · exact alike_error
  · apply alike_ite
    · apply alike_ite
      · apply alike_ite
        · exact alike_ok ⟨rfl, pl, rfl, hp⟩
        · apply alike_map (advanceSliceIn_alike enumerate hEnumerate _ _ hs0)
          intro a a' ha
          exact ⟨rfl, ha⟩
      · apply alike_map (alike_of_repoint advanceRow_repoint _ _ hs0)
        intro a a' ha
        exact ⟨rfl, ha⟩
    · exact alike_ok ⟨rfl, pl, rfl, hp⟩

theorem constructIn_alike (enumerate : EdgeMap Int → EdgeMap Int)
    (hEnumerate : ∀ m, (enumerate m).Perm m) (meshEdgeList : MeshEdgeList)
    (dimensionOrder : Vec3 (Fin 3)) (directionSign : Vec3 Int) (bounds : Box Int)
    (cellDimensions : Vec3 ℚ) :
    Alike SameButOrder (construct meshEdgeList dimensionOrder directionSign bounds cellDimensions)
      (constructIn enumerate meshEdgeList dimensionOrder directionSign bounds cellDimensions) := by
  unfold construct constructIn
  apply alike_bind (addFirstSlicePoints_alike _ _ (sameButOrder_refl _))
  intro a a' ha
  exact setupSliceIn_alike enumerate hEnumerate a a' ha

theorem traverseIn_alike (enumerate : EdgeMap Int → EdgeMap Int)
    (hEnumerate : ∀ m, (enumerate m).Perm m) (fuel : Nat) :
    ∀ s s', SameButOrder s s' →
      (traverseIn enumerate fuel s').cells = (traverse fuel s).cells
        ∧ ((traverseIn enumerate fuel s').ending = none ↔ (traverse fuel s).ending = none) := by
  induction fuel with
  | zero => intro s s' _; exact ⟨rfl, Iff.rfl⟩
  | succ n ih =>
    intro s s' hs
    have hf := forwardIn_alike enumerate hEnumerate s s' hs
    obtain ⟨pl, rfl, hp⟩ := hs
    have hEnd : (repoint pl s).atEnd = s.atEnd := rfl
    have hCell : (repoint pl s).algorithmToWorldCell (repoint pl s).m_currentPosition
        = s.algorithmToWorldCell s.m_currentPosition := rfl
    simp only [traverse, traverseIn, getCurrentPosition, hEnd, hCell]
    cases hAt : s.atEnd with
    | true => exact ⟨rfl, Iff.rfl⟩
    | false =>
      simp only [Bool.false_eq_true, if_false]
      cases h1 : forward s with
      | error e =>
        cases h2 : forwardIn enumerate (repoint pl s) with
        | error e' => simp
        | ok r' => rw [h1, h2] at hf; exact hf.elim
      | ok r =>
        cases h2 : forwardIn enumerate (repoint pl s) with
        | error e' => rw [h1, h2] at hf; exact hf.elim
        | ok r' =>
          rw [h1, h2] at hf
          have hr := ih r.2 r'.2 hf.2
          simp only [hr.1, hr.2, List.cons.injEq, true_and, and_self]

theorem forwardIn_id (s : ConvexMeshIteratorDebug) : forwardIn (fun m => m) s = forward s := rfl

theorem traverseIn_id (fuel : Nat) : ∀ s, traverseIn (fun m => m) fuel s = traverse fuel s := by
  induction fuel with
  | zero => intro s; rfl
  | succ n ih =>
    intro s
    simp only [traverse, traverseIn, forwardIn_id, ih]

end ConvexMeshIteratorDebug

/-! ## Properties of the traversal of ConvexMeshIteratorDebug -/

/-- C1, the code at the failing input: the volume `prism` is a closed convex mesh inside
the bounds (0,0,0)-(3,0,1) of a grid of unit cells. Its corner (7/2, 1/4, 8/5) lies in the
box of the cell (3, 0, 1), so that cell intersects the volume; the traversal ends at
`atEnd()` after five cells and never reports (3, 0, 1). The corner is reached only over
edges that `addPointRecursive` discards, and a point reached that way is not appended to
the slice point list. -/
theorem mesh_traversal_misses_prism_cell :
    (∀ p ∈ prism.m_points, 0 ≤ p.x ∧ p.x < 4 ∧ 0 ≤ p.y ∧ p.y < 1 ∧ 0 ≤ p.z ∧ p.z < 2)
      ∧ (⟨7 / 2, 1 / 4, 8 / 5⟩ : Vec3 ℚ) ∈ prism.m_points
      ∧ inCellBox ⟨1, 1, 1⟩ ⟨3, 0, 1⟩ ⟨7 / 2, 1 / 4, 8 / 5⟩
      ∧ (ConvexMeshIteratorDebug.construct prism ⟨0, 1, 2⟩ ⟨1, 1, 1⟩ ⟨⟨0, 0, 0⟩, ⟨3, 0, 1⟩⟩
            ⟨1, 1, 1⟩).map (ConvexMeshIteratorDebug.traverse 6)
          = .ok ⟨[⟨0, 0, 0⟩, ⟨1, 0, 0⟩, ⟨0, 0, 1⟩, ⟨1, 0, 1⟩, ⟨2, 0, 1⟩], none⟩ := by
  decide!

/-- C2: the cells the mesh iterator reports between construction and `atEnd()` are
pairwise distinct. Every `forward()` that returns `true` moves the algorithm-space cursor
to a strictly greater position in (slice, row, column) order; for a dimension order that
is a permutation `algorithmToWorldCell` is injective; so the list of reported cells has no
duplicates, however many rounds of the caller's loop are run. -/
theorem mesh_cells_pairwise_distinct (meshEdgeList : MeshEdgeList)
    (dimensionOrder : Vec3 (Fin 3)) (directionSign : Vec3 Int) (bounds : Box Int)
    (cellDimensions : Vec3 ℚ) (s : ConvexMeshIteratorDebug) (fuel : Nat)
    (hOrder : dimensionOrder.IsPermutation)
    (hConstruct : ConvexMeshIteratorDebug.construct meshEdgeList dimensionOrder directionSign
      bounds cellDimensions = .ok s) :
    (∀ t t' : ConvexMeshIteratorDebug, t.forward = .ok (true, t') →
        cursorLt t.m_currentPosition t'.m_currentPosition)
      ∧ Function.Injective s.algorithmToWorldCell
      ∧ (s.traverse fuel).cells.Nodup := by
  have hfix := ConvexMeshIteratorDebug.construct_fixed meshEdgeList dimensionOrder directionSign
    bounds cellDimensions s hConstruct
  have hinv : s.m_dimensionOrderInverse.IsPermutation := by
    have h3 : s.m_dimensionOrderInverse = _ := congrArg (fun p => p.2.2.1) hfix
    rw [h3]
    exact ConvexMeshIteratorDebug.inverseDimension_isPermutation dimensionOrder hOrder
  have hinj := ConvexMeshIteratorDebug.algorithmToWorldCell_injective s hinv
  refine ⟨?_, hinj, (ConvexMeshIteratorDebug.traverse_cells_increasing s hinj fuel s rfl).2⟩
  intro t t' h
  rcases ConvexMeshIteratorDebug.forward_ok h with ⟨_, hlt, _⟩ | ⟨hr, _⟩
  · exact hlt
  · cases hr

/-- C2 at the iterator built for `prism`: the dimension order (0, 1, 2) is a permutation,
the constructor returns, and the cells of the traversal are pairwise distinct. -/
theorem mesh_cells_pairwise_distinct_witness :
    (⟨0, 1, 2⟩ : Vec3 (Fin 3)).IsPermutation
      ∧ ConvexMeshIteratorDebug.construct prism ⟨0, 1, 2⟩ ⟨1, 1, 1⟩ ⟨⟨0, 0, 0⟩, ⟨3, 0, 1⟩⟩ ⟨1, 1, 1⟩
          = .ok (ConvexMeshIteratorDebug.built prism ⟨0, 1, 2⟩ ⟨1, 1, 1⟩ ⟨⟨0, 0, 0⟩, ⟨3, 0, 1⟩⟩
              ⟨1, 1, 1⟩)
      ∧ ((ConvexMeshIteratorDebug.built prism ⟨0, 1, 2⟩ ⟨1, 1, 1⟩ ⟨⟨0, 0, 0⟩, ⟨3, 0, 1⟩⟩
            ⟨1, 1, 1⟩).traverse 6).cells.Nodup :=
  ⟨by decide, by decide!,
    (mesh_cells_pairwise_distinct prism ⟨0, 1, 2⟩ ⟨1, 1, 1⟩ ⟨⟨0, 0, 0⟩, ⟨3, 0, 1⟩⟩ ⟨1, 1, 1⟩ _ 6
      (by decide) (by decide!)).2.2⟩

/-- C4 refuted at two volumes that lie entirely outside the bounds of a grid of unit
cells. For the box below the grid (z from -3/4 to -1/4, bounds (0,0,0)-(1,1,0)) the
constructor returns an iterator with `atEnd()` false whose traversal reports the cell
(0, 0, 0). For the box beyond the grid (corners (5,5,5) and (6,6,6), bounds
(0,0,0)-(1,1,1)) the constructor fails the assertion on the number of slice points. -/
theorem mesh_construct_outside_volume_not_atEnd :
    (ConvexMeshIteratorDebug.construct (boxMesh ⟨1 / 4, 1 / 4, -3 / 4⟩ ⟨3 / 4, 3 / 4, -1 / 4⟩)
          ⟨0, 1, 2⟩ ⟨1, 1, 1⟩ ⟨⟨0, 0, 0⟩, ⟨1, 1, 0⟩⟩ ⟨1, 1, 1⟩).map
        (fun s => (s.atEnd, s.traverse 2))
        = .ok (false, ⟨[⟨0, 0, 0⟩], none⟩)
      ∧ ConvexMeshIteratorDebug.construct (boxMesh ⟨5, 5, 5⟩ ⟨6, 6, 6⟩)
          ⟨0, 1, 2⟩ ⟨1, 1, 1⟩ ⟨⟨0, 0, 0⟩, ⟨1, 1, 1⟩⟩ ⟨1, 1, 1⟩
        = .error .assertSlicePoints := by
  decide!

/-- C4 as amended: whenever the constructor that takes a volume returns, `atEnd()` is
false, whatever the volume and the bounds; the iterator that is `atEnd()` from the start,
whose traversal produces no cell and raises no error, is the default-constructed one. -/
theorem mesh_construct_atEnd_false (meshEdgeList : MeshEdgeList)
    (dimensionOrder : Vec3 (Fin 3)) (directionSign : Vec3 Int) (bounds : Box Int)
    (cellDimensions : Vec3 ℚ) (s : ConvexMeshIteratorDebug)
    (hConstruct : ConvexMeshIteratorDebug.construct meshEdgeList dimensionOrder directionSign
      bounds cellDimensions = .ok s) :
    s.atEnd = false
      ∧ ConvexMeshIteratorDebug.constructDefault.atEnd = true
      ∧ ∀ fuel, ConvexMeshIteratorDebug.constructDefault.traverse (fuel + 1) = ⟨[], none⟩ := by
  have hfix := ConvexMeshIteratorDebug.construct_fixed meshEdgeList dimensionOrder directionSign
    bounds cellDimensions s hConstruct
  refine ⟨congrArg (fun p => p.2.2.2.2) hfix, rfl, ?_⟩
  intro fuel
  rfl

/-- C4 as amended, at the volume that is the cell (0, 0, 0) of a unit grid with bounds
(0,0,0)-(0,0,0): the constructor returns, and `atEnd()` is false. -/
theorem mesh_construct_atEnd_false_witness :
    ConvexMeshIteratorDebug.construct (unitCellMesh ⟨0, 0, 0⟩) ⟨0, 1, 2⟩ ⟨1, 1, 1⟩
        ⟨⟨0, 0, 0⟩, ⟨0, 0, 0⟩⟩ ⟨1, 1, 1⟩
        = .ok (ConvexMeshIteratorDebug.built (unitCellMesh ⟨0, 0, 0⟩) ⟨0, 1, 2⟩ ⟨1, 1, 1⟩
            ⟨⟨0, 0, 0⟩, ⟨0, 0, 0⟩⟩ ⟨1, 1, 1⟩)
      ∧ (ConvexMeshIteratorDebug.built (unitCellMesh ⟨0, 0, 0⟩) ⟨0, 1, 2⟩ ⟨1, 1, 1⟩
            ⟨⟨0, 0, 0⟩, ⟨0, 0, 0⟩⟩ ⟨1, 1, 1⟩).atEnd = false :=
  ⟨by decide!,
    (mesh_construct_atEnd_false (unitCellMesh ⟨0, 0, 0⟩) ⟨0, 1, 2⟩ ⟨1, 1, 1⟩
      ⟨⟨0, 0, 0⟩, ⟨0, 0, 0⟩⟩ ⟨1, 1, 1⟩ _ (by decide!)).1⟩

/-- C9 refuted: the box from (1/4,1/4,1/4) to (3/4,3/4,3/4) lies in slice 0 of the bounds
(0,0,0)-(0,0,1) of a unit grid, which has the slices 0 and 1. After construction the
cursor is on the last cell of slice 0 and `atEnd()` is false; `forward()` there does not
reach `atEnd()`: it advances to slice 1 and fails the assertion on the slice points. -/
theorem mesh_forward_past_volume_fails :
    (ConvexMeshIteratorDebug.construct (boxMesh ⟨1 / 4, 1 / 4, 1 / 4⟩ ⟨3 / 4, 3 / 4, 3 / 4⟩)
        ⟨0, 1, 2⟩ ⟨1, 1, 1⟩ ⟨⟨0, 0, 0⟩, ⟨0, 0, 1⟩⟩ ⟨1, 1, 1⟩).map
      (fun s => (s.m_currentPosition, s.m_sliceMax, s.m_algorithmBounds.z, s.atEnd,
        s.forward.map (fun r => (r.1, r.2.atEnd))))
      = .ok (⟨0, 0, 0⟩, ⟨0, 0⟩, 1, false, .error .assertSlicePoints) := by
  decide!

/-- C9 as amended: on the last cell of a slice (cursor on the max column of the max row,
not at end) `forward()` reaches `atEnd()` exactly when that slice is the last slice of the
bounds handed to the constructor, `m_currentPosition.z == m_algorithmBounds.z`: then it
returns `false` and only sets the at-end flag. On the last cell of an earlier slice a
`forward()` that returns has moved the cursor to the next slice and left `atEnd()` false. -/
theorem mesh_forward_atEnd_iff_last_slice_of_bounds (s : ConvexMeshIteratorDebug)
    (hNotAtEnd : s.atEnd = false)
    (hColumn : s.m_currentPosition.x = s.m_sliceMax.x)
    (hRow : s.m_currentPosition.y = s.m_sliceMax.y) :
    (s.m_currentPosition.z = s.m_algorithmBounds.z →
        s.forward = .ok (false, { s with m_atEnd := true }))
      ∧ (s.m_currentPosition.z ≠ s.m_algorithmBounds.z →
        ∀ r s', s.forward = .ok (r, s') →
          r = true ∧ s'.atEnd = false ∧ s'.m_currentPosition.z = s.m_currentPosition.z + 1) := by
  have hEnd : s.m_atEnd = false := hNotAtEnd
  refine ⟨?_, ?_⟩
  · intro hz
    simp [ConvexMeshIteratorDebug.forward, ConvexMeshIteratorDebug.atEnd, hEnd, hColumn, hRow, hz]
  · intro hz r s' h
    simp only [ConvexMeshIteratorDebug.forward, ConvexMeshIteratorDebug.atEnd, hEnd, hColumn,
      hRow, hz, if_true, if_false, Bool.false_eq_true] at h
    cases hs : ConvexMeshIteratorDebug.advanceSlice s with
    | error e => rw [hs] at h; cases h
    | ok s1 =>
      rw [hs] at h
      cases h
      have hk := ConvexMeshIteratorDebug.advanceSlice_slice s s' hs
      refine ⟨rfl, ?_, congrArg Prod.snd hk⟩
      have h5 : s'.m_atEnd = s.m_atEnd := congrArg (fun p => p.1.2.2.2.2) hk
      exact h5.trans hEnd

/-- C9 as amended, at the iterator built for the box from (1/4,1/4,1/4) to (3/4,3/4,3/4)
with bounds (0,0,0)-(0,0,0): the cursor is on the last cell of slice 0, which is the last
slice of the bounds, and `forward()` returns `false` and sets the at-end flag. -/
theorem mesh_forward_atEnd_iff_last_slice_of_bounds_witness :
    (ConvexMeshIteratorDebug.built (boxMesh ⟨1 / 4, 1 / 4, 1 / 4⟩ ⟨3 / 4, 3 / 4, 3 / 4⟩)
        ⟨0, 1, 2⟩ ⟨1, 1, 1⟩ ⟨⟨0, 0, 0⟩, ⟨0, 0, 0⟩⟩ ⟨1, 1, 1⟩).forward
      = .ok (false,
          { ConvexMeshIteratorDebug.built (boxMesh ⟨1 / 4, 1 / 4, 1 / 4⟩ ⟨3 / 4, 3 / 4, 3 / 4⟩)
              ⟨0, 1, 2⟩ ⟨1, 1, 1⟩ ⟨⟨0, 0, 0⟩, ⟨0, 0, 0⟩⟩ ⟨1, 1, 1⟩ with m_atEnd := true }) :=
  (mesh_forward_atEnd_iff_last_slice_of_bounds
    (ConvexMeshIteratorDebug.built (boxMesh ⟨1 / 4, 1 / 4, 1 / 4⟩ ⟨3 / 4, 3 / 4, 3 / 4⟩)
      ⟨0, 1, 2⟩ ⟨1, 1, 1⟩ ⟨⟨0, 0, 0⟩, ⟨0, 0, 0⟩⟩ ⟨1, 1, 1⟩)
    (by decide!) (by decide!) (by decide!)).1 (by decide!)

/-- C11: the traversal is a function of the volume, the dimension order, the direction
sign, the bounds and the cell dimensions, and it does not depend on the order in which
`setupSlice` enumerates the active-edge table when it collects the slice points. Whatever
that order `enumerate` (a permutation of the table's entries at every call), the
constructor returns in both runs or fails in both, the caller's loop reports the same
cells in the same order and ends at `atEnd()` in both runs or in neither. With the order
of the model the run is the one of `construct` and `traverse`. -/
theorem mesh_traversal_independent_of_enumeration (enumerate : EdgeMap Int → EdgeMap Int)
    (hEnumerate : ∀ m, (enumerate m).Perm m) (meshEdgeList : MeshEdgeList)
    (dimensionOrder : Vec3 (Fin 3)) (directionSign : Vec3 Int) (bounds : Box Int)
    (cellDimensions : Vec3 ℚ) (fuel : Nat) :
    (∀ s, ConvexMeshIteratorDebug.construct meshEdgeList dimensionOrder directionSign bounds
          cellDimensions = .ok s →
        ∃ s', ConvexMeshIteratorDebug.constructIn enumerate meshEdgeList dimensionOrder
            directionSign bounds cellDimensions = .ok s'
          ∧ (ConvexMeshIteratorDebug.traverseIn enumerate fuel s').cells
            = (ConvexMeshIteratorDebug.traverse fuel s).cells
          ∧ ((ConvexMeshIteratorDebug.traverseIn enumerate fuel s').ending = none
            ↔ (ConvexMeshIteratorDebug.traverse fuel s).ending = none))
      ∧ (∀ e, ConvexMeshIteratorDebug.construct meshEdgeList dimensionOrder directionSign bounds
          cellDimensions = .error e →
        ∃ e', ConvexMeshIteratorDebug.constructIn enumerate meshEdgeList dimensionOrder
            directionSign bounds cellDimensions = .error e')
      ∧ ConvexMeshIteratorDebug.constructIn (fun m => m) meshEdgeList dimensionOrder
          directionSign bounds cellDimensions
        = ConvexMeshIteratorDebug.construct meshEdgeList dimensionOrder directionSign bounds
          cellDimensions
      ∧ ∀ s, ConvexMeshIteratorDebug.traverseIn (fun m => m) fuel s
        = ConvexMeshIteratorDebug.traverse fuel s := by
  have h := ConvexMeshIteratorDebug.constructIn_alike enumerate hEnumerate meshEdgeList
    dimensionOrder directionSign bounds cellDimensions
  refine ⟨?_, ?_, rfl, ConvexMeshIteratorDebug.traverseIn_id fuel⟩
  · intro s hs
    rw [hs] at h
    cases h2 : ConvexMeshIteratorDebug.constructIn enumerate meshEdgeList dimensionOrder
        directionSign bounds cellDimensions with
    | error e' => rw [h2] at h; exact h.elim
    | ok s' =>
      rw [h2] at h
      exact ⟨s', rfl, ConvexMeshIteratorDebug.traverseIn_alike enumerate hEnumerate fuel s s' h⟩
  · intro e he
    rw [he] at h
    cases h2 : ConvexMeshIteratorDebug.constructIn enumerate meshEdgeList dimensionOrder
        directionSign bounds cellDimensions with
    | error e' => exact ⟨e', rfl⟩
    | ok s' => rw [h2] at h; exact h.elim

/-- C11 for the volume `prism`, with the table enumerated in reverse order. -/
theorem mesh_traversal_independent_of_enumeration_witness :
    ∃ s', ConvexMeshIteratorDebug.constructIn List.reverse prism ⟨0, 1, 2⟩ ⟨1, 1, 1⟩
          ⟨⟨0, 0, 0⟩, ⟨3, 0, 1⟩⟩ ⟨1, 1, 1⟩ = .ok s'
      ∧ (ConvexMeshIteratorDebug.traverseIn List.reverse 6 s').cells
        = (ConvexMeshIteratorDebug.traverse 6
            (ConvexMeshIteratorDebug.built prism ⟨0, 1, 2⟩ ⟨1, 1, 1⟩ ⟨⟨0, 0, 0⟩, ⟨3, 0, 1⟩⟩
              ⟨1, 1, 1⟩)).cells
      ∧ ((ConvexMeshIteratorDebug.traverseIn List.reverse 6 s').ending = none
        ↔ (ConvexMeshIteratorDebug.traverse 6
            (ConvexMeshIteratorDebug.built prism ⟨0, 1, 2⟩ ⟨1, 1, 1⟩ ⟨⟨0, 0, 0⟩, ⟨3, 0, 1⟩⟩
              ⟨1, 1, 1⟩)).ending = none) :=
  (mesh_traversal_independent_of_enumeration List.reverse (fun m => List.reverse_perm m) prism
    ⟨0, 1, 2⟩ ⟨1, 1, 1⟩ ⟨⟨0, 0, 0⟩, ⟨3, 0, 1⟩⟩ ⟨1, 1, 1⟩ 6).1 _ (by decide!)

/-- C12 refuted: the box from (1/4,1/4,1/4) to (2001/2000,3/4,3/4) in the bounds
(0,0,0)-(1,0,0) of a grid of unit cells, signs (1,1,1), is traversed as (0,0,0), (1,0,0).
Its mirror image in the plane x = 0, with the mirrored bounds (-2,0,0)-(-1,0,0) and the
sign of x negated, is traversed as (-1,0,0) alone, while the mirror image of the original
sequence is (-1,0,0), (-2,0,0): the constructor takes 0.001 off the upper world bound, from
which a negative sign measures, so the corner at x = 2001/2000 is mapped to 1.0005 in one
run and to 0.9995 in the other. -/
theorem mesh_reflection_in_origin_plane_not_mirrored :
    (ConvexMeshIteratorDebug.construct
          (boxMesh ⟨1 / 4, 1 / 4, 1 / 4⟩ ⟨2001 / 2000, 3 / 4, 3 / 4⟩) ⟨0, 1, 2⟩ ⟨1, 1, 1⟩
          ⟨⟨0, 0, 0⟩, ⟨1, 0, 0⟩⟩ ⟨1, 1, 1⟩).map (ConvexMeshIteratorDebug.traverse 5)
        = .ok ⟨[⟨0, 0, 0⟩, ⟨1, 0, 0⟩], none⟩
      ∧ (ConvexMeshIteratorDebug.construct
          (reflectMesh 0 0 (boxMesh ⟨1 / 4, 1 / 4, 1 / 4⟩ ⟨2001 / 2000, 3 / 4, 3 / 4⟩)) ⟨0, 1, 2⟩
          (negateSign 0 ⟨1, 1, 1⟩) (reflectBounds 0 ⟨⟨0, 0, 0⟩, ⟨1, 0, 0⟩⟩) ⟨1, 1, 1⟩).map
          (ConvexMeshIteratorDebug.traverse 5)
        = .ok ⟨[⟨-1, 0, 0⟩], none⟩
      ∧ ConvexMeshIteratorDebug.Traversal.reflect 0 (-1) ⟨[⟨0, 0, 0⟩, ⟨1, 0, 0⟩], none⟩
        = ⟨[⟨-1, 0, 0⟩, ⟨-2, 0, 0⟩], none⟩ := by
  decide!

/-- C12 as amended: mirroring the volume on an axis in the middle plane of the world bounds
the constructor computes (a coordinate `a` becomes `m_worldBounds.m_min + m_worldBounds.m_max
- a`, with `m_worldBounds.m_max = (bounds.m_max + 1) * cellDimensions - 0.001`), keeping the
grid bounds and negating that axis's component of the direction sign (which is not zero),
yields the mirror image of the original traversal: the constructor fails alike or returns
alike, the caller's loop ends alike, and the n-th cell is the n-th cell of the original
with its index `i` on that axis replaced by `bounds.m_min + bounds.m_max - i`. -/
theorem mesh_traversal_mirrored (meshEdgeList : MeshEdgeList) (dimensionOrder : Vec3 (Fin 3))
    (directionSign : Vec3 Int) (bounds : Box Int) (cellDimensions : Vec3 ℚ) (axis : Fin 3)
    (fuel : Nat) (hSign : directionSign.get axis ≠ 0) :
    (ConvexMeshIteratorDebug.construct
        (reflectMesh axis
          ((ConvexMeshIteratorDebug.initial meshEdgeList dimensionOrder directionSign bounds
              cellDimensions).m_worldBounds.m_min.get axis
            + (ConvexMeshIteratorDebug.initial meshEdgeList dimensionOrder directionSign bounds
              cellDimensions).m_worldBounds.m_max.get axis) meshEdgeList)
        dimensionOrder (negateSign axis directionSign) bounds cellDimensions).map
        (ConvexMeshIteratorDebug.traverse fuel)
      = (ConvexMeshIteratorDebug.construct meshEdgeList dimensionOrder directionSign bounds
          cellDimensions).map
        (fun s => (ConvexMeshIteratorDebug.traverse fuel s).reflect axis
          (bounds.m_min.get axis + bounds.m_max.get axis)) := by
  have hA := ConvexMeshIteratorDebug.initial_reflect meshEdgeList dimensionOrder directionSign
    bounds cellDimensions axis hSign
  have hSim := ConvexMeshIteratorDebug.construct_regrid _ _ _ _ _ _ _ _ _ _ _ hA
  have hSelf := ConvexMeshIteratorDebug.construct_regrid
    (ConvexMeshIteratorDebug.initial meshEdgeList dimensionOrder directionSign bounds
      cellDimensions)
    meshEdgeList meshEdgeList dimensionOrder dimensionOrder directionSign directionSign
    bounds bounds cellDimensions cellDimensions rfl
  cases h0 : ConvexMeshIteratorDebug.construct meshEdgeList dimensionOrder directionSign bounds
      cellDimensions with
  | error e =>
    rw [h0] at hSim
    cases h1 : ConvexMeshIteratorDebug.construct _ dimensionOrder (negateSign axis directionSign)
        bounds cellDimensions with
    | ok r => rw [h1] at hSim; exact hSim.elim
    | error e1 =>
      rw [h1] at hSim
      have he : e = e1 := hSim
      subst he
      rfl
  | ok s0 =>
    obtain ⟨s1, h1, hs1⟩ := sim_eq_ok hSim h0
    obtain ⟨s2, h2, hs2⟩ := sim_eq_ok hSelf h0
    rw [h0] at h2
    have hs0 : s0 = s2 := Except.ok.inj h2
    subst hs1
    rw [h1]
    show Except.ok _ = Except.ok _
    congr 1
    rw [ConvexMeshIteratorDebug.traverse_regrid_reflect _
      (ConvexMeshIteratorDebug.initial meshEdgeList dimensionOrder directionSign bounds
        cellDimensions) axis (bounds.m_min.get axis + bounds.m_max.get axis)
      (ConvexMeshIteratorDebug.algorithmToWorldCell_initial_reflect meshEdgeList _ dimensionOrder
        directionSign bounds cellDimensions axis hSign) fuel s0, ← hs2, ← hs0]

/-- C12 as amended, at the box from (1/4,1/4,1/4) to (2001/2000,3/4,3/4) in the bounds
(0,0,0)-(1,0,0) of a grid of unit cells, mirrored on the x axis. -/
theorem mesh_traversal_mirrored_witness :
    (⟨1, 1, 1⟩ : Vec3 Int).get 0 ≠ 0
      ∧ (ConvexMeshIteratorDebug.construct
          (reflectMesh 0
            ((ConvexMeshIteratorDebug.initial
                (boxMesh ⟨1 / 4, 1 / 4, 1 / 4⟩ ⟨2001 / 2000, 3 / 4, 3 / 4⟩) ⟨0, 1, 2⟩ ⟨1, 1, 1⟩
                ⟨⟨0, 0, 0⟩, ⟨1, 0, 0⟩⟩ ⟨1, 1, 1⟩).m_worldBounds.m_min.get 0
              + (ConvexMeshIteratorDebug.initial
                (boxMesh ⟨1 / 4, 1 / 4, 1 / 4⟩ ⟨2001 / 2000, 3 / 4, 3 / 4⟩) ⟨0, 1, 2⟩ ⟨1, 1, 1⟩
                ⟨⟨0, 0, 0⟩, ⟨1, 0, 0⟩⟩ ⟨1, 1, 1⟩).m_worldBounds.m_max.get 0)
            (boxMesh ⟨1 / 4, 1 / 4, 1 / 4⟩ ⟨2001 / 2000, 3 / 4, 3 / 4⟩))
          ⟨0, 1, 2⟩ (negateSign 0 ⟨1, 1, 1⟩) ⟨⟨0, 0, 0⟩, ⟨1, 0, 0⟩⟩ ⟨1, 1, 1⟩).map
          (ConvexMeshIteratorDebug.traverse 5)
        = (ConvexMeshIteratorDebug.construct
            (boxMesh ⟨1 / 4, 1 / 4, 1 / 4⟩ ⟨2001 / 2000, 3 / 4, 3 / 4⟩) ⟨0, 1, 2⟩ ⟨1, 1, 1⟩
            ⟨⟨0, 0, 0⟩, ⟨1, 0, 0⟩⟩ ⟨1, 1, 1⟩).map
          (fun s => (ConvexMeshIteratorDebug.traverse 5 s).reflect 0
            ((⟨0, 0, 0⟩ : Vec3 Int).get 0 + (⟨1, 0, 0⟩ : Vec3 Int).get 0)) :=
  ⟨by decide,
    mesh_traversal_mirrored (boxMesh ⟨1 / 4, 1 / 4, 1 / 4⟩ ⟨2001 / 2000, 3 / 4, 3 / 4⟩) ⟨0, 1, 2⟩
      ⟨1, 1, 1⟩ ⟨⟨0, 0, 0⟩, ⟨1, 0, 0⟩⟩ ⟨1, 1, 1⟩ 0 5 (by decide)⟩

/-- C13 refuted: the box from (5/4,1/4,1/4) to (7/4,3/4,3/4) in the cell (1,0,0) of a grid
of unit cells, which is the bounds. The constructor returns (the traversal reports that
cell), and the list of the caller then holds the points of the box from (1/4,1/4,1/4) to
(3/4,3/4,3/4): the points were remapped into algorithm space in the caller's list, before
the copy was taken. -/
theorem mesh_construct_remaps_callers_points :
    (ConvexMeshIteratorDebug.construct (boxMesh ⟨5 / 4, 1 / 4, 1 / 4⟩ ⟨7 / 4, 3 / 4, 3 / 4⟩)
          ⟨0, 1, 2⟩ ⟨1, 1, 1⟩ ⟨⟨1, 0, 0⟩, ⟨1, 0, 0⟩⟩ ⟨1, 1, 1⟩).map
          (ConvexMeshIteratorDebug.traverse 3)
        = .ok ⟨[⟨1, 0, 0⟩], none⟩
      ∧ ConvexMeshIteratorDebug.callerMeshEdgeList
          (boxMesh ⟨5 / 4, 1 / 4, 1 / 4⟩ ⟨7 / 4, 3 / 4, 3 / 4⟩)
          ⟨0, 1, 2⟩ ⟨1, 1, 1⟩ ⟨⟨1, 0, 0⟩, ⟨1, 0, 0⟩⟩ ⟨1, 1, 1⟩
        = boxMesh ⟨1 / 4, 1 / 4, 1 / 4⟩ ⟨3 / 4, 3 / 4, 3 / 4⟩
      ∧ ConvexMeshIteratorDebug.callerMeshEdgeList
          (boxMesh ⟨5 / 4, 1 / 4, 1 / 4⟩ ⟨7 / 4, 3 / 4, 3 / 4⟩)
          ⟨0, 1, 2⟩ ⟨1, 1, 1⟩ ⟨⟨1, 0, 0⟩, ⟨1, 0, 0⟩⟩ ⟨1, 1, 1⟩
        ≠ boxMesh ⟨5 / 4, 1 / 4, 1 / 4⟩ ⟨7 / 4, 3 / 4, 3 / 4⟩ := by
  decide!

/-- C13 as amended: the constructor overwrites every point of the caller's edge list with
its image under `worldToAlgorithmPoint` and leaves the edges as they were; the internal
copy the iterator works on is a copy of that remapped list. -/
theorem mesh_construct_callers_points_remapped (meshEdgeList : MeshEdgeList)
    (dimensionOrder : Vec3 (Fin 3)) (directionSign : Vec3 Int) (bounds : Box Int)
    (cellDimensions : Vec3 ℚ) :
    (ConvexMeshIteratorDebug.callerMeshEdgeList meshEdgeList dimensionOrder directionSign bounds
        cellDimensions).m_points
        = meshEdgeList.m_points.map
          (ConvexMeshIteratorDebug.initial meshEdgeList dimensionOrder directionSign bounds
            cellDimensions).worldToAlgorithmPoint
      ∧ (ConvexMeshIteratorDebug.callerMeshEdgeList meshEdgeList dimensionOrder directionSign
          bounds cellDimensions).m_edges = meshEdgeList.m_edges
      ∧ (ConvexMeshIteratorDebug.initial meshEdgeList dimensionOrder directionSign bounds
          cellDimensions).m_meshEdgeList
        = ConvexMeshIteratorDebug.callerMeshEdgeList meshEdgeList dimensionOrder directionSign
          bounds cellDimensions := by
  have h := ConvexMeshIteratorDebug.remapPointsInPlace_eq_map
    (ConvexMeshIteratorDebug.initial meshEdgeList dimensionOrder directionSign bounds
      cellDimensions) meshEdgeList.m_points
  refine ⟨h, rfl, ?_⟩
  rw [ConvexMeshIteratorDebug.initial_meshEdgeList]
  unfold ConvexMeshIteratorDebug.callerMeshEdgeList
  simp only [h]

/-! ## Properties of the helpers of geomUtil.h -/

theorem sortDimensions_ascending (v : Vec3 ℚ) :
    |v.get (sortDimensions v).x| ≤ |v.get (sortDimensions v).y|
      ∧ |v.get (sortDimensions v).y| ≤ |v.get (sortDimensions v).z| := by
  unfold sortDimensions
  simp only
  split_ifs <;> simp only [Vec3.get] <;> constructor <;> linarith

/-- C14: for every vector `sortDimensions` returns a permutation of {0, 1, 2}: its three
components (each 0, 1 or 2, the values of `Fin 3`) are pairwise distinct, and every axis
is the component of exactly one position, so exactly one axis is the slice axis, one the
row axis and one the column axis. -/
theorem sortDimensions_is_permutation (v : Vec3 ℚ) :
    (sortDimensions v).IsPermutation
      ∧ ∀ axis : Fin 3, ∃! dim : Fin 3, (sortDimensions v).get dim = axis := by
  have h := sortDimensions_distinct v
  refine ⟨h, ?_⟩
  generalize sortDimensions v = r at h
  obtain ⟨rx, ry, rz⟩ := r
  simp only at h
  intro axis
  fin_cases rx <;> fin_cases ry <;> fin_cases rz <;> simp at h <;> fin_cases axis <;>
    simp [Vec3.get, ExistsUnique] <;> decide

/-- C15 refuted: for the vector (5, 9, -2) of the source's own example `sortDimensions`
returns (2, 0, 1), and the magnitude 2 on its first axis is less than the magnitude 5 on
its second axis, so the axes are not listed in descending order of magnitude. -/
theorem sortDimensions_not_descending :
    sortDimensions ⟨5, 9, -2⟩ = ⟨2, 0, 1⟩
      ∧ ¬ (|(⟨5, 9, -2⟩ : Vec3 ℚ).get (sortDimensions ⟨5, 9, -2⟩).x|
            ≥ |(⟨5, 9, -2⟩ : Vec3 ℚ).get (sortDimensions ⟨5, 9, -2⟩).y|) := by
  decide!

/-- C15 as amended: for every vector `v`, `sortDimensions v = (r0, r1, r2)` lists the axes
in ascending order of magnitude, `|v[r0]| <= |v[r1]| <= |v[r2]|`. -/
theorem sortDimensions_lists_axes_ascending (v : Vec3 ℚ) :
    |v.get (sortDimensions v).x| ≤ |v.get (sortDimensions v).y|
      ∧ |v.get (sortDimensions v).y| ≤ |v.get (sortDimensions v).z| :=
  sortDimensions_ascending v

/-- C16: for every vector `v`, `sortDimensions v = (r0, r1, r2)` is sorted by magnitude as
in the example of its documentation, `|v[r0]| <= |v[r1]| <= |v[r2]|`, and for the vector
(5, 9, -2) of that example the result is (2, 0, 1). -/
theorem sortDimensions_sorted_as_documented (v : Vec3 ℚ) :
    (|v.get (sortDimensions v).x| ≤ |v.get (sortDimensions v).y|
        ∧ |v.get (sortDimensions v).y| ≤ |v.get (sortDimensions v).z|)
      ∧ sortDimensions ⟨5, 9, -2⟩ = ⟨2, 0, 1⟩ :=
  ⟨sortDimensions_ascending v, by decide!⟩

/-- C17 refuted: a vector whose three magnitudes are all equal gives (0, 2, 1), not
(2, 1, 0): x is placed first. -/
theorem sortDimensions_all_equal_not_z_y_x :
    sortDimensions ⟨1, 1, 1⟩ = ⟨0, 2, 1⟩ ∧ sortDimensions ⟨1, 1, 1⟩ ≠ ⟨2, 1, 0⟩ := by
  decide!

/-- C17 as amended: when components have exactly equal magnitude, the tie is broken by
the fixed preference x over z over y: of two tied axes x is listed ahead of z, x ahead of
y, and z ahead of y, so a vector whose three magnitudes are all equal gives (0, 2, 1). -/
theorem sortDimensions_ties_x_z_y (v : Vec3 ℚ) :
    (|v.x| = |v.z| → ∃ i j : Fin 3, i < j ∧ (sortDimensions v).get i = 0
        ∧ (sortDimensions v).get j = 2)
      ∧ (|v.x| = |v.y| → ∃ i j : Fin 3, i < j ∧ (sortDimensions v).get i = 0
        ∧ (sortDimensions v).get j = 1)
      ∧ (|v.z| = |v.y| → ∃ i j : Fin 3, i < j ∧ (sortDimensions v).get i = 2
        ∧ (sortDimensions v).get j = 1)
      ∧ (|v.x| = |v.y| → |v.y| = |v.z| → sortDimensions v = ⟨0, 2, 1⟩) := by
  unfold sortDimensions
  simp only
  split_ifs <;> refine ⟨?_, ?_, ?_, ?_⟩ <;> intro h <;>
    first
      | (exfalso; linarith)
      | exact ⟨0, 1, by decide, rfl, rfl⟩
      | exact ⟨0, 2, by decide, rfl, rfl⟩
      | exact ⟨1, 2, by decide, rfl, rfl⟩
      | (intro h2; first | rfl | (exfalso; linarith))

/-- C17 as amended, at the vector (-2, 2, -2), whose three magnitudes are equal: x is
listed ahead of z and of y, z ahead of y, and the result is (0, 2, 1). -/
theorem sortDimensions_ties_x_z_y_witness :
    (∃ i j : Fin 3, i < j ∧ (sortDimensions ⟨-2, 2, -2⟩).get i = 0
        ∧ (sortDimensions ⟨-2, 2, -2⟩).get j = 2)
      ∧ (∃ i j : Fin 3, i < j ∧ (sortDimensions ⟨-2, 2, -2⟩).get i = 0
        ∧ (sortDimensions ⟨-2, 2, -2⟩).get j = 1)
      ∧ (∃ i j : Fin 3, i < j ∧ (sortDimensions ⟨-2, 2, -2⟩).get i = 2
        ∧ (sortDimensions ⟨-2, 2, -2⟩).get j = 1)
      ∧ sortDimensions ⟨-2, 2, -2⟩ = ⟨0, 2, 1⟩ :=
  ⟨(sortDimensions_ties_x_z_y ⟨-2, 2, -2⟩).1 (by decide!),
    (sortDimensions_ties_x_z_y ⟨-2, 2, -2⟩).2.1 (by decide!),
    (sortDimensions_ties_x_z_y ⟨-2, 2, -2⟩).2.2.1 (by decide!),
    (sortDimensions_ties_x_z_y ⟨-2, 2, -2⟩).2.2.2 (by decide!) (by decide!)⟩

/-- C18 refuted: `smallFrustum` faces (1, 2, 3). The iterator built for it has the
dimension order `sortDimensions` of that direction, and its slice axis
`m_dimensionOrder[SLICE_DIM]` is the axis 0, x, on which the direction has the magnitude 1,
less than the magnitude 3 on the axis z. -/
theorem frustum_slice_axis_not_dominant :
    (FrustumIterator.construct 1 smallFrustum ⟨⟨0, 0, 0⟩, ⟨1, 3, 3⟩⟩ ⟨1, 1, 1⟩).map
        (fun s => (s.m_dimensionOrder, s.m_dimensionOrder.get SLICE_DIM))
        = .ok (sortDimensions smallFrustum.m_direction, 0)
      ∧ |smallFrustum.m_direction.get 0| < |smallFrustum.m_direction.get 2| := by
  decide!

/-- C18 as amended: for every frustum direction the slice axis `m_dimensionOrder[SLICE_DIM]`
of FrustumIterator, with `m_dimensionOrder = sortDimensions(direction)`, is an axis on
which `|direction|` is minimal, the column axis `m_dimensionOrder[X_DIM]` is an axis on
which it is maximal, and the row axis `m_dimensionOrder[Y_DIM]` lies between the two: it
has the second largest magnitude. -/
theorem frustum_slice_axis_least_magnitude (frustum : Frustum) (range : Box Int)
    (cellDimensions : Vec3 ℚ) (axis : Fin 3) :
    (FrustumIterator.initial frustum range cellDimensions).m_dimensionOrder
        = sortDimensions frustum.m_direction
      ∧ |frustum.m_direction.get
            ((FrustumIterator.initial frustum range cellDimensions).m_dimensionOrder.get SLICE_DIM)|
          ≤ |frustum.m_direction.get axis|
      ∧ |frustum.m_direction.get axis|
          ≤ |frustum.m_direction.get
            ((FrustumIterator.initial frustum range cellDimensions).m_dimensionOrder.get X_DIM)|
      ∧ |frustum.m_direction.get
            ((FrustumIterator.initial frustum range cellDimensions).m_dimensionOrder.get SLICE_DIM)|
          ≤ |frustum.m_direction.get
            ((FrustumIterator.initial frustum range cellDimensions).m_dimensionOrder.get Y_DIM)|
      ∧ |frustum.m_direction.get
            ((FrustumIterator.initial frustum range cellDimensions).m_dimensionOrder.get Y_DIM)|
          ≤ |frustum.m_direction.get
            ((FrustumIterator.initial frustum range cellDimensions).m_dimensionOrder.get X_DIM)| := by
  have hOrder : (FrustumIterator.initial frustum range cellDimensions).m_dimensionOrder
      = sortDimensions frustum.m_direction := rfl
  rw [hOrder]
  have hAsc := sortDimensions_ascending frustum.m_direction
  have hPerm := sortDimensions_distinct frustum.m_direction
  generalize sortDimensions frustum.m_direction = r at hAsc hPerm
  generalize frustum.m_direction = d at hAsc
  obtain ⟨rx, ry, rz⟩ := r
  simp only [SLICE_DIM, X_DIM, Y_DIM, Vec3.get] at *
  refine ⟨trivial, ?_, ?_, hAsc.1, hAsc.2⟩
  · fin_cases rx <;> fin_cases ry <;> fin_cases rz <;> simp at hPerm <;> fin_cases axis <;>
      simp only [Vec3.get] at * <;> linarith
  · fin_cases rx <;> fin_cases ry <;> fin_cases rz <;> simp at hPerm <;> fin_cases axis <;>
      simp only [Vec3.get] at * <;> linarith

theorem Vec3.get_set_self {α : Type} (v : Vec3 α) (d : Fin 3) (a : α) : (v.set d a).get d = a := by
  fin_cases d <;> rfl

theorem floor_cell_bounds (x dim : ℚ) (hDim : 0 < dim) :
    ((Int.floor (x / dim) : Int) : ℚ) * dim ≤ x
      ∧ x < ((Int.floor (x / dim) : Int) + 1 : ℚ) * dim := by
  constructor
  · have h := Int.floor_le (x / dim)
    calc ((Int.floor (x / dim) : Int) : ℚ) * dim ≤ x / dim * dim :=
          mul_le_mul_of_nonneg_right h hDim.le
      _ = x := div_mul_cancel₀ x hDim.ne'
  · have h := Int.lt_floor_add_one (x / dim)
    calc x = x / dim * dim := (div_mul_cancel₀ x hDim.ne').symm
      _ < ((Int.floor (x / dim) : Int) + 1 : ℚ) * dim := mul_lt_mul_of_pos_right h hDim

/-- The column index `setSliceRowPoint` computes for a coordinate strictly inside the
range: `floor(x / dim)` on an ascending column axis, one more on a descending one, where
`gridLocation` puts the start of the range, `m_spaceRange.m_min`, into the cell below it. -/
theorem FrustumIterator.setSliceRowPoint_column (s : FrustumIterator) (x : ℚ)
    (hDim : 0 < s.m_cellDimensions.get (s.m_dimensionOrder.get X_DIM))
    (hMin : s.m_spaceRange.m_min.get (s.m_dimensionOrder.get X_DIM)
      = s.m_cellDimensions.get (s.m_dimensionOrder.get X_DIM)
        * (s.m_range.m_min.get (s.m_dimensionOrder.get X_DIM) : ℚ))
    (hInside : (s.m_spaceRange.m_min.get (s.m_dimensionOrder.get X_DIM) < x
        ∧ x < s.m_spaceRange.m_max.get (s.m_dimensionOrder.get X_DIM))
      ∨ (s.m_spaceRange.m_max.get (s.m_dimensionOrder.get X_DIM) < x
        ∧ x < s.m_spaceRange.m_min.get (s.m_dimensionOrder.get X_DIM))) :
    (s.m_directionSign.get (s.m_dimensionOrder.get X_DIM) = 1 →
      s.m_range.m_min.get (s.m_dimensionOrder.get X_DIM)
        + s.gridDistance (s.m_spaceRange.m_min.get (s.m_dimensionOrder.get X_DIM)) x
            (s.m_dimensionOrder.get X_DIM) * s.m_directionSign.get (s.m_dimensionOrder.get X_DIM)
        = Int.floor (x / s.m_cellDimensions.get (s.m_dimensionOrder.get X_DIM)))
    ∧ (s.m_directionSign.get (s.m_dimensionOrder.get X_DIM) = -1 →
      s.m_range.m_min.get (s.m_dimensionOrder.get X_DIM)
        + s.gridDistance (s.m_spaceRange.m_min.get (s.m_dimensionOrder.get X_DIM)) x
            (s.m_dimensionOrder.get X_DIM) * s.m_directionSign.get (s.m_dimensionOrder.get X_DIM)
        = Int.floor (x / s.m_cellDimensions.get (s.m_dimensionOrder.get X_DIM)) + 1) := by
  generalize s.m_dimensionOrder.get X_DIM = xDim at *
  have hFloorMin : Int.floor (s.m_spaceRange.m_min.get xDim / s.m_cellDimensions.get xDim)
      = s.m_range.m_min.get xDim := by
    rw [hMin, mul_div_cancel_left₀ _ hDim.ne']
    exact Int.floor_intCast _
  have hne : s.m_spaceRange.m_min.get xDim ≠ s.m_spaceRange.m_max.get xDim := by
    rcases hInside with ⟨h1, h2⟩ | ⟨h1, h2⟩
    · exact (h1.trans h2).ne
    · exact (h1.trans h2).ne'
  have hxMin : x ≠ s.m_spaceRange.m_min.get xDim := by
    rcases hInside with ⟨h1, _⟩ | ⟨_, h2⟩
    · exact h1.ne'
    · exact h2.ne
  have hxMax : x ≠ s.m_spaceRange.m_max.get xDim := by
    rcases hInside with ⟨_, h2⟩ | ⟨h1, _⟩
    · exact h2.ne
    · exact h1.ne'
  constructor
  · intro hs
    simp only [FrustumIterator.gridDistance, FrustumIterator.distance,
      FrustumIterator.gridLocation, hs, hFloorMin, if_neg hxMax, if_neg hne]
    simp
  · intro hs
    simp only [FrustumIterator.gridDistance, FrustumIterator.distance,
      FrustumIterator.gridLocation, hs, hFloorMin, if_neg hxMin]
    simp
    ring

theorem ConvexMeshIteratorDebug.inverseDimension_inverse (dimensionOrder : Vec3 (Fin 3))
    (h : dimensionOrder.IsPermutation) (d : Fin 3) :
    dimensionOrder.get ((⟨inverseDimension dimensionOrder 0 0, inverseDimension dimensionOrder 1 0,
        inverseDimension dimensionOrder 2 0⟩ : Vec3 (Fin 3)).get d) = d
      ∧ (⟨inverseDimension dimensionOrder 0 0, inverseDimension dimensionOrder 1 0,
        inverseDimension dimensionOrder 2 0⟩ : Vec3 (Fin 3)).get (dimensionOrder.get d) = d := by
  rcases dimensionOrder with ⟨o0, o1, o2⟩
  revert h
  fin_cases o0 <;> fin_cases o1 <;> fin_cases o2 <;> fin_cases d <;> decide

theorem ConvexMeshIteratorDebug.cell_mappings_inverse (s : ConvexMeshIteratorDebug)
    (h : ∀ d, s.m_dimensionOrder.get (s.m_dimensionOrderInverse.get d) = d
      ∧ s.m_dimensionOrderInverse.get (s.m_dimensionOrder.get d) = d) :
    (∀ c, s.algorithmToWorldCell (s.worldToAlgorithmCell c) = c)
      ∧ (∀ a, s.worldToAlgorithmCell (s.algorithmToWorldCell a) = a) := by
  have ext : ∀ (u v : Vec3 Int), (∀ d, u.get d = v.get d) → u = v := by
    intro u v huv
    rcases u with ⟨u0, u1, u2⟩
    rcases v with ⟨v0, v1, v2⟩
    have h0 := huv 0
    have h1 := huv 1
    have h2 := huv 2
    simp only [Vec3.get] at h0 h1 h2
    simp_all
  have getA : ∀ (a : Vec3 Int) (d : Fin 3), (s.algorithmToWorldCell a).get d
      = if s.m_directionSign.get d > 0 then
          s.m_bounds.m_min.get d + a.get (s.m_dimensionOrderInverse.get d)
        else s.m_bounds.m_max.get d - a.get (s.m_dimensionOrderInverse.get d) := by
    intro a d; fin_cases d <;> rfl
  have getW : ∀ (c : Vec3 Int) (d : Fin 3), (s.worldToAlgorithmCell c).get d
      = if s.m_directionSign.get (s.m_dimensionOrder.get d) > 0 then
          c.get (s.m_dimensionOrder.get d) - s.m_bounds.m_min.get (s.m_dimensionOrder.get d)
        else s.m_bounds.m_max.get (s.m_dimensionOrder.get d) - c.get (s.m_dimensionOrder.get d) := by
    intro c d; fin_cases d <;> rfl
  constructor
  · intro c
    apply ext
    intro d
    rw [getA, getW, (h d).1]
    split <;> ring
  · intro a
    apply ext
    intro d
    rw [getW, getA, (h d).2]
    split <;> ring

/-- C22: for a dimension order that is a permutation of {0,1,2} and any direction signs,
bounds and cell sizes, the members as the ConvexMeshIteratorDebug constructor sets them
up, and the members of every iterator the constructor returns, have
`m_dimensionOrderInverse` the inverse permutation of `m_dimensionOrder` (which is the
order handed in), and `algorithmToWorldCell` and `worldToAlgorithmCell` are inverse to each
other on all cells. -/
theorem mesh_cell_mappings_mutually_inverse (meshEdgeList : MeshEdgeList)
    (dimensionOrder : Vec3 (Fin 3)) (directionSign : Vec3 Int) (bounds : Box Int)
    (cellDimensions : Vec3 ℚ) (hOrder : dimensionOrder.IsPermutation)
    (s : ConvexMeshIteratorDebug)
    (hs : s = ConvexMeshIteratorDebug.initial meshEdgeList dimensionOrder directionSign bounds
          cellDimensions
      ∨ ConvexMeshIteratorDebug.construct meshEdgeList dimensionOrder directionSign bounds
          cellDimensions = .ok s) :
    s.m_dimensionOrder = dimensionOrder
      ∧ (∀ d, s.m_dimensionOrder.get (s.m_dimensionOrderInverse.get d) = d
          ∧ s.m_dimensionOrderInverse.get (s.m_dimensionOrder.get d) = d)
      ∧ (∀ c, s.algorithmToWorldCell (s.worldToAlgorithmCell c) = c)
      ∧ (∀ a, s.worldToAlgorithmCell (s.algorithmToWorldCell a) = a) := by
  have hre : s = ConvexMeshIteratorDebug.regrid
      (ConvexMeshIteratorDebug.initial meshEdgeList dimensionOrder directionSign bounds
        cellDimensions) s := by
    rcases hs with hs | hs
    · rw [hs]; rfl
    · have h := ConvexMeshIteratorDebug.construct_regrid
        (ConvexMeshIteratorDebug.initial meshEdgeList dimensionOrder directionSign bounds
          cellDimensions)
        meshEdgeList meshEdgeList dimensionOrder dimensionOrder directionSign directionSign
        bounds bounds cellDimensions cellDimensions rfl
      rw [hs] at h
      exact h
  have hO : s.m_dimensionOrder = dimensionOrder := by rw [hre]; rfl
  have hI : s.m_dimensionOrderInverse = ⟨ConvexMeshIteratorDebug.inverseDimension dimensionOrder 0 0,
      ConvexMeshIteratorDebug.inverseDimension dimensionOrder 1 0,
      ConvexMeshIteratorDebug.inverseDimension dimensionOrder 2 0⟩ := by rw [hre]; rfl
  have hInv : ∀ d, s.m_dimensionOrder.get (s.m_dimensionOrderInverse.get d) = d
          ∧ s.m_dimensionOrderInverse.get (s.m_dimensionOrder.get d) = d := by
    intro d
    rw [hO, hI]
    exact ConvexMeshIteratorDebug.inverseDimension_inverse dimensionOrder hOrder d
  exact ⟨hO, hInv, ConvexMeshIteratorDebug.cell_mappings_inverse s hInv⟩

/-- C22 at the iterator built for `prism` with the dimension order (2, 0, 1), the
direction signs (1, -1, 1) and the bounds (0,0,0)-(3,0,1): the order is a permutation, the
constructor returns, and the two cell mappings of the iterator undo each other. -/
theorem mesh_cell_mappings_mutually_inverse_witness :
    (⟨2, 0, 1⟩ : Vec3 (Fin 3)).IsPermutation
      ∧ ConvexMeshIteratorDebug.construct prism ⟨2, 0, 1⟩ ⟨1, -1, 1⟩ ⟨⟨0, 0, 0⟩, ⟨3, 0, 1⟩⟩
          ⟨1, 1, 1⟩
        = .ok (ConvexMeshIteratorDebug.built prism ⟨2, 0, 1⟩ ⟨1, -1, 1⟩ ⟨⟨0, 0, 0⟩, ⟨3, 0, 1⟩⟩
          ⟨1, 1, 1⟩)
      ∧ (∀ c, (ConvexMeshIteratorDebug.built prism ⟨2, 0, 1⟩ ⟨1, -1, 1⟩ ⟨⟨0, 0, 0⟩, ⟨3, 0, 1⟩⟩
            ⟨1, 1, 1⟩).algorithmToWorldCell
          ((ConvexMeshIteratorDebug.built prism ⟨2, 0, 1⟩ ⟨1, -1, 1⟩ ⟨⟨0, 0, 0⟩, ⟨3, 0, 1⟩⟩
            ⟨1, 1, 1⟩).worldToAlgorithmCell c) = c)
      ∧ (∀ a, (ConvexMeshIteratorDebug.built prism ⟨2, 0, 1⟩ ⟨1, -1, 1⟩ ⟨⟨0, 0, 0⟩, ⟨3, 0, 1⟩⟩
            ⟨1, 1, 1⟩).worldToAlgorithmCell
          ((ConvexMeshIteratorDebug.built prism ⟨2, 0, 1⟩ ⟨1, -1, 1⟩ ⟨⟨0, 0, 0⟩, ⟨3, 0, 1⟩⟩
            ⟨1, 1, 1⟩).algorithmToWorldCell a) = a) :=
  ⟨by decide, by decide!,
    (mesh_cell_mappings_mutually_inverse prism ⟨2, 0, 1⟩ ⟨1, -1, 1⟩ ⟨⟨0, 0, 0⟩, ⟨3, 0, 1⟩⟩
      ⟨1, 1, 1⟩ (by decide) _ (Or.inr (by decide!))).2.2⟩

/-! ## Adding points to a slice -/

/-- C23, the code at the failing input: the iterator built for `reverseFrustum` (a box
from z = 1/4 to z = 11/4, slice axis z with direction sign -1) in the range
(0,0,0)-(3,3,3) of unit cells starts its slices at z = 3. When the slice that starts at
z = 1, two whole cells from there, is entered, `addPoint` is called for corner 0 of the
box at z = 1/4; its edges 0 and 1 lead to corners at z = 1/4 as well, inside the same
slice, where `floor(-1 * (1/4 - 1) / 1) = 0`. `addPoint` computes the slice count 1 for
both, makes them active with that countdown and records their far end points. The second
`advanceSlice()` of the traversal then stops at the assertion that the slice plane cuts
every active edge. -/
theorem frustum_addPoint_descending_slice_count_one_above :
    (FrustumIterator.built reverseFrustum ⟨⟨0, 0, 0⟩, ⟨3, 3, 3⟩⟩ ⟨1, 1, 1⟩).m_dimensionOrder.get
        SLICE_DIM = 2
      ∧ (FrustumIterator.built reverseFrustum ⟨⟨0, 0, 0⟩, ⟨3, 3, 3⟩⟩ ⟨1, 1, 1⟩).m_directionSign.get
        2 = -1
      ∧ (FrustumIterator.built reverseFrustum ⟨⟨0, 0, 0⟩, ⟨3, 3, 3⟩⟩ ⟨1, 1, 1⟩).m_spaceRange.m_min.get
        2 = 3
      ∧ reverseFrustum.edgeList.take 2 = [(0, 1), (0, 2)]
      ∧ reverseFrustum.m_points.take 3 = [⟨1 / 4, 1 / 4, 1 / 4⟩, ⟨3 / 4, 1 / 4, 1 / 4⟩,
          ⟨1 / 4, 3 / 4, 1 / 4⟩]
      ∧ ((FrustumIterator.built reverseFrustum ⟨⟨0, 0, 0⟩, ⟨3, 3, 3⟩⟩ ⟨1, 1, 1⟩).advanceSlice.bind
          fun r => (FrustumIterator.addPoint 0
              ({ r.2 with m_sliceStart := 1 }, List.replicate 12 0)).map
            fun r => (r.2, r.1.m_activeEdgeDestPoint.take 2))
          = .ok ([1, 1, 0, 0, 0, 0, 0, 0, 0, 0, 0, 0], [true, true])
      ∧ Int.floor ((-1 : ℚ) * (1 / 4 - 1) / 1) = 0
      ∧ ((FrustumIterator.built reverseFrustum ⟨⟨0, 0, 0⟩, ⟨3, 3, 3⟩⟩ ⟨1, 1, 1⟩).advanceSlice.bind
          fun r => r.2.advanceSlice) = .error .assertEdgeCrossesSlice := by
  decide!

/-- C24, the code at the failing input: in the iterator built for `prism` in the bounds
(0,0,0)-(3,0,1) the first `advanceSlice()` adds corner 1, (5/2, 1/4, 6/5), whose edge 1
leads to corner 2, (7/2, 1/4, 8/5), in the same slice. The edge is discarded (it is marked
checked and is not active), the projection (5/2, 1/4) of corner 1 is in the current point
list, and the projection (7/2, 1/4) of the far end point, corner 2, is not. -/
theorem mesh_addPoint_far_endpoint_not_appended :
    prism.m_edges.get? 1 = some (1, 2)
      ∧ prism.m_points.get? 2 = some ⟨7 / 2, 1 / 4, 8 / 5⟩
      ∧ ((ConvexMeshIteratorDebug.construct prism ⟨0, 1, 2⟩ ⟨1, 1, 1⟩ ⟨⟨0, 0, 0⟩, ⟨3, 0, 1⟩⟩
          ⟨1, 1, 1⟩).bind fun s => s.advanceSlice.map fun s =>
            (s.m_isEdgeChecked.get? 1, s.m_activeEdges,
              decide ((⟨5 / 2, 1 / 4⟩ : Vec2 ℚ) ∈ s.m_pointList.get s.m_currentPointList),
              decide ((⟨7 / 2, 1 / 4⟩ : Vec2 ℚ) ∈ s.m_pointList.get s.m_currentPointList)))
        = .ok (some true, [], true, false) := by
  decide!

/-! ## Sorting the slice points and building the hull chains -/

/-- C27, the code at the failing input: `FrustumIterator::PointComparator` compares the
row coordinate only. The points (0, 1) and (5, 1), which differ in their column
coordinate, compare equivalent in every iterator: neither is ordered before the other.
The comparator of the mesh iterator orders (0, 1) before (5, 1). -/
theorem frustum_pointComparator_ignores_column (s : FrustumIterator) :
    ¬ s.PointComparator ⟨0, 1⟩ ⟨5, 1⟩ ∧ ¬ s.PointComparator ⟨5, 1⟩ ⟨0, 1⟩
      ∧ ConvexMeshIteratorDebug.PointComparator ⟨0, 1⟩ ⟨5, 1⟩ := by
  refine ⟨?_, ?_, ?_⟩
  · unfold FrustumIterator.PointComparator; split <;> simp
  · unfold FrustumIterator.PointComparator; split <;> simp
  · decide!

/-- C29, the code at the failing input: the list (0,0), (3,0), (1,0), (1,5) is sorted by
`FrustumIterator::PointComparator` (the sort of `setupSlice` leaves it as it is, its first
three points having the same row coordinate). With sign +1 the forward pass yields the
chain (0,0), (1,0), (1,5) and the backward pass the chain (1,5), (0,0). The input point
(3,0) lies strictly outside the edge from (1,0) to (1,5) of the forward chain: the turn
(1,0), (1,5), (3,0) has a negative cross product, where the chain itself only holds turns
with a positive one. -/
theorem frustum_hull_chains_leave_point_outside :
    ([⟨0, 0⟩, ⟨3, 0⟩, ⟨1, 0⟩, ⟨1, 5⟩] : List (Vec2 ℚ)).insertionSort
        (fun a b => ¬ (FrustumIterator.built smallFrustum ⟨⟨0, 0, 0⟩, ⟨1, 3, 3⟩⟩
          ⟨1, 1, 1⟩).PointComparator b a)
        = [⟨0, 0⟩, ⟨3, 0⟩, ⟨1, 0⟩, ⟨1, 5⟩]
      ∧ FrustumIterator.convexHull [⟨0, 0⟩, ⟨3, 0⟩, ⟨1, 0⟩, ⟨1, 5⟩] 1
        = [⟨0, 0⟩, ⟨1, 0⟩, ⟨1, 5⟩]
      ∧ FrustumIterator.convexHull ([⟨0, 0⟩, ⟨3, 0⟩, ⟨1, 0⟩, ⟨1, 5⟩] : List (Vec2 ℚ)).reverse 1
        = [⟨1, 5⟩, ⟨0, 0⟩]
      ∧ cross ((⟨1, 0⟩ : Vec2 ℚ).sub ⟨3, 0⟩) ((⟨1, 5⟩ : Vec2 ℚ).sub ⟨3, 0⟩) < 0 := by
  decide!

/-- What one run of the pop loop of `convexHull` leaves: a suffix of the chain (last point
first), not empty unless the chain was, whose two topmost points make a strict turn with
the new point. -/
theorem FrustumIterator.convexHullPop_spec (sign : Int) (point : Vec2 ℚ) (h : List (Vec2 ℚ)) :
    (∃ t, h = t ++ FrustumIterator.convexHullPop sign point h)
      ∧ (h ≠ [] → FrustumIterator.convexHullPop sign point h ≠ [])
      ∧ (∀ b a rest, FrustumIterator.convexHullPop sign point h = b :: a :: rest →
          leq (cross (a.sub point) (b.sub point)) 0 sign = false) := by
  induction h with
  | nil => exact ⟨⟨[], rfl⟩, fun h => absurd rfl h, fun b a rest h => by simp [FrustumIterator.convexHullPop] at h⟩
  | cons b t ih =>
    cases t with
    | nil =>
      exact ⟨⟨[], rfl⟩, fun _ => by simp [FrustumIterator.convexHullPop], fun b a rest h => by
        simp [FrustumIterator.convexHullPop] at h⟩
    | cons a rest =>
      by_cases hc : leq (cross (a.sub point) (b.sub point)) 0 sign = true
      · have e : FrustumIterator.convexHullPop sign point (b :: a :: rest) = FrustumIterator.convexHullPop sign point (a :: rest) := by
          rw [FrustumIterator.convexHullPop, if_pos hc]
        rw [e]
        obtain ⟨⟨t, ht⟩, h2, h3⟩ := ih
        refine ⟨⟨b :: t, ?_⟩, fun _ => h2 (by simp), h3⟩
        rw [List.cons_append, ← ht]
      · have e : FrustumIterator.convexHullPop sign point (b :: a :: rest) = b :: a :: rest := by
          rw [FrustumIterator.convexHullPop, if_neg hc]
        rw [e]
        refine ⟨⟨[], rfl⟩, fun _ => by simp, ?_⟩
        intro b' a' rest' h
        simp only [List.cons.injEq] at h
        obtain ⟨rfl, rfl, rfl⟩ := h
        simpa using hc

theorem strict_turn_of_not_leq (sign : Int) (hSign : sign = 1 ∨ sign = -1) (x : ℚ)
    (h : leq x 0 sign = false) : (sign : ℚ) * x > 0 := by
  unfold leq at h
  rcases hSign with rfl | rfl
  · simp at h
    simpa using h
  · simp at h
    simp
    exact h

/-- The chain `convexHull` has built after some of the points, last point first: it is not
empty, starts with the first point, ends with the last point so far, is a subsequence of
the points so far, and all its turns are strict. -/
theorem FrustumIterator.convexHull_fold (sign : Int) (hSign : sign = 1 ∨ sign = -1) (rest : List (Vec2 ℚ)) :
    ∀ (h processed : List (Vec2 ℚ)), h ≠ [] → h.getLast? = processed.head? →
      h.head? = processed.getLast? → h.reverse.Sublist processed →
      (∀ pre c b a post, h = pre ++ c :: b :: a :: post →
        (sign : ℚ) * cross (a.sub c) (b.sub c) > 0) →
      let h' := rest.foldl (fun hullEdges point => point :: FrustumIterator.convexHullPop sign point hullEdges) h
      h' ≠ [] ∧ h'.getLast? = (processed ++ rest).head?
        ∧ h'.head? = (processed ++ rest).getLast?
        ∧ h'.reverse.Sublist (processed ++ rest)
        ∧ (∀ pre c b a post, h' = pre ++ c :: b :: a :: post →
            (sign : ℚ) * cross (a.sub c) (b.sub c) > 0) := by
  induction rest with
  | nil =>
    intro h processed h1 h2 h3 h4 h5
    simpa using ⟨h1, h2, h3, h4, h5⟩
  | cons point rest ih =>
    intro h processed h1 h2 h3 h4 h5
    obtain ⟨⟨t, ht⟩, p2, p3⟩ := FrustumIterator.convexHullPop_spec sign point h
    have hne := p2 h1
    have hproc : processed ≠ [] := by
      rintro rfl
      simp at h4
      exact h1 h4
    obtain ⟨x, xs, hx⟩ := List.exists_cons_of_ne_nil hne
    rw [hx] at ht p3
    obtain ⟨y, ys, rfl⟩ := List.exists_cons_of_ne_nil hproc
    have hlast : (x :: xs).getLast? = h.getLast? := by
      rw [ht, List.getLast?_append_of_ne_nil _ (by simp)]
    have := ih (point :: x :: xs) ((y :: ys) ++ [point]) (by simp)
      (by
        rw [List.getLast?_cons_cons, hlast, h2]
        rfl)
      (by
        rw [List.getLast?_append_of_ne_nil _ (by simp)]
        rfl)
      (by
        rw [List.reverse_cons]
        apply List.Sublist.append _ (List.Sublist.refl _)
        refine List.Sublist.trans ?_ h4
        rw [ht, List.reverse_append]
        exact List.sublist_append_left _ _)
      (by
        intro pre c b a post hd
        cases pre with
        | nil =>
          simp only [List.nil_append, List.cons.injEq] at hd
          obtain ⟨rfl, rfl, rfl⟩ := hd
          exact strict_turn_of_not_leq sign hSign _ (p3 _ _ _ rfl)
        | cons z pre =>
          simp only [List.cons_append, List.cons.injEq] at hd
          apply h5 (t ++ pre) c b a post
          rw [ht, hd.2, List.append_assoc])
    simpa [hx] using this

/-- C28: for a point sequence with at least one point and a sign +1 or -1 the chain of
`FrustumIterator::convexHull` is a subsequence of the input, begins with the first input
point and ends with the last one, and any three consecutive chain points a, b, c satisfy
`sign * cross(a - c, b - c) > 0`. -/
theorem frustum_convexHull_chain_strict_turns (points : List (Vec2 ℚ)) (sign : Int)
    (hPoints : points ≠ []) (hSign : sign = 1 ∨ sign = -1) :
    (FrustumIterator.convexHull points sign).Sublist points
      ∧ (FrustumIterator.convexHull points sign).head? = points.head?
      ∧ (FrustumIterator.convexHull points sign).getLast? = points.getLast?
      ∧ ∀ pre a b c post, FrustumIterator.convexHull points sign = pre ++ a :: b :: c :: post →
          (sign : ℚ) * cross (a.sub c) (b.sub c) > 0 := by
  match points, hPoints with
  | [p], _ =>
    refine ⟨List.Sublist.refl _, rfl, rfl, ?_⟩
    intro pre a b c post h
    have := congrArg List.length h
    simp [FrustumIterator.convexHull] at this
    omega
  | p :: q :: rest, _ =>
    obtain ⟨h1, h2, h3, h4, h5⟩ := FrustumIterator.convexHull_fold sign hSign rest [q, p] [p, q] (by simp) rfl rfl
      (List.Sublist.refl _) (by
        intro pre c b a post h
        have := congrArg List.length h
        simp at this
        omega)
    have e : FrustumIterator.convexHull (p :: q :: rest) sign
        = (rest.foldl (fun hullEdges point => point :: FrustumIterator.convexHullPop sign point hullEdges)
            [q, p]).reverse := rfl
    rw [e]
    refine ⟨h4, ?_, ?_, ?_⟩
    · rw [List.head?_reverse, h2]; rfl
    · rw [List.getLast?_reverse, h3]; rfl
    · intro pre a b c post h
      apply h5 post.reverse c b a pre.reverse
      have := congrArg List.reverse h
      rw [List.reverse_reverse] at this
      rw [this]
      simp

/-- C28 at the points (0,0), (2,1), (1,2), (3,3), (0,4) with sign +1, where the chain is
(0,0), (2,1), (3,3), (0,4). -/
theorem frustum_convexHull_chain_strict_turns_witness :
    ([⟨0, 0⟩, ⟨2, 1⟩, ⟨1, 2⟩, ⟨3, 3⟩, ⟨0, 4⟩] : List (Vec2 ℚ)) ≠ []
      ∧ ((1 : Int) = 1 ∨ (1 : Int) = -1)
      ∧ FrustumIterator.convexHull [⟨0, 0⟩, ⟨2, 1⟩, ⟨1, 2⟩, ⟨3, 3⟩, ⟨0, 4⟩] 1
        = [⟨0, 0⟩, ⟨2, 1⟩, ⟨3, 3⟩, ⟨0, 4⟩]
      ∧ ((FrustumIterator.convexHull [⟨0, 0⟩, ⟨2, 1⟩, ⟨1, 2⟩, ⟨3, 3⟩, ⟨0, 4⟩] 1).Sublist
          [⟨0, 0⟩, ⟨2, 1⟩, ⟨1, 2⟩, ⟨3, 3⟩, ⟨0, 4⟩]
        ∧ (FrustumIterator.convexHull [⟨0, 0⟩, ⟨2, 1⟩, ⟨1, 2⟩, ⟨3, 3⟩, ⟨0, 4⟩] 1).head?
          = ([⟨0, 0⟩, ⟨2, 1⟩, ⟨1, 2⟩, ⟨3, 3⟩, ⟨0, 4⟩] : List (Vec2 ℚ)).head?
        ∧ (FrustumIterator.convexHull [⟨0, 0⟩, ⟨2, 1⟩, ⟨1, 2⟩, ⟨3, 3⟩, ⟨0, 4⟩] 1).getLast?
          = ([⟨0, 0⟩, ⟨2, 1⟩, ⟨1, 2⟩, ⟨3, 3⟩, ⟨0, 4⟩] : List (Vec2 ℚ)).getLast?
        ∧ ∀ pre a b c post,
            FrustumIterator.convexHull [⟨0, 0⟩, ⟨2, 1⟩, ⟨1, 2⟩, ⟨3, 3⟩, ⟨0, 4⟩] 1
              = pre ++ a :: b :: c :: post →
            ((1 : Int) : ℚ) * cross (a.sub c) (b.sub c) > 0) :=
  ⟨by simp, by decide, by decide!,
    frustum_convexHull_chain_strict_turns [⟨0, 0⟩, ⟨2, 1⟩, ⟨1, 2⟩, ⟨3, 3⟩, ⟨0, 4⟩] 1 (by simp)
      (by decide)⟩

namespace ConvexMeshIteratorDebug

theorem convexHullPop_suffix (sign : Int) (point : Vec2 ℚ) (h : List (Vec2 ℚ)) :
    convexHullPop sign point h <:+ h := by
  induction h with
  | nil => exact List.suffix_refl _
  | cons b t ih =>
    cases t with
    | nil => exact List.suffix_refl _
    | cons a rest =>
      rw [convexHullPop]
      split
      · exact ih.trans (List.suffix_cons _ _)
      · exact List.suffix_refl _

theorem eraseRedundantFirst_suffix (l : List (Vec2 ℚ)) : eraseRedundantFirst l <:+ l := by
  induction l with
  | nil => exact List.suffix_refl _
  | cons b t ih =>
    cases t with
    | nil => exact List.suffix_refl _
    | cons a rest =>
      rw [eraseRedundantFirst]
      split
      · exact ih.trans (List.suffix_cons _ _)
      · exact List.suffix_refl _

theorem popRedundantLast_suffix (l : List (Vec2 ℚ)) : popRedundantLast l <:+ l := by
  induction l with
  | nil => exact List.suffix_refl _
  | cons b t ih =>
    cases t with
    | nil => exact List.suffix_refl _
    | cons a rest =>
      rw [popRedundantLast]
      split
      · exact ih.trans (List.suffix_cons _ _)
      · exact List.suffix_refl _

theorem convexHullPush_distinct (isLeftSide : Bool) (point : Vec2 ℚ)
    (h processed : List (Vec2 ℚ)) (hSub : h.reverse.Sublist processed)
    (hSorted : (processed ++ [point]).Pairwise (fun p q => ¬ PointComparator q p))
    (hChain : h.Chain' (· ≠ ·)) :
    (convexHullPush isLeftSide point h).reverse.Sublist (processed ++ [point])
      ∧ (convexHullPush isLeftSide point h).Chain' (· ≠ ·) := by
  cases h with
  | nil =>
    refine ⟨?_, by simp [convexHullPush]⟩
    simp [convexHullPush]
  | cons prev tl =>
    rw [convexHullPush]
    split
    · exact ⟨hSub.trans (List.sublist_append_left _ _), hChain⟩
    · rename_i hne
      have hsuf := convexHullPop_suffix (if isLeftSide then -1 else 1) point (prev :: tl)
      generalize convexHullPop (if isLeftSide then -1 else 1) point (prev :: tl) = h2 at hsuf
      constructor
      · rw [List.reverse_cons]
        exact List.Sublist.append ((List.reverse_sublist.2 hsuf.sublist).trans hSub)
          (List.Sublist.refl _)
      · have hc2 : h2.Chain' (· ≠ ·) := hChain.suffix hsuf
        cases h2 with
        | nil => simp
        | cons u h2 =>
          rw [List.chain'_cons]
          refine ⟨?_, hc2⟩
          rintro rfl
          apply hne
          have hu : point ∈ prev :: tl := hsuf.subset (List.mem_cons_self _ _)
          have hp := List.pairwise_append.1 hSorted
          have hprevmem : prev ∈ processed :=
            hSub.subset (by simp)
          have h1 : ¬ PointComparator point prev := hp.2.2 prev hprevmem point (by simp)
          have hrev : (prev :: tl).reverse.Pairwise (fun p q => ¬ PointComparator q p) :=
            hp.1.sublist hSub
          have h2' : ¬ PointComparator prev point := by
            rcases List.mem_cons.1 hu with rfl | hmem
            · exact h1
            · rw [List.reverse_cons, List.pairwise_append] at hrev
              exact hrev.2.2 point (List.mem_reverse.2 hmem) prev (by simp)
          have := pointComparator_le_antisymm h1 h2'
          rw [this]
          simp [eq]

theorem convexHull_fold_distinct (isLeftSide : Bool) (rest : List (Vec2 ℚ)) :
    ∀ (h processed : List (Vec2 ℚ)), h.reverse.Sublist processed →
      (processed ++ rest).Pairwise (fun p q => ¬ PointComparator q p) →
      h.Chain' (· ≠ ·) →
      (rest.foldl (fun dest point => convexHullPush isLeftSide point dest) h).Chain' (· ≠ ·) := by
  induction rest with
  | nil => intro h processed _ _ hc; exact hc
  | cons point rest ih =>
    intro h processed hSub hSorted hChain
    have hs : (processed ++ [point]).Pairwise (fun p q => ¬ PointComparator q p) := by
      have : List.Sublist (processed ++ [point]) (processed ++ point :: rest) :=
        List.Sublist.append (List.Sublist.refl _) (by simp)
      exact hSorted.sublist this
    obtain ⟨h1, h2⟩ := convexHullPush_distinct isLeftSide point h processed hSub hs hChain
    exact ih _ (processed ++ [point]) h1 (by simpa using hSorted) h2

end ConvexMeshIteratorDebug

/-- C30 as stated fails: the points (0,-1), (-1,0), (5,1/4000), (-4001/4000,1/2000), (0,1)
are sorted by the `PointComparator` of `setupSlice`. In the left chain the point
(5,1/4000) is popped when (-4001/4000,1/2000) arrives, which has been compared with
(5,1/4000) only; the chain is (0,-1), (-1,0), (-4001/4000,1/2000), (0,1), and its second
and third point coincide within the `eq` tolerance in both coordinates. -/
theorem mesh_convexHull_near_duplicate_after_pop :
    ([⟨0, -1⟩, ⟨-1, 0⟩, ⟨5, 1 / 4000⟩, ⟨-4001 / 4000, 1 / 2000⟩, ⟨0, 1⟩] :
          List (Vec2 ℚ)).insertionSort ConvexMeshIteratorDebug.PointComparator
        = [⟨0, -1⟩, ⟨-1, 0⟩, ⟨5, 1 / 4000⟩, ⟨-4001 / 4000, 1 / 2000⟩, ⟨0, 1⟩]
      ∧ ConvexMeshIteratorDebug.convexHull LEFT_SIDE
          [⟨0, -1⟩, ⟨-1, 0⟩, ⟨5, 1 / 4000⟩, ⟨-4001 / 4000, 1 / 2000⟩, ⟨0, 1⟩]
        = [⟨0, -1⟩, ⟨-1, 0⟩, ⟨-4001 / 4000, 1 / 2000⟩, ⟨0, 1⟩]
      ∧ eq (-1) (-4001 / 4000) = true ∧ eq 0 (1 / 2000) = true := by
  decide!

/-- C30, amended: in every chain built by `ConvexMeshIteratorDebug::convexHull` from
slice points sorted by the `PointComparator` of `setupSlice`, no two consecutive chain
points are equal in both coordinates. -/
theorem mesh_convexHull_consecutive_distinct (isLeftSide : Bool) (sortedPoints : List (Vec2 ℚ))
    (hSorted : sortedPoints.Pairwise (fun p q => ¬ ConvexMeshIteratorDebug.PointComparator q p)) :
    (ConvexMeshIteratorDebug.convexHull isLeftSide sortedPoints).Chain' (· ≠ ·) := by
  have h := ConvexMeshIteratorDebug.convexHull_fold_distinct isLeftSide sortedPoints [] [] (List.Sublist.refl _)
    (by simpa using hSorted) (by simp)
  unfold ConvexMeshIteratorDebug.convexHull
  simp only
  generalize sortedPoints.foldl (fun dest point => ConvexMeshIteratorDebug.convexHullPush isLeftSide point dest) [] = r at h
  have hsym : ∀ l : List (Vec2 ℚ), l.Chain' (· ≠ ·) → l.reverse.Chain' (· ≠ ·) := by
    intro l hl
    rw [List.chain'_reverse]
    exact hl.imp (fun _ _ hab hba => hab hba.symm)
  apply hsym
  apply List.Chain'.suffix _ (ConvexMeshIteratorDebug.popRedundantLast_suffix _)
  apply hsym
  apply List.Chain'.suffix _ (ConvexMeshIteratorDebug.eraseRedundantFirst_suffix _)
  exact hsym _ h

/-- C30, amended, at the sorted points (0,-1), (-1,0), (-1,0), (5,1/4000),
(-4001/4000,1/2000), (0,1) with the point (-1,0) twice: the left chain is (0,-1), (-1,0),
(-4001/4000,1/2000), (0,1). -/
theorem mesh_convexHull_consecutive_distinct_witness :
    ([⟨0, -1⟩, ⟨-1, 0⟩, ⟨-1, 0⟩, ⟨5, 1 / 4000⟩, ⟨-4001 / 4000, 1 / 2000⟩, ⟨0, 1⟩] :
          List (Vec2 ℚ)).Pairwise (fun p q => ¬ ConvexMeshIteratorDebug.PointComparator q p)
      ∧ ConvexMeshIteratorDebug.convexHull LEFT_SIDE
          [⟨0, -1⟩, ⟨-1, 0⟩, ⟨-1, 0⟩, ⟨5, 1 / 4000⟩, ⟨-4001 / 4000, 1 / 2000⟩, ⟨0, 1⟩]
        = [⟨0, -1⟩, ⟨-1, 0⟩, ⟨-4001 / 4000, 1 / 2000⟩, ⟨0, 1⟩]
      ∧ (ConvexMeshIteratorDebug.convexHull LEFT_SIDE
          [⟨0, -1⟩, ⟨-1, 0⟩, ⟨-1, 0⟩, ⟨5, 1 / 4000⟩, ⟨-4001 / 4000, 1 / 2000⟩, ⟨0, 1⟩]).Chain'
            (· ≠ ·) :=
  ⟨by decide!, by decide!,
    mesh_convexHull_consecutive_distinct LEFT_SIDE
      [⟨0, -1⟩, ⟨-1, 0⟩, ⟨-1, 0⟩, ⟨5, 1 / 4000⟩, ⟨-4001 / 4000, 1 / 2000⟩, ⟨0, 1⟩] (by decide!)⟩

/-! ## The recursion of `addPoint` in the mesh iterator -/

section EndsLemmas
variable {α β γ : Type} {Q : α → Prop}

theorem ends_ok {a : α} (h : Q a) : Ends Q (.ok a) := h

theorem ends_pure {a : α} (h : Q a) : Ends Q (Pure.pure a) := h

theorem ends_index (l : List α) (i : Nat) : Ends (fun a => l.get? i = some a) (index l i) := by
  unfold index
  cases h : l.get? i with
  | none => simp [Ends]
  | some a => simp [Ends]

theorem ends_ite {c : Prop} [Decidable c] {t e : Except Failure α}
    (ht : c → Ends Q t) (he : ¬ c → Ends Q e) : Ends Q (if c then t else e) := by
  split
  · exact ht ‹_›
  · exact he ‹_›

theorem ends_bind {Q' : β → Prop} {x : Except Failure β} {g : β → Except Failure α}
    (hx : Ends Q' x) (h : ∀ b, Q' b → Ends Q (g b)) : Ends Q (x >>= g) := by
  cases x with
  | error e => exact hx
  | ok b => exact h b hx

theorem ends_foldlM {f : α → γ → Except Failure α} (step : ∀ a c, Q a → Ends Q (f a c))
    (l : List γ) : ∀ a, Q a → Ends Q (l.foldlM f a) := by
  induction l with
  | nil => intro a h; exact h
  | cons c l ih =>
    intro a h
    rw [List.foldlM_cons]
    exact ends_bind (step a c h) ih

theorem ends_imp {Q' : α → Prop} {x : Except Failure α} (hx : Ends Q' x) (h : ∀ a, Q' a → Q a) :
    Ends Q x := by
  cases x with
  | error e => exact hx
  | ok a => exact h a hx

end EndsLemmas

namespace ConvexMeshIteratorDebug

theorem count_false_set_true (l : List Bool) : ∀ (e k : Nat), l.get? e = some false → e < k →
    ((l.set e true).take k).count false + 1 = (l.take k).count false := by
  induction l with
  | nil => intro e k h; simp at h
  | cons x xs ih =>
    intro e k h hk
    obtain ⟨k, rfl⟩ : ∃ k', k = k' + 1 := ⟨k - 1, by omega⟩
    cases e with
    | zero =>
      simp at h
      subst h
      simp [List.take]
    | succ e =>
      rw [List.get?_cons_succ] at h
      have := ih e k h (by omega)
      simp only [List.set_cons_succ, List.take_succ_cons, List.count_cons]
      omega

theorem addPointRecursiveCounted_bound (fuel : Nat) :
    ∀ (point : Nat) (acc : (ConvexMeshIteratorDebug × EdgeMap Int) × Nat),
      uncheckedEdges acc.1.1 < fuel →
      Ends (fun r => r.2 + uncheckedEdges r.1.1 ≤ acc.2 + uncheckedEdges acc.1.1 ∧ acc.2 ≤ r.2
          ∧ r.1.1.m_meshEdgeList = acc.1.1.m_meshEdgeList)
        (addPointRecursiveCounted fuel point acc) := by
  induction fuel with
  | zero => intro point acc h; omega
  | succ n ih =>
    intro point acc hfuel
    unfold addPointRecursiveCounted
    refine ends_foldlM ?_ _ acc ⟨le_refl _, le_refl _, rfl⟩
    rintro a edgeIndex ⟨ha1, ha2, ha3⟩
    apply ends_bind (ends_index _ _); intro checked hchecked
    apply ends_ite
    · intro _; exact ends_pure ⟨ha1, ha2, ha3⟩
    · intro hc
      have hfalse : a.1.1.m_isEdgeChecked.get? edgeIndex = some false := by
        cases checked <;> simp_all
      apply ends_bind (ends_index _ _); intro edge hedge
      have hlt : edgeIndex < a.1.1.m_meshEdgeList.m_edges.length := by
        have := List.get?_eq_some.1 hedge
        exact this.1
      have hcount := count_false_set_true _ _ _ hfalse hlt
      apply ends_bind (ends_index _ _); intro other hother
      apply ends_ite
      · intro _
        have := ih (if point = edge.1 then edge.2 else edge.1)
          (({ a.1.1 with m_isEdgeChecked := a.1.1.m_isEdgeChecked.set edgeIndex true }, a.1.2),
            a.2 + 1) (by
              simp only [uncheckedEdges] at *
              omega)
        refine ends_imp this ?_
        rintro r ⟨hr1, hr2, hr3⟩
        simp only [uncheckedEdges] at *
        refine ⟨by omega, by omega, hr3.trans ha3⟩
      · intro _
        refine ends_pure ⟨?_, ha2, ha3⟩
        simp only [uncheckedEdges] at *
        omega

theorem addPointRecursiveCounted_erase (fuel : Nat) :
    ∀ (point : Nat) (acc : (ConvexMeshIteratorDebug × EdgeMap Int) × Nat),
      Sim (fun r r' => r.1 = r') (addPointRecursiveCounted fuel point acc)
        (addPointRecursive fuel point acc.1) := by
  induction fuel with
  | zero => intro point acc; exact sim_error
  | succ n ih =>
    intro point acc
    unfold addPointRecursiveCounted addPointRecursive
    refine sim_foldlM ?_ _ _ _ rfl
    rintro a _ edgeIndex rfl
    apply sim_bindVal; intro checked
    apply sim_ite
    · exact sim_pure rfl
    · apply sim_bindVal; intro edge
      apply sim_bindVal; intro other
      apply sim_ite
      · exact ih _ ((_, a.1.2), a.2 + 1)
      · exact sim_pure rfl

theorem map_fst_of_sim {α β : Type} {x : Except Failure (α × β)} {y : Except Failure α}
    (h : Sim (fun r r' => r.1 = r') x y) : x.map Prod.fst = y := by
  cases x with
  | error e =>
    cases y with
    | error e' => simp only [Sim] at h; rw [h]; rfl
    | ok b => exact h.elim
  | ok a =>
    cases y with
    | error e' => exact h.elim
    | ok b => simp only [Sim] at h; rw [← h]; rfl

theorem addPointCounted_erase (point : Nat) (acc : ConvexMeshIteratorDebug × EdgeMap Int) :
    (addPointCounted point acc).map Prod.fst = addPoint point acc := by
  apply map_fst_of_sim
  unfold addPointCounted addPoint
  apply sim_bindVal; intro p
  exact addPointRecursiveCounted_erase _ point ((_, acc.2), 0)

theorem uncheckedEdges_le (s : ConvexMeshIteratorDebug) :
    uncheckedEdges s ≤ s.m_meshEdgeList.m_edges.length := by
  unfold uncheckedEdges
  exact (List.count_le_length _ _).trans (by simp)

theorem addPointCounted_bound (point : Nat) (acc : ConvexMeshIteratorDebug × EdgeMap Int) :
    Ends (fun r => r.2 + uncheckedEdges r.1.1 ≤ uncheckedEdges acc.1
        ∧ r.1.1.m_meshEdgeList = acc.1.m_meshEdgeList)
      (addPointCounted point acc) := by
  unfold addPointCounted
  apply ends_bind (ends_index _ _); intro p hp
  refine ends_imp (addPointRecursiveCounted_bound _ point ((_, acc.2), 0)
    (Nat.lt_succ_of_le (uncheckedEdges_le acc.1))) ?_
  rintro r ⟨h1, _, h3⟩
  exact ⟨by simpa [uncheckedEdges] using h1, h3⟩

end ConvexMeshIteratorDebug

/-- The bound on the recursive calls is attained: with all twelve edges of `prism`
unchecked and every corner in the current slice, `addPoint` for corner 1 follows all twelve
edges, each by one recursive call. -/
theorem ConvexMeshIteratorDebug.addPointCounted_prism :
    (ConvexMeshIteratorDebug.addPointCounted 1
        ({ ConvexMeshIteratorDebug.initial prism ⟨0, 1, 2⟩ ⟨1, 1, 1⟩ ⟨⟨0, 0, 0⟩, ⟨3, 0, 1⟩⟩
            ⟨1, 1, 1⟩ with m_sliceStart := 1 }, [])).map
        (fun r => (r.2, r.1.1.uncheckedEdges))
      = .ok (12, 0) := by
  decide!

/-- C26: `addPointRecursive` terminates for every mesh edge list, every starting point
and every state of the iterator: `addPoint`, which hands it the number of edges plus one
as the bound on its depth, never exhausts that bound. With `addPointCounted`, which is
`addPoint` with a counter of the recursive calls, every recursive call is paid for by an
edge that went from unchecked to checked, so the calls made by one `addPoint` are at most
as many as the list has edges. -/
theorem mesh_addPoint_recursion_bounded (point : Nat)
    (acc : ConvexMeshIteratorDebug × EdgeMap Int) :
    ConvexMeshIteratorDebug.addPoint point acc ≠ .error .outOfFuel
      ∧ (ConvexMeshIteratorDebug.addPointCounted point acc).map Prod.fst
          = ConvexMeshIteratorDebug.addPoint point acc
      ∧ ∀ r calls, ConvexMeshIteratorDebug.addPointCounted point acc = .ok (r, calls) →
          calls + r.1.uncheckedEdges ≤ acc.1.uncheckedEdges
            ∧ calls ≤ acc.1.m_meshEdgeList.m_edges.length := by
  have hb := ConvexMeshIteratorDebug.addPointCounted_bound point acc
  have he := ConvexMeshIteratorDebug.addPointCounted_erase point acc
  refine ⟨?_, he, ?_⟩
  · rw [← he]
    cases hx : ConvexMeshIteratorDebug.addPointCounted point acc with
    | error e =>
      rw [hx] at hb
      intro h
      simp only [Except.map] at h
      cases h
      exact hb rfl
    | ok a => intro h; simp [Except.map] at h
  · intro r calls hx
    rw [hx] at hb
    have h1 : calls + r.1.uncheckedEdges ≤ acc.1.uncheckedEdges := hb.1
    exact ⟨h1, by have := ConvexMeshIteratorDebug.uncheckedEdges_le acc.1; omega⟩

/-! ## The edge tables of the frustum iterator across `advanceSlice` -/

section EnsuresLemmas
variable {α β γ : Type} {Q : α → Prop}

theorem ensures_ok {a : α} (h : Q a) : Ensures Q (.ok a) := by
  intro b hb; cases hb; exact h

theorem ensures_pure {a : α} (h : Q a) : Ensures Q (Pure.pure a) := ensures_ok h

theorem ensures_error {e : Failure} : Ensures Q (.error e : Except Failure α) := by
  intro b hb; cases hb

theorem ensures_index (l : List α) (i : Nat) :
    Ensures (fun a => l.get? i = some a) (index l i) := by
  unfold index
  cases h : l.get? i with
  | none => exact ensures_error
  | some a => exact ensures_ok rfl

theorem ensures_ite {c : Prop} [Decidable c] {t e : Except Failure α}
    (ht : c → Ensures Q t) (he : ¬ c → Ensures Q e) : Ensures Q (if c then t else e) := by
  split
  · exact ht ‹_›
  · exact he ‹_›

theorem ensures_bind {Q' : β → Prop} {x : Except Failure β} {g : β → Except Failure α}
    (hx : Ensures Q' x) (h : ∀ b, Q' b → Ensures Q (g b)) : Ensures Q (x >>= g) := by
  intro a ha
  cases x with
  | error e => cases ha
  | ok b => exact h b (hx b rfl) a ha

theorem ensures_bindWith (Q' : β → Prop) {x : Except Failure β} {g : β → Except Failure α}
    (hx : Ensures Q' x) (h : ∀ b, Q' b → Ensures Q (g b)) : Ensures Q (x >>= g) :=
  ensures_bind hx h

theorem ensures_self (x : Except Failure α) : Ensures (fun a => x = .ok a) x :=
  fun _ h => h

theorem ensures_bindVal {x : Except Failure β} {g : β → Except Failure α}
    (h : ∀ b, Ensures Q (g b)) : Ensures Q (x >>= g) := by
  intro a ha
  cases x with
  | error e => cases ha
  | ok b => exact h b a ha

theorem ensures_foldlM {f : α → γ → Except Failure α} (step : ∀ a c, Q a → Ensures Q (f a c))
    (l : List γ) : ∀ a, Q a → Ensures Q (l.foldlM f a) := by
  induction l with
  | nil => intro a h; exact ensures_pure h
  | cons c l ih =>
    intro a h
    rw [List.foldlM_cons]
    exact ensures_bind (step a c h) ih

theorem ensures_imp {Q' : α → Prop} {x : Except Failure α} (hx : Ensures Q' x)
    (h : ∀ a, Q' a → Q a) : Ensures Q x :=
  fun a ha => h a (hx a ha)

end EnsuresLemmas


namespace FrustumIterator

theorem setSliceRowPoint_table (b : Bool) (x : ℚ) (s : FrustumIterator) :
    (s.setSliceRowPoint b x).edgeTableOf = s.edgeTableOf := by
  unfold setSliceRowPoint; cases b <;> rfl

theorem advanceInwardLine_table (b : Bool) (s : FrustumIterator) :
    Keeps edgeTableOf Prod.snd s (advanceInwardLine b s) := by
  unfold advanceInwardLine
  apply keeps_ite
  · exact keeps_pure rfl
  · apply keeps_bindVal; intro n
    apply keeps_ite <;> exact keeps_pure rfl

theorem whileAdvanceInwardLine_table (b : Bool) (fuel : Nat) : ∀ (s : FrustumIterator),
    Keeps edgeTableOf id s (whileAdvanceInwardLine fuel b s) := by
  induction fuel with
  | zero => intro s; exact keeps_error
  | succ n ih =>
    intro s
    unfold whileAdvanceInwardLine
    apply keeps_bindState (advanceInwardLine_table b s)
    rintro ⟨again, s1⟩ h1
    apply keeps_ite
    · exact keeps_rebase h1 (ih s1)
    · exact keeps_pure h1

theorem ite_setSliceRowPoint_table (c : Prop) [Decidable c] (b : Bool) (x : ℚ)
    (s2 s : FrustumIterator) (h : s2.edgeTableOf = s.edgeTableOf) :
    (if c then s2.setSliceRowPoint b x else s2).edgeTableOf = s.edgeTableOf := by
  split
  · exact (setSliceRowPoint_table _ _ _).trans h
  · exact h

theorem advanceOutwardLine_table (b : Bool) (s : FrustumIterator) :
    Keeps edgeTableOf Prod.snd s (advanceOutwardLine b s) := by
  unfold advanceOutwardLine
  apply keeps_ite
  · apply keeps_bindVal; intro p
    exact keeps_pure (setSliceRowPoint_table _ _ _)
  · apply keeps_bindVal; intro pb
    apply keeps_bindVal; intro pa
    apply keeps_bindVal; intro n
    apply keeps_ite
    · apply keeps_ite
      · apply keeps_bindVal; intro x
        exact keeps_pure ((setSliceRowPoint_table _ _ _).trans
          (ite_setSliceRowPoint_table _ _ _ _ _ rfl))
      · exact keeps_pure (ite_setSliceRowPoint_table _ _ _ _ _ rfl)
    · apply keeps_ite
      · apply keeps_bindState
          (keeps_rebase (ite_setSliceRowPoint_table _ _ _ _ _ rfl) (whileAdvanceInwardLine_table b _ _))
        intro s1 h1
        exact keeps_pure h1
      · exact keeps_pure (ite_setSliceRowPoint_table _ _ _ _ _ rfl)

theorem whileAdvanceOutwardLine_table (b : Bool) (fuel : Nat) :
    ∀ (s : FrustumIterator), Keeps edgeTableOf id s (whileAdvanceOutwardLine fuel b s) := by
  induction fuel with
  | zero => intro s; exact keeps_error
  | succ n ih =>
    intro s
    unfold whileAdvanceOutwardLine
    apply keeps_bindState (advanceOutwardLine_table b s)
    rintro ⟨again, s1⟩ h1
    apply keeps_ite
    · exact keeps_rebase h1 (ih s1)
    · exact keeps_pure h1

theorem preAdvanceOutwardLine_table (b : Bool) (s : FrustumIterator) :
    Keeps edgeTableOf Prod.snd s (preAdvanceOutwardLine b s) := by
  unfold preAdvanceOutwardLine
  apply keeps_bindVal; intro n
  apply keeps_ite
  · apply keeps_bindVal; intro pa
    apply keeps_bindVal; intro pb
    apply keeps_bindVal; intro x
    exact keeps_pure (setSliceRowPoint_table _ _ _)
  · exact keeps_pure rfl

theorem setupSliceHelper_table (b : Bool) (s : FrustumIterator) :
    Keeps edgeTableOf id s (setupSliceHelper b s) := by
  unfold setupSliceHelper
  apply keeps_ite
  · exact keeps_error
  apply keeps_bindVal; intro p1
  apply keeps_bindVal; intro p0
  apply keeps_ite
  · apply keeps_bindState (keeps_via (preAdvanceOutwardLine_table b _) rfl)
    rintro ⟨again, s1⟩ h1
    apply keeps_ite
    · exact keeps_rebase h1 (whileAdvanceOutwardLine_table b _ s1)
    · exact keeps_pure h1
  · exact keeps_via (whileAdvanceInwardLine_table b _ _) (setSliceRowPoint_table _ _ _)

theorem Arr2.get_set_not {α : Type} (p : Arr2 α) (i : Bool) (a : α) :
    (p.set (!i) a).get i = p.get i := by
  cases i <;> rfl

theorem collectSlicePoints_table (s : FrustumIterator) :
    Keeps edgeTableOf id s (collectSlicePoints s) := by
  unfold collectSlicePoints
  refine ensures_foldlM ?_ _ _ ?_
  · intro a c ha
    have hc : a.m_currentPointList = s.m_currentPointList := congrArg (fun p => p.2.2.2.2.1) ha
    apply ensures_bindVal; intro countdown
    apply ensures_ite
    · intro _
      apply ensures_bindVal; intro i0
      apply ensures_bindVal; intro i1
      apply ensures_bindVal; intro p0
      apply ensures_bindVal; intro p1
      split
      · exact ensures_error
      · refine ensures_pure ?_
        rw [← ha]
        simp only [edgeTableOf, id]
        rw [← hc, Arr2.get_set_not]
    · intro _; exact ensures_pure ha
  · simp only [edgeTableOf, id]
    rw [Arr2.get_set_not]

theorem buildSliceHull_table (s : FrustumIterator) :
    Keeps edgeTableOf Prod.snd s (buildSliceHull s) := by
  unfold buildSliceHull
  apply keeps_bindVal; intro right
  apply keeps_ite
  · exact keeps_pure rfl
  · apply keeps_ite
    · exact keeps_error
    · apply keeps_bindVal; intro left
      apply keeps_ite
      · exact keeps_pure rfl
      · apply keeps_ite
        · exact keeps_error
        · exact keeps_pure rfl

theorem reconcileChains_table (s : FrustumIterator) :
    Keeps edgeTableOf id s (reconcileChains s) := by
  unfold reconcileChains
  apply keeps_bindVal; intro r0
  apply keeps_bindVal; intro l0
  apply keeps_bindVal; intro rLast
  apply keeps_bindVal; intro lLast
  exact keeps_pure rfl

theorem setupSliceRows_table (s : FrustumIterator) :
    Keeps edgeTableOf id s (setupSliceRows s) := by
  unfold setupSliceRows
  apply keeps_bindVal; intro first
  apply keeps_bindVal; intro last
  exact keeps_pure rfl

theorem setupSlice_table (s : FrustumIterator) :
    Keeps edgeTableOf Prod.snd s (setupSlice s) := by
  unfold setupSlice
  apply keeps_bindState (collectSlicePoints_table s)
  intro s1 h1
  apply keeps_bindState (keeps_rebase h1 (buildSliceHull_table s1))
  rintro ⟨nonEmpty, s2⟩ h2
  apply keeps_ite
  · exact keeps_pure h2
  · apply keeps_bindState (keeps_rebase h2 (reconcileChains_table s2))
    intro s3 h3
    apply keeps_bindState (keeps_rebase h3 (setupSliceRows_table s3))
    intro s4 h4
    apply keeps_bindState (keeps_rebase h4 (setupSliceHelper_table LEFT_SIDE s4))
    intro s5 h5
    apply keeps_bindState (keeps_rebase h5 (setupSliceHelper_table RIGHT_SIDE s5))
    intro s6 h6
    exact keeps_pure h6

theorem gridDistance_frame {t s : FrustumIterator} (h : t.sliceFrameOf = s.sliceFrameOf)
    (a b : ℚ) (d : Fin 3) : t.gridDistance a b d = s.gridDistance a b d := by
  have h1 : t.m_cellDimensions = s.m_cellDimensions := congrArg (fun p => p.2.2.1) h
  have h2 : t.m_directionSign = s.m_directionSign := congrArg (fun p => p.2.2.2.1) h
  have h3 : t.m_spaceRange = s.m_spaceRange := congrArg (fun p => p.2.2.2.2.1) h
  simp only [gridDistance, distance, gridLocation, h1, h2, h3]

theorem tableStep_refl (acc : FrustumIterator × List Int) : TableStep acc acc :=
  ⟨rfl, rfl, rfl, fun _ h => ⟨h, rfl, rfl⟩, fun _ _ h => h⟩

theorem tableStep_trans {a b c : FrustumIterator × List Int} (h1 : TableStep a b)
    (h2 : TableStep b c) : TableStep a c := by
  obtain ⟨f1, l1, d1, k1, a1⟩ := h1
  obtain ⟨f2, l2, d2, k2, a2⟩ := h2
  have hf : b.1.m_frustum = a.1.m_frustum := congrArg (fun p => p.1) f1
  refine ⟨f2.trans f1, l2.trans l1, d2.trans d1, ?_, ?_⟩
  · intro e he
    obtain ⟨x1, x2, x3⟩ := k1 e he
    obtain ⟨y1, y2, y3⟩ := k2 e x1
    exact ⟨y1, y2.trans x2, y3.trans x3⟩
  · intro hl hd hact
    exact a2 (by rw [hf, l1]; exact hl) (by rw [hf, d1]; exact hd) (a1 hl hd hact)

theorem findInactiveEdge_spec (frustum : Frustum) (pointIndex : Nat) (remaining : Nat) :
    ∀ (startEdgeIndex : Nat) (otherPoint : Bool) (inactiveEdges : List Bool),
      ((findInactiveEdge frustum pointIndex remaining startEdgeIndex otherPoint inactiveEdges).1
            = frustum.numEdges
          ∧ (findInactiveEdge frustum pointIndex remaining startEdgeIndex otherPoint
              inactiveEdges).2.2 = inactiveEdges)
        ∨ ((findInactiveEdge frustum pointIndex remaining startEdgeIndex otherPoint
              inactiveEdges).1 < frustum.numEdges
          ∧ inactiveEdges.get? (findInactiveEdge frustum pointIndex remaining startEdgeIndex
              otherPoint inactiveEdges).1 = some true
          ∧ (findInactiveEdge frustum pointIndex remaining startEdgeIndex otherPoint
              inactiveEdges).2.2
            = inactiveEdges.set (findInactiveEdge frustum pointIndex remaining startEdgeIndex
                otherPoint inactiveEdges).1 false) := by
  induction remaining with
  | zero => intro st op fl; exact Or.inl ⟨rfl, rfl⟩
  | succ n ih =>
    intro st op fl
    unfold findInactiveEdge
    cases hfl : fl.get? st with
    | none => exact ih _ _ _
    | some flag =>
      cases hed : frustum.edgeList.get? st with
      | none => cases flag <;> exact ih _ _ _
      | some edge =>
        cases flag with
        | false => exact ih _ _ _
        | true =>
          have hlt : st < frustum.numEdges := (List.get?_eq_some.1 hed).1
          simp only
          split
          · exact Or.inr ⟨hlt, hfl, rfl⟩
          · split
            · exact Or.inr ⟨hlt, hfl, rfl⟩
            · exact ih _ _ _

theorem get?_set_of_ne {α : Type} (l : List α) {i j : Nat} (h : i ≠ j) (a : α) :
    (l.set i a).get? j = l.get? j := by
  simp [List.getElem?_set_ne h]

theorem get?_set_self_of_lt {α : Type} (l : List α) {i : Nat} (h : i < l.length) (a : α) :
    (l.set i a).get? i = some a := by
  simp [List.getElem?_set_self h]

/-- Taking the inactive flag from an edge that had it. -/
theorem tableStep_discard (acc : FrustumIterator × List Int) (idx : Nat)
    (hflag : acc.1.m_inactiveEdges.get? idx = some true) :
    TableStep acc
      ({ acc.1 with m_inactiveEdges := acc.1.m_inactiveEdges.set idx false }, acc.2) := by
  refine ⟨rfl, rfl, rfl, ?_, ?_⟩
  · intro e he
    have hne : idx ≠ e := by
      rintro rfl
      rw [hflag] at he
      cases he
    exact ⟨by rw [← he]; exact get?_set_of_ne _ hne _, rfl, rfl⟩
  · intro _ _ hact e k hk hpos
    obtain ⟨h1, h2⟩ := hact e k hk hpos
    have hne : idx ≠ e := by
      rintro rfl
      rw [hflag] at h1
      cases h1
    exact ⟨by rw [← h1]; exact get?_set_of_ne _ hne _, h2⟩

/-- Taking the inactive flag from an edge that had it and making the edge active. -/
theorem tableStep_activate (acc : FrustumIterator × List Int) (idx : Nat) (w : Bool)
    (oi : Nat) (other : Vec3 ℚ)
    (hflag : acc.1.m_inactiveEdges.get? idx = some true)
    (hlt : idx < acc.1.m_frustum.numEdges)
    (hoi : acc.1.m_frustum.edgePoint idx w = .ok oi)
    (hother : acc.1.m_frustum.m_points.get? oi = some other) :
    TableStep acc
      ({ acc.1 with
          m_inactiveEdges := acc.1.m_inactiveEdges.set idx false
          m_activeEdgeDestPoint := acc.1.m_activeEdgeDestPoint.set idx w },
        acc.2.set idx (acc.1.gridDistance acc.1.m_sliceStart
          (other.get (acc.1.m_dimensionOrder.get SLICE_DIM))
          (acc.1.m_dimensionOrder.get SLICE_DIM))) := by
  refine ⟨rfl, by simp, by simp, ?_, ?_⟩
  · intro e he
    have hne : idx ≠ e := by
      rintro rfl
      rw [hflag] at he
      cases he
    exact ⟨by rw [← he]; exact get?_set_of_ne _ hne _, get?_set_of_ne _ hne _,
      get?_set_of_ne _ hne _⟩
  · intro hl hd hact e k hk hpos
    by_cases hne : idx = e
    · subst hne
      have hidx : idx < acc.1.m_inactiveEdges.length := (List.get?_eq_some.1 hflag).1
      rw [get?_set_self_of_lt _ (lt_of_lt_of_le hlt hl)] at hk
      cases hk
      refine ⟨get?_set_self_of_lt _ hidx _, w, oi, other,
        get?_set_self_of_lt _ (lt_of_lt_of_le hlt hd) _, hoi, hother, rfl⟩
    · rw [get?_set_of_ne _ hne] at hk
      obtain ⟨h1, w', oi', other', h2, h3, h4, h5⟩ := hact e k hk hpos
      exact ⟨by rw [← h1]; exact get?_set_of_ne _ hne _, w', oi', other',
        by rw [← h2]; exact get?_set_of_ne _ hne _, h3, h4, h5⟩

theorem addPointLoop_spec (fuel : Nat) : ∀ (point idx : Nat) (otherPoint : Bool)
    (acc : FrustumIterator × List Int),
    Ensures (fun r => TableStep acc r ∧ r.1.m_pointList = acc.1.m_pointList
        ∧ r.1.m_activeEdges = acc.1.m_activeEdges)
      (addPointLoop fuel point idx otherPoint acc) := by
  induction fuel with
  | zero => intro _ _ _ _; exact ensures_error
  | succ n ih =>
    intro point idx otherPoint acc
    unfold addPointLoop
    simp only
    have hfind := findInactiveEdge_spec acc.1.m_frustum point
      (acc.1.m_frustum.numEdges - idx) idx otherPoint acc.1.m_inactiveEdges
    generalize findInactiveEdge acc.1.m_frustum point (acc.1.m_frustum.numEdges - idx) idx
      otherPoint acc.1.m_inactiveEdges = found at hfind
    rcases hfind with ⟨h1, h2⟩ | ⟨h1, h2, h3⟩
    · rw [if_pos h1]
      refine ensures_ok ⟨?_, rfl, rfl⟩
      rw [h2]
      exact tableStep_refl acc
    · rw [if_neg (Nat.ne_of_lt h1)]
      refine ensures_bind (ensures_self _) ?_
      intro oi hoi
      refine ensures_bind (ensures_index _ _) ?_
      intro other hother
      rw [h3]
      refine ensures_ite ?_ ?_
      · intro _
        refine ensures_imp (ih point (found.1 + 1) found.2.1 _) ?_
        rintro r ⟨hr1, hr2, hr3⟩
        exact ⟨tableStep_trans (tableStep_discard acc found.1 h2) hr1, hr2, hr3⟩
      · intro _
        refine ensures_imp (ih point (found.1 + 1) found.2.1 _) ?_
        rintro r ⟨hr1, hr2, hr3⟩
        exact ⟨tableStep_trans (tableStep_activate acc found.1 found.2.1 oi other h2 h1 hoi hother)
          hr1, hr2, hr3⟩

theorem addPoint_spec (point : Nat) (acc : FrustumIterator × List Int) :
    Ensures (fun r => TableStep acc r ∧ r.1.m_activeEdges = acc.1.m_activeEdges
        ∧ ∃ p, acc.1.m_frustum.m_points.get? point = some p
          ∧ r.1.m_pointList = acc.1.m_pointList.set acc.1.m_currentPointList
              (acc.1.m_pointList.get acc.1.m_currentPointList
                ++ [⟨p.get (acc.1.m_dimensionOrder.get X_DIM),
                    p.get (acc.1.m_dimensionOrder.get Y_DIM)⟩]))
      (addPoint point acc) := by
  unfold addPoint
  refine ensures_bind (ensures_index _ _) ?_
  intro p hp
  refine ensures_imp (addPointLoop_spec _ point 0 false _) ?_
  rintro r ⟨hr1, hr2, hr3⟩
  refine ⟨tableStep_trans ⟨rfl, rfl, rfl, fun _ h => ⟨h, rfl, rfl⟩, fun _ _ h => h⟩ hr1, hr3,
    p, hp, hr2⟩

theorem Arr2.get_set_same {α : Type} (p : Arr2 α) (i : Bool) (a : α) :
    (p.set i a).get i = a := by
  cases i <;> rfl

theorem foldlM_done {α : Type} {f : α → Nat → Except Failure α} (P : List Nat → α → Prop)
    (step : ∀ done a e, e ∉ done → P done a → Ensures (P (done ++ [e])) (f a e)) :
    ∀ (l done : List Nat) (a : α), l.Nodup → (∀ e ∈ l, e ∉ done) → P done a →
      Ensures (P (done ++ l)) (l.foldlM f a) := by
  intro l
  induction l with
  | nil => intro done a _ _ h; exact ensures_pure (by simpa using h)
  | cons e l ih =>
    intro done a hnd hdis h
    rw [List.foldlM_cons]
    refine ensures_bind (step done a e (hdis e (List.mem_cons_self _ _)) h) ?_
    intro b hb
    have := ih (done ++ [e]) b (List.nodup_cons.1 hnd).2 (by
      intro x hx
      simp only [List.mem_append, List.mem_singleton, not_or]
      refine ⟨hdis x (List.mem_cons_of_mem _ hx), ?_⟩
      rintro rfl
      exact (List.nodup_cons.1 hnd).1 hx) hb
    simpa using this

theorem countedDown_set (s1 : FrustumIterator) (done : List Nat) (e : Nat) (he : e ∉ done)
    (l : List Int) (c : Int) (hc : l.get? e = some c)
    (hA : ∀ e', l.get? e'
        = (s1.m_activeEdges.get? e').map (fun c => if e' ∈ done ∧ 0 < c then c - 1 else c))
    (hpos : 0 < c) :
    ∀ e', (l.set e (c - 1)).get? e'
        = (s1.m_activeEdges.get? e').map
            (fun c => if e' ∈ done ++ [e] ∧ 0 < c then c - 1 else c) := by
  have hs1 : s1.m_activeEdges.get? e = some c := by
    have := hA e
    rw [hc] at this
    cases h0 : s1.m_activeEdges.get? e with
    | none => rw [h0] at this; cases this
    | some c0 =>
      rw [h0] at this
      simp only [Option.map_some', he, false_and, if_false, Option.some.injEq] at this
      rw [this]
  intro e'
  by_cases hne : e = e'
  · subst hne
    rw [get?_set_self_of_lt _ (List.get?_eq_some.1 hc).1, hs1]
    simp [hpos]
  · rw [get?_set_of_ne _ hne, hA e']
    have : (e' ∈ done ++ [e]) ↔ e' ∈ done := by
      simp only [List.mem_append, List.mem_singleton]
      exact ⟨fun h => h.elim id (fun h => absurd h.symm hne), Or.inl⟩
    simp only [this]

theorem countedDown_keep (s1 : FrustumIterator) (done : List Nat) (e : Nat) (he : e ∉ done)
    (l : List Int) (c : Int) (hc : l.get? e = some c)
    (hA : ∀ e', l.get? e'
        = (s1.m_activeEdges.get? e').map (fun c => if e' ∈ done ∧ 0 < c then c - 1 else c))
    (hpos : ¬ 0 < c) :
    ∀ e', l.get? e'
        = (s1.m_activeEdges.get? e').map
            (fun c => if e' ∈ done ++ [e] ∧ 0 < c then c - 1 else c) := by
  have hs1 : s1.m_activeEdges.get? e = some c := by
    have := hA e
    rw [hc] at this
    cases h0 : s1.m_activeEdges.get? e with
    | none => rw [h0] at this; cases this
    | some c0 =>
      rw [h0] at this
      simp only [Option.map_some', he, false_and, if_false, Option.some.injEq] at this
      rw [this]
  intro e'
  by_cases hne : e = e'
  · subst hne
    rw [hc, hs1]
    simp [hpos]
  · rw [hA e']
    have : (e' ∈ done ++ [e]) ↔ e' ∈ done := by
      simp only [List.mem_append, List.mem_singleton]
      exact ⟨fun h => h.elim id (fun h => absurd h.symm hne), Or.inl⟩
    simp only [this]

theorem countedDown_source (s1 : FrustumIterator) (done : List Nat) (e : Nat) (he : e ∉ done)
    (l : List Int) (c : Int) (hc : l.get? e = some c)
    (hA : ∀ e', l.get? e'
        = (s1.m_activeEdges.get? e').map (fun c => if e' ∈ done ∧ 0 < c then c - 1 else c)) :
    s1.m_activeEdges.get? e = some c := by
  have := hA e
  rw [hc] at this
  cases h0 : s1.m_activeEdges.get? e with
  | none => rw [h0] at this; cases this
  | some c0 =>
    rw [h0] at this
    simp only [Option.map_some', he, false_and, if_false, Option.some.injEq] at this
    rw [this]

theorem countDownActiveEdges_spec (s1 : FrustumIterator)
    (hInv : ∀ e c, s1.m_activeEdges.get? e = some c → 0 < c →
      s1.m_inactiveEdges.get? e = some false) :
    Ensures (CountedDown s1 (List.range s1.m_frustum.numEdges)) (countDownActiveEdges s1) := by
  unfold countDownActiveEdges
  refine ensures_imp (foldlM_done (CountedDown s1) ?_ (List.range s1.m_frustum.numEdges) [] _
    (List.nodup_range _) (by simp) ?_) (fun a ha => by simpa using ha)
  · rintro done a e he ⟨hT, hA, added, hpl, hadd⟩
    have hframe : a.1.sliceFrameOf = s1.sliceFrameOf := hT.1
    have hfr : a.1.m_frustum = s1.m_frustum := congrArg (fun p => p.1) hframe
    have hcur : a.1.m_currentPointList = s1.m_currentPointList := congrArg (fun p => p.2.1) hframe
    have hord : a.1.m_dimensionOrder = s1.m_dimensionOrder :=
      congrArg (fun p => p.2.2.2.2.2.1) hframe
    refine ensures_bind (ensures_index _ _) ?_
    intro c hc
    have hs1 := countedDown_source s1 done e he _ c hc hA
    refine ensures_ite ?_ ?_
    · intro hpos
      have hT1 : TableStep (s1, List.replicate s1.m_frustum.numEdges 0)
          ({ a.1 with m_activeEdges := a.1.m_activeEdges.set e (c - 1) }, a.2) :=
        tableStep_trans hT ⟨rfl, rfl, rfl, fun _ h => ⟨h, rfl, rfl⟩, fun _ _ h => h⟩
      have hA1 := countedDown_set s1 done e he _ c hc hA hpos
      refine ensures_ite ?_ ?_
      · intro hzero
        refine ensures_bind (ensures_index _ _) ?_
        intro w hw
        refine ensures_bind (ensures_self _) ?_
        intro pt hpt
        refine ensures_imp (addPoint_spec pt _) ?_
        rintro r ⟨hr1, hr2, p, hp, hr3⟩
        refine ⟨tableStep_trans hT1 hr1, ?_, added ++ [⟨p.get (s1.m_dimensionOrder.get X_DIM),
          p.get (s1.m_dimensionOrder.get Y_DIM)⟩], ?_, ?_⟩
        · rw [hr2]; exact hA1
        · rw [hr3]
          simp only
          rw [hcur, Arr2.get_set_same, hpl, hord, List.append_assoc]
        · intro e' he' h1
          rcases List.mem_append.1 he' with hd | hd
          · obtain ⟨w', oi', p', hw', hoi', hp', hmem⟩ := hadd e' hd h1
            exact ⟨w', oi', p', hw', hoi', hp', List.mem_append_left _ hmem⟩
          · have hee : e' = e := by simpa using hd
            subst hee
            have hflag := hInv e' c hs1 hpos
            have hdest : a.1.m_activeEdgeDestPoint.get? e' = s1.m_activeEdgeDestPoint.get? e' :=
              (hT.2.2.2.1 e' hflag).2.2
            exact ⟨w, pt, p, by rw [← hdest]; exact hw, by rw [← hfr]; exact hpt,
              by rw [← hfr]; exact hp, List.mem_append_right _ (List.mem_singleton_self _)⟩
      · intro hnz
        refine ensures_pure ⟨hT1, hA1, added, hpl, ?_⟩
        intro e' he' h1
        rcases List.mem_append.1 he' with hd | hd
        · exact hadd e' hd h1
        · have hee : e' = e := by simpa using hd
          subst hee
          rw [hs1] at h1
          have : c = 1 := Option.some.inj h1
          omega
    · intro hpos
      refine ensures_pure ⟨hT, countedDown_keep s1 done e he _ c hc hA hpos, added, hpl, ?_⟩
      intro e' he' h1
      rcases List.mem_append.1 he' with hd | hd
      · exact hadd e' hd h1
      · have hee : e' = e := by simpa using hd
        subst hee
        rw [hs1] at h1
        have : c = 1 := Option.some.inj h1
        omega
  · refine ⟨tableStep_refl _, ?_, [], by simp, ?_⟩
    · intro e
      cases s1.m_activeEdges.get? e <;> simp
    · intro e he
      cases he

theorem mergeActiveEdges_get? (activeEdges activeEdgesCopy : List Int) (e : Nat) :
    (mergeActiveEdges activeEdges activeEdgesCopy).get? e
      = match activeEdges.get? e, activeEdgesCopy.get? e with
        | some old, some new => some (if new > 0 then new else old)
        | _, _ => none := by
  unfold mergeActiveEdges
  simp only [List.get?_eq_getElem?, List.getElem?_zipWith]
  cases activeEdges[e]? <;> cases activeEdgesCopy[e]? <;> rfl

/-- The edge tables after the countdown loop, the merge of the copy table and `setupSlice`,
in terms of the state `s1` in which the countdown loop starts. -/
theorem advanceSlice_tables (s1 s' : FrustumIterator) (b : Bool)
    (r : FrustumIterator × List Int)
    (hInv : ∀ e c, s1.m_activeEdges.get? e = some c → 0 < c →
      s1.m_inactiveEdges.get? e = some false)
    (hDest : s1.m_frustum.numEdges ≤ s1.m_activeEdgeDestPoint.length)
    (hcd : countDownActiveEdges s1 = .ok r)
    (hset : setupSlice { r.1 with m_activeEdges := mergeActiveEdges r.1.m_activeEdges r.2 }
      = .ok (b, s')) :
    s'.m_currentPointList = s1.m_currentPointList
      ∧ (∀ e c, s'.m_activeEdges.get? e = some c → 0 < c →
          s'.m_inactiveEdges.get? e = some false)
      ∧ s'.m_frustum.numEdges ≤ s'.m_activeEdgeDestPoint.length
      ∧ ∃ added, s'.m_pointList.get s'.m_currentPointList
          = s1.m_pointList.get s1.m_currentPointList ++ added
        ∧ ∀ e c, e < s1.m_frustum.numEdges → s1.m_activeEdges.get? e = some c →
          (2 ≤ c → s'.m_activeEdges.get? e = some (c - 1))
          ∧ (c = 1 → s'.m_activeEdges.get? e = some 0
              ∧ ∃ w oi p, s1.m_activeEdgeDestPoint.get? e = some w
                ∧ s1.m_frustum.edgePoint e w = .ok oi ∧ s1.m_frustum.m_points.get? oi = some p
                ∧ (⟨p.get (s1.m_dimensionOrder.get X_DIM),
                    p.get (s1.m_dimensionOrder.get Y_DIM)⟩ : Vec2 ℚ) ∈ added)
          ∧ (c ≤ 0 → s'.m_activeEdges.get? e = some c
              ∨ ∃ k w oi other, 0 < k ∧ s'.m_activeEdges.get? e = some k
                ∧ s'.m_inactiveEdges.get? e = some false
                ∧ s'.m_activeEdgeDestPoint.get? e = some w
                ∧ s1.m_frustum.edgePoint e w = .ok oi
                ∧ s1.m_frustum.m_points.get? oi = some other
                ∧ k = s1.gridDistance s1.m_sliceStart
                    (other.get (s1.m_dimensionOrder.get SLICE_DIM))
                    (s1.m_dimensionOrder.get SLICE_DIM)) := by
  obtain ⟨hT, hA, added, hpl, hadd⟩ := countDownActiveEdges_spec s1 hInv r hcd
  obtain ⟨hframe, hlen, hdlen, hkeep, hact⟩ := hT
  have hfr : r.1.m_frustum = s1.m_frustum := congrArg (fun p => p.1) hframe
  have hcur : r.1.m_currentPointList = s1.m_currentPointList := congrArg (fun p => p.2.1) hframe
  have hord : r.1.m_dimensionOrder = s1.m_dimensionOrder :=
    congrArg (fun p => p.2.2.2.2.2.1) hframe
  have hstart : r.1.m_sliceStart = s1.m_sliceStart := congrArg (fun p => p.2.2.2.2.2.2) hframe
  have hlen' : r.2.length = s1.m_frustum.numEdges := by
    rw [hlen]; simp
  have hActivated : Activated r := by
    refine hact (by simp) hDest ?_
    intro e k hk hpos
    simp only [List.get?_eq_getElem?] at hk
    rw [List.getElem?_replicate] at hk
    split at hk
    · cases hk; omega
    · cases hk
  have hft := setupSlice_table _ (b, s') hset
  have t1 : s'.m_frustum = r.1.m_frustum := congrArg (fun p => p.1) hft
  have t2 : s'.m_activeEdges = mergeActiveEdges r.1.m_activeEdges r.2 :=
    congrArg (fun p => p.2.1) hft
  have t3 : s'.m_activeEdgeDestPoint = r.1.m_activeEdgeDestPoint := congrArg (fun p => p.2.2.1) hft
  have t4 : s'.m_inactiveEdges = r.1.m_inactiveEdges := congrArg (fun p => p.2.2.2.1) hft
  have t5 : s'.m_currentPointList = r.1.m_currentPointList := congrArg (fun p => p.2.2.2.2.1) hft
  have t6 : s'.m_pointList.get s'.m_currentPointList = r.1.m_pointList.get r.1.m_currentPointList :=
    congrArg (fun p => p.2.2.2.2.2) hft
  have hrA : ∀ e c, s1.m_activeEdges.get? e = some c →
      r.1.m_activeEdges.get? e
        = some (if e ∈ List.range s1.m_frustum.numEdges ∧ 0 < c then c - 1 else c) := by
    intro e c hc
    rw [hA e, hc]
    rfl
  have activated : ∀ e k, r.2.get? e = some k → 0 < k →
      s'.m_inactiveEdges.get? e = some false
        ∧ ∃ w oi other, s'.m_activeEdgeDestPoint.get? e = some w
          ∧ s1.m_frustum.edgePoint e w = .ok oi
          ∧ s1.m_frustum.m_points.get? oi = some other
          ∧ k = s1.gridDistance s1.m_sliceStart
              (other.get (s1.m_dimensionOrder.get SLICE_DIM))
              (s1.m_dimensionOrder.get SLICE_DIM) := by
    intro e k hk hpos
    obtain ⟨h1, w, oi, other, h2, h3, h4, h5⟩ := hActivated e k hk hpos
    refine ⟨by rw [t4]; exact h1, w, oi, other, by rw [t3]; exact h2, by rw [← hfr]; exact h3,
      by rw [← hfr]; exact h4, ?_⟩
    rw [h5, hstart, hord]
    exact gridDistance_frame hframe _ _ _
  refine ⟨t5.trans hcur, ?_, ?_, added, ?_, ?_⟩
  · intro e c hc hpos
    rw [t2, mergeActiveEdges_get?] at hc
    cases hold : r.1.m_activeEdges.get? e with
    | none => rw [hold] at hc; cases hc
    | some old =>
      cases hnew : r.2.get? e with
      | none => rw [hold, hnew] at hc; cases hc
      | some new =>
        rw [hold, hnew] at hc
        simp only [Option.some.injEq] at hc
        by_cases hn : new > 0
        · exact (activated e new hnew hn).1
        · rw [if_neg hn] at hc
          subst hc
          have := hA e
          rw [hold] at this
          cases h0 : s1.m_activeEdges.get? e with
          | none => rw [h0] at this; cases this
          | some c0 =>
            rw [h0] at this
            simp only [Option.map_some', Option.some.injEq] at this
            have hc0 : 0 < c0 := by
              by_contra hneg
              rw [if_neg (fun h => hneg h.2)] at this
              omega
            rw [t4]
            exact (hkeep e (hInv e c0 h0 hc0)).1
  · rw [t1, t3, hfr, hdlen]
    exact hDest
  · rw [t6, hcur]
    exact hpl
  · intro e c he hc
    have hmem : e ∈ List.range s1.m_frustum.numEdges := List.mem_range.2 he
    have hold := hrA e c hc
    obtain ⟨k, hk⟩ : ∃ k, r.2.get? e = some k := by
      have : e < r.2.length := by rw [hlen']; exact he
      exact ⟨r.2.get ⟨e, this⟩, List.get?_eq_get this⟩
    have hmerge : s'.m_activeEdges.get? e
        = some (if k > 0 then k
            else (if e ∈ List.range s1.m_frustum.numEdges ∧ 0 < c then c - 1 else c)) := by
      rw [t2, mergeActiveEdges_get?, hold, hk]
    have hpos : 0 < c → s'.m_activeEdges.get? e = some (c - 1) := by
      intro hc0
      have hk0 : k = 0 := by
        have := (hkeep e (hInv e c hc hc0)).2.1
        rw [hk] at this
        simp only [List.get?_eq_getElem?] at this
        rw [List.getElem?_replicate, if_pos he] at this
        exact Option.some.inj this
      rw [hmerge, hk0, if_neg (lt_irrefl _), if_pos ⟨hmem, hc0⟩]
    refine ⟨fun h2 => hpos (by omega), ?_, ?_⟩
    · intro h1
      subst h1
      exact ⟨by simpa using hpos (by norm_num), hadd e hmem hc⟩
    · intro hle
      by_cases hk0 : k > 0
      · obtain ⟨h1, w, oi, other, h2, h3, h4, h5⟩ := activated e k hk hk0
        exact Or.inr ⟨k, w, oi, other, hk0, by rw [hmerge, if_pos hk0], h1, h2, h3, h4, h5⟩
      · refine Or.inl ?_
        rw [hmerge, if_neg hk0, if_neg (fun h => absurd h.2 (not_lt.2 hle))]

theorem tablesConsistent_of_table {s t : FrustumIterator} (h : t.edgeTableOf = s.edgeTableOf)
    (hs : s.TablesConsistent) : t.TablesConsistent := by
  have t1 : t.m_frustum = s.m_frustum := congrArg (fun p => p.1) h
  have t2 : t.m_activeEdges = s.m_activeEdges := congrArg (fun p => p.2.1) h
  have t3 : t.m_activeEdgeDestPoint = s.m_activeEdgeDestPoint := congrArg (fun p => p.2.2.1) h
  have t4 : t.m_inactiveEdges = s.m_inactiveEdges := congrArg (fun p => p.2.2.2.1) h
  unfold TablesConsistent
  rw [t1, t2, t3, t4]
  exact hs

theorem advanceRowHelper_table (b : Bool) (s : FrustumIterator) :
    Keeps edgeTableOf id s (advanceRowHelper b s) := by
  unfold advanceRowHelper
  apply keeps_ite
  · apply keeps_ite
    · apply keeps_ite
      · apply keeps_bindVal; intro p
        exact keeps_pure (setSliceRowPoint_table _ _ _)
      · exact keeps_via (whileAdvanceOutwardLine_table b _ _) rfl
    · apply keeps_ite
      · exact keeps_error
      · apply keeps_bindVal; intro pa
        apply keeps_bindVal; intro pb
        apply keeps_bindVal; intro x
        apply keeps_ite
        · exact keeps_pure (setSliceRowPoint_table _ _ _)
        · exact keeps_via (whileAdvanceInwardLine_table b _ _) (setSliceRowPoint_table _ _ _)
  · apply keeps_ite
    · exact keeps_error
    · apply keeps_bindVal; intro pa
      apply keeps_bindVal; intro pb
      apply keeps_bindVal; intro x
      exact keeps_pure (setSliceRowPoint_table _ _ _)

theorem advanceRow_table (s : FrustumIterator) : Keeps edgeTableOf id s (advanceRow s) := by
  unfold advanceRow
  apply keeps_bindState (keeps_via (advanceRowHelper_table RIGHT_SIDE _) rfl)
  intro s1 h1
  exact keeps_rebase h1 (advanceRowHelper_table LEFT_SIDE s1)

theorem advanceSlice_consistent (s s' : FrustumIterator) (b : Bool) (hs : s.TablesConsistent)
    (h : s.advanceSlice = .ok (b, s')) : s'.TablesConsistent := by
  unfold advanceSlice at h
  split at h
  · cases h; exact hs
  · simp only [bind, Except.bind] at h
    split at h
    · cases h
    · rename_i r hcd
      have key := fun h1 h2 => advanceSlice_tables _ s' b r h1 h2 hcd h
      have := key hs.1 hs.2
      exact ⟨this.2.1, this.2.2.1⟩

theorem forward_consistent (s s' : FrustumIterator) (b : Bool) (hs : s.TablesConsistent)
    (h : s.forward = .ok (b, s')) : s'.TablesConsistent := by
  unfold forward at h
  split at h
  · split at h
    · simp only [bind, Except.bind] at h
      split at h
      · cases h
      · rename_i r hadv
        obtain ⟨advanced, s1⟩ := r
        have h1 := advanceSlice_consistent s s1 advanced hs hadv
        simp only at h
        split at h <;> (cases h; exact h1)
    · cases hrow : advanceRow s with
      | error e => rw [hrow] at h; cases h
      | ok s1 =>
        rw [hrow] at h
        cases h
        exact tablesConsistent_of_table (advanceRow_table s _ hrow) hs
  · cases h
    exact hs

theorem whileNotAdvanceSlice_consistent (fuel : Nat) : ∀ (s s' : FrustumIterator),
    s.TablesConsistent → whileNotAdvanceSlice fuel s = .ok s' → s'.TablesConsistent := by
  induction fuel with
  | zero => intro s s' _ h; cases h
  | succ n ih =>
    intro s s' hs h
    unfold whileNotAdvanceSlice at h
    simp only [bind, Except.bind] at h
    split at h
    · cases h
    · rename_i r hadv
      obtain ⟨advanced, s1⟩ := r
      have h1 := advanceSlice_consistent s s1 advanced hs hadv
      simp only at h
      split at h
      · cases h; exact h1
      · exact ih s1 s' h1 h

theorem addFirstSlicePoints_consistent (s : FrustumIterator) (hzero : Activated (s, s.m_activeEdges))
    (hlenA : s.m_frustum.numEdges ≤ s.m_activeEdges.length)
    (hlenD : s.m_frustum.numEdges ≤ s.m_activeEdgeDestPoint.length) :
    Ensures (fun r => r.2.TablesConsistent) (addFirstSlicePoints s) := by
  unfold addFirstSlicePoints
  refine ensures_bindWith (fun r => TableStep (s, s.m_activeEdges) r.2) ?_ ?_
  · refine ensures_foldlM ?_ _ _ (tableStep_refl _)
    intro a point ha
    apply ensures_bindVal; intro p
    refine ensures_ite ?_ ?_
    · intro _
      refine ensures_bind (addPoint_spec point a.2) ?_
      intro r hr
      exact ensures_pure (tableStep_trans ha hr.1)
    · intro _
      exact ensures_pure ha
  · rintro ⟨found, s1, activeEdges⟩ hT
    refine ensures_pure ?_
    obtain ⟨hframe, hlen, hdlen, _, hact⟩ := hT
    have hfr : s1.m_frustum = s.m_frustum := congrArg (fun p => p.1) hframe
    have hA := hact hlenA hlenD hzero
    refine ⟨?_, ?_⟩
    · intro e c hc hpos
      exact (hA e c hc hpos).1
    · show s1.m_frustum.numEdges ≤ s1.m_activeEdgeDestPoint.length
      rw [hfr, hdlen]
      exact hlenD

theorem construct_consistent (fuel : Nat) (frustum : Frustum) (range : Box Int)
    (cellDimensions : Vec3 ℚ) (s : FrustumIterator)
    (h : construct fuel frustum range cellDimensions = .ok s) : s.TablesConsistent := by
  unfold construct at h
  have h0 := addFirstSlicePoints_consistent (initial frustum range cellDimensions)
    (by
      intro e k hk hpos
      have hk' : (List.replicate frustum.numEdges (0 : Int)).get? e = some k := hk
      simp only [List.get?_eq_getElem?] at hk'
      rw [List.getElem?_replicate] at hk'
      split at hk'
      · cases hk'; omega
      · cases hk')
    (by show frustum.numEdges ≤ (List.replicate frustum.numEdges (0 : Int)).length; simp)
    (by show frustum.numEdges ≤ (List.replicate frustum.numEdges false).length; simp)
  simp only [bind, Except.bind] at h
  split at h
  · cases h
  · rename_i r hadd
    obtain ⟨found, s1⟩ := r
    have h1 : s1.TablesConsistent := h0 _ hadd
    simp only at h
    split at h
    · cases h; exact h1
    · split at h
      · cases h
      · rename_i r2 hset
        obtain ⟨nonEmpty, s2⟩ := r2
        have h2 : s2.TablesConsistent :=
          tablesConsistent_of_table (setupSlice_table s1 _ hset) h1
        split at h
        · exact whileNotAdvanceSlice_consistent fuel s2 s h2 h
        · cases h; exact h2

end FrustumIterator


/-- C25: a `FrustumIterator::advanceSlice` call made when not at end and which returns,
in a state whose edge tables are consistent (no edge with a positive countdown is flagged
inactive and `m_activeEdgeDestPoint` has an entry for every edge, as in every state the
constructor returns and `forward()` leads to), leaves the edge tables as follows. The new
current point list is the former other list with points appended. An edge whose countdown
was `c >= 2` has the countdown `c - 1`; an edge whose countdown was 1 has the countdown 0
and the projection of its recorded end point is among the appended points; in both cases
the merge of the copy table has not overwritten the decremented countdown. An edge that
was not active either keeps its entry or is active with the slice count `gridDistance`
gives from the new slice start to the end point now recorded for it, which is the
countdown `addPoint` computes, and is no longer flagged inactive. The tables are
consistent again afterwards. -/
theorem frustum_advanceSlice_updates_active_edges (s s' : FrustumIterator) (b : Bool)
    (hNotEnd : s.atEnd = false) (hTables : s.TablesConsistent)
    (h : s.advanceSlice = .ok (b, s')) :
    s'.m_currentPointList = (!s.m_currentPointList)
      ∧ s'.TablesConsistent
      ∧ ∃ added, s'.m_pointList.get s'.m_currentPointList
          = s.m_pointList.get (!s.m_currentPointList) ++ added
        ∧ ∀ e c, e < s.m_frustum.numEdges → s.m_activeEdges.get? e = some c →
          (2 ≤ c → s'.m_activeEdges.get? e = some (c - 1))
          ∧ (c = 1 → s'.m_activeEdges.get? e = some 0
              ∧ ∃ w oi p, s.m_activeEdgeDestPoint.get? e = some w
                ∧ s.m_frustum.edgePoint e w = .ok oi ∧ s.m_frustum.m_points.get? oi = some p
                ∧ (⟨p.get (s.m_dimensionOrder.get X_DIM),
                    p.get (s.m_dimensionOrder.get Y_DIM)⟩ : Vec2 ℚ) ∈ added)
          ∧ (c ≤ 0 → s'.m_activeEdges.get? e = some c
              ∨ ∃ k w oi other, 0 < k ∧ s'.m_activeEdges.get? e = some k
                ∧ s'.m_inactiveEdges.get? e = some false
                ∧ s'.m_activeEdgeDestPoint.get? e = some w
                ∧ s.m_frustum.edgePoint e w = .ok oi
                ∧ s.m_frustum.m_points.get? oi = some other
                ∧ k = s.gridDistance
                    (s.m_sliceStart + s.m_directionSign.get (s.m_dimensionOrder.get SLICE_DIM)
                      * s.m_cellDimensions.get (s.m_dimensionOrder.get SLICE_DIM))
                    (other.get (s.m_dimensionOrder.get SLICE_DIM))
                    (s.m_dimensionOrder.get SLICE_DIM)) := by
  unfold FrustumIterator.advanceSlice at h
  rw [if_neg (by rw [hNotEnd]; exact Bool.false_ne_true)] at h
  simp only [bind, Except.bind] at h
  split at h
  · cases h
  · rename_i r hcd
    have key := fun h1 h2 => FrustumIterator.advanceSlice_tables _ s' b r h1 h2 hcd h
    obtain ⟨k1, k2, k3, k4⟩ := key hTables.1 hTables.2
    exact ⟨k1, ⟨k2, k3⟩, k4⟩

/-- C25 at the iterator built for `shearedFrustum` in the range (0,0,0)-(3,3,3) of unit
cells, whose countdowns are 1 for the edges 8 and 9 and 2 for the edges 10 and 11:
`advanceSlice()` returns, the edges 10 and 11 count 1, the edges 8 and 9 count 0, and the
edges 5 and 6, which start at the end points of the edges 8 and 9, are active with the
countdown 1. -/
theorem frustum_advanceSlice_updates_active_edges_witness :
    (FrustumIterator.built shearedFrustum ⟨⟨0, 0, 0⟩, ⟨3, 3, 3⟩⟩ ⟨1, 1, 1⟩).atEnd = false
      ∧ (FrustumIterator.built shearedFrustum ⟨⟨0, 0, 0⟩, ⟨3, 3, 3⟩⟩ ⟨1, 1, 1⟩).m_activeEdges
        = [0, 0, 0, 0, 0, 0, 0, 0, 1, 1, 2, 2]
      ∧ ∃ b s', (FrustumIterator.built shearedFrustum ⟨⟨0, 0, 0⟩, ⟨3, 3, 3⟩⟩
            ⟨1, 1, 1⟩).advanceSlice = .ok (b, s')
          ∧ s'.m_activeEdges.get? 10 = some (2 - 1)
          ∧ s'.m_activeEdges.get? 8 = some 0
          ∧ s'.m_activeEdges = [0, 0, 0, 0, 0, 1, 1, 0, 0, 0, 1, 1] := by
  have hA : (FrustumIterator.built shearedFrustum ⟨⟨0, 0, 0⟩, ⟨3, 3, 3⟩⟩ ⟨1, 1, 1⟩).m_activeEdges
      = [0, 0, 0, 0, 0, 0, 0, 0, 1, 1, 2, 2] := by decide!
  have hF : (FrustumIterator.built shearedFrustum ⟨⟨0, 0, 0⟩, ⟨3, 3, 3⟩⟩
      ⟨1, 1, 1⟩).m_inactiveEdges
      = [false, false, false, false, true, true, true, true, false, false, false, false] := by
    decide!
  refine ⟨by decide!, hA, ?_⟩
  cases hadv : (FrustumIterator.built shearedFrustum ⟨⟨0, 0, 0⟩, ⟨3, 3, 3⟩⟩
      ⟨1, 1, 1⟩).advanceSlice with
  | error e =>
    have hok : ((FrustumIterator.built shearedFrustum ⟨⟨0, 0, 0⟩, ⟨3, 3, 3⟩⟩
      ⟨1, 1, 1⟩).advanceSlice).toBool = true := by decide!
    rw [hadv] at hok
    cases hok
  | ok r =>
    obtain ⟨b, s'⟩ := r
    obtain ⟨_, _, added, _, hE⟩ := frustum_advanceSlice_updates_active_edges
      (FrustumIterator.built shearedFrustum ⟨⟨0, 0, 0⟩, ⟨3, 3, 3⟩⟩ ⟨1, 1, 1⟩) s' b (by decide!)
      ⟨by
        intro e c hc hpos
        rw [hA] at hc
        rw [hF]
        have he : e < 12 := by
          have := (List.get?_eq_some.1 hc).1
          simpa using this
        interval_cases e <;> simp_all, by decide!⟩
      hadv
    refine ⟨b, s', rfl, (hE 10 2 (by decide!) (by rw [hA]; rfl)).1 (by norm_num),
      ((hE 8 1 (by decide!) (by rw [hA]; rfl)).2.1 rfl).1, ?_⟩
    have : ((FrustumIterator.built shearedFrustum ⟨⟨0, 0, 0⟩, ⟨3, 3, 3⟩⟩
      ⟨1, 1, 1⟩).advanceSlice).map (fun r => r.2.m_activeEdges)
        = .ok [0, 0, 0, 0, 0, 1, 1, 0, 0, 0, 1, 1] := by decide!
    rw [hadv] at this
    simpa [Except.map] using this

/-! ## The colour codes of BitmapFont -/

theorem charAt_of_drop_cons {text : List Nat} {i c : Nat} {rest : List Nat}
    (h : text.drop i = c :: rest) : charAt text i = .ok c := by
  have : text.get? i = some c := by
    have h2 := congrArg List.head? h
    simpa [List.head?_drop] using h2
  unfold charAt
  rw [this]

theorem charAt_of_drop_nil {text : List Nat} {i : Nat} (hi : i ≤ text.length)
    (h : text.drop i = []) : charAt text i = .ok 0 := by
  have hlen : text.length ≤ i := List.drop_eq_nil_iff.1 h
  have hi' : i = text.length := le_antisymm hi hlen
  have : text.get? i = none := by
    rw [List.get?_eq_none]; exact hlen
  unfold charAt
  rw [this]
  simp [hi']

theorem drop_succ_of_drop_cons {text : List Nat} {i c : Nat} {rest : List Nat}
    (h : text.drop i = c :: rest) : text.drop (i + 1) = rest := by
  have := congrArg (List.drop 1) h
  simpa [List.drop_drop, Nat.add_comm] using this

/-- C40: for every text and every position `start` in it, `getColorCode(text + start,
destination)` returns `text + start + 2` and writes the colour of the digit `d` when the
text there begins with a caret followed by the decimal digit `d`; it returns
`text + start + 1` and leaves `destination` as it is when the text there begins with two
carets; in every other case it returns `text + start` and leaves `destination` as it is. -/
theorem bitmapFont_getColorCode_result (text : List Nat) (start : Nat) (destination : Vec4 ℚ)
    (hStart : start ≤ text.length) :
    (∀ d rest, text.drop start = 94 :: d :: rest → isdigit d = true →
        getColorCode text start destination = .ok (start + 2, colorOfDigit d destination))
      ∧ (∀ rest, text.drop start = 94 :: 94 :: rest →
        getColorCode text start destination = .ok (start + 1, destination))
      ∧ ((∀ d rest, text.drop start = 94 :: d :: rest → isdigit d = false ∧ d ≠ 94) →
        getColorCode text start destination = .ok (start, destination)) := by
  refine ⟨?_, ?_, ?_⟩
  · intro d rest h hd
    have h0 := charAt_of_drop_cons h
    have h1 := charAt_of_drop_cons (drop_succ_of_drop_cons h)
    have hd' : 48 ≤ d ∧ d ≤ 57 := by simpa [isdigit] using hd
    have hd0 : d ≠ 0 := by omega
    have hd94 : d ≠ 94 := by omega
    simp [getColorCode, getColorCodeLoop, h0, h1, bind, Except.bind, hd0, hd94, hd, pure,
      Except.pure]
  · intro rest h
    have h0 := charAt_of_drop_cons h
    have h1 := charAt_of_drop_cons (drop_succ_of_drop_cons h)
    simp [getColorCode, getColorCodeLoop, h0, h1, bind, Except.bind, pure, Except.pure]
  · intro h
    cases hdrop : text.drop start with
    | nil =>
      have h0 := charAt_of_drop_nil hStart hdrop
      simp [getColorCode, getColorCodeLoop, h0, bind, Except.bind, pure, Except.pure]
    | cons c rest =>
      have h0 := charAt_of_drop_cons hdrop
      by_cases hc0 : c = 0
      · simp [getColorCode, getColorCodeLoop, h0, bind, Except.bind, pure, Except.pure, hc0]
      by_cases hc : c = 94
      · subst hc
        cases rest with
        | nil =>
          have hlen : start + 1 ≤ text.length := by
            have := congrArg List.length hdrop
            simp at this
            omega
          have h1 := charAt_of_drop_nil hlen (drop_succ_of_drop_cons hdrop)
          simp [getColorCode, getColorCodeLoop, h0, h1, bind, Except.bind, pure, Except.pure]
        | cons d rest =>
          obtain ⟨hd, hd94⟩ := h d rest hdrop
          have h1 := charAt_of_drop_cons (drop_succ_of_drop_cons hdrop)
          by_cases hd0 : d = 0
          · simp [getColorCode, getColorCodeLoop, h0, h1, bind, Except.bind, pure, Except.pure,
              hd0]
          · simp [getColorCode, getColorCodeLoop, h0, h1, bind, Except.bind, pure, Except.pure,
              hd0, hd94, hd]
      · simp [getColorCode, getColorCodeLoop, h0, bind, Except.bind, pure, Except.pure, hc0, hc]

/-- The colour codes of "^3x" (yellow), "^^" and "x". -/
theorem bitmapFont_getColorCode_result_witness :
    getColorCode [94, 51, 120] 0 ⟨0, 0, 0, 0⟩ = .ok (2, ⟨1, 1, 0, 1⟩)
      ∧ getColorCode [94, 94] 0 ⟨0, 0, 0, 0⟩ = .ok (1, ⟨0, 0, 0, 0⟩)
      ∧ getColorCode [120] 0 ⟨0, 0, 0, 0⟩ = .ok (0, ⟨0, 0, 0, 0⟩) :=
  ⟨(bitmapFont_getColorCode_result [94, 51, 120] 0 ⟨0, 0, 0, 0⟩ (by decide)).1 51 [120] rfl
      (by decide),
    (bitmapFont_getColorCode_result [94, 94] 0 ⟨0, 0, 0, 0⟩ (by decide)).2.1 [] rfl,
    (bitmapFont_getColorCode_result [120] 0 ⟨0, 0, 0, 0⟩ (by decide)).2.2
      (fun d rest h => by simp at h)⟩

/-- C39: for the text "^1", whose length is 2, with `charPos = 2` and `currPos = 0`:
`getColorCode` moves `currPos` to the terminating NUL, the `switch` reads the NUL,
`currPos++` steps over it, and the loop test reads `text[3]`, outside the array. In an
array with two NULs at its end the call returns with `currPos = 3`, above `strlen(text)`. -/
theorem bitmapFont_getCharLocation_steps_over_nul :
    strlen [94, 49] = 2
      ∧ getColorCode [94, 49] 0 ⟨0, 0, 0, 0⟩ = .ok (2, ⟨1, 0, 0, 1⟩)
      ∧ getCharLocation plainFont [94, 49] 2 0 ⟨0, 0⟩ = .error .outOfRange
      ∧ strlen [94, 49, 0] = 2
      ∧ (getCharLocation plainFont [94, 49, 0] 2 0 ⟨0, 0⟩).map (fun r => r.2) = .ok 3 := by
  decide!

/-! ## Clipping a hull chain of the frustum iterator -/

theorem leq_iff (a b : ℚ) (sign : Int) : leq a b sign = true ↔ Before sign a b := by
  unfold leq Before; split <;> simp

theorem geq_iff (a b : ℚ) (sign : Int) : geq a b sign = true ↔ Before sign b a := by
  unfold geq Before; split <;> simp

theorem gt_iff (a b : ℚ) (sign : Int) : gt a b sign = true ↔ ¬ Before sign a b := by
  unfold gt Before; split <;> simp

theorem before_refl (sign : Int) (a : ℚ) : Before sign a a := by
  unfold Before; split <;> exact le_refl _

theorem before_trans {sign : Int} {a b c : ℚ} (h1 : Before sign a b) (h2 : Before sign b c) :
    Before sign a c := by
  by_cases hs : 0 < sign
  · simp only [Before, hs, if_true] at *; exact le_trans h1 h2
  · simp only [Before, hs, if_false] at *; exact le_trans h2 h1

theorem before_total (sign : Int) (a b : ℚ) : Before sign a b ∨ Before sign b a := by
  unfold Before; split <;> exact le_total _ _

theorem before_of_not {sign : Int} {a b : ℚ} (h : ¬ Before sign a b) : Before sign b a :=
  (before_total sign a b).resolve_left h

theorem ne_of_not_before {sign : Int} {a b : ℚ} (h : ¬ Before sign a b) : a ≠ b := by
  intro hab; subst hab; exact h (before_refl _ _)

/-- The row coordinate at which the segment from `p` to `q` meets the column `x` lies
between the row coordinates of `p` and `q` when `x` lies between their columns. -/
theorem lineInterceptY_between (sx sy : Int) (p q : Vec2 ℚ) (x : ℚ) (hne : p.x ≠ q.x)
    (h1 : Before sx p.x x) (h2 : Before sx x q.x) (hy : Before sy p.y q.y) :
    Before sy p.y (lineInterceptY p q x) ∧ Before sy (lineInterceptY p q x) q.y := by
  have hd : q.x - p.x ≠ 0 := sub_ne_zero.2 (Ne.symm hne)
  have e1 : lineInterceptY p q x - p.y = (q.y - p.y) * ((x - p.x) / (q.x - p.x)) := by
    unfold lineInterceptY; field_simp; ring
  have e2 : q.y - lineInterceptY p q x = (q.y - p.y) * ((q.x - x) / (q.x - p.x)) := by
    unfold lineInterceptY; field_simp; ring
  have t12 : 0 ≤ (x - p.x) / (q.x - p.x) ∧ 0 ≤ (q.x - x) / (q.x - p.x) := by
    by_cases hs : 0 < sx
    · simp only [Before, hs, if_true] at h1 h2
      exact ⟨div_nonneg (by linarith) (by linarith), div_nonneg (by linarith) (by linarith)⟩
    · simp only [Before, hs, if_false] at h1 h2
      exact ⟨div_nonneg_of_nonpos (by linarith) (by linarith),
        div_nonneg_of_nonpos (by linarith) (by linarith)⟩
  obtain ⟨t1, t2⟩ := t12
  by_cases hs : 0 < sy
  · simp only [Before, hs, if_true] at hy ⊢
    constructor
    · nlinarith [mul_nonneg (sub_nonneg.2 hy) t1]
    · nlinarith [mul_nonneg (sub_nonneg.2 hy) t2]
  · simp only [Before, hs, if_false] at hy ⊢
    constructor
    · nlinarith [mul_nonneg (sub_nonneg.2 hy) t1]
    · nlinarith [mul_nonneg (sub_nonneg.2 hy) t2]

theorem before_flip (sx : Int) (a b : ℚ) :
    Before (if 0 < sx then -1 else 1) a b ↔ Before sx b a := by
  by_cases hs : 0 < sx
  · simp [Before, hs]
  · simp [Before, hs]

/-- Along a segment whose row coordinate does not decrease, the row coordinate of the
crossing of a column grows with the column in the orientation `so` of the segment. -/
theorem lineInterceptY_mono (so sy : Int) (p q : Vec2 ℚ) (xa xb : ℚ) (hne : p.x ≠ q.x)
    (h1 : Before so p.x q.x) (h2 : Before so xa xb) (hy : Before sy p.y q.y) :
    Before sy (lineInterceptY p q xa) (lineInterceptY p q xb) := by
  have hd : q.x - p.x ≠ 0 := sub_ne_zero.2 (Ne.symm hne)
  have e1 : lineInterceptY p q xb - lineInterceptY p q xa
      = (q.y - p.y) * ((xb - xa) / (q.x - p.x)) := by
    unfold lineInterceptY; field_simp; ring
  have t1 : 0 ≤ (xb - xa) / (q.x - p.x) := by
    by_cases hs : 0 < so
    · simp only [Before, hs, if_true] at h1 h2
      exact div_nonneg (by linarith) (by linarith)
    · simp only [Before, hs, if_false] at h1 h2
      exact div_nonneg_of_nonpos (by linarith) (by linarith)
  by_cases hs : 0 < sy
  · simp only [Before, hs, if_true] at hy ⊢
    nlinarith [mul_nonneg (sub_nonneg.2 hy) t1]
  · simp only [Before, hs, if_false] at hy ⊢
    nlinarith [mul_nonneg (sub_nonneg.2 hy) t1]

namespace FrustumIterator

theorem pointRegion_cases (x : ℚ) (min max : Vec2 ℚ) (xSign : Int) :
    (pointRegion x min max xSign = .PR_OUTSIDE_MIN ∧ ¬ Before xSign min.x x)
      ∨ (pointRegion x min max xSign = .PR_INSIDE ∧ Before xSign min.x x ∧ Before xSign x max.x)
      ∨ (pointRegion x min max xSign = .PR_OUTSIDE_MAX ∧ Before xSign min.x x
          ∧ ¬ Before xSign x max.x) := by
  unfold pointRegion
  by_cases h1 : geq x min.x xSign = true
  · by_cases h2 : leq x max.x xSign = true
    · rw [if_pos h1, if_pos h2]
      exact Or.inr (Or.inl ⟨rfl, (geq_iff _ _ _).1 h1, (leq_iff _ _ _).1 h2⟩)
    · rw [if_pos h1, if_neg h2]
      exact Or.inr (Or.inr ⟨rfl, (geq_iff _ _ _).1 h1, fun h => h2 ((leq_iff _ _ _).2 h)⟩)
  · rw [if_neg h1]
    exact Or.inl ⟨rfl, fun h => h1 ((geq_iff _ _ _).2 h)⟩

theorem lineInterceptYChecked_ok (p q : Vec2 ℚ) (x : ℚ) (h : p.x ≠ q.x) :
    lineInterceptYChecked p q x = .ok (lineInterceptY p q x) := by
  unfold lineInterceptYChecked
  rw [if_neg (sub_ne_zero.2 (Ne.symm h))]

/-- The crossing of the segment from `prev` to `cur` with the column `a` of a side of the
clip rectangle. -/
theorem crossing_point (sy sx : Int) (min max prev cur : Vec2 ℚ) (a : ℚ)
    (ha1 : Before sx min.x a) (ha2 : Before sx a max.x) (hne : prev.x ≠ cur.x)
    (hbet : (Before sx prev.x a ∧ Before sx a cur.x) ∨ (Before sx cur.x a ∧ Before sx a prev.x))
    (hpc : Before sy prev.y cur.y) (hminp : Before sy min.y prev.y)
    (hcmax : Before sy cur.y max.y) :
    InClipRectangle sy sx min max ⟨a, lineInterceptY prev cur a⟩
      ∧ Before sy prev.y (lineInterceptY prev cur a)
      ∧ Before sy (lineInterceptY prev cur a) cur.y := by
  have hb : Before sy prev.y (lineInterceptY prev cur a)
      ∧ Before sy (lineInterceptY prev cur a) cur.y := by
    rcases hbet with ⟨h1, h2⟩ | ⟨h1, h2⟩
    · exact lineInterceptY_between sx sy prev cur a hne h1 h2 hpc
    · exact lineInterceptY_between _ sy prev cur a hne ((before_flip sx _ _).2 h2)
        ((before_flip sx _ _).2 h1) hpc
  have hr : InClipRectangle sy sx min max ⟨a, lineInterceptY prev cur a⟩ :=
    ⟨ha1, ha2, before_trans hminp hb.1, before_trans hb.2 hcmax⟩
  exact ⟨hr, hb.1, hb.2⟩

theorem crossing_nil (sy sx : Int) (min max prev cur : Vec2 ℚ) :
    Crossing sy sx min max prev cur [] :=
  ⟨fun _ h => absurd h (List.not_mem_nil _), List.chain'_nil,
    fun _ h => absurd h (List.not_mem_nil _)⟩

theorem crossing_one (sy sx : Int) (min max prev cur : Vec2 ℚ) (a : ℚ)
    (ha1 : Before sx min.x a) (ha2 : Before sx a max.x) (hne : prev.x ≠ cur.x)
    (hbet : (Before sx prev.x a ∧ Before sx a cur.x) ∨ (Before sx cur.x a ∧ Before sx a prev.x))
    (hpc : Before sy prev.y cur.y) (hminp : Before sy min.y prev.y)
    (hcmax : Before sy cur.y max.y) :
    Crossing sy sx min max prev cur [⟨a, lineInterceptY prev cur a⟩] := by
  obtain ⟨h1, h2, h3⟩ := crossing_point sy sx min max prev cur a ha1 ha2 hne hbet hpc hminp hcmax
  refine ⟨?_, List.chain'_singleton _, ?_⟩
  · intro p hp
    rw [List.mem_singleton] at hp
    subst hp; exact h1
  · intro p hp
    rw [List.mem_singleton] at hp
    subst hp; exact ⟨h2, h3⟩

theorem crossing_two (sy sx : Int) (min max prev cur : Vec2 ℚ) (a b : ℚ)
    (ha1 : Before sx min.x a) (ha2 : Before sx a max.x)
    (hb1 : Before sx min.x b) (hb2 : Before sx b max.x) (hne : prev.x ≠ cur.x)
    (hbet : (Before sx prev.x a ∧ Before sx a b ∧ Before sx b cur.x)
      ∨ (Before sx cur.x b ∧ Before sx b a ∧ Before sx a prev.x))
    (hpc : Before sy prev.y cur.y) (hminp : Before sy min.y prev.y)
    (hcmax : Before sy cur.y max.y) :
    Crossing sy sx min max prev cur
      [⟨a, lineInterceptY prev cur a⟩, ⟨b, lineInterceptY prev cur b⟩] := by
  have hA := crossing_point sy sx min max prev cur a ha1 ha2 hne
    (hbet.imp (fun h => ⟨h.1, before_trans h.2.1 h.2.2⟩)
      (fun h => ⟨before_trans h.1 h.2.1, h.2.2⟩)) hpc hminp hcmax
  have hB := crossing_point sy sx min max prev cur b hb1 hb2 hne
    (hbet.imp (fun h => ⟨before_trans h.1 h.2.1, h.2.2⟩)
      (fun h => ⟨h.1, before_trans h.2.1 h.2.2⟩)) hpc hminp hcmax
  have hAB : Before sy (lineInterceptY prev cur a) (lineInterceptY prev cur b) := by
    rcases hbet with h | h
    · exact lineInterceptY_mono sx sy prev cur a b hne
        (before_trans h.1 (before_trans h.2.1 h.2.2)) h.2.1 hpc
    · exact lineInterceptY_mono _ sy prev cur a b hne
        ((before_flip sx _ _).2 (before_trans h.1 (before_trans h.2.1 h.2.2)))
        ((before_flip sx _ _).2 h.2.1) hpc
  refine ⟨?_, ?_, ?_⟩
  · intro p hp
    simp only [List.mem_cons, List.mem_singleton, List.not_mem_nil, or_false] at hp
    rcases hp with rfl | rfl
    · exact hA.1
    · exact hB.1
  · exact List.chain'_pair.2 hAB
  · intro p hp
    simp only [List.mem_cons, List.mem_singleton, List.not_mem_nil, or_false] at hp
    rcases hp with rfl | rfl
    · exact hA.2
    · exact hB.2

/-- A clipped chain that ends no later than the row of `prev`, followed by crossing points
of the segment from `prev` to `cur`. -/
theorem append_crossing {sy sx : Int} {min max prev cur : Vec2 ℚ} {chain extra : List (Vec2 ℚ)}
    (hin : ∀ p ∈ chain, InClipRectangle sy sx min max p) (hmono : RowMonotone sy chain)
    (hle : ∀ p ∈ chain, Before sy p.y prev.y) (hpc : Before sy prev.y cur.y)
    (hE : Crossing sy sx min max prev cur extra) :
    (∀ p ∈ chain ++ extra, InClipRectangle sy sx min max p) ∧ RowMonotone sy (chain ++ extra)
      ∧ ∀ p ∈ chain ++ extra, Before sy p.y cur.y := by
  obtain ⟨hEin, hEmono, hEb⟩ := hE
  refine ⟨?_, ?_, ?_⟩
  · intro p hp
    rcases List.mem_append.1 hp with h | h
    · exact hin p h
    · exact hEin p h
  · refine List.Chain'.append hmono hEmono ?_
    intro x hx y hy
    exact before_trans (hle x (List.mem_of_mem_getLast? hx))
      (hEb y (List.mem_of_mem_head? hy)).1
  · intro p hp
    rcases List.mem_append.1 hp with h | h
    · exact before_trans (hle p h) hpc
    · exact (hEb p h).2

/-- The points of a crossing followed by one more point of the clip rectangle on the row
of `cur`. -/
theorem crossing_snoc {sy sx : Int} {min max prev cur : Vec2 ℚ} {extra : List (Vec2 ℚ)}
    (hE : Crossing sy sx min max prev cur extra) (q : Vec2 ℚ)
    (hq : InClipRectangle sy sx min max q) (hqy : q.y = cur.y) (hpc : Before sy prev.y cur.y) :
    Crossing sy sx min max prev cur (extra ++ [q]) := by
  obtain ⟨hEin, hEmono, hEb⟩ := hE
  refine ⟨?_, ?_, ?_⟩
  · intro p hp
    rcases List.mem_append.1 hp with h | h
    · exact hEin p h
    · rw [List.mem_singleton] at h; subst h; exact hq
  · refine List.Chain'.append hEmono (List.chain'_singleton _) ?_
    intro x hx y hy
    simp only [List.head?_cons, Option.mem_def, Option.some.injEq] at hy
    subst hy
    rw [hqy]
    exact (hEb x (List.mem_of_mem_getLast? hx)).2
  · intro p hp
    rcases List.mem_append.1 hp with h | h
    · exact hEb p h
    · rw [List.mem_singleton] at h; subst h
      rw [hqy]; exact ⟨hpc, before_refl _ _⟩

theorem inClipRectangle_max (sy sx : Int) (min max : Vec2 ℚ) (hx : Before sx min.x max.x)
    (hy : Before sy min.y max.y) : InClipRectangle sy sx min max max :=
  ⟨hx, before_refl _ _, hy, before_refl _ _⟩

theorem clipHullSecond_spec (ySign xSign : Int) (min max : Vec2 ℚ)
    (hx : Before xSign min.x max.x) (hy : Before ySign min.y max.y) :
    ∀ (remaining chain : List (Vec2 ℚ)) (prevPoint : Vec2 ℚ) (prevPointRegion : PointRegion),
      ClipInv ySign xSign min max chain prevPoint prevPointRegion remaining →
      ∃ res, clipHullSecond ySign xSign min max chain prevPoint prevPointRegion remaining = .ok res
        ∧ (∀ p ∈ res, InClipRectangle ySign xSign min max p) ∧ RowMonotone ySign res := by
  intro remaining
  induction remaining with
  | nil =>
    intro chain prevPoint prevPointRegion h
    exact ⟨chain, rfl, h.1, h.2.1⟩
  | cons point rest ih =>
    intro chain prevPoint prevPointRegion h
    obtain ⟨hin, hmono, hle, hminp, hpmax, hreg, hrem⟩ := h
    subst hreg
    have hpp : Before ySign prevPoint.y point.y := (List.chain'_cons.1 hrem).1
    have hrest : RowMonotone ySign (point :: rest) := (List.chain'_cons.1 hrem).2
    have hmaxIn := inClipRectangle_max ySign xSign min max hx hy
    unfold clipHullSecond
    by_cases hcl : gt point.y max.y ySign = true
    · have hnb : ¬ Before ySign point.y max.y := (gt_iff _ _ _).1 hcl
      have hne : point.y - prevPoint.y ≠ 0 := by
        intro h0
        have : point.y = prevPoint.y := by linarith
        rw [this] at hnb
        exact hnb hpmax
      have hX : lineInterceptXChecked prevPoint point max.y
          = .ok (lineInterceptX prevPoint point max.y) := by
        unfold lineInterceptXChecked; rw [if_neg hne]
      simp only [hcl, if_true, hX, bind, Except.bind, pure, Except.pure]
      generalize lineInterceptX prevPoint point max.y = cx
      have hcmax : Before ySign (⟨cx, max.y⟩ : Vec2 ℚ).y max.y := before_refl _ _
      have hpc : Before ySign prevPoint.y (⟨cx, max.y⟩ : Vec2 ℚ).y := hpmax
      have fin : ∀ extra, Crossing ySign xSign min max prevPoint ⟨cx, max.y⟩ extra →
          (∀ p ∈ chain ++ extra, InClipRectangle ySign xSign min max p)
            ∧ RowMonotone ySign (chain ++ extra) :=
        fun extra hE => ⟨(append_crossing hin hmono hle hpc hE).1,
          (append_crossing hin hmono hle hpc hE).2.1⟩
      rcases pointRegion_cases cx min max xSign with ⟨hc, hcr⟩ | ⟨hc, hc1, hc2⟩ | ⟨hc, hc1, hc2⟩
      · rcases pointRegion_cases prevPoint.x min max xSign with
          ⟨hp, hpr⟩ | ⟨hp, hp1, hp2⟩ | ⟨hp, hp1, hp2⟩
        · simp only [hc, hp]
          exact ⟨_, rfl, hin, hmono⟩
        · have hne' : prevPoint.x ≠ (⟨cx, max.y⟩ : Vec2 ℚ).x := by
            intro h; apply hcr; rw [← show prevPoint.x = cx from h]; exact hp1
          simp only [hc, hp, lineInterceptYChecked_ok _ _ _ hne']
          exact ⟨_, rfl, fin _ (crossing_one ySign xSign min max prevPoint ⟨cx, max.y⟩ min.x
            (before_refl _ _) hx hne' (Or.inr ⟨before_of_not hcr, hp1⟩) hpc hminp hcmax)⟩
        · have hne' : prevPoint.x ≠ (⟨cx, max.y⟩ : Vec2 ℚ).x := by
            intro h; apply hcr; rw [← show prevPoint.x = cx from h]; exact hp1
          simp only [hc, hp, lineInterceptYChecked_ok _ _ _ hne']
          exact ⟨_, rfl, fin _ (crossing_two ySign xSign min max prevPoint ⟨cx, max.y⟩ max.x min.x
            hx (before_refl _ _) (before_refl _ _) hx hne'
            (Or.inr ⟨before_of_not hcr, hx, before_of_not hp2⟩) hpc hminp hcmax)⟩
      · rcases pointRegion_cases prevPoint.x min max xSign with
          ⟨hp, hpr⟩ | ⟨hp, hp1, hp2⟩ | ⟨hp, hp1, hp2⟩
        · have hne' : prevPoint.x ≠ (⟨cx, max.y⟩ : Vec2 ℚ).x := by
            intro h; apply hpr; rw [show prevPoint.x = cx from h]; exact hc1
          simp only [hc, hp, lineInterceptYChecked_ok _ _ _ hne']
          refine ⟨_, rfl, ?_⟩
          rw [List.append_assoc]
          exact fin _ (crossing_snoc (crossing_one ySign xSign min max prevPoint ⟨cx, max.y⟩
            min.x (before_refl _ _) hx hne' (Or.inl ⟨before_of_not hpr, hc1⟩) hpc hminp hcmax)
            ⟨cx, max.y⟩ ⟨hc1, hc2, before_trans hminp hpc, hcmax⟩ rfl hpc)
        · simp only [hc, hp]
          refine ⟨_, rfl, ?_⟩
          exact fin _ (crossing_snoc (crossing_nil ySign xSign min max prevPoint ⟨cx, max.y⟩)
            ⟨cx, max.y⟩ ⟨hc1, hc2, before_trans hminp hpc, hcmax⟩ rfl hpc)
        · have hne' : prevPoint.x ≠ (⟨cx, max.y⟩ : Vec2 ℚ).x := by
            intro h; apply hp2; rw [show prevPoint.x = cx from h]; exact hc2
          simp only [hc, hp, lineInterceptYChecked_ok _ _ _ hne']
          refine ⟨_, rfl, ?_⟩
          rw [List.append_assoc]
          exact fin _ (crossing_snoc (crossing_one ySign xSign min max prevPoint ⟨cx, max.y⟩
            max.x hx (before_refl _ _) hne' (Or.inr ⟨hc2, before_of_not hp2⟩) hpc hminp hcmax)
            ⟨cx, max.y⟩ ⟨hc1, hc2, before_trans hminp hpc, hcmax⟩ rfl hpc)
      · rcases pointRegion_cases prevPoint.x min max xSign with
          ⟨hp, hpr⟩ | ⟨hp, hp1, hp2⟩ | ⟨hp, hp1, hp2⟩
        · have hne' : prevPoint.x ≠ (⟨cx, max.y⟩ : Vec2 ℚ).x := by
            intro h; apply hpr; rw [show prevPoint.x = cx from h]; exact hc1
          simp only [hc, hp, lineInterceptYChecked_ok _ _ _ hne']
          refine ⟨_, rfl, ?_⟩
          rw [List.append_assoc]
          exact fin _ (crossing_snoc (crossing_two ySign xSign min max prevPoint ⟨cx, max.y⟩
            min.x max.x (before_refl _ _) hx hx (before_refl _ _) hne'
            (Or.inl ⟨before_of_not hpr, hx, before_of_not hc2⟩) hpc hminp hcmax)
            max hmaxIn rfl hpc)
        · have hne' : prevPoint.x ≠ (⟨cx, max.y⟩ : Vec2 ℚ).x := by
            intro h; apply hc2; rw [← show prevPoint.x = cx from h]; exact hp2
          simp only [hc, hp, lineInterceptYChecked_ok _ _ _ hne']
          refine ⟨_, rfl, ?_⟩
          rw [List.append_assoc]
          exact fin _ (crossing_snoc (crossing_one ySign xSign min max prevPoint ⟨cx, max.y⟩
            max.x hx (before_refl _ _) hne' (Or.inl ⟨hp2, before_of_not hc2⟩) hpc hminp hcmax)
            max hmaxIn rfl hpc)
        · simp only [hc, hp]
          refine ⟨_, rfl, ?_⟩
          exact fin _ (crossing_snoc (crossing_nil ySign xSign min max prevPoint ⟨cx, max.y⟩)
            max hmaxIn rfl hpc)
    · have hclf : gt point.y max.y ySign = false := by simpa using hcl
      have hcmax : Before ySign point.y max.y := by
        by_contra hnb
        exact hcl ((gt_iff _ _ _).2 hnb)
      have hpc : Before ySign prevPoint.y point.y := hpp
      have hminc : Before ySign min.y point.y := before_trans hminp hpp
      simp only [hclf, Bool.false_eq_true, if_false, bind, Except.bind, pure, Except.pure]
      have fin : ∀ extra, Crossing ySign xSign min max prevPoint point extra →
          (∀ p ∈ chain ++ extra, InClipRectangle ySign xSign min max p)
            ∧ RowMonotone ySign (chain ++ extra) :=
        fun extra hE => ⟨(append_crossing hin hmono hle hpc hE).1,
          (append_crossing hin hmono hle hpc hE).2.1⟩
      have recur : ∀ extra region, Crossing ySign xSign min max prevPoint point extra →
          region = pointRegion point.x min max xSign →
          ∃ res, clipHullSecond ySign xSign min max (chain ++ extra) point region rest = .ok res
            ∧ (∀ p ∈ res, InClipRectangle ySign xSign min max p) ∧ RowMonotone ySign res :=
        fun extra region hE hr => ih _ _ _ ⟨(append_crossing hin hmono hle hpc hE).1,
          (append_crossing hin hmono hle hpc hE).2.1, (append_crossing hin hmono hle hpc hE).2.2,
          hminc, hcmax, hr, hrest⟩
      rcases pointRegion_cases point.x min max xSign with
        ⟨hc, hcr⟩ | ⟨hc, hc1, hc2⟩ | ⟨hc, hc1, hc2⟩
      · rcases pointRegion_cases prevPoint.x min max xSign with
          ⟨hp, hpr⟩ | ⟨hp, hp1, hp2⟩ | ⟨hp, hp1, hp2⟩
        · simp only [hc, hp]
          have := recur [] _ (crossing_nil ySign xSign min max prevPoint point) hc.symm
          rwa [List.append_nil] at this
        · have hne' : prevPoint.x ≠ point.x := by
            intro h; apply hcr; rw [← h]; exact hp1
          simp only [hc, hp, lineInterceptYChecked_ok _ _ _ hne']
          exact recur _ _ (crossing_one ySign xSign min max prevPoint point min.x
            (before_refl _ _) hx hne' (Or.inr ⟨before_of_not hcr, hp1⟩) hpc hminp hcmax) hc.symm
        · have hne' : prevPoint.x ≠ point.x := by
            intro h; apply hcr; rw [← h]; exact hp1
          simp only [hc, hp, lineInterceptYChecked_ok _ _ _ hne']
          exact recur _ _ (crossing_two ySign xSign min max prevPoint point max.x min.x
            hx (before_refl _ _) (before_refl _ _) hx hne'
            (Or.inr ⟨before_of_not hcr, hx, before_of_not hp2⟩) hpc hminp hcmax) hc.symm
      · have hcur : InClipRectangle ySign xSign min max point := ⟨hc1, hc2, hminc, hcmax⟩
        rcases pointRegion_cases prevPoint.x min max xSign with
          ⟨hp, hpr⟩ | ⟨hp, hp1, hp2⟩ | ⟨hp, hp1, hp2⟩
        · have hne' : prevPoint.x ≠ point.x := by
            intro h; apply hpr; rw [h]; exact hc1
          simp only [hc, hp, lineInterceptYChecked_ok _ _ _ hne']
          rw [List.append_assoc]
          exact recur _ _ (crossing_snoc (crossing_one ySign xSign min max prevPoint point
            min.x (before_refl _ _) hx hne' (Or.inl ⟨before_of_not hpr, hc1⟩) hpc hminp hcmax)
            point hcur rfl hpc) hc.symm
        · simp only [hc, hp]
          exact recur _ _ (crossing_snoc (crossing_nil ySign xSign min max prevPoint point)
            point hcur rfl hpc) hc.symm
        · have hne' : prevPoint.x ≠ point.x := by
            intro h; apply hp2; rw [h]; exact hc2
          simp only [hc, hp, lineInterceptYChecked_ok _ _ _ hne']
          rw [List.append_assoc]
          exact recur _ _ (crossing_snoc (crossing_one ySign xSign min max prevPoint point
            max.x hx (before_refl _ _) hne' (Or.inr ⟨hc2, before_of_not hp2⟩) hpc hminp hcmax)
            point hcur rfl hpc) hc.symm
      · have hside : InClipRectangle ySign xSign min max ⟨max.x, point.y⟩ :=
          ⟨hx, before_refl _ _, hminc, hcmax⟩
        rcases pointRegion_cases prevPoint.x min max xSign with
          ⟨hp, hpr⟩ | ⟨hp, hp1, hp2⟩ | ⟨hp, hp1, hp2⟩
        · have hne' : prevPoint.x ≠ point.x := by
            intro h; apply hpr; rw [h]; exact hc1
          have hE := crossing_two ySign xSign min max prevPoint point
            min.x max.x (before_refl _ _) hx hx (before_refl _ _) hne'
            (Or.inl ⟨before_of_not hpr, hx, before_of_not hc2⟩) hpc hminp hcmax
          simp only [hc, hp, lineInterceptYChecked_ok _ _ _ hne']
          by_cases hr0 : rest = []
          · rw [if_pos hr0]
            refine ⟨_, rfl, ?_⟩
            rw [List.append_assoc]
            exact fin _ (crossing_snoc hE _ hside rfl hpc)
          · rw [if_neg hr0]
            exact recur _ _ hE hc.symm
        · have hne' : prevPoint.x ≠ point.x := by
            intro h; apply hc2; rw [← h]; exact hp2
          have hE := crossing_one ySign xSign min max prevPoint point
            max.x hx (before_refl _ _) hne' (Or.inl ⟨hp2, before_of_not hc2⟩) hpc hminp hcmax
          simp only [hc, hp, lineInterceptYChecked_ok _ _ _ hne']
          by_cases hr0 : rest = []
          · rw [if_pos hr0]
            refine ⟨_, rfl, ?_⟩
            rw [List.append_assoc]
            exact fin _ (crossing_snoc hE _ hside rfl hpc)
          · rw [if_neg hr0]
            exact recur _ _ hE hc.symm
        · have hE := crossing_nil ySign xSign min max prevPoint point
          simp only [hc, hp]
          by_cases hr0 : rest = []
          · rw [if_pos hr0]
            refine ⟨_, rfl, ?_⟩
            exact fin _ (crossing_snoc hE _ hside rfl hpc)
          · rw [if_neg hr0]
            have := recur [] _ hE hc.symm
            rwa [List.append_nil] at this

theorem lineInterceptXChecked_ok (p q : Vec2 ℚ) (y : ℚ) (h : p.y ≠ q.y) :
    lineInterceptXChecked p q y = .ok (lineInterceptX p q y) := by
  unfold lineInterceptXChecked
  rw [if_neg (sub_ne_zero.2 (Ne.symm h))]

theorem clipHullFirst_spec (ySign xSign : Int) (min max : Vec2 ℚ)
    (hx : Before xSign min.x max.x) (hy : Before ySign min.y max.y) :
    ∀ (points : List (Vec2 ℚ)) (clipped : Bool) (prevPoint : Vec2 ℚ),
      (clipped = true → ¬ Before ySign min.y prevPoint.y) → RowMonotone ySign points →
      ∃ st, clipHullFirst ySign xSign min max clipped prevPoint points = .ok st
        ∧ ((st.chain = [] ∧ st.returned = true)
          ∨ (st.returned = false
            ∧ ((st.chain = [] ∧ st.remaining = [])
              ∨ ClipInv ySign xSign min max st.chain st.prevPoint st.prevPointRegion
                  st.remaining))) := by
  intro points
  induction points with
  | nil =>
    intro clipped prevPoint _ _
    exact ⟨_, rfl, Or.inr ⟨rfl, Or.inl ⟨rfl, rfl⟩⟩⟩
  | cons cur rest ih =>
    intro clipped prevPoint hprev hmono
    have hrest : RowMonotone ySign rest := List.Chain'.tail hmono
    unfold clipHullFirst
    by_cases hge : geq cur.y min.y ySign = true
    · have hminc : Before ySign min.y cur.y := (geq_iff _ _ _).1 hge
      rw [if_pos hge]
      cases clipped with
      | true =>
        have hpb : ¬ Before ySign min.y prevPoint.y := hprev rfl
        have hne : prevPoint.y ≠ cur.y := by
          intro h; apply hpb; rw [h]; exact hminc
        simp only [if_true, lineInterceptXChecked_ok _ _ _ hne, bind, Except.bind, pure,
          Except.pure]
        generalize lineInterceptX prevPoint cur min.y = px
        have hmono' : RowMonotone ySign ((⟨px, min.y⟩ : Vec2 ℚ) :: cur :: rest) :=
          List.Chain'.cons hminc hmono
        rcases pointRegion_cases px min max xSign with
          ⟨hp, hpr⟩ | ⟨hp, hp1, hp2⟩ | ⟨hp, hp1, hp2⟩
        · simp only [hp]
          by_cases hlast : pointRegion cur.x min max xSign = .PR_OUTSIDE_MIN ∧ rest = []
          · rw [if_pos hlast]
            exact ⟨_, rfl, Or.inl ⟨rfl, rfl⟩⟩
          · rw [if_neg hlast]
            refine ⟨_, rfl, Or.inr ⟨rfl, Or.inr ?_⟩⟩
            exact ⟨fun _ h => absurd h (List.not_mem_nil _), List.chain'_nil,
              fun _ h => absurd h (List.not_mem_nil _), before_refl _ _, hy, hp.symm, hmono'⟩
        · simp only [hp]
          refine ⟨_, rfl, Or.inr ⟨rfl, Or.inr ?_⟩⟩
          refine ⟨?_, List.chain'_singleton _, ?_, before_refl _ _, hy, hp.symm, hmono'⟩
          · intro p hp'
            rw [List.mem_singleton] at hp'
            subst hp'
            exact ⟨hp1, hp2, before_refl _ _, hy⟩
          · intro p hp'
            rw [List.mem_singleton] at hp'
            subst hp'
            exact before_refl _ _
        · simp only [hp]
          refine ⟨_, rfl, Or.inr ⟨rfl, Or.inr ?_⟩⟩
          refine ⟨?_, List.chain'_singleton _, ?_, before_refl _ _, hy, hp.symm, hmono'⟩
          · intro p hp'
            rw [List.mem_singleton] at hp'
            subst hp'
            exact ⟨hx, before_refl _ _, before_refl _ _, hy⟩
          · intro p hp'
            rw [List.mem_singleton] at hp'
            subst hp'
            exact before_refl _ _
      | false =>
        simp only [Bool.false_eq_true, if_false]
        by_cases hgt : gt cur.y max.y ySign = true
        · rw [if_pos hgt]
          exact ⟨_, rfl, Or.inl ⟨rfl, rfl⟩⟩
        · rw [if_neg hgt]
          have hcmax : Before ySign cur.y max.y := by
            by_contra hnb
            exact hgt ((gt_iff _ _ _).2 hnb)
          refine ⟨_, rfl, Or.inr ⟨rfl, Or.inr ?_⟩⟩
          rcases pointRegion_cases cur.x min max xSign with
            ⟨hc, hcr⟩ | ⟨hc, hc1, hc2⟩ | ⟨hc, hc1, hc2⟩
          · simp only [hc]
            exact ⟨fun _ h => absurd h (List.not_mem_nil _), List.chain'_nil,
              fun _ h => absurd h (List.not_mem_nil _), hminc, hcmax, hc.symm, hmono⟩
          · simp only [hc]
            refine ⟨?_, List.chain'_singleton _, ?_, hminc, hcmax, hc.symm, hmono⟩
            · intro p hp'
              simp at hp'
              subst hp'
              exact ⟨hc1, hc2, hminc, hcmax⟩
            · intro p hp'
              simp at hp'
              subst hp'
              exact before_refl _ _
          · simp only [hc]
            refine ⟨?_, List.chain'_singleton _, ?_, hminc, hcmax, hc.symm, hmono⟩
            · intro p hp'
              simp at hp'
              subst hp'
              exact ⟨hx, before_refl _ _, hminc, hcmax⟩
            · intro p hp'
              simp at hp'
              subst hp'
              exact before_refl _ _
    · rw [if_neg hge]
      exact ih true cur (fun _ h => hge ((geq_iff _ _ _).2 h)) hrest

theorem clipHull_spec (s : FrustumIterator) (isLeftSide : Bool)
    (unclippedRasterizeEdges : List (Vec2 ℚ)) (min max : Vec2 ℚ) (xSign : Int)
    (hx : Before xSign min.x max.x)
    (hy : Before (s.m_directionSign.get (s.m_dimensionOrder.get Y_DIM)) min.y max.y)
    (hmono : RowMonotone (s.m_directionSign.get (s.m_dimensionOrder.get Y_DIM))
      (if isLeftSide then unclippedRasterizeEdges.reverse else unclippedRasterizeEdges)) :
    ∃ clipped, s.clipHull isLeftSide unclippedRasterizeEdges min max xSign = .ok clipped
      ∧ (∀ p ∈ clipped, InClipRectangle (s.m_directionSign.get (s.m_dimensionOrder.get Y_DIM))
          xSign min max p)
      ∧ RowMonotone (s.m_directionSign.get (s.m_dimensionOrder.get Y_DIM)) clipped := by
  unfold clipHull
  obtain ⟨st, hst, hcases⟩ := clipHullFirst_spec
    (s.m_directionSign.get (s.m_dimensionOrder.get Y_DIM)) xSign min max hx hy
    (if isLeftSide then unclippedRasterizeEdges.reverse else unclippedRasterizeEdges)
    false ⟨0, 0⟩ (fun h => by cases h) hmono
  simp only [bind, Except.bind, pure, Except.pure]
  have hst' : clipHullFirst (s.m_directionSign.get (s.m_dimensionOrder.get Y_DIM)) xSign min
      max false ⟨0, 0⟩
      (if isLeftSide = true then unclippedRasterizeEdges.reverse else unclippedRasterizeEdges)
      = .ok st := hst
  rw [hst']
  simp only
  rcases hcases with ⟨hchain, hret⟩ | ⟨hret, hrest⟩
  · rw [if_pos hret, hchain]
    exact ⟨[], rfl, fun _ h => absurd h (List.not_mem_nil _), List.chain'_nil⟩
  · rw [if_neg (by rw [hret]; exact Bool.false_ne_true)]
    rcases hrest with ⟨hchain, hrem⟩ | hinv
    · rw [hchain, hrem]
      exact ⟨[], rfl, fun _ h => absurd h (List.not_mem_nil _), List.chain'_nil⟩
    · exact clipHullSecond_spec _ xSign min max hx hy _ _ _ _ hinv

end FrustumIterator

namespace FrustumIterator

theorem setSliceRowPoint_hull (b : Bool) (x : ℚ) (s : FrustumIterator) :
    (s.setSliceRowPoint b x).hullOf = s.hullOf := by
  unfold setSliceRowPoint; cases b <;> rfl

theorem advanceInwardLine_hull (b : Bool) (s : FrustumIterator) :
    Keeps hullOf Prod.snd s (advanceInwardLine b s) := by
  unfold advanceInwardLine
  apply keeps_ite
  · exact keeps_pure rfl
  · apply keeps_bindVal; intro n
    apply keeps_ite <;> exact keeps_pure rfl

theorem whileAdvanceInwardLine_hull (b : Bool) (fuel : Nat) : ∀ (s : FrustumIterator),
    Keeps hullOf id s (whileAdvanceInwardLine fuel b s) := by
  induction fuel with
  | zero => intro s; exact keeps_error
  | succ n ih =>
    intro s
    unfold whileAdvanceInwardLine
    apply keeps_bindState (advanceInwardLine_hull b s)
    rintro ⟨again, s1⟩ h1
    apply keeps_ite
    · exact keeps_rebase h1 (ih s1)
    · exact keeps_pure h1

theorem ite_setSliceRowPoint_hull (c : Prop) [Decidable c] (b : Bool) (x : ℚ)
    (s2 s : FrustumIterator) (h : s2.hullOf = s.hullOf) :
    (if c then s2.setSliceRowPoint b x else s2).hullOf = s.hullOf := by
  split
  · exact (setSliceRowPoint_hull _ _ _).trans h
  · exact h

theorem advanceOutwardLine_hull (b : Bool) (s : FrustumIterator) :
    Keeps hullOf Prod.snd s (advanceOutwardLine b s) := by
  unfold advanceOutwardLine
  apply keeps_ite
  · apply keeps_bindVal; intro p
    exact keeps_pure (setSliceRowPoint_hull _ _ _)
  · apply keeps_bindVal; intro pb
    apply keeps_bindVal; intro pa
    apply keeps_bindVal; intro n
    apply keeps_ite
    · apply keeps_ite
      · apply keeps_bindVal; intro x
        exact keeps_pure ((setSliceRowPoint_hull _ _ _).trans
          (ite_setSliceRowPoint_hull _ _ _ _ _ rfl))
      · exact keeps_pure (ite_setSliceRowPoint_hull _ _ _ _ _ rfl)
    · apply keeps_ite
      · apply keeps_bindState
          (keeps_rebase (ite_setSliceRowPoint_hull _ _ _ _ _ rfl) (whileAdvanceInwardLine_hull b _ _))
        intro s1 h1
        exact keeps_pure h1
      · exact keeps_pure (ite_setSliceRowPoint_hull _ _ _ _ _ rfl)

theorem whileAdvanceOutwardLine_hull (b : Bool) (fuel : Nat) :
    ∀ (s : FrustumIterator), Keeps hullOf id s (whileAdvanceOutwardLine fuel b s) := by
  induction fuel with
  | zero => intro s; exact keeps_error
  | succ n ih =>
    intro s
    unfold whileAdvanceOutwardLine
    apply keeps_bindState (advanceOutwardLine_hull b s)
    rintro ⟨again, s1⟩ h1
    apply keeps_ite
    · exact keeps_rebase h1 (ih s1)
    · exact keeps_pure h1

theorem preAdvanceOutwardLine_hull (b : Bool) (s : FrustumIterator) :
    Keeps hullOf Prod.snd s (preAdvanceOutwardLine b s) := by
  unfold preAdvanceOutwardLine
  apply keeps_bindVal; intro n
  apply keeps_ite
  · apply keeps_bindVal; intro pa
    apply keeps_bindVal; intro pb
    apply keeps_bindVal; intro x
    exact keeps_pure (setSliceRowPoint_hull _ _ _)
  · exact keeps_pure rfl

theorem setupSliceHelper_hull (b : Bool) (s : FrustumIterator) :
    Keeps hullOf id s (setupSliceHelper b s) := by
  unfold setupSliceHelper
  apply keeps_ite
  · exact keeps_error
  apply keeps_bindVal; intro p1
  apply keeps_bindVal; intro p0
  apply keeps_ite
  · apply keeps_bindState (keeps_via (preAdvanceOutwardLine_hull b _) rfl)
    rintro ⟨again, s1⟩ h1
    apply keeps_ite
    · exact keeps_rebase h1 (whileAdvanceOutwardLine_hull b _ s1)
    · exact keeps_pure h1
  · exact keeps_via (whileAdvanceInwardLine_hull b _ _) (setSliceRowPoint_hull _ _ _)

theorem setupSliceRows_hull (s : FrustumIterator) :
    Keeps hullOf id s (setupSliceRows s) := by
  unfold setupSliceRows
  apply keeps_bindVal; intro first
  apply keeps_bindVal; intro last
  exact keeps_pure rfl

theorem buildSliceHull_sizes (s : FrustumIterator) :
    Ensures (fun r => r.1 = true → 2 ≤ (r.2.chain RIGHT_SIDE).length
      ∧ 2 ≤ (r.2.chain LEFT_SIDE).length) (buildSliceHull s) := by
  unfold buildSliceHull
  apply ensures_bindVal; intro right
  apply ensures_ite
  · intro _; exact ensures_pure (fun h => by cases h)
  · intro h0
    apply ensures_ite
    · intro _; exact ensures_error
    · intro h1
      apply ensures_bindVal; intro left
      apply ensures_ite
      · intro _; exact ensures_pure (fun h => by cases h)
      · intro h2
        apply ensures_ite
        · intro _; exact ensures_error
        · intro h3
          refine ensures_pure ?_
          intro _
          exact ⟨by simpa [chain, RIGHT_SIDE, Arr2.get] using h1, by simpa [chain, LEFT_SIDE, Arr2.get] using h3⟩

theorem setY_length (chain : List (Vec2 ℚ)) (i : Nat) (y : ℚ) :
    (setY chain i y).length = chain.length := by
  unfold setY; exact List.length_modify _ _ _

theorem setY_get?_self (chain : List (Vec2 ℚ)) (i : Nat) (y : ℚ) (p : Vec2 ℚ)
    (h : chain.get? i = some p) : (setY chain i y).get? i = some ⟨p.x, y⟩ := by
  unfold setY
  rw [List.get?_eq_getElem?] at h ⊢
  rw [List.getElem?_modify, h]
  simp

theorem setY_get?_of_ne (chain : List (Vec2 ℚ)) (i j : Nat) (y : ℚ) (h : i ≠ j) :
    (setY chain i y).get? j = chain.get? j := by
  unfold setY
  rw [List.get?_eq_getElem?, List.get?_eq_getElem?, List.getElem?_modify]
  cases chain[j]? <;> simp [h]

theorem eq_of_not_lt_lt (a b : ℚ) (sign : Int) (h1 : ¬ lt a b sign = true)
    (h2 : ¬ lt b a sign = true) : a = b := by
  by_cases hs : 0 < sign <;> simp [lt, hs] at h1 h2 <;> exact le_antisymm (by assumption) (by assumption)

theorem eq_of_not_gt_gt (a b : ℚ) (sign : Int) (h1 : ¬ gt a b sign = true)
    (h2 : ¬ gt b a sign = true) : a = b := by
  by_cases hs : 0 < sign <;> simp [gt, hs] at h1 h2 <;> exact le_antisymm (by assumption) (by assumption)

theorem reconcileFirst_spec (R L : List (Vec2 ℚ)) (r0 l0 : Vec2 ℚ) (sign : Int)
    (hr0 : R.get? 0 = some r0) (hl0 : L.get? 0 = some l0)
    (p : List (Vec2 ℚ) × List (Vec2 ℚ))
    (hp : p = if lt r0.y l0.y sign = true then (setY R 0 l0.y, L)
      else if lt l0.y r0.y sign = true then (R, setY L 0 r0.y) else (R, L)) :
    p.1.length = R.length ∧ p.2.length = L.length
      ∧ ∃ a b, p.1.get? 0 = some a ∧ p.2.get? 0 = some b ∧ a.y = b.y := by
  split at hp
  · subst hp
    exact ⟨setY_length _ _ _, rfl, _, _, setY_get?_self _ _ _ _ hr0, hl0, rfl⟩
  · split at hp
    · subst hp
      exact ⟨rfl, setY_length _ _ _, _, _, hr0, setY_get?_self _ _ _ _ hl0, rfl⟩
    · subst hp
      exact ⟨rfl, rfl, _, _, hr0, hl0, eq_of_not_lt_lt _ _ _ ‹_› ‹_›⟩

theorem reconcileLast_spec (R L : List (Vec2 ℚ)) (rLast lLast : Vec2 ℚ) (sign : Int)
    (hR : 2 ≤ R.length) (hL : 2 ≤ L.length)
    (hr : R.get? (R.length - 1) = some rLast) (hl : L.get? (L.length - 1) = some lLast)
    (q : List (Vec2 ℚ) × List (Vec2 ℚ))
    (hq : q = if gt rLast.y lLast.y sign = true then (setY R (R.length - 1) lLast.y, L)
      else if gt lLast.y rLast.y sign = true then (R, setY L (L.length - 1) rLast.y)
      else (R, L)) :
    q.1.get? 0 = R.get? 0 ∧ q.2.get? 0 = L.get? 0
      ∧ q.1.length = R.length ∧ q.2.length = L.length
      ∧ ∃ a b, q.1.get? (R.length - 1) = some a ∧ q.2.get? (L.length - 1) = some b
        ∧ a.y = b.y := by
  split at hq
  · subst hq
    exact ⟨setY_get?_of_ne _ _ _ _ (by omega), rfl, setY_length _ _ _, rfl, _, _,
      setY_get?_self _ _ _ _ hr, hl, rfl⟩
  · split at hq
    · subst hq
      exact ⟨rfl, setY_get?_of_ne _ _ _ _ (by omega), rfl, setY_length _ _ _, _, _, hr,
        setY_get?_self _ _ _ _ hl, rfl⟩
    · subst hq
      exact ⟨rfl, rfl, rfl, rfl, _, _, hr, hl, eq_of_not_gt_gt _ _ _ ‹_› ‹_›⟩

theorem reconcileChains_spec (s : FrustumIterator) (hR : 2 ≤ (s.chain RIGHT_SIDE).length)
    (hL : 2 ≤ (s.chain LEFT_SIDE).length) :
    Ensures (fun r => SameRowRange r.hullOf) (reconcileChains s) := by
  unfold reconcileChains
  refine ensures_bind (ensures_index _ _) ?_
  intro r0 hr0
  refine ensures_bind (ensures_index _ _) ?_
  intro l0 hl0
  have h1 := fun p hp => reconcileFirst_spec (s.chain RIGHT_SIDE) (s.chain LEFT_SIDE) r0 l0
    (s.m_directionSign.get (s.m_dimensionOrder.get Y_DIM)) hr0 hl0 p hp
  generalize (if lt r0.y l0.y (s.m_directionSign.get (s.m_dimensionOrder.get Y_DIM)) = true then
        (setY (s.chain RIGHT_SIDE) 0 l0.y, s.chain LEFT_SIDE)
      else if lt l0.y r0.y (s.m_directionSign.get (s.m_dimensionOrder.get Y_DIM)) = true then
        (s.chain RIGHT_SIDE, setY (s.chain LEFT_SIDE) 0 r0.y)
      else (s.chain RIGHT_SIDE, s.chain LEFT_SIDE)) = p at h1 ⊢
  obtain ⟨right, left⟩ := p
  obtain ⟨hlenR, hlenL, a0, b0, ha0, hb0, hy0⟩ := h1 _ rfl
  simp only at hlenR hlenL ha0 hb0 ⊢
  refine ensures_bind (ensures_index _ _) ?_
  intro rLast hrLast
  refine ensures_bind (ensures_index _ _) ?_
  intro lLast hlLast
  have h2 := fun q hq => reconcileLast_spec right left rLast lLast
    (s.m_directionSign.get (s.m_dimensionOrder.get Y_DIM)) (by omega) (by omega) hrLast hlLast
    q hq
  generalize (if gt rLast.y lLast.y (s.m_directionSign.get (s.m_dimensionOrder.get Y_DIM)) = true
      then (setY right (right.length - 1) lLast.y, left)
      else if gt lLast.y rLast.y (s.m_directionSign.get (s.m_dimensionOrder.get Y_DIM)) = true
      then (right, setY left (left.length - 1) rLast.y)
      else (right, left)) = q at h2 ⊢
  obtain ⟨right2, left2⟩ := q
  obtain ⟨hh1, hh2, hl1, hl2, a, b, ha, hb, hy⟩ := h2 _ rfl
  simp only at hh1 hh2 hl1 hl2 ha hb ⊢
  refine ensures_pure ?_
  refine ⟨a0, b0, a, b, ?_, ?_, hy0, ?_, ?_, hy⟩
  · show right2.head? = some a0
    rw [List.head?_eq_getElem?, ← List.get?_eq_getElem?, hh1]; exact ha0
  · show left2.head? = some b0
    rw [List.head?_eq_getElem?, ← List.get?_eq_getElem?, hh2]; exact hb0
  · show right2.getLast? = some a
    rw [List.getLast?_eq_getElem?, ← List.get?_eq_getElem?, hl1]; exact ha
  · show left2.getLast? = some b
    rw [List.getLast?_eq_getElem?, ← List.get?_eq_getElem?, hl2]; exact hb

theorem setupSlice_sameRowRange (s : FrustumIterator) :
    Ensures (fun r => r.1 = true → SameRowRange r.2.hullOf) (setupSlice s) := by
  unfold setupSlice
  apply ensures_bindVal; intro s1
  refine ensures_bind (buildSliceHull_sizes s1) ?_
  rintro ⟨nonEmpty, s2⟩ h2
  apply ensures_ite
  · intro hne
    refine ensures_pure ?_
    intro h
    cases h
  · intro hne
    have hne' : nonEmpty = true := by simpa using hne
    obtain ⟨hR, hL⟩ := h2 hne'
    refine ensures_bind (reconcileChains_spec s2 hR hL) ?_
    intro s3 h3
    refine ensures_bindWith (fun s4 : FrustumIterator => s4.hullOf = s3.hullOf)
      (fun a ha => setupSliceRows_hull s3 a ha) ?_
    intro s4 h4
    refine ensures_bindWith (fun s5 : FrustumIterator => s5.hullOf = s3.hullOf)
      (fun a ha => keeps_rebase h4 (setupSliceHelper_hull LEFT_SIDE s4) a ha) ?_
    intro s5 h5
    refine ensures_bindWith (fun s6 : FrustumIterator => s6.hullOf = s3.hullOf)
      (fun a ha => keeps_rebase h5 (setupSliceHelper_hull RIGHT_SIDE s5) a ha) ?_
    intro s6 h6
    refine ensures_pure ?_
    intro _
    show SameRowRange s6.hullOf
    rw [h6]; exact h3

end FrustumIterator

/-- C33: whenever `setupSlice` of the frustum iterator returns true, the first points of
the right and the left clipped chain have the same row coordinate, and so have their last
points: both chains span the same row range. -/
theorem frustum_setupSlice_chains_span_same_rows (s r : FrustumIterator)
    (h : s.setupSlice = .ok (true, r)) :
    ∃ r0 l0 rLast lLast, (r.chain RIGHT_SIDE).head? = some r0
      ∧ (r.chain LEFT_SIDE).head? = some l0 ∧ r0.y = l0.y
      ∧ (r.chain RIGHT_SIDE).getLast? = some rLast
      ∧ (r.chain LEFT_SIDE).getLast? = some lLast ∧ rLast.y = lLast.y :=
  FrustumIterator.setupSlice_sameRowRange s (true, r) h rfl

/-- C33 at the iterator built for `bigFrustum` in the range (0,0,0)-(1,1,1) of unit
cells, whose chains are clipped at the far side of the range: `setupSlice` returns true. -/
theorem frustum_setupSlice_chains_span_same_rows_witness :
    ∃ r, (FrustumIterator.built bigFrustum ⟨⟨0, 0, 0⟩, ⟨1, 1, 1⟩⟩ ⟨1, 1, 1⟩).setupSlice
        = .ok (true, r)
      ∧ ∃ r0 l0 rLast lLast, (r.chain RIGHT_SIDE).head? = some r0
        ∧ (r.chain LEFT_SIDE).head? = some l0 ∧ r0.y = l0.y
        ∧ (r.chain RIGHT_SIDE).getLast? = some rLast
        ∧ (r.chain LEFT_SIDE).getLast? = some lLast ∧ rLast.y = lLast.y := by
  cases hs : (FrustumIterator.built bigFrustum ⟨⟨0, 0, 0⟩, ⟨1, 1, 1⟩⟩ ⟨1, 1, 1⟩).setupSlice with
  | error e =>
    have hok : ((FrustumIterator.built bigFrustum ⟨⟨0, 0, 0⟩, ⟨1, 1, 1⟩⟩
        ⟨1, 1, 1⟩).setupSlice).toBool = true := by decide!
    rw [hs] at hok
    cases hok
  | ok p =>
    obtain ⟨b, r⟩ := p
    have hb : ((FrustumIterator.built bigFrustum ⟨⟨0, 0, 0⟩, ⟨1, 1, 1⟩⟩
        ⟨1, 1, 1⟩).setupSlice).map (fun p => p.1) = .ok true := by decide!
    rw [hs] at hb
    have hb' : b = true := Except.ok.inj hb
    subst hb'
    exact ⟨r, rfl, frustum_setupSlice_chains_span_same_rows _ r hs⟩

/-! ## The segment index of the row rasterizer of the mesh iterator -/

section AvoidsLemmas
variable {α β : Type} {bad : Failure → Prop} {Q : α → Prop}

theorem avoids_ok {a : α} (h : Q a) : Avoids bad Q (.ok a) := h

theorem avoids_pure {a : α} (h : Q a) : Avoids bad Q (Pure.pure a) := h

theorem avoids_error {e : Failure} (h : ¬ bad e) : Avoids bad Q (.error e : Except Failure α) := h

theorem avoids_index (l : List α) (i : Nat) (h : i < l.length) :
    Avoids bad (fun a => l.get? i = some a) (index l i) := by
  unfold index
  cases hg : l.get? i with
  | none =>
    rw [List.get?_eq_none] at hg
    omega
  | some a => exact avoids_ok rfl

theorem avoids_ite {c : Prop} [Decidable c] {t e : Except Failure α}
    (ht : c → Avoids bad Q t) (he : ¬ c → Avoids bad Q e) : Avoids bad Q (if c then t else e) := by
  split
  · exact ht ‹_›
  · exact he ‹_›

theorem avoids_bind {Q' : β → Prop} {x : Except Failure β} {g : β → Except Failure α}
    (hx : Avoids bad Q' x) (h : ∀ b, Q' b → Avoids bad Q (g b)) : Avoids bad Q (x >>= g) := by
  cases x with
  | error e => exact hx
  | ok b => exact h b hx

theorem avoids_imp {Q' : α → Prop} {x : Except Failure α} (hx : Avoids bad Q' x)
    (h : ∀ a, Q' a → Q a) : Avoids bad Q x := by
  cases x with
  | error e => exact hx
  | ok a => exact h a hx

end AvoidsLemmas

theorem lineInterceptXChecked_avoids (a b : Vec2 ℚ) (y : ℚ) :
    Avoids SegmentFailure (fun _ => True) (lineInterceptXChecked a b y) := by
  unfold lineInterceptXChecked
  split
  · exact avoids_error (by simp [SegmentFailure])
  · exact avoids_ok trivial

namespace ConvexMeshIteratorDebug

theorem segmentStep_refl (b : Bool) (s : ConvexMeshIteratorDebug) (h : s.SegmentInRange b) :
    SegmentStep b s s := ⟨rfl, rfl, le_refl _, h⟩

theorem segmentStep_trans {b : Bool} {s t r : ConvexMeshIteratorDebug}
    (h1 : SegmentStep b s t) (h2 : SegmentStep b t r) : SegmentStep b s r :=
  ⟨h2.1.trans h1.1, h2.2.1.trans h1.2.1, le_trans h1.2.2.1 h2.2.2.1, h2.2.2.2⟩

theorem segmentStep_setSliceRowPoint {b : Bool} {s t : ConvexMeshIteratorDebug} (x : ℚ)
    (h : SegmentStep b s t) : SegmentStep b s (t.setSliceRowPoint b x) := by
  unfold setSliceRowPoint
  cases b <;> exact h

theorem rowNum_avoids (b : Bool) (i : Nat) (s : ConvexMeshIteratorDebug)
    (h : i + 1 < (s.chain b).length) :
    Avoids SegmentFailure (fun _ => True) (s.rowNum b i) := by
  unfold rowNum
  refine avoids_bind (avoids_index _ _ h) ?_
  intro pb _
  refine avoids_bind (avoids_index _ _ (by omega)) ?_
  intro pa _
  exact avoids_pure trivial

theorem segmentStep_same (b : Bool) (s r : ConvexMeshIteratorDebug)
    (hc : r.m_sliceRasterizeEdges = s.m_sliceRasterizeEdges)
    (hi : r.m_activeSliceEdgeIndex = s.m_activeSliceEdgeIndex) (h : s.SegmentInRange b) :
    SegmentStep b s r := by
  refine ⟨hc, by rw [hi], by rw [hi], ?_⟩
  unfold SegmentInRange chain at h ⊢
  rw [hi, hc]; exact h

theorem segmentStep_bump (b : Bool) (s r : ConvexMeshIteratorDebug)
    (hc : r.m_sliceRasterizeEdges = s.m_sliceRasterizeEdges)
    (hi : r.m_activeSliceEdgeIndex
      = s.m_activeSliceEdgeIndex.set b (s.m_activeSliceEdgeIndex.get b + 1))
    (hlen : s.m_activeSliceEdgeIndex.get b + 3 ≤ (s.chain b).length) :
    SegmentStep b s r
      ∧ s.m_activeSliceEdgeIndex.get b < r.m_activeSliceEdgeIndex.get b := by
  have hget : r.m_activeSliceEdgeIndex.get b = s.m_activeSliceEdgeIndex.get b + 1 := by
    rw [hi]; cases b <;> rfl
  refine ⟨⟨hc, ?_, by omega, ?_⟩, by omega⟩
  · rw [hi]; cases b <;> rfl
  · show r.m_activeSliceEdgeIndex.get b + 2 ≤ (r.m_sliceRasterizeEdges.get b).length
    have hlen' : s.m_activeSliceEdgeIndex.get b + 3 ≤ (s.m_sliceRasterizeEdges.get b).length :=
      hlen
    rw [hget, hc]; omega

theorem advanceInwardLineLater_avoids (b : Bool) (s : ConvexMeshIteratorDebug)
    (h : s.SegmentInRange b) :
    Avoids SegmentFailure (fun r => SegmentStep b s r.2
        ∧ (r.1 = true → s.m_activeSliceEdgeIndex.get b < r.2.m_activeSliceEdgeIndex.get b))
      (advanceInwardLineLater b s) := by
  unfold advanceInwardLineLater
  refine avoids_ite ?_ ?_
  · intro _
    exact avoids_pure ⟨segmentStep_refl b s h, fun h => by cases h⟩
  · intro hne
    have hlen : s.m_activeSliceEdgeIndex.get b + 3 ≤ (s.chain b).length := by
      unfold SegmentInRange at h; omega
    refine avoids_bind (rowNum_avoids b _ _ ?_) ?_
    · show s.m_activeSliceEdgeIndex.get b + 1 + 1 < (s.chain b).length
      omega
    · intro n _
      refine avoids_ite ?_ ?_
      · intro _
        refine avoids_pure ⟨?_, fun h => by cases h⟩
        refine (segmentStep_bump b s _ ?_ ?_ hlen).1 <;> rfl
      · intro _
        refine avoids_pure ⟨?_, fun _ => ?_⟩
        · refine (segmentStep_bump b s _ ?_ ?_ hlen).1 <;> rfl
        · refine (segmentStep_bump b s _ ?_ ?_ hlen).2 <;> rfl

theorem whileAdvanceInwardLine_avoids (b : Bool) (fuel : Nat) :
    ∀ (s : ConvexMeshIteratorDebug), s.SegmentInRange b →
      (s.chain b).length ≤ fuel + s.m_activeSliceEdgeIndex.get b + 1 →
      Avoids SegmentFailure (SegmentStep b s) (whileAdvanceInwardLine fuel b s) := by
  induction fuel with
  | zero =>
    intro s h hf
    unfold SegmentInRange at h
    omega
  | succ n ih =>
    intro s h hf
    unfold whileAdvanceInwardLine
    refine avoids_bind (advanceInwardLineLater_avoids b s h) ?_
    rintro ⟨again, s1⟩ ⟨h1, hlt⟩
    refine avoids_ite ?_ ?_
    · intro ha
      have hlt' := hlt ha
      have hc : (s1.chain b).length = (s.chain b).length := by
        unfold chain; rw [h1.1]
      refine avoids_imp (ih s1 h1.2.2.2 ?_) (fun r hr => segmentStep_trans h1 hr)
      simp only at hlt'
      omega
    · intro _
      exact avoids_pure h1

theorem advanceInwardLineFirst_avoids (b : Bool) (s : ConvexMeshIteratorDebug)
    (h : s.SegmentInRange b) :
    Avoids SegmentFailure (fun r => SegmentStep b s r.2 ∧ r.1 = false)
      (advanceInwardLineFirst b s) := by
  unfold advanceInwardLineFirst
  refine avoids_ite ?_ ?_
  · intro _
    exact avoids_pure ⟨segmentStep_refl b s h, rfl⟩
  · intro hne
    refine avoids_bind (rowNum_avoids b _ _ ?_) ?_
    · unfold SegmentInRange at h; omega
    · intro n _
      refine avoids_ite ?_ ?_
      · intro _
        exact avoids_pure ⟨segmentStep_same b s _ rfl rfl h, rfl⟩
      · intro _
        refine avoids_bind (whileAdvanceInwardLine_avoids b _ s h (by omega)) ?_
        intro s1 h1
        exact avoids_pure ⟨h1, rfl⟩

theorem whileAdvanceInwardLineFirst_avoids (b : Bool) (fuel : Nat) (s : ConvexMeshIteratorDebug)
    (h : s.SegmentInRange b) (hf : 1 ≤ fuel) :
    Avoids SegmentFailure (SegmentStep b s) (whileAdvanceInwardLineFirst fuel b s) := by
  cases fuel with
  | zero => omega
  | succ n =>
    unfold whileAdvanceInwardLineFirst
    refine avoids_bind (advanceInwardLineFirst_avoids b s h) ?_
    rintro ⟨again, s1⟩ ⟨h1, hfalse⟩
    simp only at hfalse
    subst hfalse
    exact avoids_pure h1

theorem setSliceRowPoint_segments (b : Bool) (x : ℚ) (s : ConvexMeshIteratorDebug) :
    (s.setSliceRowPoint b x).segmentsOf = s.segmentsOf := by
  unfold setSliceRowPoint; cases b <;> rfl

theorem ite_setSliceRowPoint_segments (c : Prop) [Decidable c] (b : Bool) (x : ℚ)
    (s2 : ConvexMeshIteratorDebug) (v : Arr2 (List (Vec2 ℚ)) × Arr2 Nat)
    (h : s2.segmentsOf = v) :
    (if c then s2.setSliceRowPoint b x else s2).segmentsOf = v := by
  split
  · exact (setSliceRowPoint_segments _ _ _).trans h
  · exact h

theorem segmentStep_of_eq (b : Bool) (s r : ConvexMeshIteratorDebug) (n : Nat)
    (hseg : r.segmentsOf = (s.m_sliceRasterizeEdges, s.m_activeSliceEdgeIndex.set b n))
    (hn : s.m_activeSliceEdgeIndex.get b ≤ n) (hlen : n + 2 ≤ (s.chain b).length) :
    SegmentStep b s r ∧ r.m_activeSliceEdgeIndex.get b = n := by
  have hc : r.m_sliceRasterizeEdges = s.m_sliceRasterizeEdges := congrArg Prod.fst hseg
  have hi : r.m_activeSliceEdgeIndex = s.m_activeSliceEdgeIndex.set b n :=
    congrArg Prod.snd hseg
  have hget : r.m_activeSliceEdgeIndex.get b = n := by
    rw [hi]; cases b <;> rfl
  refine ⟨⟨hc, ?_, by omega, ?_⟩, hget⟩
  · rw [hi]; cases b <;> rfl
  · show r.m_activeSliceEdgeIndex.get b + 2 ≤ (r.m_sliceRasterizeEdges.get b).length
    have hlen' : n + 2 ≤ (s.m_sliceRasterizeEdges.get b).length := hlen
    rw [hget, hc]; omega

theorem advanceOutwardLine_avoids (b : Bool) (s : ConvexMeshIteratorDebug)
    (h : s.SegmentInRange b) :
    Avoids SegmentFailure (fun r => SegmentStep b s r.2
        ∧ (r.1 = true → s.m_activeSliceEdgeIndex.get b < r.2.m_activeSliceEdgeIndex.get b))
      (advanceOutwardLine b s) := by
  have h' : s.m_activeSliceEdgeIndex.get b + 2 ≤ (s.chain b).length := h
  unfold advanceOutwardLine
  refine avoids_ite ?_ ?_
  · intro _
    refine avoids_bind (avoids_index _ _ (by omega)) ?_
    intro pb _
    exact avoids_pure ⟨segmentStep_setSliceRowPoint _ (segmentStep_refl b s h),
      fun h => by cases h⟩
  · intro hne
    have hlen : s.m_activeSliceEdgeIndex.get b + 1 + 2 ≤ (s.chain b).length := by omega
    refine avoids_bind (avoids_index _ _ ?_) ?_
    · show s.m_activeSliceEdgeIndex.get b + 1 + 1 < (s.chain b).length
      omega
    intro pb _
    refine avoids_bind (avoids_index _ _ ?_) ?_
    · show s.m_activeSliceEdgeIndex.get b + 1 < (s.chain b).length
      omega
    intro pa _
    refine avoids_bind (rowNum_avoids b _ _ ?_) ?_
    · show s.m_activeSliceEdgeIndex.get b + 1 + 1 < (s.chain b).length
      omega
    intro n _
    have key := fun r hseg => segmentStep_of_eq b s r (s.m_activeSliceEdgeIndex.get b + 1) hseg
      (Nat.le_succ _) hlen
    refine avoids_ite ?_ ?_
    · intro _
      refine avoids_ite ?_ ?_
      · intro _
        refine avoids_bind (lineInterceptXChecked_avoids _ _ _) ?_
        intro x _
        refine avoids_pure ⟨(key _ ?_).1, fun h => by cases h⟩
        refine (setSliceRowPoint_segments _ _ _).trans ?_
        refine ite_setSliceRowPoint_segments _ _ _ _ _ ?_
        rfl
      · intro _
        refine avoids_pure ⟨(key _ ?_).1, fun h => by cases h⟩
        refine ite_setSliceRowPoint_segments _ _ _ _ _ ?_
        rfl
    · intro _
      refine avoids_ite ?_ ?_
      · intro _
        refine avoids_bind (whileAdvanceInwardLine_avoids b _ _ (key _ ?_).1.2.2.2 ?_) ?_
        · refine ite_setSliceRowPoint_segments _ _ _ _ _ ?_
          rfl
        · omega
        · intro s1 h1
          refine avoids_pure ⟨segmentStep_trans (key _ ?_).1 h1, fun h => by cases h⟩
          refine ite_setSliceRowPoint_segments _ _ _ _ _ ?_
          rfl
      · intro _
        refine avoids_pure ⟨(key _ ?_).1, fun _ => ?_⟩
        · refine ite_setSliceRowPoint_segments _ _ _ _ _ ?_
          rfl
        · refine lt_of_lt_of_eq (Nat.lt_succ_self _) (key _ ?_).2.symm
          refine ite_setSliceRowPoint_segments _ _ _ _ _ ?_
          rfl

theorem segmentStep_of_same (b : Bool) (s r : ConvexMeshIteratorDebug)
    (hseg : r.segmentsOf = s.segmentsOf) (h : s.SegmentInRange b) : SegmentStep b s r :=
  segmentStep_same b s r (congrArg Prod.fst hseg) (congrArg Prod.snd hseg) h

theorem whileAdvanceOutwardLine_avoids (b : Bool) (fuel : Nat) :
    ∀ (s : ConvexMeshIteratorDebug), s.SegmentInRange b →
      (s.chain b).length ≤ fuel + s.m_activeSliceEdgeIndex.get b + 1 →
      Avoids SegmentFailure (SegmentStep b s) (whileAdvanceOutwardLine fuel b s) := by
  induction fuel with
  | zero =>
    intro s h hf
    unfold SegmentInRange at h
    omega
  | succ n ih =>
    intro s h hf
    unfold whileAdvanceOutwardLine
    refine avoids_bind (advanceOutwardLine_avoids b s h) ?_
    rintro ⟨again, s1⟩ ⟨h1, hlt⟩
    refine avoids_ite ?_ ?_
    · intro ha
      have hlt' := hlt ha
      have hc : (s1.chain b).length = (s.chain b).length := by
        unfold chain; rw [h1.1]
      refine avoids_imp (ih s1 h1.2.2.2 ?_) (fun r hr => segmentStep_trans h1 hr)
      simp only at hlt'
      omega
    · intro _
      exact avoids_pure h1

theorem preAdvanceOutwardLine_avoids (b : Bool) (s : ConvexMeshIteratorDebug)
    (h : s.SegmentInRange b) :
    Avoids SegmentFailure (fun r => SegmentStep b s r.2) (preAdvanceOutwardLine b s) := by
  have h' : s.m_activeSliceEdgeIndex.get b + 2 ≤ (s.chain b).length := h
  unfold preAdvanceOutwardLine
  refine avoids_bind (rowNum_avoids b _ _ (by omega)) ?_
  intro n _
  refine avoids_ite ?_ ?_
  · intro _
    refine avoids_bind (avoids_index _ _ ?_) ?_
    · show s.m_activeSliceEdgeIndex.get b < (s.chain b).length
      omega
    intro pa _
    refine avoids_bind (avoids_index _ _ ?_) ?_
    · show s.m_activeSliceEdgeIndex.get b + 1 < (s.chain b).length
      omega
    intro pb _
    refine avoids_bind (lineInterceptXChecked_avoids _ _ _) ?_
    intro x _
    refine avoids_pure (segmentStep_of_same b s _ ?_ h)
    exact setSliceRowPoint_segments _ _ _
  · intro _
    exact avoids_pure (segmentStep_refl b s h)

theorem setupSliceHelper_avoids (b : Bool) (s : ConvexMeshIteratorDebug)
    (h : s.SegmentInRange b) :
    Avoids SegmentFailure (SegmentStep b s) (setupSliceHelper b s) := by
  have h' : s.m_activeSliceEdgeIndex.get b + 2 ≤ (s.chain b).length := h
  unfold setupSliceHelper
  refine avoids_ite ?_ ?_
  · intro hc
    simp at hc
    omega
  · intro _
    refine avoids_bind (avoids_index _ _ (by omega)) ?_
    intro p1 _
    refine avoids_bind (avoids_index _ _ (by omega)) ?_
    intro p0 _
    refine avoids_ite ?_ ?_
    · intro _
      refine avoids_bind (preAdvanceOutwardLine_avoids b _ ?_) ?_
      · exact h
      rintro ⟨again, s1⟩ h1
      have h1' : SegmentStep b s s1 := h1
      refine avoids_ite ?_ ?_
      · intro _
        refine avoids_imp (whileAdvanceOutwardLine_avoids b _ s1 h1'.2.2.2 (by omega))
          (fun r hr => segmentStep_trans h1' hr)
      · intro _
        exact avoids_pure h1'
    · intro _
      refine avoids_imp (whileAdvanceInwardLineFirst_avoids b _ _
        (segmentStep_of_same b s _ ?_ h).2.2.2 (by omega))
        (fun r hr => segmentStep_trans (segmentStep_of_same b s _ ?_ h) hr)
      · exact setSliceRowPoint_segments _ _ _
      · exact setSliceRowPoint_segments _ _ _

theorem advanceRowHelper_avoids (b : Bool) (s : ConvexMeshIteratorDebug)
    (h : s.SegmentInRange b) :
    Avoids SegmentFailure (SegmentStep b s) (advanceRowHelper b s) := by
  have h' : s.m_activeSliceEdgeIndex.get b + 2 ≤ (s.chain b).length := h
  unfold advanceRowHelper
  refine avoids_ite ?_ ?_
  · intro _
    refine avoids_ite ?_ ?_
    · intro _
      refine avoids_ite ?_ ?_
      · intro _
        refine avoids_bind (avoids_index _ _ ?_) ?_
        · show s.m_activeSliceEdgeIndex.get b + 1 < (s.chain b).length
          omega
        intro pb _
        refine avoids_pure (segmentStep_of_same b s _ ?_ h)
        exact setSliceRowPoint_segments _ _ _
      · intro _
        refine avoids_imp (whileAdvanceOutwardLine_avoids b _ _
          (segmentStep_of_same b s _ ?_ h).2.2.2 ?_)
          (fun r hr => segmentStep_trans (segmentStep_of_same b s _ ?_ h) hr)
        · rfl
        · omega
        · rfl
    · intro _
      refine avoids_ite ?_ ?_
      · intro hc
        simp at hc
        have hc' : (s.chain b).length ≤ s.m_activeSliceEdgeIndex.get b + 1 := hc
        omega
      · intro _
        refine avoids_bind (avoids_index _ _ ?_) ?_
        · show s.m_activeSliceEdgeIndex.get b < (s.chain b).length
          omega
        intro pa _
        refine avoids_bind (avoids_index _ _ ?_) ?_
        · show s.m_activeSliceEdgeIndex.get b + 1 < (s.chain b).length
          omega
        intro pb _
        refine avoids_bind (lineInterceptXChecked_avoids _ _ _) ?_
        intro x _
        refine avoids_ite ?_ ?_
        · intro _
          refine avoids_pure (segmentStep_of_same b s _ ?_ h)
          exact setSliceRowPoint_segments _ _ _
        · intro _
          refine avoids_imp (whileAdvanceInwardLine_avoids b _ _
            (segmentStep_of_same b s _ ?_ h).2.2.2 ?_)
            (fun r hr => segmentStep_trans (segmentStep_of_same b s _ ?_ h) hr)
          · exact setSliceRowPoint_segments _ _ _
          · cases b <;> exact Nat.le_add_right_of_le (Nat.le_add_right_of_le (Nat.le_succ _))
          · exact setSliceRowPoint_segments _ _ _
  · intro _
    refine avoids_ite ?_ ?_
    · intro hc
      simp at hc
      have hc' : (s.chain b).length ≤ s.m_activeSliceEdgeIndex.get b + 1 := hc
      omega
    · intro _
      refine avoids_bind (avoids_index _ _ ?_) ?_
      · show s.m_activeSliceEdgeIndex.get b < (s.chain b).length
        omega
      intro pa _
      refine avoids_bind (avoids_index _ _ ?_) ?_
      · show s.m_activeSliceEdgeIndex.get b + 1 < (s.chain b).length
        omega
      intro pb _
      refine avoids_bind (lineInterceptXChecked_avoids _ _ _) ?_
      intro x _
      refine avoids_pure (segmentStep_of_same b s _ ?_ h)
      exact setSliceRowPoint_segments _ _ _

theorem segmentInRange_other {b : Bool} {s r : ConvexMeshIteratorDebug}
    (h : SegmentStep b s r) (ho : s.SegmentInRange (!b)) : r.SegmentInRange (!b) := by
  unfold SegmentInRange chain at ho ⊢
  rw [h.1, h.2.1]; exact ho

theorem advanceRow_avoids (s : ConvexMeshIteratorDebug)
    (hR : s.SegmentInRange RIGHT_SIDE) (hL : s.SegmentInRange LEFT_SIDE) :
    Avoids SegmentFailure (fun r => r.m_sliceRasterizeEdges = s.m_sliceRasterizeEdges
      ∧ r.SegmentInRange RIGHT_SIDE ∧ r.SegmentInRange LEFT_SIDE) (advanceRow s) := by
  unfold advanceRow
  refine avoids_bind (advanceRowHelper_avoids RIGHT_SIDE _ ?_) ?_
  · exact hR
  intro s1 h1
  have hL1 : s1.SegmentInRange LEFT_SIDE := segmentInRange_other h1 hL
  refine avoids_imp (advanceRowHelper_avoids LEFT_SIDE s1 hL1) ?_
  intro r hr
  exact ⟨hr.1.trans h1.1, segmentInRange_other hr h1.2.2.2, hr.2.2.2⟩

theorem setupSliceRows_segments (s : ConvexMeshIteratorDebug)
    (hR : 2 ≤ (s.chain RIGHT_SIDE).length) (hL : 2 ≤ (s.chain LEFT_SIDE).length) :
    Ensures (fun r => r.m_sliceRasterizeEdges = s.m_sliceRasterizeEdges
      ∧ r.SegmentInRange RIGHT_SIDE ∧ r.SegmentInRange LEFT_SIDE) (setupSliceRows s) := by
  unfold setupSliceRows
  apply ensures_bindVal; intro first
  apply ensures_bindVal; intro last
  refine ensures_ite ?_ ?_
  · intro _; exact ensures_error
  · intro _
    refine ensures_ite ?_ ?_
    · intro _; exact ensures_error
    · intro _
      exact ensures_ok ⟨rfl, hR, hL⟩

end ConvexMeshIteratorDebug

/-- C38: `setupSlice` of the mesh iterator resets both segment indices to 0, so when both
chains have at least two points each active segment index is at most the chain size minus
2. From every state in which this holds, `setupSliceHelper`, `advanceRowHelper`,
`preAdvanceOutwardLine`, `advanceOutwardLine` and both forms of `advanceInwardLine` leave
the chains as they are and the segment index at most the chain size minus 2, and so does
`advanceRow` for both sides; none of them fails an assertion `index + 1 < size` or reads a
chain outside its range, and each loop over `advanceOutwardLine` or `advanceInwardLine`
ends within chain size minus 1 passes. -/
theorem mesh_segment_index_stays_in_range :
    (∀ (s s1 : ConvexMeshIteratorDebug), 2 ≤ (s.chain RIGHT_SIDE).length →
        2 ≤ (s.chain LEFT_SIDE).length → s.setupSliceRows = .ok s1 →
        s1.m_sliceRasterizeEdges = s.m_sliceRasterizeEdges
          ∧ s1.SegmentInRange RIGHT_SIDE ∧ s1.SegmentInRange LEFT_SIDE)
      ∧ ∀ (s : ConvexMeshIteratorDebug), s.SegmentInRange RIGHT_SIDE →
        s.SegmentInRange LEFT_SIDE →
        (∀ b, Avoids SegmentFailure (ConvexMeshIteratorDebug.SegmentStep b s)
              (s.setupSliceHelper b)
            ∧ Avoids SegmentFailure (ConvexMeshIteratorDebug.SegmentStep b s)
              (s.advanceRowHelper b)
            ∧ Avoids SegmentFailure (fun r => ConvexMeshIteratorDebug.SegmentStep b s r.2)
              (s.preAdvanceOutwardLine b)
            ∧ Avoids SegmentFailure (fun r => ConvexMeshIteratorDebug.SegmentStep b s r.2)
              (s.advanceOutwardLine b)
            ∧ Avoids SegmentFailure (fun r => ConvexMeshIteratorDebug.SegmentStep b s r.2)
              (s.advanceInwardLineFirst b)
            ∧ Avoids SegmentFailure (fun r => ConvexMeshIteratorDebug.SegmentStep b s r.2)
              (s.advanceInwardLineLater b)
            ∧ Avoids SegmentFailure (ConvexMeshIteratorDebug.SegmentStep b s)
              (ConvexMeshIteratorDebug.whileAdvanceOutwardLine ((s.chain b).length - 1) b s)
            ∧ Avoids SegmentFailure (ConvexMeshIteratorDebug.SegmentStep b s)
              (ConvexMeshIteratorDebug.whileAdvanceInwardLine ((s.chain b).length - 1) b s))
          ∧ Avoids SegmentFailure (fun r => r.m_sliceRasterizeEdges = s.m_sliceRasterizeEdges
              ∧ r.SegmentInRange RIGHT_SIDE ∧ r.SegmentInRange LEFT_SIDE) s.advanceRow := by
  refine ⟨fun s s1 hR hL h => ConvexMeshIteratorDebug.setupSliceRows_segments s hR hL s1 h, ?_⟩
  intro s hR hL
  refine ⟨fun b => ?_, ConvexMeshIteratorDebug.advanceRow_avoids s hR hL⟩
  have hb : s.SegmentInRange b := by
    cases b
    · exact hR
    · exact hL
  have hb' : s.m_activeSliceEdgeIndex.get b + 2 ≤ (s.chain b).length := hb
  exact ⟨ConvexMeshIteratorDebug.setupSliceHelper_avoids b s hb,
    ConvexMeshIteratorDebug.advanceRowHelper_avoids b s hb,
    ConvexMeshIteratorDebug.preAdvanceOutwardLine_avoids b s hb,
    avoids_imp (ConvexMeshIteratorDebug.advanceOutwardLine_avoids b s hb) (fun r hr => hr.1),
    avoids_imp (ConvexMeshIteratorDebug.advanceInwardLineFirst_avoids b s hb) (fun r hr => hr.1),
    avoids_imp (ConvexMeshIteratorDebug.advanceInwardLineLater_avoids b s hb) (fun r hr => hr.1),
    ConvexMeshIteratorDebug.whileAdvanceOutwardLine_avoids b _ s hb (by omega),
    ConvexMeshIteratorDebug.whileAdvanceInwardLine_avoids b _ s hb (by omega)⟩

/-- C38 at the iterator built for `slantedMesh`, whose chains have three points each:
`advanceRow` keeps the chains and both segment indices in range. -/
theorem mesh_segment_index_stays_in_range_witness :
    (ConvexMeshIteratorDebug.built slantedMesh ⟨0, 1, 2⟩ ⟨1, 1, 1⟩ ⟨⟨0, 0, 0⟩, ⟨3, 3, 3⟩⟩
        ⟨1, 1, 1⟩).m_sliceRasterizeEdges
      = ⟨[⟨1 / 4, 1 / 4⟩, ⟨9 / 4, 5 / 4⟩, ⟨9 / 4, 11 / 4⟩],
         [⟨1 / 4, 1 / 4⟩, ⟨1 / 4, 7 / 4⟩, ⟨9 / 4, 11 / 4⟩]⟩
    ∧ Avoids SegmentFailure
        (fun r => r.m_sliceRasterizeEdges = (ConvexMeshIteratorDebug.built slantedMesh ⟨0, 1, 2⟩
            ⟨1, 1, 1⟩ ⟨⟨0, 0, 0⟩, ⟨3, 3, 3⟩⟩ ⟨1, 1, 1⟩).m_sliceRasterizeEdges
          ∧ r.SegmentInRange RIGHT_SIDE ∧ r.SegmentInRange LEFT_SIDE)
        (ConvexMeshIteratorDebug.built slantedMesh ⟨0, 1, 2⟩ ⟨1, 1, 1⟩ ⟨⟨0, 0, 0⟩, ⟨3, 3, 3⟩⟩
          ⟨1, 1, 1⟩).advanceRow :=
  ⟨by decide!, (mesh_segment_index_stays_in_range.2 _
    (show _ + 2 ≤ _ by decide!) (show _ + 2 ≤ _ by decide!)).2⟩

/-! ## The active-edge table of the mesh iterator -/

theorem EdgeMap.find?_map_assign {β : Type} (k e : Nat) (v : β) (h : e ≠ k) :
    ∀ m : EdgeMap β,
      (m.map (fun p => if p.1 == k then (k, v) else p)).find? (fun p => p.1 == e)
        = m.find? (fun p => p.1 == e) := by
  intro m
  induction m with
  | nil => rfl
  | cons q m ih =>
    rw [List.map_cons, List.find?_cons, List.find?_cons, ih]
    by_cases hq : q.1 = k
    · have h1 : (q.1 == k) = true := by simpa using hq
      have h2 : (k == e) = false := by simpa using (fun h' : k = e => h h'.symm)
      have h3 : (q.1 == e) = false := by
        rw [hq]; exact h2
      simp only [h1, if_true, h2, h3]
    · have h1 : (q.1 == k) = false := by simpa using hq
      simp only [h1, Bool.false_eq_true, if_false]

theorem EdgeMap.find?_map_assign_self {β : Type} (k : Nat) (v : β) :
    ∀ m : EdgeMap β, m.any (fun p => p.1 == k) = true →
      (m.map (fun p => if p.1 == k then (k, v) else p)).find? (fun p => p.1 == k)
        = some (k, v) := by
  intro m
  induction m with
  | nil => intro h; cases h
  | cons q m ih =>
    intro h
    rw [List.map_cons, List.find?_cons]
    by_cases hq : q.1 = k
    · have h1 : (q.1 == k) = true := by simpa using hq
      have h2 : (k == k) = true := by simp
      simp only [h1, if_true, h2]
    · have h1 : (q.1 == k) = false := by simpa using hq
      simp only [h1, Bool.false_eq_true, if_false]
      rw [List.any_cons, h1, Bool.false_or] at h
      exact ih h

theorem EdgeMap.at_assign_self {β : Type} (m : EdgeMap β) (k : Nat) (v : β) :
    (m.assign k v).at k = .ok v := by
  unfold EdgeMap.assign
  by_cases hany : m.any (fun p => p.1 == k) = true
  · rw [if_pos hany]
    unfold EdgeMap.at
    rw [EdgeMap.find?_map_assign_self k v m hany]
  · rw [if_neg hany]
    have hnone : m.find? (fun p => p.1 == k) = none := by
      rw [List.find?_eq_none]
      intro x hx hxk
      apply hany
      rw [List.any_eq_true]
      exact ⟨x, hx, hxk⟩
    unfold EdgeMap.at
    rw [List.find?_append, hnone]
    simp

theorem EdgeMap.at_assign_of_ne {β : Type} (m : EdgeMap β) (k e : Nat) (v : β) (h : e ≠ k) :
    (m.assign k v).at e = m.at e := by
  unfold EdgeMap.assign
  by_cases hany : m.any (fun p => p.1 == k) = true
  · rw [if_pos hany]
    unfold EdgeMap.at
    rw [EdgeMap.find?_map_assign k e v h m]
  · rw [if_neg hany]
    unfold EdgeMap.at
    rw [List.find?_append]
    cases hf : m.find? (fun p => p.1 == e) with
    | some p => rfl
    | none =>
      have h2 : (k == e) = false := by simpa using (fun h' : k = e => h h'.symm)
      simp [List.find?, h2]

theorem EdgeMap.mem_assign {β : Type} (m : EdgeMap β) (k e : Nat) (v c : β)
    (h : (e, c) ∈ m.assign k v) : (e = k ∧ c = v) ∨ ((e, c) ∈ m ∧ e ≠ k) := by
  unfold EdgeMap.assign at h
  by_cases hany : m.any (fun p => p.1 == k) = true
  · rw [if_pos hany] at h
    rw [List.mem_map] at h
    obtain ⟨p, hp, hpe⟩ := h
    by_cases hk : p.1 = k
    · have h1 : (p.1 == k) = true := by simpa using hk
      rw [if_pos h1] at hpe
      cases hpe
      exact Or.inl ⟨rfl, rfl⟩
    · have h1 : ¬ (p.1 == k) = true := by simpa using hk
      rw [if_neg h1] at hpe
      subst hpe
      exact Or.inr ⟨hp, hk⟩
  · rw [if_neg hany] at h
    rw [List.mem_append] at h
    rcases h with h | h
    · refine Or.inr ⟨h, ?_⟩
      intro hek
      apply hany
      rw [List.any_eq_true]
      exact ⟨(e, c), h, by simpa using hek⟩
    · simp at h
      exact Or.inl h

theorem ensures_foldlM_mem {α γ : Type} {Q : α → Prop} {f : α → γ → Except Failure α}
    (l : List γ) (step : ∀ a c, c ∈ l → Q a → Ensures Q (f a c)) :
    ∀ a, Q a → Ensures Q (l.foldlM f a) := by
  induction l with
  | nil => intro a h; exact ensures_pure h
  | cons c l ih =>
    intro a h
    rw [List.foldlM_cons]
    exact ensures_bind (step a c (List.mem_cons_self _ _) h)
      (ih (fun a' c' hc' => step a' c' (List.mem_cons_of_mem _ hc')))

namespace ConvexMeshIteratorDebug

theorem setSliceRowPoint_edges (b : Bool) (x : ℚ) (s : ConvexMeshIteratorDebug) :
    (s.setSliceRowPoint b x).edgesOf = s.edgesOf := by
  unfold setSliceRowPoint; cases b <;> rfl

theorem advanceInwardLineLater_edges (b : Bool) (s : ConvexMeshIteratorDebug) :
    Keeps edgesOf Prod.snd s (advanceInwardLineLater b s) := by
  unfold advanceInwardLineLater
  apply keeps_ite
  · exact keeps_pure rfl
  · apply keeps_bindVal; intro n
    apply keeps_ite <;> exact keeps_pure rfl

theorem whileAdvanceInwardLine_edges (b : Bool) (fuel : Nat) : ∀ (s : ConvexMeshIteratorDebug),
    Keeps edgesOf id s (whileAdvanceInwardLine fuel b s) := by
  induction fuel with
  | zero => intro s; exact keeps_error
  | succ n ih =>
    intro s
    unfold whileAdvanceInwardLine
    apply keeps_bindState (advanceInwardLineLater_edges b s)
    rintro ⟨again, s1⟩ h1
    apply keeps_ite
    · exact keeps_rebase h1 (ih s1)
    · exact keeps_pure h1

theorem advanceInwardLineFirst_edges (b : Bool) (s : ConvexMeshIteratorDebug) :
    Keeps edgesOf Prod.snd s (advanceInwardLineFirst b s) := by
  unfold advanceInwardLineFirst
  apply keeps_ite
  · exact keeps_pure rfl
  · apply keeps_bindVal; intro n
    apply keeps_ite
    · exact keeps_pure rfl
    · apply keeps_bindState (whileAdvanceInwardLine_edges b _ _)
      intro s1 h1
      exact keeps_pure h1

theorem whileAdvanceInwardLineFirst_edges (b : Bool) (fuel : Nat) :
    ∀ (s : ConvexMeshIteratorDebug), Keeps edgesOf id s (whileAdvanceInwardLineFirst fuel b s) := by
  induction fuel with
  | zero => intro s; exact keeps_error
  | succ n ih =>
    intro s
    unfold whileAdvanceInwardLineFirst
    apply keeps_bindState (advanceInwardLineFirst_edges b s)
    rintro ⟨again, s1⟩ h1
    apply keeps_ite
    · exact keeps_rebase h1 (ih s1)
    · exact keeps_pure h1

theorem ite_setSliceRowPoint_edges (c : Prop) [Decidable c] (b : Bool) (x : ℚ)
    (s : ConvexMeshIteratorDebug) :
    (if c then s.setSliceRowPoint b x else s).edgesOf = s.edgesOf := by
  split
  · exact setSliceRowPoint_edges _ _ _
  · rfl

theorem advanceOutwardLine_edges (b : Bool) (s : ConvexMeshIteratorDebug) :
    Keeps edgesOf Prod.snd s (advanceOutwardLine b s) := by
  unfold advanceOutwardLine
  apply keeps_ite
  · apply keeps_bindVal; intro p
    exact keeps_pure (setSliceRowPoint_edges _ _ _)
  · apply keeps_bindVal; intro pb
    apply keeps_bindVal; intro pa
    apply keeps_bindVal; intro n
    have hs := ite_setSliceRowPoint_edges ((!geq pb.x pa.x (if b then -1 else 1)) = true) b pa.x
      { s with
        m_activeSliceEdgeIndex := s.m_activeSliceEdgeIndex.set b (s.m_activeSliceEdgeIndex.get b + 1)
        m_activeSliceEdgeOutward :=
          s.m_activeSliceEdgeOutward.set b (geq pb.x pa.x (if b then -1 else 1)) }
    apply keeps_ite
    · apply keeps_ite
      · apply keeps_bindVal; intro x
        exact keeps_pure ((setSliceRowPoint_edges _ _ _).trans hs)
      · exact keeps_pure hs
    · apply keeps_ite
      · apply keeps_bindState (keeps_rebase hs (whileAdvanceInwardLine_edges b _ _))
        intro s1 h1
        exact keeps_pure h1
      · exact keeps_pure hs

theorem whileAdvanceOutwardLine_edges (b : Bool) (fuel : Nat) :
    ∀ (s : ConvexMeshIteratorDebug), Keeps edgesOf id s (whileAdvanceOutwardLine fuel b s) := by
  induction fuel with
  | zero => intro s; exact keeps_error
  | succ n ih =>
    intro s
    unfold whileAdvanceOutwardLine
    apply keeps_bindState (advanceOutwardLine_edges b s)
    rintro ⟨again, s1⟩ h1
    apply keeps_ite
    · exact keeps_rebase h1 (ih s1)
    · exact keeps_pure h1

theorem preAdvanceOutwardLine_edges (b : Bool) (s : ConvexMeshIteratorDebug) :
    Keeps edgesOf Prod.snd s (preAdvanceOutwardLine b s) := by
  unfold preAdvanceOutwardLine
  apply keeps_bindVal; intro n
  apply keeps_ite
  · apply keeps_bindVal; intro pa
    apply keeps_bindVal; intro pb
    apply keeps_bindVal; intro x
    exact keeps_pure (setSliceRowPoint_edges _ _ _)
  · exact keeps_pure rfl

theorem setupSliceHelper_edges (b : Bool) (s : ConvexMeshIteratorDebug) :
    Keeps edgesOf id s (setupSliceHelper b s) := by
  unfold setupSliceHelper
  apply keeps_ite
  · exact keeps_error
  apply keeps_bindVal; intro p1
  apply keeps_bindVal; intro p0
  apply keeps_ite
  · apply keeps_bindState (keeps_via (preAdvanceOutwardLine_edges b _) rfl)
    rintro ⟨again, s1⟩ h1
    apply keeps_ite
    · exact keeps_rebase h1 (whileAdvanceOutwardLine_edges b _ s1)
    · exact keeps_pure h1
  · exact keeps_via (whileAdvanceInwardLineFirst_edges b _ _) (setSliceRowPoint_edges _ _ _)

theorem collectSlicePoints_edges (s : ConvexMeshIteratorDebug) :
    Keeps edgesOf id s (collectSlicePoints s) := by
  unfold collectSlicePoints
  refine keeps_foldlM ?_ _ rfl
  intro a activeEdge
  apply keeps_bindVal; intro edge
  apply keeps_bindVal; intro p0
  apply keeps_bindVal; intro p1
  apply keeps_ite
  · exact keeps_error
  · exact keeps_pure rfl

theorem buildSliceHull_edges (s : ConvexMeshIteratorDebug) :
    Keeps edgesOf id s (buildSliceHull s) := by
  unfold buildSliceHull
  apply keeps_ite
  · exact keeps_error
  · apply keeps_ite
    · exact keeps_error
    · apply keeps_ite
      · exact keeps_error
      · exact keeps_ok rfl

theorem setupSliceRows_edges (s : ConvexMeshIteratorDebug) :
    Keeps edgesOf id s (setupSliceRows s) := by
  unfold setupSliceRows
  apply keeps_bindVal; intro first
  apply keeps_bindVal; intro last
  apply keeps_ite
  · exact keeps_error
  · apply keeps_ite
    · exact keeps_error
    · exact keeps_ok rfl

theorem setupSlice_edges (s : ConvexMeshIteratorDebug) :
    Keeps edgesOf id s (setupSlice s) := by
  unfold setupSlice
  apply keeps_bindState ((collectSlicePoints_edges s))
  intro s1 h1
  apply keeps_bindState (keeps_rebase h1 ((buildSliceHull_edges s1)))
  intro s2 h2
  apply keeps_bindState (keeps_rebase h2 (setupSliceRows_edges s2))
  intro s3 h3
  apply keeps_bindState (keeps_rebase h3 ((setupSliceHelper_edges LEFT_SIDE s3)))
  intro s4 h4
  apply keeps_ite
  · exact keeps_error
  · apply keeps_bindState (keeps_rebase h4 ((setupSliceHelper_edges RIGHT_SIDE s4)))
    intro s5 h5
    apply keeps_ite
    · exact keeps_error
    · exact keeps_ok h5

theorem grows_refl (s : ConvexMeshIteratorDebug) : Grows s s :=
  ⟨rfl, fun _ h => ⟨h, rfl⟩⟩

theorem grows_trans {s t r : ConvexMeshIteratorDebug} (h1 : Grows s t) (h2 : Grows t r) :
    Grows s r :=
  ⟨h2.1.trans h1.1, fun e he =>
    ⟨(h2.2 e (h1.2 e he).1).1, (h2.2 e (h1.2 e he).1).2.trans (h1.2 e he).2⟩⟩

theorem entrySound_of_grows {s r : ConvexMeshIteratorDebug} (h : Grows s r) {e : Nat} {c : Int}
    (he : s.EntrySound e c) : r.EntrySound e c := by
  obtain ⟨hc, hchk, d, edge, hd, hedge, hend⟩ := he
  refine ⟨hc, (h.2 e hchk).1, d, edge, ?_, ?_, hend⟩
  · rw [(h.2 e hchk).2]; exact hd
  · rw [h.1]; exact hedge

theorem tableSound_of_grows {s r : ConvexMeshIteratorDebug} (h : Grows s r)
    {table : EdgeMap Int} (ht : s.TableSound table) : r.TableSound table :=
  fun e c hec => entrySound_of_grows h (ht e c hec)

theorem grows_of_edges {s r : ConvexMeshIteratorDebug}
    (hm : r.m_meshEdgeList = s.m_meshEdgeList) (hc : r.m_isEdgeChecked = s.m_isEdgeChecked)
    (hd : r.m_activeEdgeDestPoint = s.m_activeEdgeDestPoint) : Grows s r :=
  ⟨hm, fun e he => ⟨by rw [hc]; exact he, by rw [hd]⟩⟩

theorem addPointRecursive_sound (fuel : Nat) : ∀ (point : Nat)
    (acc : ConvexMeshIteratorDebug × EdgeMap Int),
    Ensures (fun r => Grows acc.1 r.1 ∧ (acc.1.TableSound acc.2 → r.1.TableSound r.2))
      (addPointRecursive fuel point acc) := by
  induction fuel with
  | zero => intro point acc; exact ensures_error
  | succ n ih =>
    intro point acc
    unfold addPointRecursive
    refine ensures_foldlM ?_ _ _ ⟨grows_refl _, id⟩
    intro a edgeIndex ha
    refine ensures_bind (ensures_index _ _) ?_
    intro checked hchecked
    refine ensures_ite ?_ ?_
    · intro _
      exact ensures_pure ha
    · intro hnot
      have hfalse : a.1.m_isEdgeChecked.get? edgeIndex = some false := by
        cases checked
        · exact hchecked
        · exact absurd rfl hnot
      have hlt : edgeIndex < a.1.m_isEdgeChecked.length :=
        (List.get?_eq_some.1 hfalse).1
      have hset : ∀ e, a.1.m_isEdgeChecked.get? e = some true →
          (a.1.m_isEdgeChecked.set edgeIndex true).get? e = some true := by
        intro e he
        have hne : edgeIndex ≠ e := by
          intro h; rw [h] at hfalse; rw [hfalse] at he; cases he
        rw [List.get?_eq_getElem?, List.getElem?_set_ne hne, ← List.get?_eq_getElem?]
        exact he
      refine ensures_bind (ensures_index _ _) ?_
      intro edge hedge
      apply ensures_bindVal; intro other
      refine ensures_ite ?_ ?_
      · intro _
        have hg : Grows a.1 { a.1 with
            m_isEdgeChecked := a.1.m_isEdgeChecked.set edgeIndex true } :=
          ⟨rfl, fun e he => ⟨hset e he, rfl⟩⟩
        refine ensures_imp (ih _ (_, a.2)) ?_
        intro r hr
        exact ⟨grows_trans ha.1 (grows_trans hg hr.1),
          fun h0 => hr.2 (tableSound_of_grows hg (ha.2 h0))⟩
      · intro hpos
        refine ensures_pure ?_
        have hg : Grows a.1 { a.1 with
            m_isEdgeChecked := a.1.m_isEdgeChecked.set edgeIndex true
            m_activeEdgeDestPoint := a.1.m_activeEdgeDestPoint.assign edgeIndex
              (if point = edge.1 then edge.2 else edge.1) } := by
          refine ⟨rfl, fun e he => ⟨hset e he, ?_⟩⟩
          have hne : e ≠ edgeIndex := by
            intro h; rw [h] at he; rw [hfalse] at he; cases he
          exact EdgeMap.at_assign_of_ne _ _ _ _ hne
        refine ⟨grows_trans ha.1 hg, ?_⟩
        intro h0 e c hec
        rcases EdgeMap.mem_assign _ _ _ _ _ hec with ⟨rfl, rfl⟩ | ⟨hmem, hne⟩
        · refine ⟨by omega, ?_, (if point = edge.1 then edge.2 else edge.1), edge,
            EdgeMap.at_assign_self _ _ _, hedge, ?_⟩
          · show (a.1.m_isEdgeChecked.set e true).get? e = some true
            rw [List.get?_eq_getElem?, List.getElem?_set_self hlt]
          · split
            · exact Or.inr rfl
            · exact Or.inl rfl
        · exact entrySound_of_grows hg (ha.2 h0 e c hmem)

theorem addPoint_sound (point : Nat) (acc : ConvexMeshIteratorDebug × EdgeMap Int) :
    Ensures (fun r => Grows acc.1 r.1 ∧ (acc.1.TableSound acc.2 → r.1.TableSound r.2))
      (addPoint point acc) := by
  unfold addPoint
  apply ensures_bindVal; intro p
  refine ensures_imp (addPointRecursive_sound _ point (_, acc.2)) ?_
  intro r hr
  have hg : Grows acc.1 _ := grows_of_edges rfl rfl rfl
  exact ⟨grows_trans hg hr.1, fun h0 => hr.2 (tableSound_of_grows hg h0)⟩

theorem activeEdgesSound_of_edges {s r : ConvexMeshIteratorDebug}
    (h : r.edgesOf = s.edgesOf) (hs : s.ActiveEdgesSound) : r.ActiveEdgesSound := by
  have hm : r.m_meshEdgeList = s.m_meshEdgeList := congrArg (fun p => p.1) h
  have hc : r.m_isEdgeChecked = s.m_isEdgeChecked := congrArg (fun p => p.2.1) h
  have ha : r.m_activeEdges = s.m_activeEdges := congrArg (fun p => p.2.2.1) h
  have hd : r.m_activeEdgeDestPoint = s.m_activeEdgeDestPoint := congrArg (fun p => p.2.2.2) h
  unfold ActiveEdgesSound
  rw [ha]
  exact tableSound_of_grows (grows_of_edges hm hc hd) hs

theorem addFirstSlicePoints_sound (s : ConvexMeshIteratorDebug) (hs : s.ActiveEdgesSound) :
    Ensures ActiveEdgesSound (addFirstSlicePoints s) := by
  unfold addFirstSlicePoints
  refine ensures_bindWith (fun r : ConvexMeshIteratorDebug × EdgeMap Int => r.1.TableSound r.2)
    ?_ ?_
  · refine ensures_foldlM ?_ _ _ hs
    intro a point ha
    apply ensures_bindVal; intro p
    refine ensures_ite ?_ ?_
    · intro _
      exact ensures_imp (addPoint_sound point a) (fun r hr => hr.2 ha)
    · intro _
      exact ensures_pure ha
  · rintro ⟨s1, activeEdges⟩ h1
    exact ensures_pure h1

theorem countDownActiveEdges_sound (s : ConvexMeshIteratorDebug) (hs : s.ActiveEdgesSound) :
    Ensures (fun r => r.1.TableSound r.2) (countDownActiveEdges s) := by
  unfold countDownActiveEdges
  have key : Ensures (fun r : ConvexMeshIteratorDebug × EdgeMap Int =>
      Grows s r.1 ∧ r.1.TableSound r.2) (s.m_activeEdges.foldlM
        (fun (acc : ConvexMeshIteratorDebug × EdgeMap Int) activeEdge => do
          let edgeIndex := activeEdge.1
          let activeEdgeCountdown := activeEdge.2 - 1
          if activeEdgeCountdown = 0 then
            let destPoint ← acc.1.m_activeEdgeDestPoint.at edgeIndex
            addPoint destPoint acc
          else
            pure (acc.1, acc.2.assign edgeIndex activeEdgeCountdown)) (s, [])) := by
    refine ensures_foldlM_mem _ ?_ _ ⟨grows_refl s, fun e c h => by cases h⟩
    rintro a ⟨e, c⟩ hmem ha
    have hentry : a.1.EntrySound e c := entrySound_of_grows ha.1 (hs e c hmem)
    refine ensures_ite ?_ ?_
    · intro _
      apply ensures_bindVal; intro destPoint
      refine ensures_imp (addPoint_sound destPoint a) ?_
      intro r hr
      exact ⟨grows_trans ha.1 hr.1, hr.2 ha.2⟩
    · intro hne
      refine ensures_pure ⟨ha.1, ?_⟩
      intro e' c' hec
      rcases EdgeMap.mem_assign _ _ _ _ _ hec with ⟨rfl, rfl⟩ | ⟨hmem', _⟩
      · obtain ⟨hc, hrest⟩ := hentry
        refine ⟨?_, hrest⟩
        have hne' : c - 1 ≠ 0 := hne
        omega
      · exact ha.2 e' c' hmem'
  exact ensures_imp key (fun r hr => hr.2)

theorem advanceSlice_sound (s : ConvexMeshIteratorDebug) (hs : s.ActiveEdgesSound) :
    Ensures ActiveEdgesSound (advanceSlice s) := by
  unfold advanceSlice
  refine ensures_bind (countDownActiveEdges_sound _ hs) ?_
  rintro ⟨s1, activeEdgesCopy⟩ h1
  intro r hr
  exact activeEdgesSound_of_edges (setupSlice_edges _ r hr) h1

theorem construct_sound (meshEdgeList : MeshEdgeList) (dimensionOrder : Vec3 (Fin 3))
    (directionSign : Vec3 Int) (bounds : Box Int) (cellDimensions : Vec3 ℚ) :
    Ensures ActiveEdgesSound
      (construct meshEdgeList dimensionOrder directionSign bounds cellDimensions) := by
  unfold construct
  refine ensures_bind (addFirstSlicePoints_sound _ (fun e c h => by cases h)) ?_
  intro s1 h1
  intro r hr
  exact activeEdgesSound_of_edges (setupSlice_edges _ r hr) h1

end ConvexMeshIteratorDebug

/-- C37: after the constructor of the mesh iterator, and after every `advanceSlice` that
starts from a state in which this holds, every entry of the active-edge table has a
countdown of at least 1, its edge is marked checked, and the destination point recorded
for the edge is one of the two end points of the edge. -/
theorem mesh_active_edge_table_sound :
    (∀ (meshEdgeList : MeshEdgeList) (dimensionOrder : Vec3 (Fin 3)) (directionSign : Vec3 Int)
        (bounds : Box Int) (cellDimensions : Vec3 ℚ) (s : ConvexMeshIteratorDebug),
        ConvexMeshIteratorDebug.construct meshEdgeList dimensionOrder directionSign bounds
          cellDimensions = .ok s → s.ActiveEdgesSound)
      ∧ ∀ (s s' : ConvexMeshIteratorDebug), s.ActiveEdgesSound → s.advanceSlice = .ok s' →
        s'.ActiveEdgesSound :=
  ⟨fun meshEdgeList dimensionOrder directionSign bounds cellDimensions s h =>
      ConvexMeshIteratorDebug.construct_sound meshEdgeList dimensionOrder directionSign bounds
        cellDimensions s h,
    fun s s' hs h => ConvexMeshIteratorDebug.advanceSlice_sound s hs s' h⟩

/-- C37 at the iterator built for a box that spans three slices: the four edges along
the slice axis are active with the countdown 2, and with the countdown 1 after
`advanceSlice`. -/
theorem mesh_active_edge_table_sound_witness :
    (ConvexMeshIteratorDebug.built (boxMesh ⟨1 / 4, 1 / 4, 1 / 4⟩ ⟨3 / 4, 3 / 4, 11 / 4⟩)
        ⟨0, 1, 2⟩ ⟨1, 1, 1⟩ ⟨⟨0, 0, 0⟩, ⟨3, 3, 3⟩⟩ ⟨1, 1, 1⟩).m_activeEdges
        = [(8, 2), (10, 2), (11, 2), (9, 2)]
      ∧ (ConvexMeshIteratorDebug.built (boxMesh ⟨1 / 4, 1 / 4, 1 / 4⟩ ⟨3 / 4, 3 / 4, 11 / 4⟩)
        ⟨0, 1, 2⟩ ⟨1, 1, 1⟩ ⟨⟨0, 0, 0⟩, ⟨3, 3, 3⟩⟩ ⟨1, 1, 1⟩).ActiveEdgesSound
      ∧ ∃ s', (ConvexMeshIteratorDebug.built (boxMesh ⟨1 / 4, 1 / 4, 1 / 4⟩
          ⟨3 / 4, 3 / 4, 11 / 4⟩) ⟨0, 1, 2⟩ ⟨1, 1, 1⟩ ⟨⟨0, 0, 0⟩, ⟨3, 3, 3⟩⟩
          ⟨1, 1, 1⟩).advanceSlice = .ok s'
        ∧ s'.m_activeEdges = [(8, 1), (10, 1), (11, 1), (9, 1)] ∧ s'.ActiveEdgesSound := by
  have hc : ConvexMeshIteratorDebug.construct (boxMesh ⟨1 / 4, 1 / 4, 1 / 4⟩
      ⟨3 / 4, 3 / 4, 11 / 4⟩) ⟨0, 1, 2⟩ ⟨1, 1, 1⟩ ⟨⟨0, 0, 0⟩, ⟨3, 3, 3⟩⟩ ⟨1, 1, 1⟩
      = .ok (ConvexMeshIteratorDebug.built (boxMesh ⟨1 / 4, 1 / 4, 1 / 4⟩
        ⟨3 / 4, 3 / 4, 11 / 4⟩) ⟨0, 1, 2⟩ ⟨1, 1, 1⟩ ⟨⟨0, 0, 0⟩, ⟨3, 3, 3⟩⟩ ⟨1, 1, 1⟩) := by
    decide!
  have h0 := mesh_active_edge_table_sound.1 _ _ _ _ _ _ hc
  refine ⟨by decide!, h0, ?_⟩
  cases hadv : (ConvexMeshIteratorDebug.built (boxMesh ⟨1 / 4, 1 / 4, 1 / 4⟩
      ⟨3 / 4, 3 / 4, 11 / 4⟩) ⟨0, 1, 2⟩ ⟨1, 1, 1⟩ ⟨⟨0, 0, 0⟩, ⟨3, 3, 3⟩⟩
      ⟨1, 1, 1⟩).advanceSlice with
  | error e =>
    have hok : ((ConvexMeshIteratorDebug.built (boxMesh ⟨1 / 4, 1 / 4, 1 / 4⟩
        ⟨3 / 4, 3 / 4, 11 / 4⟩) ⟨0, 1, 2⟩ ⟨1, 1, 1⟩ ⟨⟨0, 0, 0⟩, ⟨3, 3, 3⟩⟩
        ⟨1, 1, 1⟩).advanceSlice).toBool = true := by decide!
    rw [hadv] at hok
    cases hok
  | ok s' =>
    have hA : ((ConvexMeshIteratorDebug.built (boxMesh ⟨1 / 4, 1 / 4, 1 / 4⟩
        ⟨3 / 4, 3 / 4, 11 / 4⟩) ⟨0, 1, 2⟩ ⟨1, 1, 1⟩ ⟨⟨0, 0, 0⟩, ⟨3, 3, 3⟩⟩
        ⟨1, 1, 1⟩).advanceSlice).map (fun s => s.m_activeEdges)
        = .ok [(8, 1), (10, 1), (11, 1), (9, 1)] := by decide!
    rw [hadv] at hA
    exact ⟨s', rfl, Except.ok.inj hA, mesh_active_edge_table_sound.2 _ s' h0 hadv⟩

/-! ## The row rasterizers of the two iterators on one volume -/

/-- C34, the code at the failing input: both constructors are given the prism
`slantedPoints` in the range (0,0,0)-(3,3,3) of unit cells, the frustum iterator with all
direction signs +1 and the range minimum at the origin. Both build the same two chains.
In the first row the mesh iterator has the max column 1 and the right segment index 0,
the frustum iterator the max column 0 and the right segment index 1:
`FrustumIterator::setupSliceHelper` tests the direction of the first right segment with
the sign of the left side. -/
theorem rasterizers_differ_on_first_right_segment :
    (FrustumIterator.construct 1 slantedFrustum ⟨⟨0, 0, 0⟩, ⟨3, 3, 3⟩⟩ ⟨1, 1, 1⟩).map
        (fun s => (s.m_directionSign, s.m_range.m_min, s.m_sliceRasterizeEdges,
          s.m_currentPosition.get (s.m_dimensionOrder.get X_DIM), s.m_sliceMax.x,
          s.m_activeSliceEdgeIndex, s.m_activeSliceEdges))
      = .ok (⟨1, 1, 1⟩, ⟨0, 0, 0⟩,
          ⟨[⟨1 / 4, 1 / 4⟩, ⟨9 / 4, 5 / 4⟩, ⟨9 / 4, 11 / 4⟩],
           [⟨1 / 4, 1 / 4⟩, ⟨1 / 4, 7 / 4⟩, ⟨9 / 4, 11 / 4⟩]⟩, 0, 0, ⟨1, 0⟩, ⟨1, 1⟩)
    ∧ (ConvexMeshIteratorDebug.construct slantedMesh ⟨0, 1, 2⟩ ⟨1, 1, 1⟩ ⟨⟨0, 0, 0⟩, ⟨3, 3, 3⟩⟩
          ⟨1, 1, 1⟩).map
        (fun s => (s.m_sliceRasterizeEdges, s.m_currentPosition.x, s.m_sliceMax.x,
          s.m_activeSliceEdgeIndex, s.m_activeSliceEdges))
      = .ok (⟨[⟨1 / 4, 1 / 4⟩, ⟨9 / 4, 5 / 4⟩, ⟨9 / 4, 11 / 4⟩],
           [⟨1 / 4, 1 / 4⟩, ⟨1 / 4, 7 / 4⟩, ⟨9 / 4, 11 / 4⟩]⟩, 0, 1, ⟨0, 0⟩, ⟨1, 1⟩) := by
  decide!

/-! ## `advanceSlice` of the frustum iterator on a descending slice axis -/

/-- C36, the code at the failing input: a box that spans the slices 3 down to 0 of the
range along the slice axis z (direction sign -1) and three rows, so that the freshly built
iterator is not at its end. `advanceSlice()` moves `m_sliceStart` one cell down, from 3 to
2, and the slice coordinate of the cursor one cell up, from 3 to 4: the cursor moves by
`m_directionSign[SLICE_DIM]`, the direction sign of the x axis (+1), not by the slice
axis's own sign. -/
theorem frustum_advanceSlice_cursor_against_sliceStart :
    (FrustumIterator.construct 1 (boxFrustum ⟨1 / 4, 1 / 4, 1 / 4⟩ ⟨3 / 4, 9 / 4, 11 / 4⟩ ⟨3, 2, -1⟩)
        ⟨⟨0, 0, 0⟩, ⟨3, 3, 3⟩⟩ ⟨1, 1, 1⟩).map
      (fun s => (s.atEnd, s.m_dimensionOrder.get SLICE_DIM,
        s.m_directionSign.get (s.m_dimensionOrder.get SLICE_DIM),
        s.m_directionSign.get SLICE_DIM,
        s.m_cellDimensions.get (s.m_dimensionOrder.get SLICE_DIM),
        s.m_currentPosition.get (s.m_dimensionOrder.get SLICE_DIM), s.m_sliceStart,
        s.advanceSlice.map (fun r =>
          (r.2.m_currentPosition.get (s.m_dimensionOrder.get SLICE_DIM),
            r.2.m_sliceStart))))
      = .ok (false, 2, -1, 1, 1, 3, 3, .ok (4, 2)) := by
  decide!

/-! ## The hull chains of a thin volume -/

/-- C31, the code at the failing input: a box 1/2000 thick along the row axis. The
constructor collects eight slice points, `convexHull` leaves one point in each chain, and
the constructor fails the assertion that a chain has at least two points. So does the
constructor for the box of thickness 0 along the row axis, whose slice points all have
the same row coordinate. -/
theorem mesh_thin_box_chain_of_one_point :
    ((ConvexMeshIteratorDebug.addFirstSlicePoints
        (ConvexMeshIteratorDebug.initial (boxMesh ⟨1 / 4, 1 / 4, 1 / 4⟩ ⟨9 / 4, 501 / 2000, 3 / 4⟩)
          ⟨0, 1, 2⟩ ⟨1, 1, 1⟩ ⟨⟨0, 0, 0⟩, ⟨3, 3, 3⟩⟩ ⟨1, 1, 1⟩)).bind
        ConvexMeshIteratorDebug.collectSlicePoints).map
      (fun s => (s.m_pointList.elem0.length + s.m_pointList.elem1.length,
        ConvexMeshIteratorDebug.convexHull LEFT_SIDE
          ((s.m_pointList.elem0 ++ s.m_pointList.elem1).insertionSort
            ConvexMeshIteratorDebug.PointComparator),
        ConvexMeshIteratorDebug.convexHull RIGHT_SIDE
          ((s.m_pointList.elem0 ++ s.m_pointList.elem1).insertionSort
            ConvexMeshIteratorDebug.PointComparator)))
      = .ok (8, [⟨9 / 4, 501 / 2000⟩], [⟨9 / 4, 501 / 2000⟩])
    ∧ ConvexMeshIteratorDebug.construct (boxMesh ⟨1 / 4, 1 / 4, 1 / 4⟩ ⟨9 / 4, 501 / 2000, 3 / 4⟩)
        ⟨0, 1, 2⟩ ⟨1, 1, 1⟩ ⟨⟨0, 0, 0⟩, ⟨3, 3, 3⟩⟩ ⟨1, 1, 1⟩ = .error .assertChainSize
    ∧ ConvexMeshIteratorDebug.construct (boxMesh ⟨1 / 4, 1 / 4, 1 / 4⟩ ⟨9 / 4, 1 / 4, 3 / 4⟩)
        ⟨0, 1, 2⟩ ⟨1, 1, 1⟩ ⟨⟨0, 0, 0⟩, ⟨3, 3, 3⟩⟩ ⟨1, 1, 1⟩ = .error .assertChainSize := by
  decide!

/-! ## The columns of a row of the mesh iterator -/

theorem mem_segments {c : List (Vec2 ℚ)} {i : Nat} {a p : Vec2 ℚ} (ha : c.get? i = some a)
    (hp : c.get? (i + 1) = some p) : (a, p) ∈ segments c := by
  unfold segments
  have : (c.zip c.tail).get? i = some (a, p) := by
    simp only [List.get?_eq_getElem?] at ha hp ⊢
    rw [List.getElem?_zip_eq_some]
    refine ⟨ha, ?_⟩
    rw [List.getElem?_tail]; exact hp
  exact List.get?_mem this

theorem before_left (u v : ℚ) : Before (outwardSign true) u v ↔ v ≤ u := by
  simp [Before, outwardSign]

theorem before_right (u v : ℚ) : Before (outwardSign false) u v ↔ u ≤ v := by
  simp [Before, outwardSign]

theorem lineInterceptX_mul (a p : Vec2 ℚ) (y : ℚ) (h : a.y < p.y) :
    lineInterceptX a p y * (p.y - a.y) = p.x * (p.y - a.y) + (p.x - a.x) * (y - p.y) := by
  have hd : p.y - a.y ≠ 0 := by linarith
  unfold lineInterceptX
  field_simp

theorem lineInterceptX_end (a p : Vec2 ℚ) : lineInterceptX a p p.y = p.x := by
  unfold lineInterceptX; simp

theorem lineInterceptX_start (a p : Vec2 ℚ) (h : a.y < p.y) : lineInterceptX a p a.y = a.x := by
  have hd : 0 < p.y - a.y := by linarith
  have := lineInterceptX_mul a p a.y h
  have h2 : lineInterceptX a p a.y * (p.y - a.y) = a.x * (p.y - a.y) := by rw [this]; ring
  exact mul_right_cancel₀ (ne_of_gt hd) h2

theorem innerSide_line (isLeftSide : Bool) (a p q : Vec2 ℚ) (h : a.y < p.y)
    (hq : InnerSide isLeftSide a p q) :
    Before (outwardSign isLeftSide) q.x (lineInterceptX a p q.y) := by
  have hd : 0 < p.y - a.y := by linarith
  have hm := lineInterceptX_mul a p q.y h
  unfold InnerSide cross Vec2.sub at hq
  cases isLeftSide
  · rw [before_right] at hq ⊢
    simp only at hq
    refine le_of_mul_le_mul_right ?_ hd
    rw [hm]; nlinarith
  · rw [before_left] at hq ⊢
    simp only at hq
    refine le_of_mul_le_mul_right ?_ hd
    rw [hm]; nlinarith

theorem line_outward (isLeftSide : Bool) (a p : Vec2 ℚ) (y y' : ℚ) (h : a.y < p.y)
    (ho : Before (outwardSign isLeftSide) a.x p.x) (hy : y ≤ y') :
    Before (outwardSign isLeftSide) (lineInterceptX a p y) (lineInterceptX a p y') := by
  have hd : 0 < p.y - a.y := by linarith
  have hm := lineInterceptX_mul a p y h
  have hm' := lineInterceptX_mul a p y' h
  cases isLeftSide
  · rw [before_right] at ho ⊢
    refine le_of_mul_le_mul_right ?_ hd
    rw [hm, hm']; nlinarith
  · rw [before_left] at ho ⊢
    refine le_of_mul_le_mul_right ?_ hd
    rw [hm, hm']; nlinarith

theorem line_inward (isLeftSide : Bool) (a p : Vec2 ℚ) (y y' : ℚ) (h : a.y < p.y)
    (hi : Before (outwardSign isLeftSide) p.x a.x) (hy : y ≤ y') :
    Before (outwardSign isLeftSide) (lineInterceptX a p y') (lineInterceptX a p y) := by
  have hd : 0 < p.y - a.y := by linarith
  have hm := lineInterceptX_mul a p y h
  have hm' := lineInterceptX_mul a p y' h
  cases isLeftSide
  · rw [before_right] at hi ⊢
    refine le_of_mul_le_mul_right ?_ hd
    rw [hm, hm']; nlinarith
  · rw [before_left] at hi ⊢
    refine le_of_mul_le_mul_right ?_ hd
    rw [hm, hm']; nlinarith

theorem inward_persists (isLeftSide : Bool) (a p d : Vec2 ℚ) (h : a.y < p.y) (h' : p.y < d.y)
    (hi : Before (outwardSign isLeftSide) p.x a.x) (hd : InnerSide isLeftSide a p d) :
    Before (outwardSign isLeftSide) d.x p.x := by
  unfold InnerSide cross Vec2.sub at hd
  have h1 : 0 < p.y - a.y := by linarith
  have h2 : 0 < d.y - p.y := by linarith
  cases isLeftSide
  · rw [before_right] at hi hd ⊢
    simp only at hd
    by_contra hc
    push_neg at hc
    nlinarith
  · rw [before_left] at hi hd ⊢
    simp only at hd
    by_contra hc
    push_neg at hc
    nlinarith

theorem covers_top (isLeftSide : Bool) (chain : List (Vec2 ℚ)) (bottom top : ℚ) (a p : Vec2 ℚ)
    (hm : (a, p) ∈ segments chain) (h : a.y < p.y)
    (ho : Before (outwardSign isLeftSide) a.x p.x) :
    Covers isLeftSide chain bottom top (lineInterceptX a p top) := by
  intro q hq _ htop _ _
  have h1 : InnerSide isLeftSide a p q := hq (a, p) hm
  have h2 := innerSide_line isLeftSide a p q h h1
  have h3 := line_outward isLeftSide a p q.y top h ho htop
  exact before_trans h2 h3

theorem covers_bottom (isLeftSide : Bool) (chain : List (Vec2 ℚ)) (bottom top : ℚ)
    (a p : Vec2 ℚ) (hm : (a, p) ∈ segments chain) (h : a.y < p.y)
    (hi : Before (outwardSign isLeftSide) p.x a.x) :
    Covers isLeftSide chain bottom top (lineInterceptX a p bottom) := by
  intro q hq hbottom _ _ _
  have h1 : InnerSide isLeftSide a p q := hq (a, p) hm
  have h2 := innerSide_line isLeftSide a p q h h1
  have h3 := line_inward isLeftSide a p bottom q.y h hi hbottom
  exact before_trans h2 h3

theorem covers_last (isLeftSide : Bool) (chain : List (Vec2 ℚ)) (bottom top : ℚ) (a p : Vec2 ℚ)
    (hm : (a, p) ∈ segments chain) (hl : chain.getLast? = some p) (h : a.y < p.y)
    (ho : Before (outwardSign isLeftSide) a.x p.x) :
    Covers isLeftSide chain bottom top p.x := by
  intro q hq _ _ _ hlast
  have h1 : InnerSide isLeftSide a p q := hq (a, p) hm
  have h2 := innerSide_line isLeftSide a p q h h1
  have h3 := line_outward isLeftSide a p q.y p.y h ho (hlast p hl)
  rw [lineInterceptX_end] at h3
  exact before_trans h2 h3

theorem covers_first (isLeftSide : Bool) (chain : List (Vec2 ℚ)) (bottom top : ℚ)
    (a p : Vec2 ℚ) (hm : (a, p) ∈ segments chain) (hf : chain.head? = some a) (h : a.y < p.y)
    (hi : Before (outwardSign isLeftSide) p.x a.x) :
    Covers isLeftSide chain bottom top a.x := by
  intro q hq _ _ hfirst _
  have h1 : InnerSide isLeftSide a p q := hq (a, p) hm
  have h2 := innerSide_line isLeftSide a p q h h1
  have h3 := line_inward isLeftSide a p a.y q.y h hi (hfirst a hf)
  rw [lineInterceptX_start a p h] at h3
  exact before_trans h2 h3

theorem covers_turn (isLeftSide : Bool) (chain : List (Vec2 ℚ)) (bottom top : ℚ)
    (o a p : Vec2 ℚ) (hm : (o, a) ∈ segments chain) (hm' : (a, p) ∈ segments chain)
    (h : o.y < a.y) (h' : a.y < p.y) (ho : Before (outwardSign isLeftSide) o.x a.x)
    (hi : Before (outwardSign isLeftSide) p.x a.x) :
    Covers isLeftSide chain bottom top a.x := by
  intro q hq _ _ _ _
  rcases le_total q.y a.y with hle | hle
  · have h1 : InnerSide isLeftSide o a q := hq (o, a) hm
    have h2 := innerSide_line isLeftSide o a q h h1
    have h3 := line_outward isLeftSide o a q.y a.y h ho hle
    rw [lineInterceptX_end] at h3
    exact before_trans h2 h3
  · have h1 : InnerSide isLeftSide a p q := hq (a, p) hm'
    have h2 := innerSide_line isLeftSide a p q h' h1
    have h3 := line_inward isLeftSide a p a.y q.y h' hi hle
    rw [lineInterceptX_start a p h'] at h3
    exact before_trans h2 h3

section ReturnsLemmas
variable {α β : Type} {Q : α → Prop}

theorem returns_ok {a : α} (h : Q a) : Returns Q (.ok a) := ⟨a, rfl, h⟩

theorem returns_pure {a : α} (h : Q a) : Returns Q (Pure.pure a) := ⟨a, rfl, h⟩

theorem returns_index (l : List α) (i : Nat) (h : i < l.length) :
    Returns (fun a => l.get? i = some a) (index l i) := by
  unfold index
  cases hg : l.get? i with
  | none =>
    rw [List.get?_eq_none] at hg
    omega
  | some a => exact returns_ok rfl

theorem returns_ite {c : Prop} [Decidable c] {t e : Except Failure α}
    (ht : c → Returns Q t) (he : ¬ c → Returns Q e) : Returns Q (if c then t else e) := by
  split
  · exact ht ‹_›
  · exact he ‹_›

theorem returns_bind {Q' : β → Prop} {x : Except Failure β} {g : β → Except Failure α}
    (hx : Returns Q' x) (h : ∀ b, Q' b → Returns Q (g b)) : Returns Q (x >>= g) := by
  obtain ⟨b, rfl, hb⟩ := hx
  exact h b hb

theorem returns_imp {Q' : α → Prop} {x : Except Failure α} (hx : Returns Q' x)
    (h : ∀ a, Q' a → Q a) : Returns Q x := by
  obtain ⟨a, rfl, ha⟩ := hx
  exact ⟨a, rfl, h a ha⟩

end ReturnsLemmas

theorem lineInterceptXChecked_returns (a p : Vec2 ℚ) (y : ℚ) (h : a.y < p.y) :
    Returns (fun x => x = lineInterceptX a p y) (lineInterceptXChecked a p y) := by
  unfold lineInterceptXChecked
  rw [if_neg (by intro h0; linarith)]
  exact returns_ok rfl

theorem chainOk_rising {isLeftSide : Bool} {c : List (Vec2 ℚ)} (hc : ChainOk isLeftSide c)
    {i : Nat} {a p : Vec2 ℚ} (ha : c.get? i = some a) (hp : c.get? (i + 1) = some p) :
    a.y < p.y :=
  hc.2.1 (a, p) (mem_segments ha hp)

theorem chainOk_inward {isLeftSide : Bool} {c : List (Vec2 ℚ)} (hc : ChainOk isLeftSide c)
    {i : Nat} {a p d : Vec2 ℚ} (ha : c.get? i = some a) (hp : c.get? (i + 1) = some p)
    (hd : c.get? (i + 2) = some d) (hi : Before (outwardSign isLeftSide) p.x a.x) :
    Before (outwardSign isLeftSide) d.x p.x := by
  have h1 : InnerSide isLeftSide a p d := hc.2.2 (a, p) (mem_segments ha hp) d (List.get?_mem hd)
  exact inward_persists isLeftSide a p d (chainOk_rising hc ha hp) (chainOk_rising hc hp hd) hi h1

namespace ConvexMeshIteratorDebug

theorem rowNum_returns (b : Bool) (i : Nat) (s : ConvexMeshIteratorDebug)
    (h : i + 1 < (s.chain b).length) :
    Returns (fun _ => True) (s.rowNum b i) := by
  unfold rowNum
  refine returns_bind (returns_index _ _ h) ?_
  intro pb _
  refine returns_bind (returns_index _ _ (by omega)) ?_
  intro pa _
  exact returns_pure trivial

/-- Moving on to the next segment of an inward run. -/
theorem sound_next_inward (b : Bool) (v w : RowView) (hc : ChainOk b (v.chains.get b))
    (hs : v.Sound b) (hf : v.outward = false) (hlen : v.index + 3 ≤ (v.chains.get b).length)
    (hw : w.frame = v.frame) (hi : w.index = v.index + 1) (hwf : w.outward = false) :
    w.Sound b := by
  have hch : w.chains = v.chains := by
    have := congrArg RowView.chains hw
    exact this
  unfold RowView.Sound
  rw [hch, hi, hwf]
  refine ⟨by omega, ?_⟩
  intro a p ha hp
  simp only [Bool.false_eq_true, if_false]
  obtain ⟨o, ho⟩ : ∃ o, (v.chains.get b).get? v.index = some o := by
    have : v.index < (v.chains.get b).length := by omega
    exact ⟨_, List.get?_eq_get this⟩
  have h1 := hs.2 o a ho ha
  rw [hf] at h1
  simp only [Bool.false_eq_true, if_false] at h1
  exact chainOk_inward hc ho ha hp h1

theorem advanceInwardLineLater_returns (b : Bool) (s : ConvexMeshIteratorDebug)
    (hc : ChainOk b (s.chain b)) (hs : (s.rowView b).Sound b)
    (hf : (s.rowView b).outward = false) :
    Returns (fun r => (r.2.rowView b).frame = (s.rowView b).frame
        ∧ (r.2.rowView b).Sound b ∧ (r.2.rowView b).outward = false
        ∧ (r.2.rowView b).column = (s.rowView b).column
        ∧ (r.1 = true → (s.rowView b).index < (r.2.rowView b).index))
      (advanceInwardLineLater b s) := by
  have h' : s.m_activeSliceEdgeIndex.get b + 2 ≤ (s.chain b).length := hs.1
  unfold advanceInwardLineLater
  refine returns_ite ?_ ?_
  · intro _
    exact returns_pure ⟨rfl, hs, hf, rfl, fun h => by cases h⟩
  · intro hne
    have hlen : s.m_activeSliceEdgeIndex.get b + 3 ≤ (s.chain b).length := by omega
    refine returns_bind (rowNum_returns b _ _ ?_) ?_
    · show s.m_activeSliceEdgeIndex.get b + 1 + 1 < (s.chain b).length
      omega
    · intro n _
      have key : ∀ r : ConvexMeshIteratorDebug, (r.rowView b).frame = (s.rowView b).frame →
          (r.rowView b).index = (s.rowView b).index + 1 → (r.rowView b).outward = false →
          (r.rowView b).Sound b :=
        fun r h1 h2 h3 => sound_next_inward b (s.rowView b) (r.rowView b) hc hs hf hlen h1 h2 h3
      refine returns_ite ?_ ?_
      · intro _
        refine returns_pure ⟨?_, key _ ?_ ?_ ?_, ?_, ?_, fun h => by cases h⟩
        all_goals first | (cases b <;> rfl) | (cases b <;> exact hf)
      · intro _
        refine returns_pure ⟨?_, key _ ?_ ?_ ?_, ?_, ?_, fun _ => ?_⟩
        all_goals first | (cases b <;> rfl) | (cases b <;> exact hf) | skip
        show s.m_activeSliceEdgeIndex.get b < _
        cases b <;> exact Nat.lt_succ_self _

theorem chain_of_frame {b : Bool} {s r : ConvexMeshIteratorDebug}
    (h : (r.rowView b).frame = (s.rowView b).frame) : r.chain b = s.chain b := by
  have := congrArg RowView.chains h
  exact congrArg (fun c => c.get b) this

theorem sound_at (b : Bool) (v w : RowView) (hw : w.frame = v.frame) (i : Nat) (f : Bool)
    (hi : w.index = i) (hf : w.outward = f) (hlen : i + 2 ≤ (v.chains.get b).length)
    (h : ∀ a p, (v.chains.get b).get? i = some a → (v.chains.get b).get? (i + 1) = some p →
      if f then Before (outwardSign b) a.x p.x else Before (outwardSign b) p.x a.x) :
    w.Sound b := by
  have hch : w.chains = v.chains := by
    have := congrArg RowView.chains hw
    exact this
  unfold RowView.Sound
  rw [hch, hi, hf]
  exact ⟨hlen, h⟩

theorem placed_at (b : Bool) (v w : RowView) (hw : w.frame = v.frame) (x : ℚ)
    (hcol : w.column = grid x v.cellDimensions.x)
    (hcov : Covers b (v.chains.get b) v.lineBottom v.lineTop x) : w.Placed b := by
  have hch : w.chains = v.chains := by
    have := congrArg RowView.chains hw
    exact this
  have hd : w.cellDimensions = v.cellDimensions := by
    have := congrArg RowView.cellDimensions hw
    exact this
  have hb : w.lineBottom = v.lineBottom := by
    have := congrArg RowView.lineBottom hw
    exact this
  have ht : w.lineTop = v.lineTop := by
    have := congrArg RowView.lineTop hw
    exact this
  unfold RowView.Placed
  rw [hch, hd, hb, ht]
  exact ⟨x, hcol, hcov⟩

theorem whileAdvanceInwardLine_returns (b : Bool) (fuel : Nat) :
    ∀ (s : ConvexMeshIteratorDebug), ChainOk b (s.chain b) → (s.rowView b).Sound b →
      (s.rowView b).outward = false →
      (s.chain b).length ≤ fuel + s.m_activeSliceEdgeIndex.get b + 1 →
      Returns (InwardStep b s) (whileAdvanceInwardLine fuel b s) := by
  induction fuel with
  | zero =>
    intro s _ hs _ hfuel
    have h' : s.m_activeSliceEdgeIndex.get b + 2 ≤ (s.chain b).length := hs.1
    omega
  | succ n ih =>
    intro s hc hs hf hfuel
    unfold whileAdvanceInwardLine
    refine returns_bind (advanceInwardLineLater_returns b s hc hs hf) ?_
    rintro ⟨again, s1⟩ ⟨h1, h2, h3, h4, h5⟩
    refine returns_ite ?_ ?_
    · intro ha
      have hlt : s.m_activeSliceEdgeIndex.get b < s1.m_activeSliceEdgeIndex.get b := h5 ha
      have hch : s1.chain b = s.chain b := chain_of_frame h1
      refine returns_imp (ih s1 (by rw [hch]; exact hc) h2 h3 (by rw [hch]; omega)) ?_
      rintro r ⟨g1, g2, g3, g4⟩
      exact ⟨g1.trans h1, g2, g3, g4.trans h4⟩
    · intro _
      exact returns_pure ⟨h1, h2, h3, h4⟩

theorem advanceInwardLineFirst_returns (b : Bool) (s : ConvexMeshIteratorDebug)
    (hc : ChainOk b (s.chain b)) (hs : (s.rowView b).Sound b)
    (hf : (s.rowView b).outward = false) :
    Returns (fun r => InwardStep b s r.2 ∧ r.1 = false) (advanceInwardLineFirst b s) := by
  have h' : s.m_activeSliceEdgeIndex.get b + 2 ≤ (s.chain b).length := hs.1
  unfold advanceInwardLineFirst
  refine returns_ite ?_ ?_
  · intro _
    exact returns_pure ⟨⟨rfl, hs, hf, rfl⟩, rfl⟩
  · intro hne
    refine returns_bind (rowNum_returns b _ _ (by omega)) ?_
    intro n _
    refine returns_ite ?_ ?_
    · intro _
      refine returns_pure ⟨⟨?_, ?_, ?_, ?_⟩, rfl⟩
      · cases b <;> rfl
      · refine sound_at b (s.rowView b) _ ?_ _ _ rfl rfl hs.1 hs.2
        cases b <;> rfl
      · exact hf
      · cases b <;> rfl
    · intro _
      refine returns_bind (whileAdvanceInwardLine_returns b _ s hc hs hf (by omega)) ?_
      intro s1 h1
      exact returns_pure ⟨h1, rfl⟩

theorem whileAdvanceInwardLineFirst_returns (b : Bool) (fuel : Nat)
    (s : ConvexMeshIteratorDebug) (hc : ChainOk b (s.chain b)) (hs : (s.rowView b).Sound b)
    (hf : (s.rowView b).outward = false) (hfuel : 1 ≤ fuel) :
    Returns (InwardStep b s) (whileAdvanceInwardLineFirst fuel b s) := by
  cases fuel with
  | zero => omega
  | succ n =>
    unfold whileAdvanceInwardLineFirst
    refine returns_bind (advanceInwardLineFirst_returns b s hc hs hf) ?_
    rintro ⟨again, s1⟩ ⟨h1, hfalse⟩
    simp only at hfalse
    subst hfalse
    exact returns_pure h1

theorem getLast?_of_get? {c : List (Vec2 ℚ)} {n : Nat} {p : Vec2 ℚ} (h : c.get? n = some p)
    (hn : n + 1 = c.length) : c.getLast? = some p := by
  rw [List.getLast?_eq_getElem?, ← hn]
  simpa using h

theorem head?_of_get? {c : List (Vec2 ℚ)} {p : Vec2 ℚ} (h : c.get? 0 = some p) :
    c.head? = some p := by
  cases c with
  | nil => cases h
  | cons a rest => simpa using h

theorem get?_of_lt (c : List (Vec2 ℚ)) (i : Nat) (h : i < c.length) : ∃ a, c.get? i = some a :=
  ⟨_, List.get?_eq_get h⟩

theorem advanceOutwardLine_returns (b : Bool) (s : ConvexMeshIteratorDebug)
    (hc : ChainOk b (s.chain b)) (hs : (s.rowView b).Sound b)
    (hf : (s.rowView b).outward = true) :
    Returns (fun r => OutwardStep b s r
        ∧ (r.1 = true → (s.rowView b).index < (r.2.rowView b).index))
      (advanceOutwardLine b s) := by
  have h' : s.m_activeSliceEdgeIndex.get b + 2 ≤ (s.chain b).length := hs.1
  obtain ⟨po, hpo⟩ := get?_of_lt (s.chain b) (s.m_activeSliceEdgeIndex.get b) (by omega)
  obtain ⟨pa, hpa⟩ := get?_of_lt (s.chain b) (s.m_activeSliceEdgeIndex.get b + 1) (by omega)
  have hout : Before (outwardSign b) po.x pa.x := by
    have := hs.2 po pa hpo hpa
    rw [hf] at this
    simpa using this
  have hrise : po.y < pa.y := chainOk_rising hc hpo hpa
  unfold advanceOutwardLine
  refine returns_ite ?_ ?_
  · intro hlast
    refine returns_bind (returns_index _ _ (by omega)) ?_
    intro pb hpb
    have hpb' : (s.chain b).get? (s.m_activeSliceEdgeIndex.get b + 1) = some pb := hpb
    rw [hpa] at hpb'
    cases hpb'
    refine returns_pure ⟨⟨?_, ?_, fun _ => ?_, fun h => by cases h⟩, fun h => by cases h⟩
    · cases b <;> rfl
    · refine sound_at b (s.rowView b) _ ?_ _ _ ?_ ?_ hs.1 hs.2
      all_goals cases b <;> rfl
    · refine placed_at b (s.rowView b) _ ?_ pa.x ?_
        (covers_last b (s.chain b) s.m_lineBottom s.m_lineTop po pa (mem_segments hpo hpa) (getLast?_of_get? hpa (by omega))
          hrise hout)
      all_goals cases b <;> rfl
  · intro hne
    have hlen : s.m_activeSliceEdgeIndex.get b + 1 + 2 ≤ (s.chain b).length := by omega
    refine returns_bind (returns_index _ _ ?_) ?_
    · show s.m_activeSliceEdgeIndex.get b + 1 + 1 < (s.chain b).length
      omega
    intro pb hpb
    have hpb' : (s.chain b).get? (s.m_activeSliceEdgeIndex.get b + 1 + 1) = some pb := hpb
    refine returns_bind (returns_index _ _ ?_) ?_
    · show s.m_activeSliceEdgeIndex.get b + 1 < (s.chain b).length
      omega
    intro pa' hpa'
    have hpa'' : (s.chain b).get? (s.m_activeSliceEdgeIndex.get b + 1) = some pa' := hpa'
    rw [hpa] at hpa''
    cases hpa''
    have hrise' : pa.y < pb.y := chainOk_rising hc hpa hpb'
    have hflag : ∀ f : Bool, geq pb.x pa.x (if b = true then -1 else 1) = f →
        ∀ a p, (s.chain b).get? (s.m_activeSliceEdgeIndex.get b + 1) = some a →
          (s.chain b).get? (s.m_activeSliceEdgeIndex.get b + 1 + 1) = some p →
          if f then Before (outwardSign b) a.x p.x else Before (outwardSign b) p.x a.x := by
      intro f hgf a p ha hp
      rw [hpa] at ha
      rw [hpb'] at hp
      cases ha
      cases hp
      cases f
      · simp only [Bool.false_eq_true, if_false]
        refine before_of_not ?_
        intro hcon
        have := (geq_iff pb.x pa.x (outwardSign b)).2 hcon
        have h2 : geq pb.x pa.x (if b = true then -1 else 1) = true := this
        rw [hgf] at h2
        cases h2
      · simp only [if_true]
        exact (geq_iff pb.x pa.x (outwardSign b)).1 hgf
    generalize hgo : geq pb.x pa.x (if b = true then -1 else 1) = outward at hflag ⊢
    have hfl := hflag outward rfl
    refine returns_bind (rowNum_returns b _ _ ?_) ?_
    · show s.m_activeSliceEdgeIndex.get b + 1 + 1 < (s.chain b).length
      omega
    intro n _
    cases outward with
    | true =>
      simp only [Bool.not_true, Bool.false_eq_true, if_false, if_true]
      refine returns_ite ?_ ?_
      · intro _
        refine returns_bind (lineInterceptXChecked_returns pa pb _ hrise') ?_
        intro x hx
        subst hx
        refine returns_pure ⟨⟨?_, ?_, fun _ => ?_, fun h => by cases h⟩, fun h => by cases h⟩
        · cases b <;> rfl
        · refine sound_at b (s.rowView b) _ ?_ _ _ ?_ ?_ hlen hfl
          all_goals cases b <;> rfl
        · refine placed_at b (s.rowView b) _ ?_ _ ?_
            (covers_top b (s.chain b) s.m_lineBottom s.m_lineTop pa pb (mem_segments hpa hpb') hrise' (by simpa using hfl pa pb hpa hpb'))
          all_goals cases b <;> rfl
      · intro _
        refine returns_pure ⟨⟨?_, ?_, (fun h => by cases h), fun _ => ?_⟩, fun _ => ?_⟩
        · cases b <;> rfl
        · refine sound_at b (s.rowView b) _ ?_ _ _ ?_ ?_ hlen hfl
          all_goals cases b <;> rfl
        · cases b <;> rfl
        · show s.m_activeSliceEdgeIndex.get b < _
          cases b <;> exact Nat.lt_succ_self _
    | false =>
      simp only [Bool.not_false, Bool.false_eq_true, if_false, if_true]
      have hin : Before (outwardSign b) pb.x pa.x := by simpa using hfl pa pb hpa hpb'
      have hcov := covers_turn b (s.chain b) s.m_lineBottom s.m_lineTop po pa pb
        (mem_segments hpo hpa) (mem_segments hpa hpb') hrise hrise' hout hin
      refine returns_ite ?_ ?_
      · intro _
        refine returns_pure ⟨⟨?_, ?_, fun _ => ?_, fun h => by cases h⟩, fun h => by cases h⟩
        · cases b <;> rfl
        · refine sound_at b (s.rowView b) _ ?_ _ _ ?_ ?_ hlen hfl
          all_goals cases b <;> rfl
        · refine placed_at b (s.rowView b) _ ?_ pa.x ?_ hcov
          all_goals cases b <;> rfl
      · intro _
        refine returns_bind (whileAdvanceInwardLine_returns b _ _ ?_ ?_ ?_ ?_) ?_
        · have e : ∀ S : ConvexMeshIteratorDebug,
              chain b (setSliceRowPoint b pa.x S) = chain b S := fun S => by cases b <;> rfl
          rw [e]
          exact hc
        · refine sound_at b (s.rowView b) _ ?_ _ _ ?_ ?_ hlen hfl
          all_goals cases b <;> rfl
        · cases b <;> rfl
        · omega
        rintro s5 ⟨g1, g2, g3, g4⟩
        refine returns_pure ⟨⟨?_, g2, fun _ => ?_, fun h => by cases h⟩, fun h => by cases h⟩
        · refine g1.trans ?_
          cases b <;> rfl
        · refine placed_at b (s.rowView b) _ (g1.trans ?_) pa.x (g4.trans ?_) hcov
          all_goals cases b <;> rfl

theorem whileAdvanceOutwardLine_returns (b : Bool) (fuel : Nat) :
    ∀ (s : ConvexMeshIteratorDebug), ChainOk b (s.chain b) → (s.rowView b).Sound b →
      (s.rowView b).outward = true →
      (s.chain b).length ≤ fuel + s.m_activeSliceEdgeIndex.get b + 1 →
      Returns (RowStep b s) (whileAdvanceOutwardLine fuel b s) := by
  induction fuel with
  | zero =>
    intro s _ hs _ hfuel
    have h' : s.m_activeSliceEdgeIndex.get b + 2 ≤ (s.chain b).length := hs.1
    omega
  | succ n ih =>
    intro s hc hs hf hfuel
    unfold whileAdvanceOutwardLine
    refine returns_bind (advanceOutwardLine_returns b s hc hs hf) ?_
    rintro ⟨again, s1⟩ ⟨⟨h1, h2, h3, h4⟩, h5⟩
    refine returns_ite ?_ ?_
    · intro ha
      have hlt : s.m_activeSliceEdgeIndex.get b < s1.m_activeSliceEdgeIndex.get b := h5 ha
      have hch : s1.chain b = s.chain b := chain_of_frame h1
      refine returns_imp (ih s1 (by rw [hch]; exact hc) h2 (h4 ha) (by rw [hch]; omega)) ?_
      rintro r ⟨g1, g2, g3⟩
      exact ⟨g1.trans h1, g2, g3⟩
    · intro hna
      have : again = false := by simpa using hna
      exact returns_pure ⟨h1, h2, h3 this⟩

theorem preAdvanceOutwardLine_returns (b : Bool) (s : ConvexMeshIteratorDebug)
    (hc : ChainOk b (s.chain b)) (hs : (s.rowView b).Sound b)
    (hf : (s.rowView b).outward = true) :
    Returns (fun r => OutwardStep b s r
        ∧ (r.1 = true → (r.2.rowView b).index = (s.rowView b).index))
      (preAdvanceOutwardLine b s) := by
  have h' : s.m_activeSliceEdgeIndex.get b + 2 ≤ (s.chain b).length := hs.1
  obtain ⟨pa, hpa⟩ := get?_of_lt (s.chain b) (s.m_activeSliceEdgeIndex.get b) (by omega)
  obtain ⟨pb, hpb⟩ := get?_of_lt (s.chain b) (s.m_activeSliceEdgeIndex.get b + 1) (by omega)
  have hout : Before (outwardSign b) pa.x pb.x := by
    have := hs.2 pa pb hpa hpb
    rw [hf] at this
    simpa using this
  have hrise : pa.y < pb.y := chainOk_rising hc hpa hpb
  unfold preAdvanceOutwardLine
  refine returns_bind (rowNum_returns b _ _ (by omega)) ?_
  intro n _
  refine returns_ite ?_ ?_
  · intro _
    refine returns_bind (returns_index _ _ ?_) ?_
    · show s.m_activeSliceEdgeIndex.get b < (s.chain b).length
      omega
    intro a ha
    have ha' : (s.chain b).get? (s.m_activeSliceEdgeIndex.get b) = some a := ha
    rw [hpa] at ha'
    cases ha'
    refine returns_bind (returns_index _ _ ?_) ?_
    · show s.m_activeSliceEdgeIndex.get b + 1 < (s.chain b).length
      omega
    intro p hp
    have hp' : (s.chain b).get? (s.m_activeSliceEdgeIndex.get b + 1) = some p := hp
    rw [hpb] at hp'
    cases hp'
    refine returns_bind (lineInterceptXChecked_returns pa pb _ hrise) ?_
    intro x hx
    subst hx
    refine returns_pure ⟨⟨?_, ?_, fun _ => ?_, fun h => by cases h⟩, fun h => by cases h⟩
    · cases b <;> rfl
    · refine sound_at b (s.rowView b) _ ?_ _ _ ?_ ?_ hs.1 hs.2
      all_goals cases b <;> rfl
    · refine placed_at b (s.rowView b) _ ?_ _ ?_
        (covers_top b (s.chain b) s.m_lineBottom s.m_lineTop pa pb (mem_segments hpa hpb)
          hrise hout)
      all_goals cases b <;> rfl
  · intro _
    exact returns_pure ⟨⟨rfl, hs, (fun h => by cases h), fun _ => hf⟩, fun _ => rfl⟩

theorem flagOk_of_geq (b : Bool) (pa pb : Vec2 ℚ) :
    if geq pb.x pa.x (if b = true then -1 else 1) then Before (outwardSign b) pa.x pb.x
    else Before (outwardSign b) pb.x pa.x := by
  cases hg : geq pb.x pa.x (if b = true then -1 else 1)
  · simp only [Bool.false_eq_true, if_false]
    refine before_of_not ?_
    intro hcon
    have h2 : geq pb.x pa.x (if b = true then -1 else 1) = true :=
      (geq_iff pb.x pa.x (outwardSign b)).2 hcon
    rw [hg] at h2
    cases h2
  · simp only [if_true]
    exact (geq_iff pb.x pa.x (outwardSign b)).1 hg

theorem setupSliceHelper_returns (b : Bool) (s : ConvexMeshIteratorDebug)
    (hc : ChainOk b (s.chain b)) (hi : s.m_activeSliceEdgeIndex.get b = 0) :
    Returns (RowStep b s) (setupSliceHelper b s) := by
  have hlen : 2 ≤ (s.chain b).length := hc.1
  obtain ⟨pa, hpa⟩ := get?_of_lt (s.chain b) 0 (by omega)
  obtain ⟨pb, hpb⟩ := get?_of_lt (s.chain b) 1 (by omega)
  have hrise : pa.y < pb.y := chainOk_rising hc hpa hpb
  unfold setupSliceHelper
  refine returns_ite ?_ ?_
  · intro hcon
    exfalso
    simp only [Bool.not_eq_true', decide_eq_false_iff_not, not_lt] at hcon
    omega
  · intro _
    refine returns_bind (returns_index _ _ (by omega)) ?_
    intro p1 hp1
    rw [hpb] at hp1
    cases hp1
    refine returns_bind (returns_index _ _ (by omega)) ?_
    intro p0 hp0
    rw [hpa] at hp0
    cases hp0
    have hflag := flagOk_of_geq b pa pb
    have hsound : ∀ r : ConvexMeshIteratorDebug, (r.rowView b).frame = (s.rowView b).frame →
        (r.rowView b).index = 0 →
        (r.rowView b).outward = geq pb.x pa.x (if b = true then -1 else 1) →
        (r.rowView b).Sound b := by
      intro r h1 h2 h3
      refine sound_at b (s.rowView b) _ h1 0 _ h2 h3 hlen ?_
      intro a p ha hp
      have ha' : (s.chain b).get? 0 = some a := ha
      have hp' : (s.chain b).get? 1 = some p := hp
      rw [hpa] at ha'
      rw [hpb] at hp'
      cases ha'
      cases hp'
      exact hflag
    generalize hgo : geq pb.x pa.x (if b = true then -1 else 1) = outward at hflag hsound ⊢
    cases outward with
    | true =>
      simp only [if_true]
      refine returns_bind (preAdvanceOutwardLine_returns b _ ?_ (hsound _ ?_ ?_ ?_) ?_) ?_
      · exact hc
      · cases b <;> rfl
      · cases b <;> exact hi
      · cases b <;> rfl
      · cases b <;> rfl
      rintro ⟨again, s1⟩ ⟨⟨h1, h2, h3, h4⟩, h5⟩
      have hframe : (s1.rowView b).frame = (s.rowView b).frame := by
        refine h1.trans ?_
        cases b <;> rfl
      refine returns_ite ?_ ?_
      · intro ha
        have hch : s1.chain b = s.chain b := chain_of_frame hframe
        refine returns_imp (whileAdvanceOutwardLine_returns b _ s1 (by rw [hch]; exact hc) h2
          (h4 ha) (Nat.le_add_right_of_le (Nat.le_add_right_of_le (Nat.le_succ _)))) ?_
        rintro r ⟨g1, g2, g3⟩
        exact ⟨g1.trans hframe, g2, g3⟩
      · intro hna
        have : again = false := by simpa using hna
        exact returns_pure ⟨hframe, h2, h3 this⟩
    | false =>
      simp only [Bool.false_eq_true, if_false]
      have hin : Before (outwardSign b) pb.x pa.x := by simpa using hflag
      have e : ∀ S : ConvexMeshIteratorDebug,
          chain b (setSliceRowPoint b pa.x S) = chain b S := fun S => by cases b <;> rfl
      refine returns_imp (whileAdvanceInwardLineFirst_returns b _ _ ?_ (hsound _ ?_ ?_ ?_) ?_
        (by omega)) ?_
      · rw [e]
        exact hc
      · cases b <;> rfl
      · cases b <;> exact hi
      · cases b <;> rfl
      · cases b <;> rfl
      rintro r ⟨g1, g2, g3, g4⟩
      refine ⟨g1.trans ?_, g2, ?_⟩
      · cases b <;> rfl
      · refine placed_at b (s.rowView b) _ (g1.trans ?_) pa.x (g4.trans ?_)
          (covers_first b (s.chain b) s.m_lineBottom s.m_lineTop pa pb (mem_segments hpa hpb)
            (head?_of_get? hpa) hrise hin)
        all_goals cases b <;> rfl

theorem covers_flag (b : Bool) (chain : List (Vec2 ℚ)) (bottom top : ℚ) (a p : Vec2 ℚ)
    (flag : Bool) (hm : (a, p) ∈ segments chain) (h : a.y < p.y)
    (hf : if flag then Before (outwardSign b) a.x p.x else Before (outwardSign b) p.x a.x) :
    Covers b chain bottom top (lineInterceptX a p (if flag = true then top else bottom)) := by
  cases flag
  · simp only [Bool.false_eq_true, if_false] at hf ⊢
    exact covers_bottom b chain bottom top a p hm h hf
  · simp only [if_true] at hf ⊢
    exact covers_top b chain bottom top a p hm h hf

theorem advanceRowHelper_returns (b : Bool) (s : ConvexMeshIteratorDebug)
    (hc : ChainOk b (s.chain b)) (hs : (s.rowView b).Sound b) :
    Returns (RowStep b s) (advanceRowHelper b s) := by
  have h' : s.m_activeSliceEdgeIndex.get b + 2 ≤ (s.chain b).length := hs.1
  obtain ⟨pa, hpa⟩ := get?_of_lt (s.chain b) (s.m_activeSliceEdgeIndex.get b) (by omega)
  obtain ⟨pb, hpb⟩ := get?_of_lt (s.chain b) (s.m_activeSliceEdgeIndex.get b + 1) (by omega)
  have hflag := hs.2 pa pb hpa hpb
  have hrise : pa.y < pb.y := chainOk_rising hc hpa hpb
  have hmem := mem_segments hpa hpb
  have hsound : ∀ r : ConvexMeshIteratorDebug, (r.rowView b).frame = (s.rowView b).frame →
      (r.rowView b).index = (s.rowView b).index →
      (r.rowView b).outward = (s.rowView b).outward → (r.rowView b).Sound b :=
    fun r h1 h2 h3 => sound_at b (s.rowView b) _ h1 _ _ h2 h3 hs.1 hs.2
  unfold advanceRowHelper
  refine returns_ite ?_ ?_
  · intro _
    refine returns_ite ?_ ?_
    · intro hout
      have hout' : (s.rowView b).outward = true := hout
      rw [hout'] at hflag
      simp only [if_true] at hflag
      refine returns_ite ?_ ?_
      · intro hlast
        refine returns_bind (returns_index _ _ ?_) ?_
        · show s.m_activeSliceEdgeIndex.get b + 1 < (s.chain b).length
          omega
        intro p hp
        have hp' : (s.chain b).get? (s.m_activeSliceEdgeIndex.get b + 1) = some p := hp
        rw [hpb] at hp'
        cases hp'
        have hlast' : s.m_activeSliceEdgeIndex.get b + 2 = (s.chain b).length := hlast
        refine returns_pure ⟨?_, hsound _ ?_ ?_ ?_, ?_⟩
        · cases b <;> rfl
        · cases b <;> rfl
        · cases b <;> rfl
        · cases b <;> rfl
        · refine placed_at b (s.rowView b) _ ?_ pb.x ?_
            (covers_last b (s.chain b) s.m_lineBottom s.m_lineTop pa pb hmem
              (getLast?_of_get? hpb (by omega)) hrise hflag)
          all_goals cases b <;> rfl
      · intro _
        refine returns_imp (whileAdvanceOutwardLine_returns b _ _ hc (hsound _ rfl rfl rfl) hout
          (Nat.le_add_right_of_le (Nat.le_add_right_of_le (Nat.le_succ _)))) ?_
        rintro r ⟨g1, g2, g3⟩
        exact ⟨g1, g2, g3⟩
    · intro hin
      have hin' : (s.rowView b).outward = false := by
        have : s.m_activeSliceEdgeOutward.get b ≠ true := hin
        simpa using this
      rw [hin'] at hflag
      simp only [Bool.false_eq_true, if_false] at hflag
      have hcov := covers_bottom b (s.chain b) s.m_lineBottom s.m_lineTop pa pb hmem hrise hflag
      refine returns_ite ?_ ?_
      · intro hcon
        exfalso
        have hcon' : (!decide (s.m_activeSliceEdgeIndex.get b + 1 < (s.chain b).length))
            = true := hcon
        simp only [Bool.not_eq_true', decide_eq_false_iff_not, not_lt] at hcon'
        omega
      · intro _
        refine returns_bind (returns_index _ _ ?_) ?_
        · show s.m_activeSliceEdgeIndex.get b < (s.chain b).length
          omega
        intro a ha
        have ha' : (s.chain b).get? (s.m_activeSliceEdgeIndex.get b) = some a := ha
        rw [hpa] at ha'
        cases ha'
        refine returns_bind (returns_index _ _ ?_) ?_
        · show s.m_activeSliceEdgeIndex.get b + 1 < (s.chain b).length
          omega
        intro p hp
        have hp' : (s.chain b).get? (s.m_activeSliceEdgeIndex.get b + 1) = some p := hp
        rw [hpb] at hp'
        cases hp'
        refine returns_bind (lineInterceptXChecked_returns pa pb _ hrise) ?_
        intro x hx
        subst hx
        have e : ∀ (x : ℚ) (S : ConvexMeshIteratorDebug),
            chain b (setSliceRowPoint b x S) = chain b S := fun x S => by cases b <;> rfl
        refine returns_ite ?_ ?_
        · intro _
          refine returns_pure ⟨?_, hsound _ ?_ ?_ ?_, ?_⟩
          · cases b <;> rfl
          · cases b <;> rfl
          · cases b <;> rfl
          · cases b <;> rfl
          · refine placed_at b (s.rowView b) _ ?_ _ ?_ hcov
            all_goals cases b <;> rfl
        · intro _
          refine returns_imp (whileAdvanceInwardLine_returns b _ _ ?_ (hsound _ ?_ ?_ ?_) ?_
            (by rw [e]; exact Nat.le_add_right_of_le (Nat.le_add_right_of_le (Nat.le_succ _))))
            ?_
          · rw [e]
            exact hc
          · cases b <;> rfl
          · cases b <;> rfl
          · cases b <;> rfl
          · refine Eq.trans ?_ hin'
            cases b <;> rfl
          rintro r ⟨g1, g2, g3, g4⟩
          refine ⟨g1.trans ?_, g2, ?_⟩
          · cases b <;> rfl
          · refine placed_at b (s.rowView b) _ (g1.trans ?_) _ (g4.trans ?_) hcov
            all_goals cases b <;> rfl
  · intro _
    refine returns_ite ?_ ?_
    · intro hcon
      exfalso
      have hcon' : (!decide (s.m_activeSliceEdgeIndex.get b + 1 < (s.chain b).length))
          = true := hcon
      simp only [Bool.not_eq_true', decide_eq_false_iff_not, not_lt] at hcon'
      omega
    · intro _
      refine returns_bind (returns_index _ _ ?_) ?_
      · show s.m_activeSliceEdgeIndex.get b < (s.chain b).length
        omega
      intro a ha
      have ha' : (s.chain b).get? (s.m_activeSliceEdgeIndex.get b) = some a := ha
      rw [hpa] at ha'
      cases ha'
      refine returns_bind (returns_index _ _ ?_) ?_
      · show s.m_activeSliceEdgeIndex.get b + 1 < (s.chain b).length
        omega
      intro p hp
      have hp' : (s.chain b).get? (s.m_activeSliceEdgeIndex.get b + 1) = some p := hp
      rw [hpb] at hp'
      cases hp'
      refine returns_bind (lineInterceptXChecked_returns pa pb _ hrise) ?_
      intro x hx
      subst hx
      refine returns_pure ⟨?_, hsound _ ?_ ?_ ?_, ?_⟩
      · cases b <;> rfl
      · cases b <;> rfl
      · cases b <;> rfl
      · cases b <;> rfl
      · refine placed_at b (s.rowView b) _ ?_ _ ?_
          (covers_flag b (s.chain b) s.m_lineBottom s.m_lineTop pa pb
            (s.m_activeSliceEdgeOutward.get b) hmem hrise hflag)
        all_goals cases b <;> rfl

end ConvexMeshIteratorDebug

theorem rising_head_le_last : ∀ (c : List (Vec2 ℚ)) (f l : Vec2 ℚ),
    (∀ seg ∈ segments c, seg.1.y < seg.2.y) → c.head? = some f → c.getLast? = some l →
    f.y ≤ l.y := by
  intro c
  induction c with
  | nil => intro f l _ hf; cases hf
  | cons a rest ih =>
    intro f l hr hf hl
    cases rest with
    | nil =>
      simp at hf hl
      subst hf; subst hl
      exact le_refl _
    | cons b rest' =>
      simp only [List.head?_cons, Option.some.injEq] at hf
      subst hf
      have h1 : a.y < b.y := hr (a, b) (by simp [segments])
      have h2 : b.y ≤ l.y := by
        refine ih b l ?_ (by simp) ?_
        · intro seg hseg
          refine hr seg ?_
          unfold segments at hseg ⊢
          simp only [List.tail_cons] at hseg ⊢
          rw [List.zip_cons_cons]
          exact List.mem_cons_of_mem _ hseg
        · rw [List.getLast?_cons_cons] at hl
          exact hl
      linarith

theorem innerSide_between (b : Bool) (a p f l : Vec2 ℚ) (t : ℚ) (h0 : 0 ≤ t) (h1 : t ≤ 1)
    (hf : InnerSide b a p f) (hl : InnerSide b a p l) :
    InnerSide b a p ⟨f.x + t * (l.x - f.x), f.y + t * (l.y - f.y)⟩ := by
  unfold InnerSide cross Vec2.sub at *
  have key : (p.x - a.x) * (f.y + t * (l.y - f.y) - a.y) - (p.y - a.y) * (f.x + t * (l.x - f.x) - a.x)
      = (1 - t) * ((p.x - a.x) * (f.y - a.y) - (p.y - a.y) * (f.x - a.x))
        + t * ((p.x - a.x) * (l.y - a.y) - (p.y - a.y) * (l.x - a.x)) := by ring
  have h1' : 0 ≤ 1 - t := by linarith
  cases b
  · rw [before_right] at hf hl ⊢
    simp only at hf hl ⊢
    rw [key]
    exact add_nonneg (mul_nonneg h1' hf) (mul_nonneg h0 hl)
  · rw [before_left] at hf hl ⊢
    simp only at hf hl ⊢
    rw [key]
    have e1 := mul_nonneg h1' (neg_nonneg.2 hf)
    have e2 := mul_nonneg h0 (neg_nonneg.2 hl)
    nlinarith

theorem grid_mono (u v d : ℚ) (hd : 0 < d) (h : u ≤ v) : grid u d ≤ grid v d := by
  unfold grid
  exact Int.floor_mono (div_le_div_of_nonneg_right h (le_of_lt hd))

theorem lt_of_grid_le (u d : ℚ) (y : Int) (hd : 0 < d) (h : grid u d ≤ y) :
    u < (y * d + d) := by
  unfold grid at h
  have h1 : Int.floor (u / d) < y + 1 := by omega
  rw [Int.floor_lt] at h1
  rw [div_lt_iff₀ hd] at h1
  push_cast at h1
  linarith

theorem le_of_le_grid (u d : ℚ) (y : Int) (hd : 0 < d) (h : y ≤ grid u d) : y * d ≤ u := by
  unfold grid at h
  rw [Int.le_floor] at h
  rwa [le_div_iff₀ hd] at h

/-- A point of the polygon in the row band: inside every segment of both chains, in the
band, and between the first and the last row coordinate of the chains. -/
theorem exists_point_in_band (chains : Arr2 (List (Vec2 ℚ))) (hb : BoundConvexPolygon chains)
    (dy : ℚ) (hdy : 0 < dy) (y : Int)
    (hfirst : ∀ p ∈ (chains.get RIGHT_SIDE).head?, grid p.y dy ≤ y)
    (hlast : ∀ p ∈ (chains.get RIGHT_SIDE).getLast?, y ≤ grid p.y dy) :
    ∃ q : Vec2 ℚ, (∀ side : Bool, ∀ seg ∈ segments (chains.get side), InnerSide side seg.1 seg.2 q)
      ∧ (y : ℚ) * dy ≤ q.y ∧ q.y ≤ y * dy + dy
      ∧ (∀ side : Bool, ∀ p ∈ (chains.get side).head?, p.y ≤ q.y)
      ∧ (∀ side : Bool, ∀ p ∈ (chains.get side).getLast?, q.y ≤ p.y) := by
  obtain ⟨hsize, hrise, hheads, hlasts, hinner⟩ := hb
  have hlenR := hsize RIGHT_SIDE
  obtain ⟨f, hf⟩ : ∃ f, (chains.get RIGHT_SIDE).head? = some f := by
    cases hc : chains.get RIGHT_SIDE with
    | nil => rw [hc] at hlenR; simp at hlenR
    | cons a rest => exact ⟨a, rfl⟩
  obtain ⟨l, hl⟩ : ∃ l, (chains.get RIGHT_SIDE).getLast? = some l := by
    cases hc : chains.get RIGHT_SIDE with
    | nil => rw [hc] at hlenR; simp at hlenR
    | cons a rest => exact ⟨_, List.getLast?_eq_getLast _ (List.cons_ne_nil _ _)⟩
  have hfmem : f ∈ chains.get RIGHT_SIDE := List.mem_of_mem_head? hf
  have hlmem : l ∈ chains.get RIGHT_SIDE := List.mem_of_mem_getLast? hl
  have hfl : f.y ≤ l.y := rising_head_le_last _ f l (hrise RIGHT_SIDE) hf hl
  have hftop : f.y < y * dy + dy := lt_of_grid_le f.y dy y hdy (hfirst f hf)
  have hlbot : (y : ℚ) * dy ≤ l.y := le_of_le_grid l.y dy y hdy (hlast l hl)
  have hheadAll : ∀ side : Bool, ∀ p ∈ (chains.get side).head?, p.y = f.y := by
    intro side p hp
    cases side
    · have : p = f := by
        have h1 : (chains.get RIGHT_SIDE).head? = some p := hp
        rw [hf] at h1
        exact (Option.some.inj h1).symm
      rw [this]
    · exact hheads p hp f hf
  have hlastAll : ∀ side : Bool, ∀ p ∈ (chains.get side).getLast?, p.y = l.y := by
    intro side p hp
    cases side
    · have : p = l := by
        have h1 : (chains.get RIGHT_SIDE).getLast? = some p := hp
        rw [hl] at h1
        exact (Option.some.inj h1).symm
      rw [this]
    · exact hlasts p hp l hl
  by_cases hcase : (y : ℚ) * dy ≤ f.y
  · refine ⟨f, ?_, hcase, le_of_lt hftop, ?_, ?_⟩
    · intro side seg hseg
      exact hinner side seg hseg RIGHT_SIDE f hfmem
    · intro side p hp
      exact le_of_eq (hheadAll side p hp)
    · intro side p hp
      rw [hlastAll side p hp]
      exact hfl
  · have hlt : f.y < y * dy := lt_of_not_le hcase
    have hpos : 0 < l.y - f.y := by linarith
    have ht0 : 0 ≤ (y * dy - f.y) / (l.y - f.y) := div_nonneg (by linarith) (le_of_lt hpos)
    have ht1 : (y * dy - f.y) / (l.y - f.y) ≤ 1 := by
      rw [div_le_one hpos]
      linarith
    have hqy : f.y + (y * dy - f.y) / (l.y - f.y) * (l.y - f.y) = y * dy := by
      field_simp
    refine ⟨⟨f.x + (y * dy - f.y) / (l.y - f.y) * (l.x - f.x),
      f.y + (y * dy - f.y) / (l.y - f.y) * (l.y - f.y)⟩, ?_, ?_, ?_, ?_, ?_⟩
    · intro side seg hseg
      exact innerSide_between side seg.1 seg.2 f l _ ht0 ht1
        (hinner side seg hseg RIGHT_SIDE f hfmem) (hinner side seg hseg RIGHT_SIDE l hlmem)
    · show (y : ℚ) * dy ≤ f.y + (y * dy - f.y) / (l.y - f.y) * (l.y - f.y)
      rw [hqy]
    · show f.y + (y * dy - f.y) / (l.y - f.y) * (l.y - f.y) ≤ y * dy + dy
      rw [hqy]; linarith
    · intro side p hp
      show p.y ≤ f.y + (y * dy - f.y) / (l.y - f.y) * (l.y - f.y)
      rw [hqy, hheadAll side p hp]
      exact le_of_lt hlt
    · intro side p hp
      show f.y + (y * dy - f.y) / (l.y - f.y) * (l.y - f.y) ≤ p.y
      rw [hqy, hlastAll side p hp]
      exact hlbot

theorem chainOk_of_bound {chains : Arr2 (List (Vec2 ℚ))} (hb : BoundConvexPolygon chains)
    (b : Bool) : ChainOk b (chains.get b) :=
  ⟨hb.1 b, hb.2.1 b, fun seg hseg q hq => hb.2.2.2.2 b seg hseg b q hq⟩

namespace ConvexMeshIteratorDebug

theorem placed_ordered (s : ConvexMeshIteratorDebug) (hband : s.RowBand)
    (hL : (s.rowView LEFT_SIDE).Placed LEFT_SIDE)
    (hR : (s.rowView RIGHT_SIDE).Placed RIGHT_SIDE) :
    s.m_currentPosition.x ≤ s.m_sliceMax.x := by
  obtain ⟨hb, hdx, hdy, hbot, htop, hfirst, hlast, hy⟩ := hband
  obtain ⟨q, hq1, hq2, hq3, hq4, hq5⟩ := exists_point_in_band s.m_sliceRasterizeEdges hb
    s.m_cellDimensions.y hdy s.m_currentPosition.y hfirst
    (fun p hp => by rw [← hlast p hp]; exact hy)
  obtain ⟨vL, hcL, hcovL⟩ := hL
  obtain ⟨vR, hcR, hcovR⟩ := hR
  have hcL' : s.m_currentPosition.x = grid vL s.m_cellDimensions.x := hcL
  have hcR' : s.m_sliceMax.x = grid vR s.m_cellDimensions.x := hcR
  have hbq : s.m_lineBottom ≤ q.y := by rw [hbot]; exact hq2
  have htq : q.y ≤ s.m_lineTop := by rw [htop, hbot]; exact hq3
  have h1 : Before (outwardSign LEFT_SIDE) q.x vL :=
    hcovL q (hq1 LEFT_SIDE) hbq htq (hq4 LEFT_SIDE) (hq5 LEFT_SIDE)
  have h2 : Before (outwardSign RIGHT_SIDE) q.x vR :=
    hcovR q (hq1 RIGHT_SIDE) hbq htq (hq4 RIGHT_SIDE) (hq5 RIGHT_SIDE)
  have h1' : vL ≤ q.x := (before_left q.x vL).1 h1
  have h2' : q.x ≤ vR := (before_right q.x vR).1 h2
  rw [hcL', hcR']
  exact grid_mono vL vR _ hdx (le_trans h1' h2')

theorem frame_fields {b : Bool} {s r : ConvexMeshIteratorDebug}
    (h : (r.rowView b).frame = (s.rowView b).frame) :
    r.m_sliceRasterizeEdges = s.m_sliceRasterizeEdges ∧ r.m_cellDimensions = s.m_cellDimensions
      ∧ r.m_lineBottom = s.m_lineBottom ∧ r.m_lineTop = s.m_lineTop ∧ r.rowOf = s.rowOf
      ∧ r.m_sliceMax.y = s.m_sliceMax.y
      ∧ r.m_activeSliceEdgeIndex.get (!b) = s.m_activeSliceEdgeIndex.get (!b)
      ∧ r.m_activeSliceEdgeOutward.get (!b) = s.m_activeSliceEdgeOutward.get (!b)
      ∧ r.column (!b) = s.column (!b) := by
  refine ⟨?_, ?_, ?_, ?_, ?_, ?_, ?_, ?_, ?_⟩
  · have := congrArg RowView.chains h; exact this
  · have := congrArg RowView.cellDimensions h; exact this
  · have := congrArg RowView.lineBottom h; exact this
  · have := congrArg RowView.lineTop h; exact this
  · have := congrArg RowView.row h; exact this
  · have := congrArg RowView.maxRow h; exact this
  · have := congrArg RowView.otherIndex h; exact this
  · have := congrArg RowView.otherOutward h; exact this
  · have := congrArg RowView.otherColumn h; exact this

theorem sound_other (b : Bool) (s r : ConvexMeshIteratorDebug)
    (h : (r.rowView b).frame = (s.rowView b).frame) (hs : (s.rowView (!b)).Sound (!b)) :
    (r.rowView (!b)).Sound (!b) := by
  obtain ⟨h1, _, _, _, _, _, h7, h8, _⟩ := frame_fields h
  show r.m_activeSliceEdgeIndex.get (!b) + 2 ≤ (r.m_sliceRasterizeEdges.get (!b)).length
    ∧ ∀ a p, (r.m_sliceRasterizeEdges.get (!b)).get? (r.m_activeSliceEdgeIndex.get (!b)) = some a →
      (r.m_sliceRasterizeEdges.get (!b)).get? (r.m_activeSliceEdgeIndex.get (!b) + 1) = some p →
      if r.m_activeSliceEdgeOutward.get (!b) = true then Before (outwardSign (!b)) a.x p.x
      else Before (outwardSign (!b)) p.x a.x
  rw [h1, h7, h8]
  exact hs

theorem placed_other (b : Bool) (s r : ConvexMeshIteratorDebug)
    (h : (r.rowView b).frame = (s.rowView b).frame) (hp : (s.rowView (!b)).Placed (!b)) :
    (r.rowView (!b)).Placed (!b) := by
  obtain ⟨h1, h2, h3, h4, _, _, _, _, h9⟩ := frame_fields h
  show ∃ x, r.column (!b) = grid x r.m_cellDimensions.x
    ∧ Covers (!b) (r.m_sliceRasterizeEdges.get (!b)) r.m_lineBottom r.m_lineTop x
  rw [h1, h2, h3, h4, h9]
  exact hp

theorem rowBand_of_fields {s r : ConvexMeshIteratorDebug} (hband : s.RowBand)
    (h1 : r.m_sliceRasterizeEdges = s.m_sliceRasterizeEdges)
    (h2 : r.m_cellDimensions = s.m_cellDimensions) (h3 : r.m_lineBottom = s.m_lineBottom)
    (h4 : r.m_lineTop = s.m_lineTop) (h5 : r.rowOf = s.rowOf)
    (h6 : r.m_sliceMax.y = s.m_sliceMax.y) : r.RowBand := by
  have hy : r.m_currentPosition.y = s.m_currentPosition.y := congrArg Prod.snd h5
  unfold RowBand chain at hband ⊢
  rw [h1, h2, h3, h4, h6, hy]
  exact hband

theorem inRow_of_steps (b : Bool) (s s1 s2 : ConvexMeshIteratorDebug) (hband : s.RowBand)
    (h1 : RowStep b s s1) (h2 : RowStep (!b) s1 s2) : s2.InRow ∧ s2.rowOf = s.rowOf := by
  obtain ⟨f1, g1, p1⟩ := h1
  obtain ⟨f2, g2, p2⟩ := h2
  obtain ⟨a1, a2, a3, a4, a5, a6, _, _, _⟩ := frame_fields f1
  obtain ⟨b1, b2, b3, b4, b5, b6, _, _, _⟩ := frame_fields f2
  have hband2 : s2.RowBand := rowBand_of_fields hband (b1.trans a1) (b2.trans a2) (b3.trans a3)
    (b4.trans a4) (b5.trans a5) (b6.trans a6)
  have g1' : (s2.rowView (!(!b))).Sound (!(!b)) := sound_other (!b) s1 s2 f2 (by
    rw [Bool.not_not]; exact g1)
  have p1' : (s2.rowView (!(!b))).Placed (!(!b)) := placed_other (!b) s1 s2 f2 (by
    rw [Bool.not_not]; exact p1)
  rw [Bool.not_not] at g1' p1'
  refine ⟨⟨hband2, ?_, ?_⟩, b5.trans a5⟩
  · intro c
    cases b <;> cases c
    · exact g1'
    · exact g2
    · exact g2
    · exact g1'
  · cases b
    · exact placed_ordered s2 hband2 p2 p1'
    · exact placed_ordered s2 hband2 p1' p2

theorem advanceRow_returns (s : ConvexMeshIteratorDebug) (hband : s.RowBand)
    (hs : ∀ b : Bool, (s.rowView b).Sound b) (hy : s.m_currentPosition.y < s.m_sliceMax.y) :
    Returns (fun r => r.InRow ∧ r.rowOf = (s.sliceOf, s.m_currentPosition.y + 1))
      (advanceRow s) := by
  obtain ⟨hb, hdx, hdy, hbot, htop, hfirst, hlast, _⟩ := hband
  unfold advanceRow
  have hband' : RowBand { s with
      m_lineBottom := s.m_lineTop
      m_lineTop := s.m_lineTop + s.m_cellDimensions.y
      m_currentPosition := { s.m_currentPosition with y := s.m_currentPosition.y + 1 } } := by
    refine ⟨hb, hdx, hdy, ?_, rfl, ?_, hlast, ?_⟩
    · show s.m_lineTop = ((s.m_currentPosition.y + 1 : Int) : ℚ) * s.m_cellDimensions.y
      rw [htop, hbot]; push_cast; ring
    · intro p hp
      have := hfirst p hp
      show grid p.y s.m_cellDimensions.y ≤ s.m_currentPosition.y + 1
      omega
    · show s.m_currentPosition.y + 1 ≤ s.m_sliceMax.y
      omega
  refine returns_bind (advanceRowHelper_returns RIGHT_SIDE _ (chainOk_of_bound hb RIGHT_SIDE)
    (hs RIGHT_SIDE)) ?_
  intro s1 h1
  have hch : s1.m_sliceRasterizeEdges = s.m_sliceRasterizeEdges := (frame_fields h1.1).1
  have hsL : (s1.rowView LEFT_SIDE).Sound LEFT_SIDE :=
    sound_other RIGHT_SIDE _ s1 h1.1 (hs LEFT_SIDE)
  have hcL : ChainOk LEFT_SIDE (s1.chain LEFT_SIDE) := by
    unfold chain
    rw [hch]
    exact chainOk_of_bound hb LEFT_SIDE
  refine returns_imp (advanceRowHelper_returns LEFT_SIDE s1 hcL hsL) ?_
  intro s2 h2
  exact inRow_of_steps RIGHT_SIDE _ s1 s2 hband' h1 h2

end ConvexMeshIteratorDebug

theorem returns_elim {α : Type} {Q : α → Prop} {x : Except Failure α} {a : α}
    (h : Returns Q x) (hx : x = .ok a) : Q a := by
  obtain ⟨a', ha', hq⟩ := h
  rw [hx] at ha'
  cases ha'
  exact hq

theorem avoids_elim {α : Type} {bad : Failure → Prop} {Q : α → Prop} {x : Except Failure α}
    {a : α} (h : Avoids bad Q x) (hx : x = .ok a) : Q a := by
  rw [hx] at h
  exact h

namespace ConvexMeshIteratorDebug

theorem buildSliceHull_lengths (s : ConvexMeshIteratorDebug) :
    Ensures (fun r => 2 ≤ (r.chain RIGHT_SIDE).length ∧ 2 ≤ (r.chain LEFT_SIDE).length)
      (buildSliceHull s) := by
  unfold buildSliceHull
  refine ensures_ite ?_ ?_
  · intro _; exact ensures_error
  · intro _
    refine ensures_ite ?_ ?_
    · intro _; exact ensures_error
    · intro hL
      refine ensures_ite ?_ ?_
      · intro _; exact ensures_error
      · intro hR
        exact ensures_ok ⟨not_lt.1 hR, not_lt.1 hL⟩

theorem setupSliceRows_band (s : ConvexMeshIteratorDebug) :
    Ensures (fun r => r.m_sliceRasterizeEdges = s.m_sliceRasterizeEdges
        ∧ r.m_cellDimensions = s.m_cellDimensions
        ∧ r.m_activeSliceEdgeIndex = ⟨0, 0⟩
        ∧ r.m_lineBottom = r.m_currentPosition.y * s.m_cellDimensions.y
        ∧ r.m_lineTop = r.m_lineBottom + s.m_cellDimensions.y
        ∧ (∃ p, (s.chain RIGHT_SIDE).head? = some p
          ∧ r.m_currentPosition.y = grid p.y s.m_cellDimensions.y)
        ∧ (∃ p, (s.chain RIGHT_SIDE).getLast? = some p
          ∧ r.m_sliceMax.y = grid p.y s.m_cellDimensions.y))
      (setupSliceRows s) := by
  unfold setupSliceRows
  refine ensures_bind (ensures_index _ _) ?_
  intro first hfirst
  refine ensures_bind (ensures_index _ _) ?_
  intro last hlast
  have hfirst' : (s.chain RIGHT_SIDE).get? 0 = some first := hfirst
  have hlast' : (s.chain RIGHT_SIDE).get? ((s.chain RIGHT_SIDE).length - 1) = some last := hlast
  have hlen : (s.chain RIGHT_SIDE).length - 1 < (s.chain RIGHT_SIDE).length := by
    by_contra hcon
    rw [List.get?_eq_none.2 (not_lt.1 hcon)] at hlast'
    cases hlast'
  refine ensures_ite ?_ ?_
  · intro _; exact ensures_error
  · intro _
    refine ensures_ite ?_ ?_
    · intro _; exact ensures_error
    · intro _
      exact ensures_ok ⟨rfl, rfl, rfl, rfl, rfl, ⟨first, head?_of_get? hfirst', rfl⟩,
        ⟨last, getLast?_of_get? hlast' (by omega), rfl⟩⟩

theorem setupSlice_inRow (s : ConvexMeshIteratorDebug) :
    Ensures (fun r => BoundConvexPolygon r.m_sliceRasterizeEdges → 0 < r.m_cellDimensions.x →
        0 < r.m_cellDimensions.y → r.InRow ∧ r.m_atEnd = s.m_atEnd)
      (setupSlice s) := by
  unfold setupSlice
  refine ensures_bindWith (fun sa => sa.m_atEnd = s.m_atEnd) ?_ ?_
  · intro sa ha
    have := collectSlicePoints_row s sa ha
    exact congrArg (fun v => v.1.1.2.2.2.2) this
  intro sa hea
  refine ensures_bindWith (fun sb => (2 ≤ (sb.chain RIGHT_SIDE).length
    ∧ 2 ≤ (sb.chain LEFT_SIDE).length) ∧ sb.m_atEnd = s.m_atEnd) ?_ ?_
  · intro sb hb
    refine ⟨buildSliceHull_lengths sa sb hb, ?_⟩
    have := buildSliceHull_row sa sb hb
    exact (congrArg (fun v => v.1.1.2.2.2.2) this).trans hea
  rintro sb ⟨⟨hlenR, hlenL⟩, heb⟩
  refine ensures_bindWith (fun sc => (sc.m_sliceRasterizeEdges = sb.m_sliceRasterizeEdges
        ∧ sc.m_cellDimensions = sb.m_cellDimensions
        ∧ sc.m_activeSliceEdgeIndex = ⟨0, 0⟩
        ∧ sc.m_lineBottom = sc.m_currentPosition.y * sb.m_cellDimensions.y
        ∧ sc.m_lineTop = sc.m_lineBottom + sb.m_cellDimensions.y
        ∧ (∃ p, (sb.chain RIGHT_SIDE).head? = some p
          ∧ sc.m_currentPosition.y = grid p.y sb.m_cellDimensions.y)
        ∧ (∃ p, (sb.chain RIGHT_SIDE).getLast? = some p
          ∧ sc.m_sliceMax.y = grid p.y sb.m_cellDimensions.y)) ∧ sc.m_atEnd = s.m_atEnd) ?_ ?_
  · intro sc hc
    refine ⟨setupSliceRows_band sb sc hc, ?_⟩
    have := setupSliceRows_slice sb sc hc
    exact (congrArg (fun v => v.1.2.2.2.2) this).trans heb
  rintro sc ⟨⟨c1, c2, c3, c4, c5, ⟨pf, hpf, c6⟩, ⟨pl, hpl, c7⟩⟩, hec⟩
  have hchainR : sc.chain RIGHT_SIDE = sb.chain RIGHT_SIDE := congrArg (fun c => c.get RIGHT_SIDE) c1
  have hchainL : sc.chain LEFT_SIDE = sb.chain LEFT_SIDE := congrArg (fun c => c.get LEFT_SIDE) c1
  have hrangeL : sc.SegmentInRange LEFT_SIDE := by
    show sc.m_activeSliceEdgeIndex.get LEFT_SIDE + 2 ≤ (sc.chain LEFT_SIDE).length
    rw [c3, hchainL]; exact hlenL
  have hrangeR : sc.SegmentInRange RIGHT_SIDE := by
    show sc.m_activeSliceEdgeIndex.get RIGHT_SIDE + 2 ≤ (sc.chain RIGHT_SIDE).length
    rw [c3, hchainR]; exact hlenR
  refine ensures_bindWith (fun sd => setupSliceHelper LEFT_SIDE sc = .ok sd) (ensures_self _) ?_
  intro sd hd
  have stepL : SegmentStep LEFT_SIDE sc sd := avoids_elim (setupSliceHelper_avoids LEFT_SIDE sc hrangeL) hd
  refine ensures_ite ?_ ?_
  · intro _; exact ensures_error
  intro _
  refine ensures_bindWith (fun se => setupSliceHelper RIGHT_SIDE sd = .ok se) (ensures_self _) ?_
  intro se he
  have hrangeR' : sd.SegmentInRange RIGHT_SIDE := segmentInRange_other stepL hrangeR
  have stepR : SegmentStep RIGHT_SIDE sd se :=
    avoids_elim (setupSliceHelper_avoids RIGHT_SIDE sd hrangeR') he
  refine ensures_ite ?_ ?_
  · intro _; exact ensures_error
  intro _
  refine ensures_ok ?_
  intro hb hdx hdy
  have hchains : se.m_sliceRasterizeEdges = sc.m_sliceRasterizeEdges := stepR.1.trans stepL.1
  have hbc : BoundConvexPolygon sc.m_sliceRasterizeEdges := by rw [← hchains]; exact hb
  have hrowL : RowStep LEFT_SIDE sc sd :=
    returns_elim (setupSliceHelper_returns LEFT_SIDE sc (chainOk_of_bound hbc LEFT_SIDE)
      (by rw [c3]; rfl)) hd
  obtain ⟨d1, d2, d3, d4, d5, d6, d7, _, _⟩ := frame_fields hrowL.1
  have hrowR : RowStep RIGHT_SIDE sd se :=
    returns_elim (setupSliceHelper_returns RIGHT_SIDE sd (by
      unfold chain; rw [d1]; exact chainOk_of_bound hbc RIGHT_SIDE) (by
      have : sd.m_activeSliceEdgeIndex.get RIGHT_SIDE = sc.m_activeSliceEdgeIndex.get RIGHT_SIDE := d7
      rw [this, c3]; rfl)) he
  obtain ⟨e1, e2, e3, e4, e5, e6, _, _, _⟩ := frame_fields hrowR.1
  have hdims : se.m_cellDimensions = sb.m_cellDimensions := (e2.trans d2).trans c2
  have hdy' : 0 < sb.m_cellDimensions.y := by rw [← hdims]; exact hdy
  have hdx' : 0 < sb.m_cellDimensions.x := by rw [← hdims]; exact hdx
  have hbb : BoundConvexPolygon sb.m_sliceRasterizeEdges := by rw [← c1]; exact hbc
  have hband : sc.RowBand := by
    refine ⟨hbc, ?_, ?_, ?_, ?_, ?_, ?_, ?_⟩
    · rw [c2]; exact hdx'
    · rw [c2]; exact hdy'
    · rw [c4, c2]
    · rw [c5, c2]
    · intro p hp
      have hp' : (sc.chain RIGHT_SIDE).head? = some p := hp
      rw [hchainR, hpf] at hp'
      cases hp'
      rw [c2, c6]
    · intro p hp
      have hp' : (sc.chain RIGHT_SIDE).getLast? = some p := hp
      rw [hchainR, hpl] at hp'
      cases hp'
      rw [c2, c7]
    · rw [c6, c7]
      exact grid_mono _ _ _ hdy' (rising_head_le_last _ pf pl (hbb.2.1 RIGHT_SIDE) hpf hpl)
  have hfin := inRow_of_steps LEFT_SIDE sc sd se hband hrowL hrowR
  refine ⟨hfin.1, ?_⟩
  have : se.m_atEnd = sc.m_atEnd := congrArg (fun v => v.1.1.2.2.2.2) hfin.2
  exact this.trans hec

theorem forward_within (s : ConvexMeshIteratorDebug) (hin : s.InRow) (hend : s.atEnd = false)
    (hnot : ¬ (s.m_currentPosition.x = s.m_sliceMax.x
      ∧ s.m_currentPosition.y = s.m_sliceMax.y)) :
    Returns (fun r => r.1 = true ∧ r.2.InRow ∧ r.2.atEnd = false) (forward s) := by
  unfold forward
  rw [if_neg (by rw [hend]; decide)]
  by_cases hx : s.m_currentPosition.x = s.m_sliceMax.x
  · rw [if_pos hx]
    have hy : ¬ s.m_currentPosition.y = s.m_sliceMax.y := fun h => hnot ⟨hx, h⟩
    rw [if_neg hy]
    have hlt : s.m_currentPosition.y < s.m_sliceMax.y :=
      lt_of_le_of_ne hin.1.2.2.2.2.2.2.2 hy
    obtain ⟨r, hr, hin', hrow⟩ := advanceRow_returns s hin.1 hin.2.1 hlt
    rw [hr]
    refine ⟨(true, r), rfl, rfl, hin', ?_⟩
    have : r.m_atEnd = s.m_atEnd := congrArg (fun v => v.1.1.2.2.2.2) hrow
    exact this.trans hend
  · rw [if_neg hx]
    refine returns_ok ⟨rfl, ⟨hin.1, hin.2.1, ?_⟩, hend⟩
    have := hin.2.2
    show s.m_currentPosition.x + 1 ≤ s.m_sliceMax.x
    omega

theorem forwardTimes_columns : ∀ (count : Nat) (s : ConvexMeshIteratorDebug),
    s.atEnd = false → s.m_currentPosition.x + count ≤ s.m_sliceMax.x →
    s.forwardTimes count = .ok { s with m_currentPosition :=
      { s.m_currentPosition with x := s.m_currentPosition.x + count } } := by
  intro count
  induction count with
  | zero =>
    intro s _ _
    simp [forwardTimes]
  | succ k ih =>
    intro s hend hle
    have hx : ¬ s.m_currentPosition.x = s.m_sliceMax.x := by
      push_cast at hle
      omega
    have hf : s.forward = .ok (true, { s with m_currentPosition :=
        { s.m_currentPosition with x := s.m_currentPosition.x + 1 } }) := by
      unfold forward
      rw [if_neg (by rw [hend]; decide), if_neg hx]
    unfold forwardTimes
    rw [hf]
    show forwardTimes k { s with m_currentPosition :=
        { s.m_currentPosition with x := s.m_currentPosition.x + 1 } } = _
    have h2 := ih { s with m_currentPosition :=
        { s.m_currentPosition with x := s.m_currentPosition.x + 1 } } hend (by
      show s.m_currentPosition.x + 1 + (k : Int) ≤ s.m_sliceMax.x
      push_cast at hle
      omega)
    rw [h2]
    have e : s.m_currentPosition.x + 1 + (k : Int) = s.m_currentPosition.x + ((k + 1 : Nat) : Int) := by
      push_cast; ring
    show Except.ok { s with m_currentPosition :=
        { s.m_currentPosition with x := s.m_currentPosition.x + 1 + (k : Int) } } = _
    rw [e]

theorem withinSlice_inRow (start : ConvexMeshIteratorDebug) (hin : start.InRow)
    (hend : start.atEnd = false) (cursor : ConvexMeshIteratorDebug)
    (h : WithinSlice start cursor) : cursor.InRow ∧ cursor.atEnd = false := by
  induction h with
  | first => exact ⟨hin, hend⟩
  | next s r again _ hnot hf ih =>
    exact (returns_elim (forward_within s ih.1 ih.2 hnot) hf).2

end ConvexMeshIteratorDebug

end Ill
